import Mathlib

/-!
# NULLC expression analyzer and IR builder

A shallow embedding of routines of `NULLC/ExpressionTree.cpp`: the overload
resolver (argument preparation, rating, selection, generic unification and
generic instantiation), casts and binary operations, the layout of classes
and alignment clauses, `return`, `break` and `continue` statements, number
literals, array indexing, scopes, closures and the interning of reference
types; and of routines of `NULLC/InstructionTreeVm.cpp`: the values of the
intermediate representation with their use lists, the removal of
instructions, the peephole pass, the IR types of source types and the
construction of instructions; together with the properties proved about them.

Type descriptors are compared by pointer in the source.  Every non-generic
descriptor is interned (`GetReferenceType`, `GetArrayType`,
`GetUnsizedArrayType`, `GetFunctionType`, classes by full name), so pointer
equality of descriptors is structural equality of the values below.  Where
the identity of descriptors is itself the subject, descriptors are objects
of a store (`TypeStore`).
-/

set_option autoImplicit false

namespace NULLC

/-! ## Type universe -/

mutual
/-- Modelled from the spec: the closed variant of type descriptors (section 3,
`Type`); the C++ declarations live in a header that is not part of the sources.
`tNullPtr` is the descriptor registered as `__nullptr` in `Analyze`. -/
inductive TypeBase where
  | tVoid
  | tBool
  | tChar
  | tShort
  | tInt
  | tLong
  | tFloat
  | tDouble
  | tTypeID
  | tFunctionID
  | tNullPtr
  | tAuto
  | tAutoRef
  | tAutoArray
  | generic (name : String)
  | ref (subType : TypeBase)
  | array (subType : TypeBase) (length : Nat)
  | unsizedArray (subType : TypeBase)
  | function (returnType : TypeBase) (arguments : TypeList)
  | cls (name : String) (proto : Option String) (generics : MatchList) (baseClass : OptType)
  | genericClassProto (name : String)
  | genericClass (proto : String) (generics : TypeList)
  | enum (name : String)
  | functionSet (types : TypeList)
  | argumentSet (types : TypeList)
  | memberSet (type : TypeBase)
/-- An intrusive list of `TypeHandle`. -/
inductive TypeList where
  | nil
  | cons (type : TypeBase) (next : TypeList)
/-- An intrusive list of `MatchData`: alias name and the type bound to it. -/
inductive MatchList where
  | nil
  | cons (name : String) (type : TypeBase) (next : MatchList)
/-- A possibly null `TypeClass` pointer (`baseClass`). -/
inductive OptType where
  | none
  | some (type : TypeBase)
end

deriving instance DecidableEq for TypeBase, TypeList, MatchList, OptType
deriving instance Repr for TypeBase, TypeList, MatchList, OptType

/-- Number of handles in a type list (`IntrusiveList::size`). -/
def TypeList.size : TypeList → Nat
  | .nil => 0
  | .cons _ next => next.size + 1

/-- The handles of a type list in order. -/
def TypeList.toList : TypeList → List TypeBase
  | .nil => []
  | .cons type next => type :: next.toList

/-- Build an intrusive type list from the types in order. -/
def TypeList.ofList : List TypeBase → TypeList
  | [] => .nil
  | type :: rest => .cons type (TypeList.ofList rest)

/-- Append a handle at the tail (`IntrusiveList::push_back`). -/
def TypeList.push_back : TypeList → TypeBase → TypeList
  | .nil, t => .cons t .nil
  | .cons type next, t => .cons type (next.push_back t)

/-- Number of entries of an alias list. -/
def MatchList.size : MatchList → Nat
  | .nil => 0
  | .cons _ _ next => next.size + 1

/-- Append a binding at the tail (`IntrusiveList::push_back`). -/
def MatchList.push_back : MatchList → String → TypeBase → MatchList
  | .nil, n, t => .cons n t .nil
  | .cons name type next, n, t => .cons name type (next.push_back n t)

/-- The first binding of `name` in an alias list, as the lookup loops of the
source find it (`for(curr = head; curr; curr = curr->next) if(curr->name == name)`). -/
def MatchList.find : MatchList → String → Option TypeBase
  | .nil, _ => none
  | .cons name type next, n => if name = n then some type else next.find n

mutual
/-- Modelled from the spec: `isGeneric` is true iff the type transitively
contains a `Generic` (section 3, invariant 3 of `Type`); the field is set by
constructors declared in the absent header. -/
def TypeBase.isGeneric : TypeBase → Bool
  | .generic _ => true
  | .ref subType => subType.isGeneric
  | .array subType _ => subType.isGeneric
  | .unsizedArray subType => subType.isGeneric
  | .function returnType arguments => returnType.isGeneric || arguments.anyGeneric
  | .genericClass _ generics => generics.anyGeneric
  | .functionSet types => types.anyGeneric
  | .argumentSet types => types.anyGeneric
  | _ => false
/-- Whether some handle of the list is generic. -/
def TypeList.anyGeneric : TypeList → Bool
  | .nil => false
  | .cons type next => type.isGeneric || next.anyGeneric
end

/-- The test `isType<TypeRef>`. -/
def TypeBase.isRef : TypeBase → Bool
  | .ref _ => true
  | _ => false

/-- The test `isType<TypeArray>`. -/
def TypeBase.isArray : TypeBase → Bool
  | .array _ _ => true
  | _ => false

/-- The test `isType<TypeUnsizedArray>`. -/
def TypeBase.isUnsizedArray : TypeBase → Bool
  | .unsizedArray _ => true
  | _ => false

/-- The test `isType<TypeFunction>`. -/
def TypeBase.isFunction : TypeBase → Bool
  | .function _ _ => true
  | _ => false

/-- The test `isType<TypeFunctionSet>`. -/
def TypeBase.isFunctionSet : TypeBase → Bool
  | .functionSet _ => true
  | _ => false

/-- The test `isType<TypeClass>`. -/
def TypeBase.isClass : TypeBase → Bool
  | .cls _ _ _ _ => true
  | _ => false

/-- A type test on a possibly null descriptor: a null pointer has no type tag. -/
def isTypeOpt (test : TypeBase → Bool) : Option TypeBase → Bool
  | some type => test type
  | none => false

/-- The predicate `ExpressionContext::IsIntegerType`. -/
def IsIntegerType (type : TypeBase) : Bool :=
  if type = .tBool then true
  else if type = .tChar then true
  else if type = .tShort then true
  else if type = .tInt then true
  else if type = .tLong then true
  else false

/-- The predicate `ExpressionContext::IsFloatingPointType`. -/
def IsFloatingPointType (type : TypeBase) : Bool :=
  if type = .tFloat then true
  else if type = .tDouble then true
  else false

/-- The predicate `ExpressionContext::IsNumericType`. -/
def IsNumericType (type : TypeBase) : Bool :=
  IsIntegerType type || IsFloatingPointType type

mutual
/-- The function `IsDerivedFrom(type, target)`: walk the `baseClass` chain of
`type` looking for `target`. -/
def IsDerivedFrom : TypeBase → TypeBase → Bool
  | .cls name proto generics baseClass, target =>
    if target = .cls name proto generics baseClass then true
    else IsDerivedFromChain baseClass target
  | _, _ => false
/-- The loop of `IsDerivedFrom` continued at a possibly null base class. -/
def IsDerivedFromChain : OptType → TypeBase → Bool
  | .none, _ => false
  | .some type, target => IsDerivedFrom type target
end

/-! ## Expressions and arguments -/

/-- The descriptor `TypeFunction`: return type and argument type handles. -/
structure TypeFunction where
  returnType : TypeBase
  arguments : TypeList
  deriving DecidableEq, Repr

/-- A function type as a type descriptor. -/
def TypeFunction.toType (type : TypeFunction) : TypeBase :=
  .function type.returnType type.arguments

/-- Modelled from the spec: the enumeration `SynBinaryOpType` of the parser is
declared outside the analysed files; these are the values the analyzer names. -/
inductive SynBinaryOpType where
  | SYN_BINARY_OP_UNKNOWN
  | SYN_BINARY_OP_ADD
  | SYN_BINARY_OP_SUB
  | SYN_BINARY_OP_MUL
  | SYN_BINARY_OP_DIV
  | SYN_BINARY_OP_MOD
  | SYN_BINARY_OP_POW
  | SYN_BINARY_OP_SHL
  | SYN_BINARY_OP_SHR
  | SYN_BINARY_OP_LESS
  | SYN_BINARY_OP_LESS_EQUAL
  | SYN_BINARY_OP_GREATER
  | SYN_BINARY_OP_GREATER_EQUAL
  | SYN_BINARY_OP_EQUAL
  | SYN_BINARY_OP_NOT_EQUAL
  | SYN_BINARY_OP_BIT_AND
  | SYN_BINARY_OP_BIT_OR
  | SYN_BINARY_OP_BIT_XOR
  | SYN_BINARY_OP_LOGICAL_AND
  | SYN_BINARY_OP_LOGICAL_OR
  | SYN_BINARY_OP_LOGICAL_XOR
  deriving DecidableEq, Repr

/-- Modelled from the spec: the enumeration of cast categories is declared
outside the analysed files; these are the categories the analyzer names. -/
inductive ExprTypeCastCategory where
  | EXPR_CAST_NUMERICAL
  | EXPR_CAST_PTR_TO_BOOL
  | EXPR_CAST_UNSIZED_TO_BOOL
  | EXPR_CAST_FUNCTION_TO_BOOL
  | EXPR_CAST_NULL_TO_PTR
  | EXPR_CAST_NULL_TO_AUTO_PTR
  | EXPR_CAST_NULL_TO_UNSIZED
  | EXPR_CAST_NULL_TO_AUTO_ARRAY
  | EXPR_CAST_NULL_TO_FUNCTION
  | EXPR_CAST_ARRAY_TO_UNSIZED
  | EXPR_CAST_ARRAY_PTR_TO_UNSIZED
  | EXPR_CAST_ARRAY_PTR_TO_UNSIZED_PTR
  | EXPR_CAST_PTR_TO_AUTO_PTR
  | EXPR_CAST_AUTO_PTR_TO_PTR
  | EXPR_CAST_UNSIZED_TO_AUTO_ARRAY
  | EXPR_CAST_ANY_TO_PTR
  | EXPR_CAST_REINTERPRET
  deriving DecidableEq, Repr

mutual
/-- Expression nodes, as far as the modelled routines build and inspect them.
`node` stands for any expression analysed elsewhere; each node carries its
source position and its resolved type.  Variables and functions are named by
their unique ids.  A function definition carries the type of its function,
which is the type of the node.  A rational literal carries the IEEE 754 bit
pattern of its value. -/
inductive ExprBase where
  | node (source : Option Nat) (type : TypeBase) (id : Nat)
  | passthrough (source : Option Nat) (type : TypeBase) (value : ExprBase)
  | nullptrLiteral (source : Option Nat) (type : TypeBase)
  | arrayLiteral (source : Option Nat) (type : TypeBase) (values : ExprList)
  | typeCast (source : Option Nat) (type : TypeBase) (value : ExprBase)
      (category : ExprTypeCastCategory)
  | void (source : Option Nat) (type : TypeBase)
  | typeLiteral (source : Option Nat) (type : TypeBase) (value : TypeBase)
  | variableAccess (source : Option Nat) (type : TypeBase) (variableId : Nat)
  | getAddress (source : Option Nat) (type : TypeBase) (variableId : Nat)
  | dereference (source : Option Nat) (type : TypeBase) (value : ExprBase)
  | functionDefinition (source : Option Nat) (type : TypeFunction) (function : Nat)
      (contextVariable : OptExpr)
  | functionAccess (source : Option Nat) (type : TypeBase) (function : Nat) (context : ExprBase)
  | sequence (source : Option Nat) (type : TypeBase) (expressions : ExprList)
  | binaryOp (source : Option Nat) (type : TypeBase) (op : SynBinaryOpType) (lhs rhs : ExprBase)
  | arrayIndex (source : Option Nat) (type : TypeBase) (value index : ExprBase)
  | exprReturn (source : Option Nat) (type : TypeBase) (value : ExprBase)
  | exprBreak (source : Option Nat) (type : TypeBase) (depth : Nat)
  | exprContinue (source : Option Nat) (type : TypeBase) (depth : Nat)
  | integerLiteral (source : Option Nat) (type : TypeBase) (value : Int)
  | rationalLiteral (source : Option Nat) (type : TypeBase) (value : Nat)
/-- An intrusive list of expressions. -/
inductive ExprList where
  | nil
  | cons (value : ExprBase) (next : ExprList)
/-- An expression pointer that may be null. -/
inductive OptExpr where
  | none
  | some (value : ExprBase)
end

deriving instance DecidableEq for ExprBase, ExprList, OptExpr
deriving instance Repr for ExprBase, ExprList, OptExpr

/-- The field `ExprBase::type`. -/
def ExprBase.type : ExprBase → TypeBase
  | .node _ type _ => type
  | .passthrough _ type _ => type
  | .nullptrLiteral _ type => type
  | .arrayLiteral _ type _ => type
  | .typeCast _ type _ _ => type
  | .void _ type => type
  | .typeLiteral _ type _ => type
  | .variableAccess _ type _ => type
  | .getAddress _ type _ => type
  | .dereference _ type _ => type
  | .functionDefinition _ type _ _ => type.toType
  | .functionAccess _ type _ _ => type
  | .sequence _ type _ => type
  | .binaryOp _ type _ _ _ => type
  | .arrayIndex _ type _ _ => type
  | .exprReturn _ type _ => type
  | .exprBreak _ type _ => type
  | .exprContinue _ type _ => type
  | .integerLiteral _ type _ => type
  | .rationalLiteral _ type _ => type

/-- The field `ExprBase::source`. -/
def ExprBase.source : ExprBase → Option Nat
  | .node source _ _ => source
  | .passthrough source _ _ => source
  | .nullptrLiteral source _ => source
  | .arrayLiteral source _ _ => source
  | .typeCast source _ _ _ => source
  | .void source _ => source
  | .typeLiteral source _ _ => source
  | .variableAccess source _ _ => source
  | .getAddress source _ _ => source
  | .dereference source _ _ => source
  | .functionDefinition source _ _ _ => source
  | .functionAccess source _ _ _ => source
  | .sequence source _ _ => source
  | .binaryOp source _ _ _ _ => source
  | .arrayIndex source _ _ _ => source
  | .exprReturn source _ _ => source
  | .exprBreak source _ _ => source
  | .exprContinue source _ _ => source
  | .integerLiteral source _ _ => source
  | .rationalLiteral source _ _ => source

/-- Build an intrusive expression list from the values in order. -/
def ExprList.ofList : List ExprBase → ExprList
  | [] => .nil
  | value :: rest => .cons value (ExprList.ofList rest)

/-- The record `ArgumentData`: a formal of a function or an actual of a call.  A null
`type` marks a slot that is not set; the empty string is the empty name. -/
structure ArgumentData where
  source : Option Nat
  isExplicit : Bool
  name : String
  type : Option TypeBase
  value : Option ExprBase
  deriving DecidableEq, Repr

/-- The default-constructed `ArgumentData()`. -/
def ArgumentData.empty : ArgumentData :=
  { source := none, isExplicit := false, name := "", type := none, value := none }

/-- The record `FunctionData`, as far as overload selection, the analysis of
`return` and the scopes read it: `ownerType` is `scope->ownerType`, `uniqueId`
the id every function object receives on creation, `hasExplicitReturn` is not
set until a `return` of the function is analysed, `pos` is `source->pos`, the
position of the definition in the text, and `implementation` is the id of the
function that implements a prototype. -/
structure FunctionData where
  uniqueId : Nat
  name : String
  type : TypeFunction
  generics : MatchList
  arguments : List ArgumentData
  ownerType : Option TypeBase
  hasExplicitReturn : Bool := false
  nameHash : Nat := 0
  imported : Bool := false
  pos : Nat := 0
  isPrototype : Bool := false
  implementation : Option Nat := none
  deriving DecidableEq, Repr

/-- The pair `FunctionValue`: a function together with its context expression. -/
structure FunctionValue where
  function : FunctionData
  context : ExprBase
  deriving DecidableEq, Repr

/-- How a routine of the analyzer ends: with a value, with `Stop` (the
non-local exit that fails the compilation with a message), or by an action the
language leaves undefined (a read past the end of an array, a null
dereference, a failed assertion). -/
inductive Outcome (α : Type) where
  | ok (value : α)
  | stop (message : String)
  | undefined (what : String)
  deriving DecidableEq, Repr

/-- Sequencing of analyzer steps: the first failure ends the routine. -/
def Outcome.bind {α β : Type} (x : Outcome α) (f : α → Outcome β) : Outcome β :=
  match x with
  | .ok value => f value
  | .stop message => .stop message
  | .undefined what => .undefined what

/-- The collaborators of the overload engine that are analysed elsewhere, and
the constants of the build. -/
structure ExpressionContext where
  /-- The constant `NULLC_PTR_SIZE`. -/
  ptrSize : Nat
  /-- The `size` field of every descriptor that is not a sized array. -/
  typeSize : TypeBase → Nat
  /-- The `alignment` field of every descriptor that is not a sized array. -/
  typeAlignment : TypeBase → Nat
  /-- Whether `GetFunctionForType(ctx, source, value, type)` finds a function. -/
  GetFunctionForType : ExprBase → TypeFunction → Bool
  /-- The cast `CreateCast(ctx, source, value, type, isFunctionArgument)`. -/
  CreateCast : Option Nat → ExprBase → TypeBase → Bool → Outcome ExprBase
  /-- The call `GetGenericFunctionInstanceType(ctx, source, parentType, function, arguments, aliases)`:
  the instance type or null, and the aliases after inference. -/
  GetGenericFunctionInstanceType :
    Option TypeBase → FunctionData → List ArgumentData → MatchList → Outcome (Option TypeFunction × MatchList)
  /-- The field `name` of a type descriptor. -/
  typeName : TypeBase → String
  /-- The name `GetOpName(op)` of a binary operator. -/
  GetOpName : SynBinaryOpType → String
  /-- The lookup `CreateVariableAccess(ctx, source, IntrusiveList<SynIdentifier>(), name)`:
  the expression the name stands for, or null. -/
  CreateVariableAccess : Option Nat → String → Outcome (Option ExprBase)
  /-- The call `CreateFunctionCall(ctx, source, value, arguments, allowFailure)` of a
  value on prepared arguments: the call expression, or null. -/
  CreateFunctionCall : Option Nat → ExprBase → List ArgumentData → Bool → Outcome (Option ExprBase)
  /-- The function value that `GetFunctionForType(ctx, source, value, type)` returns,
  when it returns one. -/
  FunctionForType : ExprBase → TypeFunction → Option FunctionValue
  /-- The expression `CreateFunctionContextAccess(ctx, source, function)` for the
  function with the given id. -/
  CreateFunctionContextAccess : Option Nat → Nat → Outcome ExprBase
  /-- The value of the integer literal that `Evaluate` reduces an expression
  to, when it reduces it to one. -/
  EvaluateInteger : ExprBase → Option Int
  /-- The temporary that `AllocateTemporary` creates for a value and the
  definition node that `CreateAssignment` of the value to it is wrapped in:
  the id of the variable and the node. -/
  CreateTemporary : Option Nat → ExprBase → Outcome (Nat × ExprBase)
  /-- The value of the integer literal that `Evaluate` reduces the number of an
  `align` clause, cast to `long`, to, when it reduces it to one. -/
  EvaluateNumber : Nat → Option Int
  /-- The value of the bool literal that `Evaluate` reduces the condition of a
  `static if`, cast to `bool`, to, when it reduces it to one. -/
  EvaluateCondition : Nat → Outcome (Option Bool)
  /-- The padding `GetAlignmentOffset(offset, alignment)` in front of a variable. -/
  GetAlignmentOffset : Nat → Nat → Nat
  /-- The expression `AnalyzeExpression(ctx, syntax)` for the syntax node with
  the given handle. -/
  AnalyzeExpression : Nat → Outcome ExprBase

/-- The value `~0u` of a 32-bit unsigned: the rating of an incompatible candidate. -/
def incompatible : Nat := 4294967295

/-- Addition of 32-bit unsigned values. -/
def addU32 (a b : Nat) : Nat := (a + b) % 4294967296

/-! ## Rating of a candidate -/

/-- The cast `getType<TypeFunction>`: the function view of a descriptor, null
for any other kind. -/
def TypeBase.asFunction : TypeBase → Option TypeFunction
  | .function returnType arguments => some { returnType := returnType, arguments := arguments }
  | _ => none

/-- The test shared by the two function-typed branches of `GetFunctionRating`:
the actual has a value, its type is a function or a function set, and
`GetFunctionForType` finds a function for the target type. -/
def functionValueMatches (ctx : ExpressionContext) (actualArgument : ArgumentData)
    (target : TypeFunction) : Bool :=
  match actualArgument.value with
  | some value =>
    (isTypeOpt TypeBase.isFunction actualArgument.type
      || isTypeOpt TypeBase.isFunctionSet actualArgument.type)
      && ctx.GetFunctionForType value target
  | none => false

/-- The branch `array -> class (unsized array)`: the expected type is an
unsized array, the actual a sized array with the same element type. -/
def arrayToUnsizedArray (expectedType : TypeBase) (actualType : Option TypeBase) : Bool :=
  match expectedType, actualType with
  | .unsizedArray lSub, some (.array rSub _) => decide (lSub = rSub)
  | _, _ => false

/-- The branch `array[N] ref -> array[] -> array[] ref`. -/
def arrayRefToUnsizedArrayRef (expectedType : TypeBase) (actualType : Option TypeBase) : Bool :=
  match expectedType, actualType with
  | .ref (.unsizedArray lSub), some (.ref (.array rSub _)) => decide (lSub = rSub)
  | _, _ => false

/-- The branch `derived ref -> base ref`: both are references to classes and
`IsDerivedFrom(rClass, lClass)`. -/
def derivedRefToBaseRef (expectedType : TypeBase) (actualType : Option TypeBase) : Bool :=
  match expectedType, actualType with
  | .ref lClass, some (.ref rClass) =>
    lClass.isClass && rClass.isClass && IsDerivedFrom rClass lClass
  | _, _ => false

/-- The branch `base ref -> derived ref`: both are references to classes and
`IsDerivedFrom(lClass, rClass)`. -/
def baseRefToDerivedRef (expectedType : TypeBase) (actualType : Option TypeBase) : Bool :=
  match expectedType, actualType with
  | .ref lClass, some (.ref rClass) =>
    lClass.isClass && rClass.isClass && IsDerivedFrom lClass rClass
  | _, _ => false

/-- The branch on two class values: `IsDerivedFrom(rClass, lClass)`. -/
def derivedToBase (expectedType : TypeBase) (actualType : Option TypeBase) : Bool :=
  match actualType with
  | some rClass => expectedType.isClass && rClass.isClass && IsDerivedFrom rClass expectedType
  | none => false

/-- The branch `type -> type ref`: the expected type is a reference whose
target is the actual type. -/
def typeToTypeRef (expectedType : TypeBase) (actualType : Option TypeBase) : Bool :=
  match expectedType with
  | .ref subType => decide (some subType = actualType)
  | _ => false

/-- The body of the loop of `GetFunctionRating` for one argument: `some n` when
the iteration ends with `rating += n; continue` (or adds nothing), `none` when
it ends with `return ~0u`. -/
def GetFunctionRating.argument (ctx : ExpressionContext) (expectedArgument : ArgumentData)
    (expectedType : TypeBase) (actualArgument : ArgumentData) : Option Nat :=
  let actualType := actualArgument.type
  if some expectedType = actualType then some 0
  else if actualType = some .tNullPtr
      ∧ (expectedType.isRef ∨ expectedType.isUnsizedArray ∨ expectedType.isFunction) then some 0
  else if actualType = some .tNullPtr
      ∧ (expectedType = .tAutoRef ∨ expectedType = .tAutoArray) then some 5
  else if expectedType.isGeneric then some 0
  else if expectedArgument.isExplicit then
    match expectedType.asFunction with
    | some target => if functionValueMatches ctx actualArgument target then some 0 else none
    | none => none
  else if arrayToUnsizedArray expectedType actualType then some 2
  else if expectedType = .tAutoArray
      ∧ (isTypeOpt TypeBase.isArray actualType ∨ isTypeOpt TypeBase.isUnsizedArray actualType) then
    some 5
  else if arrayRefToUnsizedArrayRef expectedType actualType then some 10
  else if derivedRefToBaseRef expectedType actualType then some 5
  else if baseRefToDerivedRef expectedType actualType then some 10
  else if derivedToBase expectedType actualType then some 5
  else if expectedType.isFunction then
    match expectedType.asFunction with
    | some lFunction => if functionValueMatches ctx actualArgument lFunction then some 0 else none
    | none => none
  else if typeToTypeRef expectedType actualType then some 5
  else if expectedType = .tAutoRef ∧ isTypeOpt TypeBase.isRef actualType then some 5
  else if expectedType = .tAutoRef then some 10
  else if IsNumericType expectedType ∧ isTypeOpt IsNumericType actualType then some 1
  else none

/-- The loop of `GetFunctionRating`: `argType` walks the handles of the
instance type while `i` indexes `function->arguments` and `arguments`; the two
lists given here are those arrays from index `i` on. -/
def GetFunctionRating.loop (ctx : ExpressionContext) :
    TypeList → List ArgumentData → List ArgumentData → Nat → Outcome Nat
  | .nil, _, _, rating => .ok rating
  | .cons expectedType next, expectedArgument :: formals, actualArgument :: actuals, rating =>
    match GetFunctionRating.argument ctx expectedArgument expectedType actualArgument with
    | none => .ok incompatible
    | some n => GetFunctionRating.loop ctx next formals actuals (addU32 rating n)
  | .cons _ _, _, _, _ => .undefined "argument index out of range"

/-- The function `GetFunctionRating(ctx, function, instance, arguments)`. -/
def GetFunctionRating (ctx : ExpressionContext) (function : FunctionData) (inst : TypeFunction)
    (arguments : List ArgumentData) : Outcome Nat :=
  if function.arguments.length ≠ arguments.length then .ok incompatible
  else GetFunctionRating.loop ctx inst.arguments function.arguments arguments 0

/-! ## Argument preparation -/

/-- The function `HasNamedCallArguments`. -/
def HasNamedCallArguments (arguments : List ArgumentData) : Bool :=
  arguments.any (fun argument => argument.name ≠ "")

/-- The function `HasMatchingArgumentNames`: every named actual has a formal
of the same name. -/
def HasMatchingArgumentNames (functionArguments arguments : List ArgumentData) : Bool :=
  arguments.all (fun argument =>
    argument.name = "" || functionArguments.any (fun formal => formal.name = argument.name))

/-- The type `auto ref[]` of a variadic pack (`ctx.GetUnsizedArrayType(ctx.typeAutoRef)`). -/
def varArgType : TypeBase := .unsizedArray .tAutoRef

/-- The slot built from the default value of a formal:
`ArgumentData(argument.source, false, InplaceStr(), value->type, new ExprPassthrough(...))`. -/
def defaultArgument (argument : ArgumentData) (value : ExprBase) : ArgumentData :=
  { source := argument.source, isExplicit := false, name := "", type := some value.type,
    value := some (.passthrough argument.source value.type value) }

/-- The loop `Put named arguments in appropriate slots`, over the actuals from
`unnamedCount` on: the slot is the position of the first formal with the
name of the actual; an actual without such a formal is skipped. -/
def PrepareArgumentsForFunctionCall.placeNamed (functionArguments : List ArgumentData) :
    List ArgumentData → List ArgumentData → Outcome (List ArgumentData)
  | [], result => .ok result
  | argument :: rest, result =>
    match functionArguments.findIdx? (fun formal => formal.name = argument.name) with
    | none => PrepareArgumentsForFunctionCall.placeNamed functionArguments rest result
    | some targetPos =>
      match result[targetPos]? with
      | none => .undefined "slot index out of range"
      | some slot =>
        if slot.type ≠ none then .stop "ERROR: argument is already set"
        else PrepareArgumentsForFunctionCall.placeNamed functionArguments rest
          (result.set targetPos argument)

/-- The loop `Fill in any unset arguments with default values`, over the
formals from index `i` on. -/
def PrepareArgumentsForFunctionCall.fillDefaults :
    List ArgumentData → Nat → List ArgumentData → Outcome (List ArgumentData)
  | [], _, result => .ok result
  | argument :: rest, i, result =>
    match result[i]? with
    | none => .undefined "slot index out of range"
    | some slot =>
      if slot.type = none then
        match argument.value with
        | some value =>
          PrepareArgumentsForFunctionCall.fillDefaults rest (i + 1)
            (result.set i (defaultArgument argument value))
        | none => PrepareArgumentsForFunctionCall.fillDefaults rest (i + 1) result
      else PrepareArgumentsForFunctionCall.fillDefaults rest (i + 1) result

/-- The loop `All arguments must be set`, over the given indices: `false` at
the first index whose slot has no type. -/
def PrepareArgumentsForFunctionCall.allSet (result : List ArgumentData) :
    List Nat → Outcome Bool
  | [] => .ok true
  | i :: rest =>
    match result[i]? with
    | none => .undefined "slot index out of range"
    | some slot =>
      if slot.type = none then .ok false
      else PrepareArgumentsForFunctionCall.allSet result rest

/-- The branch of `PrepareArgumentsForFunctionCall` for a call with named
actuals: the contents of `result`, and `false` where the source returns false
from inside the branch. -/
def PrepareArgumentsForFunctionCall.named (functionArguments arguments : List ArgumentData) :
    Outcome (Bool × List ArgumentData) :=
  if !HasMatchingArgumentNames functionArguments arguments then .ok (false, [])
  else
    let unnamed := arguments.takeWhile (fun argument => argument.name = "")
    let unnamedCount := unnamed.length
    let reserved :=
      unnamed ++ List.replicate (functionArguments.length - unnamedCount) ArgumentData.empty
    (PrepareArgumentsForFunctionCall.placeNamed functionArguments
      (arguments.drop unnamedCount) reserved).bind fun placed =>
    (PrepareArgumentsForFunctionCall.fillDefaults functionArguments 0 placed).bind fun filled =>
    (PrepareArgumentsForFunctionCall.allSet filled
      (List.range' unnamedCount (arguments.length - unnamedCount))).bind fun set =>
    .ok (set, filled)

/-- The loop `Add any arguments with default values`: the formals from index
`result.size()` on that have a default value each append one slot. -/
def PrepareArgumentsForFunctionCall.appendDefaults :
    List ArgumentData → List ArgumentData → List ArgumentData
  | [], result => result
  | argument :: rest, result =>
    match argument.value with
    | some value =>
      PrepareArgumentsForFunctionCall.appendDefaults rest (result ++ [defaultArgument argument value])
    | none => PrepareArgumentsForFunctionCall.appendDefaults rest result

/-- The casts of the packed actuals to `auto ref`
(`CreateCast(ctx, result[i].value->source, result[i].value, ctx.typeAutoRef, true)`). -/
def PrepareArgumentsForFunctionCall.castTail (ctx : ExpressionContext) :
    List ArgumentData → Outcome (List ExprBase)
  | [] => .ok []
  | argument :: rest =>
    match argument.value with
    | none => .undefined "null dereference"
    | some value =>
      (ctx.CreateCast value.source value .tAutoRef true).bind fun cast =>
      (PrepareArgumentsForFunctionCall.castTail ctx rest).bind fun casts =>
      .ok (cast :: casts)

/-- The value of a variadic pack when `prepareValues` is set. -/
def PrepareArgumentsForFunctionCall.packValue (ctx : ExpressionContext)
    (functionArguments result : List ArgumentData) : Outcome ExprBase :=
  match result[0]? with
  | none => .undefined "slot index out of range"
  | some first =>
    match first.value with
    | none => .undefined "null dereference"
    | some firstValue =>
      let source := firstValue.source
      (PrepareArgumentsForFunctionCall.castTail ctx
        (result.drop (functionArguments.length - 1))).bind fun values =>
      let value :=
        if values.isEmpty then ExprBase.nullptrLiteral source .tNullPtr
        else ExprBase.arrayLiteral source (.array .tAutoRef values.length) (ExprList.ofList values)
      ctx.CreateCast source value varArgType true

/-- The slot of a variadic pack:
`ArgumentData(NULL, false, functionArguments.back().name, varArgType, value)`. -/
def packArgument (name : String) (value : Option ExprBase) : ArgumentData :=
  { source := none, isExplicit := false, name := name, type := some varArgType, value := value }

/-- The block `Create variadic pack if neccessary`. -/
def PrepareArgumentsForFunctionCall.pack (ctx : ExpressionContext)
    (functionArguments result : List ArgumentData) (prepareValues : Bool) :
    Outcome (List ArgumentData) :=
  match functionArguments.getLast? with
  | none => .ok result
  | some last =>
    if last.type = some varArgType ∧ last.isExplicit = false then
      if result.length ≥ functionArguments.length - 1
          ∧ ¬ (result.length = functionArguments.length
            ∧ result.getLast?.map ArgumentData.type = some (some varArgType)) then
        (if prepareValues then
          (PrepareArgumentsForFunctionCall.packValue ctx functionArguments result).bind
            fun value => .ok (some value)
         else .ok none).bind fun value =>
        .ok (result.take (functionArguments.length - 1) ++ [packArgument last.name value])
      else .ok result
    else .ok result

/-- The loop `Convert all arguments to target type if this is a real call`,
over the slots and the formals from the same index on. -/
def PrepareArgumentsForFunctionCall.convert (ctx : ExpressionContext) :
    List ArgumentData → List ArgumentData → Outcome (List ArgumentData)
  | [], _ => .ok []
  | _ :: _, [] => .undefined "formal index out of range"
  | argument :: rest, formal :: formals =>
    match argument.value, formal.type with
    | some value, some target =>
      (ctx.CreateCast value.source value target true).bind fun cast =>
      (PrepareArgumentsForFunctionCall.convert ctx rest formals).bind fun converted =>
      .ok ({ argument with value := some cast } :: converted)
    | _, _ => .undefined "assertion failed: argument.value"

/-- The function `PrepareArgumentsForFunctionCall`: the returned flag and the
contents of `result` on return. -/
def PrepareArgumentsForFunctionCall (ctx : ExpressionContext)
    (functionArguments arguments : List ArgumentData) (prepareValues : Bool) :
    Outcome (Bool × List ArgumentData) :=
  (if HasNamedCallArguments arguments then
    PrepareArgumentsForFunctionCall.named functionArguments arguments
   else
    (PrepareArgumentsForFunctionCall.pack ctx functionArguments
      (PrepareArgumentsForFunctionCall.appendDefaults
        (functionArguments.drop arguments.length) arguments) prepareValues).bind
      fun packed => .ok (true, packed)).bind fun prepared =>
  if !prepared.1 then .ok (false, prepared.2)
  else if prepared.2.length ≠ functionArguments.length then .ok (false, prepared.2)
  else if prepareValues then
    (PrepareArgumentsForFunctionCall.convert ctx prepared.2 functionArguments).bind
      fun converted => .ok (true, converted)
  else .ok (true, prepared.2)

/-! ## Generic type unification -/

/-- The field `alignment` of a descriptor: `GetArrayType` gives a sized array
the alignment of its element type. -/
def TypeBase.alignment (ctx : ExpressionContext) : TypeBase → Nat
  | .array subType _ => subType.alignment ctx
  | type => ctx.typeAlignment type

/-- Modelled from the spec: the field `size` of a descriptor, in bytes.  The
constructor of `TypeArray` is declared in the absent header; by section 4.1 an
array's size is `subtype.size * n`, and the padding up to `max(alignment, 4)`
is the one `GetArrayType` applies in the sources. -/
def TypeBase.size (ctx : ExpressionContext) : TypeBase → Nat
  | .array subType length =>
    let size := subType.size ctx * length
    let maximumAlignment := if subType.alignment ctx < 4 then 4 else subType.alignment ctx
    if size % maximumAlignment ≠ 0 then size + (maximumAlignment - size % maximumAlignment)
    else size
  | type => ctx.typeSize type

/-- The result of a unification step: the matched type or null, and the alias
list as the step leaves it. -/
abbrev MatchResult := Outcome (Option TypeBase × MatchList)

/-- The loop over the argument handles of two function types in
`MatchGenericType`: every pair is matched strictly and the matches are
collected; null when a pair fails or the lengths differ. -/
def MatchGenericType.arguments
    (recurse : TypeBase → TypeBase → MatchList → Bool → Option MatchResult) :
    TypeList → TypeList → MatchList → TypeList → Option (Outcome (Option TypeList × MatchList))
  | .cons lhsArg lhsNext, .cons rhsArg rhsNext, aliases, arguments =>
    match recurse lhsArg rhsArg aliases true with
    | none => none
    | some (.stop message) => some (.stop message)
    | some (.undefined what) => some (.undefined what)
    | some (.ok (none, aliases1)) => some (.ok (none, aliases1))
    | some (.ok (some argMatched, aliases1)) =>
      MatchGenericType.arguments recurse lhsNext rhsNext aliases1 (arguments.push_back argMatched)
  | .nil, .nil, aliases, arguments => some (.ok (some arguments, aliases))
  | _, _, aliases, _ => some (.ok (none, aliases))

/-- The loop over the generic arguments of a generic class pattern and of a
class instance in `MatchGenericType`: `false` when a pair fails to match; the
loop ends with the shorter list. -/
def MatchGenericType.generics
    (recurse : TypeBase → TypeBase → MatchList → Bool → Option MatchResult) :
    TypeList → MatchList → MatchList → Option (Outcome (Bool × MatchList))
  | .cons lhsArg lhsNext, .cons _ rhsArg rhsNext, aliases =>
    match recurse lhsArg rhsArg aliases true with
    | none => none
    | some (.stop message) => some (.stop message)
    | some (.undefined what) => some (.undefined what)
    | some (.ok (none, aliases1)) => some (.ok (false, aliases1))
    | some (.ok (some _, aliases1)) => MatchGenericType.generics recurse lhsNext rhsNext aliases1
  | _, _, aliases => some (.ok (true, aliases))

/-- A recursive call of `MatchGenericType` whose match, if any, is wrapped by
a type constructor (`ctx.GetReferenceType(match)` and the like); null stays null. -/
def MatchGenericType.wrap (wrap : TypeBase → TypeBase) : Option MatchResult → Option MatchResult
  | some (.ok (some matched, aliases)) => some (.ok (some (wrap matched), aliases))
  | other => other

/-- The argument type as the branch for `TypeGeneric` goes on with it: outside
strict mode a sized array `type[N]` is replaced by the unsized array `type[]`. -/
def MatchGenericType.generalized (argType : TypeBase) (strict : Bool) : TypeBase :=
  if !strict then
    match argType with
    | .array subType _ => .unsizedArray subType
    | _ => argType
  else argType

/-- The body of `MatchGenericType`; `recurse` stands for the recursive calls
of the function. -/
def MatchGenericType.body (ctx : ExpressionContext)
    (recurse : TypeBase → TypeBase → MatchList → Bool → Option MatchResult)
    (matchType argType : TypeBase) (aliases : MatchList) (strict : Bool) : Option MatchResult :=
  if !matchType.isGeneric then
    let improve : Option (Outcome TypeBase) :=
      if argType.isGeneric then
        match recurse argType matchType .nil true with
        | none => none
        | some (.stop message) => some (.stop message)
        | some (.undefined what) => some (.undefined what)
        | some (.ok (some improved, _)) => some (.ok improved)
        | some (.ok (none, _)) => some (.ok argType)
      else some (.ok argType)
    match improve with
    | none => none
    | some (.stop message) => some (.stop message)
    | some (.undefined what) => some (.undefined what)
    | some (.ok argType1) =>
      if matchType = argType1 then some (.ok (some argType1, aliases))
      else if strict then some (.ok (none, aliases))
      else some (.ok (some matchType, aliases))
  else
    match matchType with
    | .generic name =>
      let argType1 := MatchGenericType.generalized argType strict
      if name = "generic" then some (.ok (some argType1, aliases))
      else
        match aliases.find name with
        | some type => some (.ok (some type, aliases))
        | none => some (.ok (some argType1, aliases.push_back name argType1))
    | .ref lhsSub =>
      match argType with
      | .ref rhsSub =>
        MatchGenericType.wrap .ref (recurse lhsSub rhsSub aliases true)
      | _ =>
        if strict then some (.ok (none, aliases))
        else MatchGenericType.wrap .ref (recurse lhsSub argType aliases true)
    | .array lhsSub lhsLength =>
      match argType with
      | .array rhsSub rhsLength =>
        if (TypeBase.array lhsSub lhsLength).size ctx = (TypeBase.array rhsSub rhsLength).size ctx then
          MatchGenericType.wrap
            (fun matched => .array matched ((TypeBase.array lhsSub lhsLength).size ctx))
            (recurse lhsSub rhsSub aliases true)
        else some (.ok (none, aliases))
      | _ => some (.ok (none, aliases))
    | .unsizedArray lhsSub =>
      match argType with
      | .unsizedArray rhsSub =>
        MatchGenericType.wrap .unsizedArray (recurse lhsSub rhsSub aliases true)
      | .array rhsSub _ =>
        if strict then some (.ok (none, aliases))
        else
          MatchGenericType.wrap .unsizedArray
            (recurse lhsSub rhsSub aliases true)
      | _ => some (.ok (none, aliases))
    | .function lhsReturn lhsArguments =>
      match argType with
      | .function rhsReturn rhsArguments =>
        match recurse lhsReturn rhsReturn aliases true with
        | none => none
        | some (.stop message) => some (.stop message)
        | some (.undefined what) => some (.undefined what)
        | some (.ok (none, aliases1)) => some (.ok (none, aliases1))
        | some (.ok (some returnType, aliases1)) =>
          match MatchGenericType.arguments recurse
              lhsArguments rhsArguments aliases1 .nil with
          | none => none
          | some (.stop message) => some (.stop message)
          | some (.undefined what) => some (.undefined what)
          | some (.ok (none, aliases2)) => some (.ok (none, aliases2))
          | some (.ok (some arguments, aliases2)) =>
            some (.ok (some (.function returnType arguments), aliases2))
      | _ => some (.ok (none, aliases))
    | .genericClass lhsProto lhsGenerics =>
      match argType with
      | .cls _ rhsProto rhsGenerics _ =>
        if some lhsProto ≠ rhsProto then some (.ok (none, aliases))
        else
          match MatchGenericType.generics recurse
              lhsGenerics rhsGenerics aliases with
          | none => none
          | some (.stop message) => some (.stop message)
          | some (.undefined what) => some (.undefined what)
          | some (.ok (false, aliases1)) => some (.ok (none, aliases1))
          | some (.ok (true, aliases1)) => some (.ok (some argType, aliases1))
      | _ => some (.ok (none, aliases))
    | _ => some (.stop "ERROR: unknown generic type match")

/-- The function `MatchGenericType(ctx, source, matchType, argType, aliases, strict)`.
The recursion of the source is bounded here by `fuel`, the number of nested
calls allowed; `none` means the bound was reached. -/
def MatchGenericType (ctx : ExpressionContext) :
    Nat → TypeBase → TypeBase → MatchList → Bool → Option MatchResult
  | 0 => fun _ _ _ _ => none
  | fuel + 1 => MatchGenericType.body ctx (MatchGenericType ctx fuel)

/-! ## Selection of the best overload -/

/-- Whether some alias of the list is bound to a generic type. -/
def MatchList.anyGeneric : MatchList → Bool
  | .nil => false
  | .cons _ type next => type.isGeneric || next.anyGeneric

/-- The predicate `ExpressionContext::IsGenericFunction`. -/
def IsGenericFunction (function : FunctionData) : Bool :=
  function.type.toType.isGeneric
    || (match function.ownerType with
        | some ownerType => ownerType.isGeneric
        | none => false)
    || function.generics.anyGeneric

/-- The loop of `SelectBestFunction` over the generic parameters of a candidate
and the explicit generic types of the call: true when some pair has a
non-generic parameter type that differs from the explicit type. -/
def SelectBestFunction.genericsMismatch : MatchList → TypeList → Bool
  | .cons _ caType caNext, .cons cbType cbNext =>
    (!caType.isGeneric && decide (caType ≠ cbType))
      || SelectBestFunction.genericsMismatch caNext cbNext
  | _, _ => false

/-- The alias list built from the generic parameters of a function and the
explicit generic types of the call, pair by pair. -/
def explicitAliases : MatchList → TypeList → MatchList
  | .cons name _ currMatch, .cons type currGeneric =>
    .cons name type (explicitAliases currMatch currGeneric)
  | _, _ => .nil

/-- The parent type of a generic candidate, as `SelectBestFunction` and
`CreateGenericFunctionInstance` compute it from the context expression. -/
def parentTypeOf (value : FunctionValue) : Outcome (Option TypeBase) :=
  if value.context.type = .tAutoRef then
    match value.function.ownerType with
    | some ownerType =>
      if ownerType.isGeneric then .undefined "assertion failed: owner type is generic"
      else .ok (some ownerType)
    | none => .undefined "assertion failed: no owner type"
  else
    match value.function.ownerType with
    | some _ =>
      match value.context.type with
      | .ref subType => .ok (some subType)
      | _ => .undefined "null dereference"
    | none => .ok none

/-- What one iteration of the loop of `SelectBestFunction` finds for its
candidate: the value left in `ratings[i]`, and whether the candidate competes
for `bestRating` (concrete), for `bestGenericRating` (generic), or was left by
a `continue` (skipped). -/
inductive CandidateKind where
  | skipped
  | concrete
  | genericCandidate
  deriving DecidableEq, Repr

/-- The body of the loop of `SelectBestFunction` for the candidate `value`,
up to the comparison with the best ratings. `stored` is the content of
`ratings[i]` on entry: `ratings.resize` does not assign the new elements. -/
def SelectBestFunction.rate (ctx : ExpressionContext) (generics : TypeList)
    (arguments : List ArgumentData) (stored : Nat) (value : FunctionValue) :
    Outcome (Nat × CandidateKind) :=
  let function := value.function
  if function.generics.size ≠ generics.size then .ok (incompatible, .skipped)
  else
    let stored1 :=
      if generics ≠ .nil ∧ SelectBestFunction.genericsMismatch function.generics generics then
        incompatible
      else stored
    if generics ≠ .nil ∧ stored1 = incompatible then .ok (stored1, .skipped)
    else
      (PrepareArgumentsForFunctionCall ctx function.arguments arguments false).bind fun prepared =>
      if !prepared.1 then .ok (incompatible, .skipped)
      else
        let result := prepared.2
        (GetFunctionRating ctx function function.type result).bind fun rating =>
        if rating = incompatible then .ok (rating, .skipped)
        else if IsGenericFunction function then
          (parentTypeOf value).bind fun parentType =>
          (ctx.GetGenericFunctionInstanceType parentType function result
            (explicitAliases function.generics generics)).bind fun instanced =>
          match instanced.1 with
          | none => .ok (incompatible, .skipped)
          | some inst =>
            (GetFunctionRating ctx function inst result).bind fun rating1 =>
            .ok (rating1, .genericCandidate)
        else .ok (rating, .concrete)

/-- The local variables of `SelectBestFunction` together with the ratings array. -/
structure SelectState where
  ratings : List Nat
  bestRating : Nat
  bestFunction : Option FunctionValue
  bestGenericRating : Nat
  bestGenericFunction : Option FunctionValue
  deriving DecidableEq, Repr

/-- The end of one iteration of `SelectBestFunction`: store the rating in
`ratings[i]` and keep the candidate when it is strictly better than the best
of its group. -/
def SelectBestFunction.update (state : SelectState) (i : Nat) (value : FunctionValue)
    (rated : Nat × CandidateKind) : SelectState :=
  let state1 := { state with ratings := state.ratings.set i rated.1 }
  match rated.2 with
  | .skipped => state1
  | .genericCandidate =>
    if rated.1 < state1.bestGenericRating then
      { state1 with bestGenericRating := rated.1, bestGenericFunction := some value }
    else state1
  | .concrete =>
    if rated.1 < state1.bestRating then
      { state1 with bestRating := rated.1, bestFunction := some value }
    else state1

/-- The loop of `SelectBestFunction` over the candidates from index `i` on. -/
def SelectBestFunction.loop (ctx : ExpressionContext) (generics : TypeList)
    (arguments : List ArgumentData) : List FunctionValue → Nat → SelectState → Outcome SelectState
  | [], _, state => .ok state
  | value :: rest, i, state =>
    (SelectBestFunction.rate ctx generics arguments (state.ratings.getD i 0) value).bind
      fun rated =>
      SelectBestFunction.loop ctx generics arguments rest (i + 1)
        (SelectBestFunction.update state i value rated)

/-- The loop `Hide all generic functions from selection`. -/
def SelectBestFunction.hideGenerics : List FunctionValue → List Nat → List Nat
  | value :: rest, rating :: ratings =>
    (if IsGenericFunction value.function then incompatible else rating)
      :: SelectBestFunction.hideGenerics rest ratings
  | _, ratings => ratings

/-- The function `SelectBestFunction`: the returned function value (none for
the empty `FunctionValue()`) and the `ratings` array on return. `stored i` is
the content of element `i` of `ratings` after `ratings.resize`. -/
def SelectBestFunction (ctx : ExpressionContext) (functions : List FunctionValue)
    (generics : TypeList) (arguments : List ArgumentData) (stored : Nat → Nat) :
    Outcome (Option FunctionValue × List Nat) :=
  (SelectBestFunction.loop ctx generics arguments functions 0
    { ratings := (List.range functions.length).map stored, bestRating := incompatible,
      bestFunction := none, bestGenericRating := incompatible,
      bestGenericFunction := none }).bind fun state =>
  if state.bestGenericRating < state.bestRating then
    .ok (state.bestGenericFunction, state.ratings)
  else
    .ok (state.bestFunction, SelectBestFunction.hideGenerics functions state.ratings)

/-- How the overload branch of `CreateFunctionCall` goes on after selection. -/
inductive CallChoice where
  | failure
  | autoRefCast
  | call (bestOverload : FunctionValue)
  deriving DecidableEq, Repr

/-- The message of the ambiguity error of `CreateFunctionCall`. -/
def ambiguityError : String :=
  "ERROR: ambiguity, there is more than one overloaded function available for the call:"

/-- The rating of the selected overload as `CreateFunctionCall` reads it back:
the rating of the last candidate that is the selected function. -/
def CreateFunctionCall.bestRating (bestOverload : FunctionValue) :
    List FunctionValue → List Nat → Nat → Nat
  | value :: rest, rating :: ratings, bestRating =>
    CreateFunctionCall.bestRating bestOverload rest ratings
      (if value.function = bestOverload.function then rating else bestRating)
  | _, _, bestRating => bestRating

/-- The loop `Check if multiple functions share the same rating`: whether some
candidate that is not the selected function has the best rating. -/
def CreateFunctionCall.sharesRating (bestOverload : FunctionValue) (bestRating : Nat) :
    List FunctionValue → List Nat → Bool
  | value :: rest, rating :: ratings =>
    (decide (value.function ≠ bestOverload.function) && decide (rating = bestRating))
      || CreateFunctionCall.sharesRating bestOverload bestRating rest ratings
  | _, _ => false

/-- The overload branch of `CreateFunctionCall` (`!functions.empty()`) from the
call of `SelectBestFunction` to the end of the ambiguity check.
`valueIsTypeLiteral` is `isType<ExprTypeLiteral>(value)`. -/
def CreateFunctionCall.select (ctx : ExpressionContext) (valueIsTypeLiteral : Bool)
    (functions : List FunctionValue) (generics : TypeList) (arguments : List ArgumentData)
    (allowFailure : Bool) (stored : Nat → Nat) : Outcome CallChoice :=
  (SelectBestFunction ctx functions generics arguments stored).bind fun selected =>
  match selected.1 with
  | none =>
    if allowFailure then .ok .failure
    else if valueIsTypeLiteral
        ∧ arguments.map (fun argument => (argument.type, argument.name)) = [(some .tAutoRef, "")]
    then .ok .autoRefCast
    else .stop "ERROR: can't find function with following parameters:"
  | some bestOverload =>
    let bestRating := CreateFunctionCall.bestRating bestOverload functions selected.2 incompatible
    if CreateFunctionCall.sharesRating bestOverload bestRating functions selected.2 then
      .stop ambiguityError
    else .ok (.call bestOverload)

/-! ## Generic function instances -/

/-- The pairwise comparison loop of `SameGenerics`. -/
def SameGenerics.sameTypes : MatchList → TypeList → Bool
  | .cons _ caType caNext, .cons cbType cbNext =>
    if caType ≠ cbType then false else SameGenerics.sameTypes caNext cbNext
  | _, _ => true

/-- The function `SameGenerics(IntrusiveList<MatchData>, IntrusiveList<TypeHandle>)`. -/
def SameGenerics (a : MatchList) (b : TypeList) : Bool :=
  if a.size ≠ b.size then false else SameGenerics.sameTypes a b

/-- The comparison loop of `SameArguments` and its final `ca == cb`. -/
def SameArguments.sameHandles : TypeList → TypeList → Bool
  | .cons caType caNext, .cons cbType cbNext =>
    if caType ≠ cbType then false else SameArguments.sameHandles caNext cbNext
  | .nil, .nil => true
  | _, _ => false

/-- The function `SameArguments`: the argument handles agree pair by pair and
both lists end together. -/
def SameArguments (a b : TypeFunction) : Bool :=
  SameArguments.sameHandles a.arguments b.arguments

/-- The three tests an instance passes in the search loop of
`CreateGenericFunctionInstance`: same parent type, same explicit generic types
and same argument types as the requested instantiation. -/
def CreateGenericFunctionInstance.sameInstantiation (parentType : Option TypeBase)
    (generics : TypeList) (inst : TypeFunction) (data : FunctionData) : Bool :=
  decide (parentType = data.ownerType) && SameGenerics data.generics generics
    && SameArguments data.type inst

/-- The loop `Search for an existing functions` of
`CreateGenericFunctionInstance` over `function->instances`. -/
def CreateGenericFunctionInstance.search (parentType : Option TypeBase) (generics : TypeList)
    (inst : TypeFunction) : List FunctionData → Option FunctionData
  | [] => none
  | data :: rest =>
    if parentType ≠ data.ownerType then
      CreateGenericFunctionInstance.search parentType generics inst rest
    else if !SameGenerics data.generics generics then
      CreateGenericFunctionInstance.search parentType generics inst rest
    else if !SameArguments data.type inst then
      CreateGenericFunctionInstance.search parentType generics inst rest
    else some data

/-- The function `CreateGenericFunctionInstance`.  `instances` is
`function->instances` of the prototype; `state` stands for everything else
that the analysis of a function definition reads and changes (scopes,
definitions, counters).  `analyze state instances instance parentType aliases`
stands for the statements between the search loop and the `push_back`: the
switch to the scope of the prototype, the analysis of its definition at the
instance type (`AnalyzeFunctionDefinition` or
`AnalyzeShortFunctionDefinition`) and the switch back.  The body of the
definition is analysed there, and a call in it can request an instance of the
same prototype, which that request appends to `function->instances` before
this one returns; so the analysis receives the instance list and returns it
together with the analysed function and the state.  The result is the
function of the returned `FunctionValue`, the instance list and the state on
return. -/
def CreateGenericFunctionInstance {σ : Type} (ctx : ExpressionContext)
    (analyze : σ → List FunctionData → TypeFunction → Option TypeBase → MatchList →
      Outcome (FunctionData × List FunctionData × σ))
    (state : σ) (instances : List FunctionData) (proto : FunctionValue) (generics : TypeList)
    (arguments : List ArgumentData) : Outcome (FunctionData × List FunctionData × σ) :=
  let function := proto.function
  (PrepareArgumentsForFunctionCall ctx function.arguments arguments false).bind fun prepared =>
  if !prepared.1 then .undefined "assertion failed: unexpected"
  else
    (parentTypeOf proto).bind fun parentType =>
    (ctx.GetGenericFunctionInstanceType parentType function prepared.2
      (explicitAliases function.generics generics)).bind fun instanced =>
    match instanced.1 with
    | none => .undefined "assertion failed: instance"
    | some inst =>
      if inst.toType.isGeneric then .undefined "assertion failed: instance is generic"
      else
        match CreateGenericFunctionInstance.search parentType generics inst instances with
        | some data => .ok (data, instances, state)
        | none =>
          (analyze state instances inst parentType instanced.2).bind fun analysed =>
          .ok (analysed.1, analysed.2.1 ++ [analysed.1], analysed.2.2)

/-! ## Binary operation types -/

/-- The predicate `IsBinaryOp` on binary operators: the bitwise operators. -/
def IsBinaryOp (type : SynBinaryOpType) : Bool :=
  match type with
  | .SYN_BINARY_OP_SHL => true
  | .SYN_BINARY_OP_SHR => true
  | .SYN_BINARY_OP_BIT_AND => true
  | .SYN_BINARY_OP_BIT_OR => true
  | .SYN_BINARY_OP_BIT_XOR => true
  | _ => false

/-- The predicate `IsComparisonOp`. -/
def IsComparisonOp (type : SynBinaryOpType) : Bool :=
  match type with
  | .SYN_BINARY_OP_LESS => true
  | .SYN_BINARY_OP_LESS_EQUAL => true
  | .SYN_BINARY_OP_GREATER => true
  | .SYN_BINARY_OP_GREATER_EQUAL => true
  | .SYN_BINARY_OP_EQUAL => true
  | .SYN_BINARY_OP_NOT_EQUAL => true
  | _ => false

/-- The predicate `IsLogicalOp` on binary operators. -/
def IsLogicalOp (type : SynBinaryOpType) : Bool :=
  match type with
  | .SYN_BINARY_OP_LOGICAL_AND => true
  | .SYN_BINARY_OP_LOGICAL_OR => true
  | .SYN_BINARY_OP_LOGICAL_XOR => true
  | _ => false

/-- The method `ExpressionContext::GetBinaryOpResultType`: the first of double,
float, long, int, short, char and bool that one of the operands is; null when
neither operand is any of them. -/
def GetBinaryOpResultType (a b : TypeBase) : Option TypeBase :=
  if a = .tDouble ∨ b = .tDouble then some .tDouble
  else if a = .tFloat ∨ b = .tFloat then some .tFloat
  else if a = .tLong ∨ b = .tLong then some .tLong
  else if a = .tInt ∨ b = .tInt then some .tInt
  else if a = .tShort ∨ b = .tShort then some .tShort
  else if a = .tChar ∨ b = .tChar then some .tChar
  else if a = .tBool ∨ b = .tBool then some .tBool
  else none

/-- The rank of a numeric type in the order of the specification,
`Double > Float > Long > Int > Short > Char > Bool`; a type that is not numeric
stands below all of them. -/
def numericRank : TypeBase → Nat
  | .tDouble => 7
  | .tFloat => 6
  | .tLong => 5
  | .tInt => 4
  | .tShort => 3
  | .tChar => 2
  | .tBool => 1
  | _ => 0

/-- The higher-ranked of two types in the order of the specification. -/
def higherRanked (a b : TypeBase) : TypeBase :=
  if numericRank a < numericRank b then b else a

/-! ## Alignment values -/

/-- The syntax node `SynAlign`: `value` is the handle of the number that follows
`align`, absent for `noalign`. -/
structure SynAlign where
  value : Option Nat
  deriving DecidableEq, Repr

/-- The least value of a 64-bit signed integer. -/
def minLong : Int := -9223372036854775808

/-- The two's complement representation of a 64-bit signed integer. -/
def toUnsigned64 (x : Int) : Nat := (x % 18446744073709551616).toNat

/-- The operator `&` on 64-bit signed integers: the conjunction of the
representations, read back as a signed value. -/
def bitAnd64 (a b : Int) : Int :=
  let bits := Nat.land (toUnsigned64 a) (toUnsigned64 b)
  if bits < 9223372036854775808 then (bits : Int) else (bits : Int) - 18446744073709551616

/-- The routine `AnalyzeAlignment`.  The value of the clause is a 64-bit signed
integer; subtracting one from the least of them overflows, which the language
leaves undefined.  The result is the value converted to a 32-bit unsigned. -/
def AnalyzeAlignment (ctx : ExpressionContext) (syntax_ : SynAlign) : Outcome Nat :=
  match syntax_.value with
  | none => .ok 1
  | some number =>
    match ctx.EvaluateNumber number with
    | some alignValue =>
      if alignValue > 16 then .stop "ERROR: alignment must be less than 16 bytes"
      else if alignValue = minLong then .undefined "signed integer overflow"
      else if bitAnd64 alignValue (alignValue - 1) ≠ 0 then
        .stop "ERROR: alignment must be power of two"
      else .ok (alignValue % 4294967296).toNat
    | none => .stop "ERROR: alignment must be a constant expression"

/-! ## Class layout -/

/-- The record `VariableData`, as far as the layout of a class, the scopes and
the closures read it.  The id is the one every variable object receives on
creation; `pos` is `source->pos`, the position of the definition in the text;
the layout of a class leaves the id, the hash, the flag and the position at
their defaults. -/
structure VariableData where
  alignment : Nat
  type : TypeBase
  name : String
  offset : Nat
  uniqueId : Nat := 0
  nameHash : Nat := 0
  imported : Bool := false
  pos : Nat := 0
  deriving DecidableEq, Repr

/-- The layout fields of the descriptor `TypeClass`.  The fields are declared
outside the analysed files; sizes are taken without a bound. -/
structure TypeClass where
  size : Nat
  alignment : Nat
  padding : Nat
  extendable : Bool
  members : List VariableData
  deriving DecidableEq, Repr

/-- The routine `FinalizeAlignment`. -/
def FinalizeAlignment (type : TypeClass) : TypeClass :=
  let maximumAlignment := type.members.foldl
    (fun maximumAlignment curr =>
      if maximumAlignment > curr.alignment then maximumAlignment else curr.alignment) 0
  let alignment := if type.alignment = 0 then maximumAlignment else type.alignment
  let maximumAlignment := if alignment < 4 then 4 else alignment
  if type.size % maximumAlignment ≠ 0 then
    { type with
      alignment := alignment
      padding := maximumAlignment - type.size % maximumAlignment
      size := type.size + (maximumAlignment - type.size % maximumAlignment) }
  else { type with alignment := alignment }

/-- The routine `AllocateVariableInScope` when the nearest owner of the scope is
a class type, the branch `scope->ownerType`: the offset of the variable and the
class with its size advanced.  The alignment is a 32-bit unsigned, so that the
asserted test `alignment & (alignment - 1)` wraps at zero. -/
def AllocateVariableInScope (ctx : ExpressionContext) (ownerType : TypeClass) (alignment : Nat)
    (type : TypeBase) : Outcome (Nat × TypeClass) :=
  if Nat.land alignment ((alignment + 4294967295) % 4294967296) = 0 ∧ alignment ≤ 16 then
    let size := ownerType.size + ctx.GetAlignmentOffset ownerType.size alignment
    .ok (size % 4294967296, { ownerType with size := size + type.size ctx })
  else .undefined "assertion failed"

/-- The syntax node `SynVariableDefinition` of a member: its name and whether it
has an initializer. -/
structure SynVariableDefinition where
  name : String
  initializer : Bool
  deriving DecidableEq, Repr

/-- The syntax node `SynVariableDefinitions`: `type` is the type that
`AnalyzeType` resolves the written type to. -/
structure SynVariableDefinitions where
  align : Option SynAlign
  type : TypeBase
  definitions : List SynVariableDefinition
  deriving DecidableEq, Repr

/-- The routine `AnalyzeVariableDefinition` in the scope of a class, as far as
the layout is concerned: the variable and the class after the allocation.  The
checks of the name against the symbol tables and the analysis of the
initializer, which leave the layout alone, are not modelled. -/
def AnalyzeVariableDefinition (ctx : ExpressionContext) (ownerType : TypeClass)
    (syntax_ : SynVariableDefinition) (alignment : Nat) (type : TypeBase) :
    Outcome (VariableData × TypeClass) :=
  if syntax_.name = "this" then .stop "ERROR: 'this' is a reserved keyword"
  else
    let alignment :=
      if alignment = 0 ∧ type.alignment ctx ≠ 0 then type.alignment ctx else alignment
    if type.isGeneric then .undefined "assertion failed"
    else if type = .tAuto then .undefined "assertion failed"
    else
      (AllocateVariableInScope ctx ownerType alignment type).bind fun allocated =>
        .ok ({ alignment := alignment, type := type, name := syntax_.name,
               offset := allocated.1 }, allocated.2)

/-- The alignment of an optional `align` clause: `syntax->align ?
AnalyzeAlignment(ctx, syntax->align) : 0`. -/
def optionalAlignment (ctx : ExpressionContext) (align : Option SynAlign) : Outcome Nat :=
  match align with
  | some align => AnalyzeAlignment ctx align
  | none => .ok 0

/-- The loop of `AnalyzeVariableDefinitions` over the names of a definition:
the variables with the initializer flags of their definitions, in order. -/
def AnalyzeVariableDefinitions.loop (ctx : ExpressionContext) (alignment : Nat) (type : TypeBase) :
    TypeClass → List SynVariableDefinition → Outcome (List (VariableData × Bool) × TypeClass)
  | ownerType, [] => .ok ([], ownerType)
  | ownerType, el :: rest =>
    (AnalyzeVariableDefinition ctx ownerType el alignment type).bind fun defined =>
      (AnalyzeVariableDefinitions.loop ctx alignment type defined.2 rest).bind fun others =>
        .ok ((defined.1, el.initializer) :: others.1, others.2)

/-- The routine `AnalyzeVariableDefinitions` in the scope of a class. -/
def AnalyzeVariableDefinitions (ctx : ExpressionContext) (ownerType : TypeClass)
    (syntax_ : SynVariableDefinitions) : Outcome (List (VariableData × Bool) × TypeClass) :=
  (optionalAlignment ctx syntax_.align).bind fun alignment =>
    AnalyzeVariableDefinitions.loop ctx alignment syntax_.type ownerType syntax_.definitions

/-- The inner loop of `AnalyzeClassElements` over the definitions of one
member node: a member with an initializer stops the analysis, the others are
appended to the members of the class. -/
def AnalyzeClassElements.push (classType : TypeClass) :
    List (VariableData × Bool) → Outcome TypeClass
  | [] => .ok classType
  | definition :: rest =>
    if definition.2 then .stop "ERROR: member can't have an initializer"
    else
      AnalyzeClassElements.push
        { classType with members := classType.members ++ [definition.1] } rest

/-- The loop of `AnalyzeClassElements` over the member nodes. -/
def AnalyzeClassElements.members (ctx : ExpressionContext) :
    TypeClass → List SynVariableDefinitions → Outcome TypeClass
  | classType, [] => .ok classType
  | classType, member :: rest =>
    (AnalyzeVariableDefinitions ctx classType member).bind fun node =>
      (AnalyzeClassElements.push node.2 node.1).bind fun classType =>
        AnalyzeClassElements.members ctx classType rest

mutual
/-- The syntax node `SynClassElements`, as far as the layout is concerned: the
member definitions and the static conditions. -/
inductive SynClassElements where
  | mk (members : List SynVariableDefinitions) (staticIfs : SynClassStaticIfList)
/-- An intrusive list of `SynClassStaticIf` nodes. -/
inductive SynClassStaticIfList where
  | nil
  | cons (staticIf : SynClassStaticIf) (next : SynClassStaticIfList)
/-- The syntax node `SynClassStaticIf`: the handle of the condition and the two
blocks. -/
inductive SynClassStaticIf where
  | mk (condition : Nat) (trueBlock : SynClassElements) (falseBlock : OptClassElements)
/-- A pointer to a `SynClassElements` node that may be null. -/
inductive OptClassElements where
  | none
  | some (elements : SynClassElements)
end

/-- The choice of `AnalyzeClassStaticIf` between the outcomes of its blocks: the
condition must evaluate to a bool literal. -/
def AnalyzeClassStaticIf.select (condition : Outcome (Option Bool))
    (trueBlock falseBlock : Outcome TypeClass) : Outcome TypeClass :=
  match condition with
  | .ok (some true) => trueBlock
  | .ok (some false) => falseBlock
  | .ok none => .stop "ERROR: can't get condition value"
  | .stop message => .stop message
  | .undefined what => .undefined what

mutual
/-- The routine `AnalyzeClassElements`, as far as the layout is concerned: the
members are defined, the alignment is finalized, and the static conditions
are analysed.  Typedefs, constants, functions and accessors leave the layout
alone and are not modelled. -/
def AnalyzeClassElements (ctx : ExpressionContext) (classType : TypeClass) :
    SynClassElements → Outcome TypeClass
  | .mk members staticIfs =>
    match AnalyzeClassElements.members ctx classType members with
    | .ok classType =>
      AnalyzeClassElements.staticIfs ctx (FinalizeAlignment classType) staticIfs
    | .stop message => .stop message
    | .undefined what => .undefined what
/-- The loop of `AnalyzeClassElements` over the static conditions. -/
def AnalyzeClassElements.staticIfs (ctx : ExpressionContext) (classType : TypeClass) :
    SynClassStaticIfList → Outcome TypeClass
  | .nil => .ok classType
  | .cons staticIf next =>
    match AnalyzeClassStaticIf ctx classType staticIf with
    | .ok classType => AnalyzeClassElements.staticIfs ctx classType next
    | .stop message => .stop message
    | .undefined what => .undefined what
/-- The routine `AnalyzeClassStaticIf`: the outcome of the block that the
condition selects. -/
def AnalyzeClassStaticIf (ctx : ExpressionContext) (classType : TypeClass) :
    SynClassStaticIf → Outcome TypeClass
  | .mk condition trueBlock falseBlock =>
    AnalyzeClassStaticIf.select (ctx.EvaluateCondition condition)
      (AnalyzeClassElements ctx classType trueBlock)
      (AnalyzeClassStaticIf.falseBlock ctx classType falseBlock)
/-- The analysis of the false block of a static condition, when there is one. -/
def AnalyzeClassStaticIf.falseBlock (ctx : ExpressionContext) (classType : TypeClass) :
    OptClassElements → Outcome TypeClass
  | .none => .ok classType
  | .some elements => AnalyzeClassElements ctx classType elements
end

/-- The type that `AnalyzeType` resolves a base class clause to: its name and,
when it is a class, its descriptor. -/
structure BaseClassType where
  name : String
  classType : Option TypeClass
  deriving DecidableEq, Repr

/-- The syntax node `SynClassDefinition`, as far as the layout is concerned. -/
structure SynClassDefinition where
  align : Option SynAlign
  extendable : Bool
  baseClass : Option BaseClassType
  elements : SynClassElements

/-- The loop of `AnalyzeClassDefinition` that adds the members of the base
class: every member is allocated again and must land on its offset. -/
def AnalyzeClassDefinition.inherit (ctx : ExpressionContext) :
    TypeClass → List VariableData → Outcome TypeClass
  | classType, [] => .ok classType
  | classType, el :: rest =>
    (AllocateVariableInScope ctx classType el.alignment el.type).bind fun allocated =>
      if allocated.1 ≠ el.offset then .undefined "assertion failed"
      else
        AnalyzeClassDefinition.inherit ctx
          { allocated.2 with
            members := allocated.2.members ++ [{ el with offset := allocated.1 }] } rest

/-- The check of the base class in `AnalyzeClassDefinition`: the base type must
be an extendable class. -/
def AnalyzeClassDefinition.baseClass (baseClass : Option BaseClassType) :
    Outcome (Option TypeClass) :=
  match baseClass with
  | none => .ok none
  | some type =>
    match type.classType with
    | none => .stop ("ERROR: type '" ++ type.name ++ "' is not extendable")
    | some baseClass =>
      if baseClass.extendable then .ok (some baseClass)
      else .stop ("ERROR: type '" ++ type.name ++ "' is not extendable")

/-- The hidden member `$typeid` that `AnalyzeClassDefinition` gives an
extendable class without a base class. -/
def AnalyzeClassDefinition.typeid (ctx : ExpressionContext) (classType : TypeClass)
    (baseClass : Option TypeClass) : Outcome TypeClass :=
  if classType.extendable ∧ baseClass.isNone then
    (AllocateVariableInScope ctx classType (TypeBase.tTypeID.alignment ctx) .tTypeID).bind
      fun allocated =>
        .ok { allocated.2 with
              members := allocated.2.members ++
                [{ alignment := TypeBase.tTypeID.alignment ctx, type := .tTypeID,
                   name := "$typeid", offset := allocated.1 }] }
  else .ok classType

/-- The part of `AnalyzeClassDefinition` that takes the alignment and the
members of the base class over. -/
def AnalyzeClassDefinition.base (ctx : ExpressionContext) (classType : TypeClass)
    (baseClass : Option TypeClass) : Outcome TypeClass :=
  match baseClass with
  | some baseClass =>
    (AnalyzeClassDefinition.inherit ctx { classType with alignment := baseClass.alignment }
      baseClass.members).bind fun classType =>
      if classType.size = baseClass.size - baseClass.padding then .ok classType
      else .undefined "assertion failed"
  | none => .ok classType

/-- The routine `AnalyzeClassDefinition`, as far as the layout of the class
type is concerned, for a definition that is not a generic prototype and does
not redefine a name.  The argument `classType` is the descriptor as
`new TypeClass(...)` leaves its layout fields. -/
def AnalyzeClassDefinition (ctx : ExpressionContext) (syntax_ : SynClassDefinition)
    (classType : TypeClass) : Outcome TypeClass :=
  (optionalAlignment ctx syntax_.align).bind fun alignment =>
  (AnalyzeClassDefinition.baseClass syntax_.baseClass).bind fun baseClass =>
  (AnalyzeClassDefinition.typeid ctx
    { classType with extendable := syntax_.extendable || baseClass.isSome } baseClass).bind
    fun classType =>
  (AnalyzeClassDefinition.base ctx classType baseClass).bind fun classType =>
  (AnalyzeClassElements ctx
    (if syntax_.align.isSome then { classType with alignment := alignment } else classType)
    syntax_.elements).bind fun classType =>
    if classType.size ≥ 64 * 1024 then .stop "ERROR: class size cannot exceed 65535 bytes"
    else .ok classType

/-- The alignments that the assertion of `AllocateVariableInScope` admits: zero,
which stands for an alignment that is not specified, and the powers of two up
to 16. -/
def admittedAlignment (alignment : Nat) : Prop :=
  alignment ∈ [0, 1, 2, 4, 8, 16]

/-- A class whose alignment and whose member alignments are all admitted. -/
def TypeClass.admitted (type : TypeClass) : Prop :=
  admittedAlignment type.alignment ∧ ∀ member ∈ type.members, admittedAlignment member.alignment

/-! ## Casts -/

/-- The outcome of a routine that is modelled with a bound on the depth of its
recursion: `none` when the bound is reached. -/
abbrev Analysis (α : Type) := Option (Outcome α)

/-- Sequencing of bounded analyzer steps. -/
def Analysis.bind {α β : Type} (x : Analysis α) (f : α → Analysis β) : Analysis β :=
  match x with
  | none => none
  | some (.ok value) => f value
  | some (.stop message) => some (.stop message)
  | some (.undefined what) => some (.undefined what)

/-- The argument `ArgumentData(value->source, false, InplaceStr(), value->type, value)`
that the by-name calls pass for a value. -/
def callArgument (value : ExprBase) : ArgumentData :=
  { source := value.source, isExplicit := false, name := "", type := some value.type,
    value := some value }

/-- The routine `CreateFunctionCall(ctx, source, name, arguments, allowFailure)`:
the call of the overloads that the name stands for; without one the analysis
stops unless failure is allowed, in which case the result is null. -/
def CreateFunctionCall.byName (ctx : ExpressionContext) (source : Option Nat) (name : String)
    (arguments : List ArgumentData) (allowFailure : Bool) : Outcome (Option ExprBase) :=
  (ctx.CreateVariableAccess source name).bind fun overloads =>
    (match overloads with
      | some overloads => ctx.CreateFunctionCall source overloads arguments allowFailure
      | none => Outcome.ok none).bind fun result =>
      match result with
      | some result => .ok (some result)
      | none =>
        if !allowFailure then .stop ("ERROR: unknown identifier '" ++ name ++ "'")
        else .ok none

/-- A by-name call that does not allow failure: its result is not null. -/
def CreateFunctionCall.required (ctx : ExpressionContext) (source : Option Nat) (name : String)
    (arguments : List ArgumentData) : Outcome ExprBase :=
  (CreateFunctionCall.byName ctx source name arguments false).bind fun result =>
    match result with
    | some result => .ok result
    | none => .undefined "null result"

/-- The routine `CreateFunctionPointer`: the definition, its context variable
when it has one, and an access to the function, in sequence.  The hiding of
the function from later lookups is not modelled. -/
def CreateFunctionPointer (ctx : ExpressionContext) (source : Option Nat) (definition : ExprBase) :
    Outcome ExprBase :=
  match definition with
  | .functionDefinition _ type function contextVariable =>
    (ctx.CreateFunctionContextAccess source function).bind fun context =>
      .ok (.sequence source type.toType
        (ExprList.ofList
          ([definition] ++
            (match contextVariable with
              | .some contextVariable => [contextVariable]
              | .none => []) ++
            [.functionAccess source type.toType function context])))
  | _ => .undefined "not a function definition"

/-- Whether an expression is a function definition:
`getType<ExprFunctionDefinition>`. -/
def ExprBase.isFunctionDefinition : ExprBase → Bool
  | .functionDefinition _ _ _ _ => true
  | _ => false

/-- The first test of `CreateCast`: a function definition used as a value. -/
def CreateCast.definition (ctx : ExpressionContext) (source : Option Nat) (value : ExprBase) :
    Option (Analysis ExprBase) :=
  if value.isFunctionDefinition then some (some (CreateFunctionPointer ctx source value))
  else none

/-- The casts of `CreateCast` to `bool`. -/
def CreateCast.toBool (source : Option Nat) (value : ExprBase) (type : TypeBase) :
    Option (Analysis ExprBase) :=
  if type = .tBool then
    if value.type.isRef then
      some (some (.ok (.typeCast source type value .EXPR_CAST_PTR_TO_BOOL)))
    else if value.type.isUnsizedArray then
      some (some (.ok (.typeCast source type value .EXPR_CAST_UNSIZED_TO_BOOL)))
    else if value.type.isFunction then
      some (some (.ok (.typeCast source type value .EXPR_CAST_FUNCTION_TO_BOOL)))
    else none
  else none

/-- The casts of `CreateCast` from the type of `nullptr`. -/
def CreateCast.fromNull (source : Option Nat) (value : ExprBase) (type : TypeBase) :
    Option (Analysis ExprBase) :=
  if value.type = .tNullPtr then
    if type.isRef then some (some (.ok (.typeCast source type value .EXPR_CAST_NULL_TO_PTR)))
    else if type = .tAutoRef then
      some (some (.ok (.typeCast source type value .EXPR_CAST_NULL_TO_AUTO_PTR)))
    else if type.isUnsizedArray then
      some (some (.ok (.typeCast source type value .EXPR_CAST_NULL_TO_UNSIZED)))
    else if type = .tAutoArray then
      some (some (.ok (.typeCast source type value .EXPR_CAST_NULL_TO_AUTO_ARRAY)))
    else if type.isFunction then
      some (some (.ok (.typeCast source type value .EXPR_CAST_NULL_TO_FUNCTION)))
    else none
  else none

/-- The cast of `CreateCast` from a sized array to the unsized array of the
same element type. -/
def CreateCast.toUnsized (source : Option Nat) (value : ExprBase) (type : TypeBase) :
    Option (Analysis ExprBase) :=
  match type, value.type with
  | .unsizedArray targetSubType, .array valueSubType _ =>
    if targetSubType = valueSubType then
      match value with
      | .variableAccess _ _ variableId =>
        some (some (.ok (.typeCast source type
          (.getAddress source (.ref value.type) variableId) .EXPR_CAST_ARRAY_PTR_TO_UNSIZED)))
      | .dereference _ _ pointer =>
        some (some (.ok (.typeCast source type pointer .EXPR_CAST_ARRAY_PTR_TO_UNSIZED)))
      | _ => some (some (.ok (.typeCast source type value .EXPR_CAST_ARRAY_TO_UNSIZED)))
    else none
  | _, _ => none

/-- The cast of `CreateCast` from a reference to a sized array to a reference
to the unsized array of the same element type. -/
def CreateCast.arrayRef (source : Option Nat) (value : ExprBase) (type : TypeBase)
    (targetSubType valueSubType : TypeBase) : Option (Analysis ExprBase) :=
  match targetSubType, valueSubType with
  | .unsizedArray targetElement, .array sourceElement _ =>
    if targetElement = sourceElement then
      some (some (.ok (.typeCast source type value .EXPR_CAST_ARRAY_PTR_TO_UNSIZED_PTR)))
    else none
  | _, _ => none

/-- The casts of `CreateCast` between references to classes: a reference to a
derived class is reinterpreted, a reference to a base class is reinterpreted
after the call of `assert_derived_from_base` on it. -/
def CreateCast.classRef (ctx : ExpressionContext) (source : Option Nat) (value : ExprBase)
    (type : TypeBase) (targetSubType valueSubType : TypeBase) : Option (Analysis ExprBase) :=
  if targetSubType.isClass ∧ valueSubType.isClass then
    if IsDerivedFrom valueSubType targetSubType then
      some (some (.ok (.typeCast source type value .EXPR_CAST_REINTERPRET)))
    else if IsDerivedFrom targetSubType valueSubType then
      let untyped := ExprBase.typeCast source (.ref .tVoid) value .EXPR_CAST_REINTERPRET
      let typeID := ExprBase.typeLiteral source .tTypeID targetSubType
      some (some ((CreateFunctionCall.required ctx source "assert_derived_from_base"
        [callArgument untyped, callArgument typeID]).bind fun checked =>
          .ok (.typeCast source type checked .EXPR_CAST_REINTERPRET)))
    else none
  else none

/-- The casts of `CreateCast` to a reference type. -/
def CreateCast.toRef (ctx : ExpressionContext) (source : Option Nat) (value : ExprBase)
    (type : TypeBase) (isFunctionArgument : Bool) : Option (Analysis ExprBase) :=
  match type with
  | .ref targetSubType =>
    match value.type with
    | .ref valueSubType =>
      (CreateCast.arrayRef source value type targetSubType valueSubType).orElse fun _ =>
        CreateCast.classRef ctx source value type targetSubType valueSubType
    | _ =>
      if value.type = .tAutoRef then
        some (some (.ok (.typeCast source type value .EXPR_CAST_AUTO_PTR_TO_PTR)))
      else if isFunctionArgument then
        match value with
        | .variableAccess _ _ variableId =>
          some (some (.ok (.getAddress source (.ref value.type) variableId)))
        | .dereference _ _ pointer => some (some (.ok pointer))
        | _ => some (some (.ok (.typeCast source type value .EXPR_CAST_ANY_TO_PTR)))
      else none
  | _ => none

/-- The casts of `CreateCast` to `auto ref`. -/
def CreateCast.toAutoRef (ctx : ExpressionContext)
    (recurse : Option Nat → ExprBase → TypeBase → Bool → Analysis ExprBase)
    (source : Option Nat) (value : ExprBase) (type : TypeBase) (isFunctionArgument : Bool) :
    Option (Analysis ExprBase) :=
  if type = .tAutoRef then
    if value.type.isRef then
      some (some (.ok (.typeCast source type value .EXPR_CAST_PTR_TO_AUTO_PTR)))
    else if isFunctionArgument then
      match value with
      | .variableAccess _ _ variableId =>
        some (some (.ok (.typeCast source type
          (.getAddress source (.ref value.type) variableId) .EXPR_CAST_PTR_TO_AUTO_PTR)))
      | .dereference _ _ pointer =>
        some (some (.ok (.typeCast source type pointer .EXPR_CAST_PTR_TO_AUTO_PTR)))
      | _ =>
        some ((recurse source value (.ref value.type) true).bind fun pointer =>
          some (.ok (.typeCast source type pointer .EXPR_CAST_PTR_TO_AUTO_PTR)))
    else some (some (CreateFunctionCall.required ctx source "duplicate" [callArgument value]))
  else none

/-- The casts of `CreateCast` to `auto[]`. -/
def CreateCast.toAutoArray
    (recurse : Option Nat → ExprBase → TypeBase → Bool → Analysis ExprBase)
    (source : Option Nat) (value : ExprBase) (type : TypeBase) : Option (Analysis ExprBase) :=
  if type = .tAutoArray then
    match value.type with
    | .unsizedArray _ =>
      some (some (.ok (.typeCast source type value .EXPR_CAST_UNSIZED_TO_AUTO_ARRAY)))
    | .array subType _ =>
      some ((recurse source value (.unsizedArray subType) false).bind fun unsized =>
        recurse source unsized type false)
    | _ => none
  else none

/-- The cast of `CreateCast` to a function type: the function that
`GetFunctionForType` selects for the value. -/
def CreateCast.toFunction (ctx : ExpressionContext) (source : Option Nat) (value : ExprBase)
    (type : TypeBase) : Option (Analysis ExprBase) :=
  match type.asFunction with
  | some target =>
    match ctx.FunctionForType value target with
    | some function =>
      some (some (.ok (.functionAccess source type function.function.uniqueId function.context)))
    | none => none
  | none => none

/-- The cast of `CreateCast` from `auto ref` to a type that is not a reference. -/
def CreateCast.unboxing
    (recurse : Option Nat → ExprBase → TypeBase → Bool → Analysis ExprBase)
    (source : Option Nat) (value : ExprBase) (type : TypeBase) : Option (Analysis ExprBase) :=
  if value.type = .tAutoRef ∧ ¬ type.isRef then
    some ((recurse source value (.ref type) false).bind fun ptr =>
      some (.ok (.dereference source type ptr)))
  else none

/-- The body of `CreateCast`, with the recursive calls passed in: the tests are
tried in the order of the source, and the first that returns decides; when
none does the analysis stops. -/
def CreateCast.body (ctx : ExpressionContext)
    (recurse : Option Nat → ExprBase → TypeBase → Bool → Analysis ExprBase)
    (source : Option Nat) (value : ExprBase) (type : TypeBase) (isFunctionArgument : Bool) :
    Analysis ExprBase :=
  ((CreateCast.definition ctx source value).orElse fun _ =>
    (if value.type = type then some (some (.ok value)) else none).orElse fun _ =>
    (if IsNumericType value.type ∧ IsNumericType type then
        some (some (.ok (.typeCast source type value .EXPR_CAST_NUMERICAL)))
      else none).orElse fun _ =>
    (CreateCast.toBool source value type).orElse fun _ =>
    (CreateCast.fromNull source value type).orElse fun _ =>
    (CreateCast.toUnsized source value type).orElse fun _ =>
    (CreateCast.toRef ctx source value type isFunctionArgument).orElse fun _ =>
    (CreateCast.toAutoRef ctx recurse source value type isFunctionArgument).orElse fun _ =>
    (CreateCast.toAutoArray recurse source value type).orElse fun _ =>
    (CreateCast.toFunction ctx source value type).orElse fun _ =>
    CreateCast.unboxing recurse source value type).getD
    (some (.stop ("ERROR: can't convert '" ++ ctx.typeName value.type ++ "' to '" ++
      ctx.typeName type ++ "'")))

/-- The routine `CreateCast`, with a bound on the depth of its recursion. -/
def CreateCast (ctx : ExpressionContext) :
    Nat → Option Nat → ExprBase → TypeBase → Bool → Analysis ExprBase
  | 0 => fun _ _ _ _ => none
  | fuel + 1 => CreateCast.body ctx (CreateCast ctx fuel)

/-! ## Binary operations -/

/-- The routine `CreateConditionCast`, with the routines it calls passed in. -/
def CreateConditionCast (ctx : ExpressionContext)
    (cast : Option Nat → ExprBase → TypeBase → Bool → Analysis ExprBase)
    (binaryOp : Option Nat → SynBinaryOpType → ExprBase → ExprBase → Analysis ExprBase)
    (source : Option Nat) (value : ExprBase) : Analysis ExprBase :=
  if !IsNumericType value.type then
    if value.type.isRef then cast source value .tBool false
    else if value.type.isUnsizedArray then cast source value .tBool false
    else if value.type.isFunction then cast source value .tBool false
    else if value.type = .tAutoRef then
      binaryOp source .SYN_BINARY_OP_NOT_EQUAL value (.nullptrLiteral value.source .tNullPtr)
    else some (CreateFunctionCall.required ctx source "bool" [callArgument value])
  else some (.ok value)

/-- Whether a type is an enumeration: `isType<TypeEnum>`. -/
def TypeBase.isEnum : TypeBase → Bool
  | .enum _ => true
  | _ => false

/-- The conversions of `nullptr` operands that `CreateBinaryOp` applies before
an equality test of operands of different types: the operands after them. -/
def CreateBinaryOp.nullOperands
    (cast : Option Nat → ExprBase → TypeBase → Bool → Analysis ExprBase)
    (source : Option Nat) (lhs rhs : ExprBase) : Analysis (ExprBase × ExprBase) :=
  if lhs.type ≠ rhs.type then
    Analysis.bind
      (if lhs.type = .tNullPtr then cast source lhs rhs.type false else some (.ok lhs))
      fun lhs =>
        Analysis.bind
          (if rhs.type = .tNullPtr then cast source rhs lhs.type false else some (.ok rhs))
          fun rhs => some (.ok (lhs, rhs))
  else some (.ok (lhs, rhs))

/-- The built-in equality tests of `CreateBinaryOp` on operands of one type:
the call that decides them, when the type has one. -/
def CreateBinaryOp.builtinEquality (ctx : ExpressionContext) (source : Option Nat)
    (op : SynBinaryOpType) (lhs rhs : ExprBase) : Option (Outcome ExprBase) :=
  if lhs.type = .tAutoRef ∧ lhs.type = rhs.type then
    some (CreateFunctionCall.required ctx source
      (if op = .SYN_BINARY_OP_EQUAL then "__rcomp" else "__rncomp")
      [callArgument lhs, callArgument rhs])
  else if lhs.type.isFunction ∧ lhs.type = rhs.type then
    let type := TypeBase.function .tVoid (.cons .tInt .nil)
    let lhs := ExprBase.typeCast lhs.source type lhs .EXPR_CAST_REINTERPRET
    let rhs := ExprBase.typeCast rhs.source type rhs .EXPR_CAST_REINTERPRET
    some (CreateFunctionCall.required ctx source
      (if op = .SYN_BINARY_OP_EQUAL then "__pcomp" else "__pncomp")
      [callArgument lhs, callArgument rhs])
  else if lhs.type.isUnsizedArray ∧ lhs.type = rhs.type then
    some ((CreateFunctionCall.byName ctx source (ctx.GetOpName op)
        [callArgument lhs, callArgument rhs] true).bind fun result =>
      match result with
      | some result => .ok result
      | none =>
        CreateFunctionCall.required ctx source
          (if op = .SYN_BINARY_OP_EQUAL then "__acomp" else "__ancomp")
          [callArgument lhs, callArgument rhs])
  else none

/-- The message of `CreateBinaryOp` for an operator that its operand types do
not support. -/
def CreateBinaryOp.notSupported (ctx : ExpressionContext) (op : SynBinaryOpType)
    (lhs rhs : ExprBase) : String :=
  "ERROR: operation " ++ ctx.GetOpName op ++ " is not supported on '" ++
    ctx.typeName lhs.type ++ "' and '" ++ ctx.typeName rhs.type ++ "'"

/-- The promotion of the operands in `CreateBinaryOp`: to `bool` for a logical
operator, to the common type for numeric operands. -/
def CreateBinaryOp.promote
    (cast : Option Nat → ExprBase → TypeBase → Bool → Analysis ExprBase)
    (source : Option Nat) (op : SynBinaryOpType) (lhs rhs : ExprBase) :
    Analysis (ExprBase × ExprBase) :=
  if IsLogicalOp op then
    (cast source lhs .tBool false).bind fun lhs =>
      (cast source rhs .tBool false).bind fun rhs => some (.ok (lhs, rhs))
  else if IsNumericType lhs.type ∧ IsNumericType rhs.type then
    match GetBinaryOpResultType lhs.type rhs.type with
    | some commonType =>
      (cast source lhs commonType false).bind fun lhs =>
        (cast source rhs commonType false).bind fun rhs => some (.ok (lhs, rhs))
    | none => some (.undefined "null dereference")
  else some (.ok (lhs, rhs))

/-- The part of `CreateBinaryOp` after the attempt to call an overload: the
checks of the operand types, the promotion and the node. -/
def CreateBinaryOp.primitive (ctx : ExpressionContext)
    (cast : Option Nat → ExprBase → TypeBase → Bool → Analysis ExprBase)
    (source : Option Nat) (op : SynBinaryOpType) (lhs rhs : ExprBase) : Analysis ExprBase :=
  let equality := op = .SYN_BINARY_OP_EQUAL ∨ op = .SYN_BINARY_OP_NOT_EQUAL
  let ok : Bool :=
    (IsNumericType lhs.type && IsNumericType rhs.type) ||
    decide (lhs.type = .tTypeID ∧ rhs.type = .tTypeID ∧ equality) ||
    (lhs.type.isRef && decide (lhs.type = rhs.type ∧ equality)) ||
    (lhs.type.isEnum && decide (lhs.type = rhs.type))
  if !ok then
    some (.stop "ERROR: binary operations between complex types are not supported yet")
  else if lhs.type = .tVoid then some (.stop "ERROR: first operand type is 'void'")
  else if rhs.type = .tVoid then some (.stop "ERROR: second operand type is 'void'")
  else if (IsFloatingPointType lhs.type || IsFloatingPointType rhs.type) &&
      (IsLogicalOp op || IsBinaryOp op) then
    some (.stop (CreateBinaryOp.notSupported ctx op lhs rhs))
  else
    (CreateBinaryOp.promote cast source op lhs rhs).bind fun operands =>
      let lhs := operands.1
      let rhs := operands.2
      if lhs.type ≠ rhs.type then some (.stop (CreateBinaryOp.notSupported ctx op lhs rhs))
      else
        let resultType := if IsComparisonOp op || IsLogicalOp op then TypeBase.tBool else lhs.type
        some (.ok (.binaryOp source resultType op lhs rhs))

/-- The part of `CreateBinaryOp` after the built-in comparisons: the promotion
to `bool` of the operands of a logical operator, the attempt to call an
overload of the operator, and the primitive operation. -/
def CreateBinaryOp.overloaded (ctx : ExpressionContext)
    (cast : Option Nat → ExprBase → TypeBase → Bool → Analysis ExprBase)
    (recurse : Option Nat → SynBinaryOpType → ExprBase → ExprBase → Analysis ExprBase)
    (source : Option Nat) (op : SynBinaryOpType) (lhs rhs : ExprBase) (skipOverload : Bool) :
    Analysis ExprBase :=
  Analysis.bind
    (if IsLogicalOp op then
      (CreateConditionCast ctx cast recurse lhs.source lhs).bind fun lhs =>
        (CreateConditionCast ctx cast recurse rhs.source rhs).bind fun rhs =>
          some (.ok (lhs, rhs))
    else some (.ok (lhs, rhs))) fun operands =>
    let lhs := operands.1
    let rhs := operands.2
    Analysis.bind
      (if !skipOverload then
        some (CreateFunctionCall.byName ctx source (ctx.GetOpName op)
          [callArgument lhs, callArgument rhs] true)
      else some (.ok none)) fun result =>
      match result with
      | some result => some (.ok result)
      | none => CreateBinaryOp.primitive ctx cast source op lhs rhs

/-- The body of `CreateBinaryOp`, with the routines it calls passed in. -/
def CreateBinaryOp.body (ctx : ExpressionContext)
    (cast : Option Nat → ExprBase → TypeBase → Bool → Analysis ExprBase)
    (recurse : Option Nat → SynBinaryOpType → ExprBase → ExprBase → Analysis ExprBase)
    (source : Option Nat) (op : SynBinaryOpType) (lhs rhs : ExprBase) : Analysis ExprBase :=
  if op = .SYN_BINARY_OP_EQUAL ∨ op = .SYN_BINARY_OP_NOT_EQUAL then
    (CreateBinaryOp.nullOperands cast source lhs rhs).bind fun operands =>
      let lhs := operands.1
      let rhs := operands.2
      match CreateBinaryOp.builtinEquality ctx source op lhs rhs with
      | some result => some result
      | none =>
        CreateBinaryOp.overloaded ctx cast recurse source op lhs rhs
          (decide (lhs.type = .tTypeID ∧ rhs.type = .tTypeID))
  else CreateBinaryOp.overloaded ctx cast recurse source op lhs rhs false

/-- The routine `CreateBinaryOp`, with a bound on the depth of its recursion
through `CreateConditionCast`. -/
def CreateBinaryOp (ctx : ExpressionContext) :
    Nat → Option Nat → SynBinaryOpType → ExprBase → ExprBase → Analysis ExprBase
  | 0 => fun _ _ _ _ => none
  | fuel + 1 => CreateBinaryOp.body ctx (CreateCast ctx (fuel + 1)) (CreateBinaryOp ctx fuel)

/-! ## Return statements -/

/-- The value of a `return`: the analysed expression, or a void node when the
statement has none. -/
def AnalyzeReturn.result (source : Option Nat) (value : Option ExprBase) : ExprBase :=
  match value with
  | some value => value
  | none => .void source .tVoid

/-- The routine `AnalyzeReturn`.  The argument `function` is the current
function, null at the global level; `value` is the expression that
`AnalyzeExpression` gives for `syntax->value`, when there is one; `fuel`
bounds the casts.  The result is the node and the current function as the
routine leaves it. -/
def AnalyzeReturn (ctx : ExpressionContext) (fuel : Nat) (function : Option FunctionData)
    (source : Option Nat) (value : Option ExprBase) : Analysis (ExprBase × Option FunctionData) :=
  let result := AnalyzeReturn.result source value
  match function with
  | some function =>
    Analysis.bind
      (if function.type.returnType = .tAuto then
        if result.type.isGeneric then
          some (.stop "ERROR: generic return type is not supported")
        else
          some (.ok (result.type,
            { function with
              type := { returnType := result.type, arguments := function.type.arguments } }))
      else some (.ok (function.type.returnType, function))) fun latched =>
      let returnType := latched.1
      let function := latched.2
      Analysis.bind (CreateCast ctx fuel source result function.type.returnType false)
        fun result =>
          if returnType = .tVoid ∧ result.type ≠ .tVoid then
            some (.stop "ERROR: 'void' function returning a value")
          else if returnType ≠ .tVoid ∧ result.type = .tVoid then
            some (.stop ("ERROR: function must return a value of type '" ++
              ctx.typeName returnType ++ "'"))
          else
            some (.ok (.exprReturn source .tVoid result,
              some { function with hasExplicitReturn := true }))
  | none =>
    Analysis.bind
      (if result.type.isFunction then CreateCast ctx fuel source result result.type false
        else some (.ok result)) fun result =>
      if !IsNumericType result.type ∧ !result.type.isEnum then
        some (.stop ("ERROR: global return cannot accept '" ++ ctx.typeName result.type ++ "'"))
      else some (.ok (.exprReturn source .tVoid result, none))

/-! ## Array indexing -/

/-- The first part of `CreateArrayIndex`: the value that is indexed and the
expression for its address.  A reference is dereferenced, a variable or a
dereference gives its address, and any other value is stored in a temporary. -/
def CreateArrayIndex.wrap (ctx : ExpressionContext) (source : Option Nat) (value : ExprBase) :
    Outcome (ExprBase × ExprBase) :=
  match value.type with
  | .ref subType =>
    let wrapped := value
    let value := ExprBase.dereference source subType value
    if value.type.isUnsizedArray then .ok (value, value) else .ok (value, wrapped)
  | _ =>
    if value.type.isUnsizedArray then .ok (value, value)
    else
      match value with
      | .variableAccess _ _ variableId =>
        .ok (value, .getAddress source (.ref value.type) variableId)
      | .dereference _ _ pointer => .ok (value, pointer)
      | _ =>
        if ¬ value.type.isRef then
          (ctx.CreateTemporary source value).bind fun temporary =>
            .ok (value, .sequence source (.ref value.type)
              (.cons temporary.2
                (.cons (.getAddress source (.ref value.type) temporary.1) .nil)))
        else .ok (value, value)

/-- The flag `findOverload` of `CreateArrayIndex`: set unless there is exactly
one argument and it has no name. -/
def CreateArrayIndex.findOverload (arguments : List ArgumentData) : Bool :=
  arguments.isEmpty || decide (arguments.length > 1) ||
    arguments.any (fun argument => argument.name ≠ "")

/-- The attempt of `CreateArrayIndex` to call an overload of the operator `[]`
on the address and the arguments: the call, dereferenced when it gives a
reference, or null. -/
def CreateArrayIndex.overload (ctx : ExpressionContext) (source : Option Nat)
    (wrapped : ExprBase) (arguments : List ArgumentData) : Outcome (Option ExprBase) :=
  (ctx.CreateVariableAccess source "[]").bind fun overloads =>
    match overloads with
    | some overloads =>
      (ctx.CreateFunctionCall source overloads (callArgument wrapped :: arguments)
        (!CreateArrayIndex.findOverload arguments)).bind fun result =>
        match result with
        | some result =>
          match result.type with
          | .ref subType => .ok (some (.dereference source subType result))
          | _ => .ok (some result)
        | none => .ok none
    | none => .ok none

/-- The built-in indexing of `CreateArrayIndex`: the index is cast to `int`, a
constant index is checked against zero and, for a sized array, against the
length, and the element is the dereferenced shifted address. -/
def CreateArrayIndex.builtin (ctx : ExpressionContext) (fuel : Nat) (source : Option Nat)
    (value wrapped : ExprBase) (arguments : List ArgumentData) : Analysis ExprBase :=
  match arguments with
  | [] => some (.undefined "index out of bounds")
  | argument :: _ =>
    match argument.value with
    | none => some (.undefined "null dereference")
    | some indexArgument =>
      Analysis.bind (CreateCast ctx fuel source indexArgument .tInt false) fun index =>
        let indexValue := ctx.EvaluateInteger index
        if (match indexValue with
            | some constant => decide (constant < 0)
            | none => false) then
          some (.stop "ERROR: array index cannot be negative")
        else
          match value.type with
          | .array subType length =>
            if (match indexValue with
                | some constant => decide (constant ≥ (length : Int))
                | none => false) then
              some (.stop "ERROR: array index bounds")
            else
              some (.ok (.dereference source subType
                (.arrayIndex source (.ref subType) wrapped index)))
          | .unsizedArray subType =>
            some (.ok (.dereference source subType
              (.arrayIndex source (.ref subType) wrapped index)))
          | _ =>
            some (.stop ("ERROR: type '" ++ ctx.typeName value.type ++ "' is not an array"))

/-- The routine `CreateArrayIndex`; `fuel` bounds the cast of the index. -/
def CreateArrayIndex (ctx : ExpressionContext) (fuel : Nat) (source : Option Nat)
    (value : ExprBase) (arguments : List ArgumentData) : Analysis ExprBase :=
  Analysis.bind (some (CreateArrayIndex.wrap ctx source value)) fun wrap =>
    let value := wrap.1
    let wrapped := wrap.2
    if wrapped.type.isRef ∨ value.type.isUnsizedArray then
      Analysis.bind (some (CreateArrayIndex.overload ctx source wrapped arguments)) fun result =>
        match result with
        | some result => some (.ok result)
        | none =>
          if CreateArrayIndex.findOverload arguments then
            some (.stop "ERROR: overloaded '[]' operator is not available")
          else CreateArrayIndex.builtin ctx fuel source value wrapped arguments
    else some (.stop ("ERROR: type '" ++ ctx.typeName value.type ++ "' is not an array"))

/-! ## Interning of reference types -/

/-- A type descriptor in memory, as far as `GetReferenceType` reads and writes
it: the flag `isGeneric`, the pointer `refType`, and for a reference type the
pointer `subType`.  Pointers are positions in the store. -/
structure TypeObject where
  isGeneric : Bool
  refType : Option Nat
  subType : Option Nat
  deriving DecidableEq, Repr

/-- The descriptors allocated so far and the list `ctx.types`. -/
structure TypeStore where
  objects : List TypeObject
  types : List Nat
  deriving DecidableEq, Repr

/-- The method `ExpressionContext::GetReferenceType` on descriptors in memory:
the pointer to the reference type and the store after the request.
Modelled from the spec: the constructor of `TypeRef` is declared outside the
analysed files; by invariant (3) of the type universe the new descriptor is
generic exactly when the type it refers to is. -/
def GetReferenceType (store : TypeStore) (type : Nat) : Outcome (Nat × TypeStore) :=
  match store.objects[type]? with
  | none => .undefined "invalid pointer"
  | some object =>
    match object.refType with
    | some refType => .ok (refType, store)
    | none =>
      let result := store.objects.length
      let objects := store.objects ++
        [{ isGeneric := object.isGeneric, refType := none, subType := some type }]
      if !object.isGeneric then
        .ok (result,
          { objects := objects.set type { object with refType := some result },
            types := store.types ++ [result] })
      else .ok (result, { store with objects := objects })

/-! ## Break and continue -/

/-- The syntax nodes `SynBreak` and `SynContinue`: `number` is the handle of the
expression that follows the keyword, when there is one. -/
structure SynBreak where
  number : Option Nat
  deriving DecidableEq, Repr

/-- The level of a `break` or `continue` statement, as `AnalyzeBreak` and
`AnalyzeContinue` compute it: 1 without a number; with a number, the constant
that its cast to `long` evaluates to, which must be positive and at most the
loop depth of the current scope (a 32-bit unsigned, compared as a 64-bit
signed value) and is converted to a 32-bit unsigned.  The argument `keyword`
is the word of the statement in the messages. -/
def AnalyzeBreak.depth (ctx : ExpressionContext) (fuel : Nat) (loopDepth : Nat)
    (syntax_ : SynBreak) (keyword : String) : Analysis Nat :=
  match syntax_.number with
  | none => some (.ok 1)
  | some number =>
    Analysis.bind (some (ctx.AnalyzeExpression number)) fun numberValue =>
      Analysis.bind (CreateCast ctx fuel (some number) numberValue .tLong false) fun cast =>
        match ctx.EvaluateInteger cast with
        | some value =>
          if value ≤ 0 then
            some (.stop ("ERROR: " ++ keyword ++ " level can't be negative or zero"))
          else if (loopDepth : Int) < value then
            some (.stop ("ERROR: " ++ keyword ++ " level is greater that loop depth"))
          else some (.ok (value % 4294967296).toNat)
        | none =>
          some (.stop ("ERROR: " ++ keyword ++
            " statement must be followed by ';' or a constant"))

/-- The routine `AnalyzeBreak`; `loopDepth` is `ctx.scope->loopDepth`. -/
def AnalyzeBreak (ctx : ExpressionContext) (fuel : Nat) (loopDepth : Nat) (source : Option Nat)
    (syntax_ : SynBreak) : Analysis ExprBase :=
  Analysis.bind (AnalyzeBreak.depth ctx fuel loopDepth syntax_ "break") fun depth =>
    some (.ok (.exprBreak source .tVoid depth))

/-- The routine `AnalyzeContinue`; `loopDepth` is `ctx.scope->loopDepth`. -/
def AnalyzeContinue (ctx : ExpressionContext) (fuel : Nat) (loopDepth : Nat)
    (source : Option Nat) (syntax_ : SynBreak) : Analysis ExprBase :=
  Analysis.bind (AnalyzeBreak.depth ctx fuel loopDepth syntax_ "continue") fun depth =>
    some (.ok (.exprContinue source .tVoid depth))

/-! ## Closures -/

/-- The record `UpvalueData`: the captured variable (the field `variable`), the
member of the closure class that points to it, and the member that holds its
copy. -/
structure UpvalueData where
  variableData : VariableData
  target : VariableData
  copy : VariableData
  deriving DecidableEq, Repr

/-- The state that `AddFunctionUpvalue` reads and writes: the upvalues of the
function, the class that the context type of the function refers to (null when
the context type is not a reference to a class), the counter of variable ids,
and the variables of the type scope of that class. -/
structure ClosureState where
  upvalues : List UpvalueData
  classType : Option TypeClass
  uniqueVariableId : Nat
  scopeVariables : List VariableData
  deriving DecidableEq, Repr

/-- The name `GetFunctionContextMemberName(prefix, suffix)`. -/
def GetFunctionContextMemberName (namePrefix suffix : String) : String :=
  namePrefix ++ "_" ++ suffix

/-- The routine `AllocateClassMember` in the type scope of a class: the member
is allocated with the alignment of its type and a type that is not generic. -/
def AllocateClassMember (ctx : ExpressionContext) (classType : TypeClass) (type : TypeBase)
    (name : String) (uniqueId : Nat) : Outcome (VariableData × TypeClass) :=
  (AllocateVariableInScope ctx classType (type.alignment ctx) type).bind fun allocated =>
    if type.isGeneric then .undefined "assertion failed"
    else
      .ok ({ alignment := type.alignment ctx, type := type, name := name,
             offset := allocated.1, uniqueId := uniqueId }, allocated.2)

/-- The routine `AddFunctionUpvalue` for the variable `data`: the target member
and the state after the call.  Variables are compared by identity. -/
def AddFunctionUpvalue (ctx : ExpressionContext) (state : ClosureState) (data : VariableData) :
    Outcome (VariableData × ClosureState) :=
  match state.upvalues.find? (fun upvalue => upvalue.variableData = data) with
  | some upvalue => .ok (upvalue.target, state)
  | none =>
    match state.classType with
    | none => .undefined "assertion failed"
    | some classType =>
      (AllocateClassMember ctx classType (.ref data.type)
        (GetFunctionContextMemberName data.name "target") state.uniqueVariableId).bind
        fun allocated =>
          let target := allocated.1
          let classType := { allocated.2 with members := allocated.2.members ++ [target] }
          (AllocateClassMember ctx classType data.type
            (GetFunctionContextMemberName data.name "copy") (state.uniqueVariableId + 1)).bind
            fun allocated =>
              let copy := allocated.1
              let classType := { allocated.2 with members := allocated.2.members ++ [copy] }
              .ok (target,
                { upvalues := state.upvalues ++
                    [{ variableData := data, target := target, copy := copy }],
                  classType := some classType,
                  uniqueVariableId := state.uniqueVariableId + 2,
                  scopeVariables := state.scopeVariables ++ [target, copy] })

/-! ## Scopes and lookup maps -/

/-- Modelled from the spec: a lookup map of the symbol table.  The class
`HashMap` is declared outside the analysed files; it is a multimap from name
hashes to objects, here the list of its entries, newest first. -/
structure HashMap (α : Type) where
  entries : List (Nat × α)
  deriving DecidableEq, Repr

/-- The call `insert(hash, value)`. -/
def HashMap.insert {α : Type} (map : HashMap α) (hash : Nat) (value : α) : HashMap α :=
  { entries := (hash, value) :: map.entries }

/-- The call `find(hash, value)`: whether the object has an entry. -/
def HashMap.find {α : Type} [DecidableEq α] (map : HashMap α) (hash : Nat) (value : α) : Bool :=
  decide ((hash, value) ∈ map.entries)

/-- The call `remove(hash, value)`: one entry of the object is removed. -/
def HashMap.remove {α : Type} [DecidableEq α] (map : HashMap α) (hash : Nat) (value : α) :
    HashMap α :=
  { entries := map.entries.erase (hash, value) }

/-- A type descriptor as the scopes see it: the descriptor with its name hash
and, for a class, its flag `imported` and the position `source->pos` of its
definition, for a generic class prototype those of `definition`. -/
structure ScopedType where
  type : TypeBase
  nameHash : Nat
  imported : Bool
  pos : Nat
  deriving DecidableEq, Repr

/-- The record `AliasData`, as far as the scopes read it. -/
structure AliasData where
  nameHash : Nat
  type : ScopedType
  imported : Bool
  pos : Nat
  deriving DecidableEq, Repr

/-- The record `ScopeData`.  Pointers to scopes, functions and types are
positions in the stores of the state; `scope` is the parent; `variables_` is
the list `variables`; `globalSize` is the watermark of the global area, used
in the root scope. -/
structure ScopeData where
  scope : Option Nat
  scopeDepth : Nat
  loopDepth : Nat
  ownerNamespace : Option Nat
  ownerFunction : Option Nat
  ownerType : Option Nat
  globalSize : Nat
  variables_ : List VariableData
  functions : List FunctionData
  types : List ScopedType
  aliases : List AliasData
  deriving DecidableEq, Repr

/-- The part of `ExpressionContext` that the scope routines read and write: the
scope objects, the current scope, the three lookup maps, and the watermarks
`stackSize` of the functions and `size` of the types that own scopes. -/
structure ScopeState where
  scopes : List ScopeData
  scope : Option Nat
  variableMap : HashMap VariableData
  functionMap : HashMap FunctionData
  typeMap : HashMap ScopedType
  stackSize : List Nat
  typeSize : List Nat
  deriving DecidableEq, Repr

/-- The search of `PopScope` for the scope that adopts the contents of a
namespace scope: from the parent outwards, the first scope that owns a
namespace or has no parent. -/
def PopScope.adopter (scopes : List ScopeData) : Nat → Nat → Analysis Nat
  | 0, _ => none
  | fuel + 1, adopter =>
    match scopes[adopter]? with
    | none => some (.undefined "invalid pointer")
    | some data =>
      match data.scope with
      | some parent =>
        if data.ownerNamespace.isNone then PopScope.adopter scopes fuel parent
        else some (.ok adopter)
      | none => some (.ok adopter)

/-- The loop of `PopScope` that removes the variables of the scope from the
variable map, from the last to the first. -/
def PopScope.variables (map : HashMap VariableData) (variables_ : List VariableData) :
    HashMap VariableData :=
  variables_.reverse.foldl
    (fun map variable_ =>
      if map.find variable_.nameHash variable_ then map.remove variable_.nameHash variable_
      else map)
    map

/-- The message of `PopScope` for a prototype that leaves its scope without
an implementation. -/
def PopScope.unimplemented (name : String) : String :=
  "ERROR: local function '" ++ name ++ "' went out of scope unimplemented"

/-- The loop of `PopScope` over the functions of the scope, in the order in
which it visits them; `hasParent` is `scope->scope` being set.  Class
functions are kept; a prototype without implementation stops the analysis. -/
def PopScope.functions (hasParent : Bool) :
    HashMap FunctionData → List FunctionData → Outcome (HashMap FunctionData)
  | map, [] => .ok map
  | map, function :: rest =>
    if function.ownerType.isSome then PopScope.functions hasParent map rest
    else if hasParent ∧ function.isPrototype ∧ function.implementation.isNone then
      .stop (PopScope.unimplemented function.name)
    else if map.find function.nameHash function then
      PopScope.functions hasParent (map.remove function.nameHash function) rest
    else PopScope.functions hasParent map rest

/-- The loops of `PopScope` that remove the types and the alias targets of the
scope from the type map, from the last to the first. -/
def PopScope.types (map : HashMap ScopedType) (types : List ScopedType)
    (aliases : List AliasData) : HashMap ScopedType :=
  let map := types.reverse.foldl
    (fun map type => if map.find type.nameHash type then map.remove type.nameHash type else map)
    map
  aliases.reverse.foldl
    (fun map aliasData =>
      if map.find aliasData.nameHash aliasData.type then
        map.remove aliasData.nameHash aliasData.type
      else map)
    map

/-- The routine `PopScope(location)`; `fuel` bounds the search for the adopter
of a namespace scope.  A namespace scope that is closed with a null location
hands its contents to the adopter; any other scope has its symbols removed
from the lookup maps. -/
def PopScope (fuel : Nat) (state : ScopeState) (location : Option Nat) : Analysis ScopeState :=
  match state.scope with
  | none => some (.undefined "null dereference")
  | some current =>
    match state.scopes[current]? with
    | none => some (.undefined "invalid pointer")
    | some data =>
      if location.isNone ∧ data.ownerNamespace.isSome then
        match data.scope with
        | none => some (.undefined "null dereference")
        | some parent =>
          Analysis.bind (PopScope.adopter state.scopes fuel parent) fun adopter =>
            match state.scopes[adopter]? with
            | none => some (.undefined "invalid pointer")
            | some adopterData =>
              let scopes := state.scopes.set adopter
                { adopterData with
                  variables_ := adopterData.variables_ ++ data.variables_
                  functions := adopterData.functions ++ data.functions
                  types := adopterData.types ++ data.types
                  aliases := adopterData.aliases ++ data.aliases }
              match scopes[current]? with
              | none => some (.undefined "invalid pointer")
              | some data =>
                some (.ok { state with
                  scopes := scopes.set current
                    { data with variables_ := [], functions := [], types := [], aliases := [] }
                  scope := data.scope })
      else
        Analysis.bind
          (some (PopScope.functions data.scope.isSome state.functionMap data.functions.reverse))
          fun functionMap =>
            some (.ok { state with
              variableMap := PopScope.variables state.variableMap data.variables_
              functionMap := functionMap
              typeMap := PopScope.types state.typeMap data.types data.aliases
              scope := data.scope })

/-- The nearest enclosing scope that owns a namespace or, failing that, the
root scope: `Adopts scopes steps start adopter` holds when `adopter` is reached
from `start` in `steps` steps to the parent, every scope passed owns no
namespace and has a parent, and `adopter` owns a namespace or has no parent. -/
inductive PopScope.Adopts (scopes : List ScopeData) : Nat → Nat → Nat → Prop
  | found (start : Nat) (data : ScopeData) :
      scopes[start]? = some data → data.ownerNamespace.isSome ∨ data.scope = none →
      PopScope.Adopts scopes 0 start start
  | outward (steps start parent adopter : Nat) (data : ScopeData) :
      scopes[start]? = some data → data.ownerNamespace = none → data.scope = some parent →
      PopScope.Adopts scopes steps parent adopter →
      PopScope.Adopts scopes (steps + 1) start adopter

/-- The test of `RestoreScopesAtPoint` on a symbol: there is no location, or the
symbol is imported, or it is defined at or before the location. -/
def RestoreScopesAtPoint.visible (location : Option Nat) (imported : Bool) (pos : Nat) : Bool :=
  match location with
  | none => true
  | some locationPos => imported || decide (pos ≤ locationPos)

/-- The test `isType<TypeGenericClassProto>`. -/
def TypeBase.isGenericClassProto : TypeBase → Bool
  | .genericClassProto _ => true
  | _ => false

/-- The loop of `RestoreScopesAtPoint` over the variables of a scope. -/
def RestoreScopesAtPoint.variables (location : Option Nat) (map : HashMap VariableData)
    (variables_ : List VariableData) : HashMap VariableData :=
  variables_.foldl
    (fun map variable_ =>
      if RestoreScopesAtPoint.visible location variable_.imported variable_.pos then
        map.insert variable_.nameHash variable_
      else map)
    map

/-- The loop of `RestoreScopesAtPoint` over the functions of a scope: class
functions are skipped. -/
def RestoreScopesAtPoint.functions (location : Option Nat) (map : HashMap FunctionData)
    (functions : List FunctionData) : HashMap FunctionData :=
  functions.foldl
    (fun map function =>
      if function.ownerType.isSome then map
      else if RestoreScopesAtPoint.visible location function.imported function.pos then
        map.insert function.nameHash function
      else map)
    map

/-- The loop of `RestoreScopesAtPoint` over the types of a scope: classes and
generic class prototypes are tested, any other type is inserted. -/
def RestoreScopesAtPoint.types (location : Option Nat) (map : HashMap ScopedType)
    (types : List ScopedType) : HashMap ScopedType :=
  types.foldl
    (fun map type =>
      if type.type.isClass then
        if RestoreScopesAtPoint.visible location type.imported type.pos then
          map.insert type.nameHash type
        else map
      else if type.type.isGenericClassProto then
        if RestoreScopesAtPoint.visible location type.imported type.pos then
          map.insert type.nameHash type
        else map
      else map.insert type.nameHash type)
    map

/-- The loop of `RestoreScopesAtPoint` over the aliases of a scope. -/
def RestoreScopesAtPoint.aliases (location : Option Nat) (map : HashMap ScopedType)
    (aliases : List AliasData) : HashMap ScopedType :=
  aliases.foldl
    (fun map aliasData =>
      if RestoreScopesAtPoint.visible location aliasData.imported aliasData.pos then
        map.insert aliasData.nameHash aliasData.type
      else map)
    map

/-- The part of `RestoreScopesAtPoint` after the parent is restored: the
symbols of the scope are inserted and the scope becomes current. -/
def RestoreScopesAtPoint.enter (state : ScopeState) (target : Nat) (data : ScopeData)
    (location : Option Nat) : ScopeState :=
  { state with
    variableMap := RestoreScopesAtPoint.variables location state.variableMap data.variables_
    functionMap := RestoreScopesAtPoint.functions location state.functionMap data.functions
    typeMap := RestoreScopesAtPoint.aliases location
      (RestoreScopesAtPoint.types location state.typeMap data.types) data.aliases
    scope := some target }

/-- The body of `RestoreScopesAtPoint`, with the recursive call passed in. -/
def RestoreScopesAtPoint.body
    (recurse : ScopeState → Nat → Option Nat → Analysis ScopeState)
    (state : ScopeState) (target : Nat) (location : Option Nat) : Analysis ScopeState :=
  match state.scopes[target]? with
  | none => some (.undefined "invalid pointer")
  | some data =>
    Analysis.bind
      (if data.scope ≠ state.scope then
        match data.scope with
        | some parent => recurse state parent location
        | none => some (.undefined "null dereference")
      else some (.ok state)) fun state =>
      match state.scopes[target]? with
      | none => some (.undefined "invalid pointer")
      | some data => some (.ok (RestoreScopesAtPoint.enter state target data location))

/-- The routine `RestoreScopesAtPoint`, with a bound on the depth of its
recursion. -/
def RestoreScopesAtPoint : Nat → ScopeState → Nat → Option Nat → Analysis ScopeState
  | 0 => fun _ _ _ => none
  | fuel + 1 => RestoreScopesAtPoint.body (RestoreScopesAtPoint fuel)

/-- The field `scopeDepth` of the scope at a pointer. -/
def ScopeState.depthOf (state : ScopeState) (scope : Option Nat) : Outcome Nat :=
  match scope with
  | none => .undefined "null dereference"
  | some scope =>
    match state.scopes[scope]? with
    | none => .undefined "invalid pointer"
    | some data => .ok data.scopeDepth

/-- The field `scope` of the scope at a pointer. -/
def ScopeState.parentOf (state : ScopeState) (scope : Option Nat) : Outcome (Option Nat) :=
  match scope with
  | none => .undefined "null dereference"
  | some scope =>
    match state.scopes[scope]? with
    | none => .undefined "invalid pointer"
    | some data => .ok data.scope

/-- The first loop of `SwitchToScopeAtPoint`: scopes are popped while the
current scope is deeper than the target. -/
def SwitchToScopeAtPoint.reachDepth (targetDepth : Nat) : Nat → ScopeState → Analysis ScopeState
  | 0, _ => none
  | fuel + 1, state =>
    Analysis.bind (some (state.depthOf state.scope)) fun depth =>
      if depth > targetDepth then
        Analysis.bind (PopScope (fuel + 1) state none) fun state =>
          SwitchToScopeAtPoint.reachDepth targetDepth fuel state
      else some (.ok state)

/-- The second loop of `SwitchToScopeAtPoint`: the ancestor of the target at
the depth of the current scope. -/
def SwitchToScopeAtPoint.ancestor (state : ScopeState) (depth : Nat) :
    Nat → Option Nat → Analysis (Option Nat)
  | 0, _ => none
  | fuel + 1, curr =>
    Analysis.bind (some (state.depthOf curr)) fun currDepth =>
      if currDepth > depth then
        Analysis.bind (some (state.parentOf curr)) fun parent =>
          SwitchToScopeAtPoint.ancestor state depth fuel parent
      else some (.ok curr)

/-- The third loop of `SwitchToScopeAtPoint`: scopes are popped until the
current scope and the ancestor of the target have the same parent. -/
def SwitchToScopeAtPoint.reachParent : Nat → ScopeState → Option Nat → Analysis ScopeState
  | 0, _, _ => none
  | fuel + 1, state, curr =>
    Analysis.bind (some (state.parentOf state.scope)) fun scopeParent =>
      Analysis.bind (some (state.parentOf curr)) fun currParent =>
        if scopeParent ≠ currParent then
          Analysis.bind (PopScope (fuel + 1) state none) fun state =>
            SwitchToScopeAtPoint.reachParent fuel state currParent
        else some (.ok state)

/-- The part of `SwitchToScopeAtPoint` that leaves scopes: the current scope is
left up to the depth of the target and then up to the common parent, and the
scope reached is popped at `currLocation`, without handing namespace contents
on.  `fuel` bounds each loop and the search of `PopScope`. -/
def SwitchToScopeAtPoint.leave (fuel : Nat) (state : ScopeState) (currLocation : Option Nat)
    (target : Nat) : Analysis ScopeState :=
  Analysis.bind (some (state.depthOf (some target))) fun targetDepth =>
    Analysis.bind (SwitchToScopeAtPoint.reachDepth targetDepth fuel state) fun state =>
      Analysis.bind (some (state.depthOf state.scope)) fun depth =>
        Analysis.bind (SwitchToScopeAtPoint.ancestor state depth fuel (some target)) fun curr =>
          Analysis.bind (SwitchToScopeAtPoint.reachParent fuel state curr) fun state =>
            PopScope fuel state currLocation

/-- The routine `SwitchToScopeAtPoint`: scopes are left, and the scopes down to
the target are restored at `targetLocation`. -/
def SwitchToScopeAtPoint (fuel : Nat) (state : ScopeState) (currLocation : Option Nat)
    (target : Nat) (targetLocation : Option Nat) : Analysis ScopeState :=
  Analysis.bind (SwitchToScopeAtPoint.leave fuel state currLocation target) fun state =>
    RestoreScopesAtPoint fuel state target targetLocation

/-- The scopes that `RestoreScopesAtPoint` enters for a target, outermost
first: the chain of parents of the target down from the child of the current
scope. -/
inductive RestoreScopesAtPoint.Reenters (scopes : List ScopeData) (current : Option Nat) :
    List Nat → Nat → Prop
  | child (target : Nat) (data : ScopeData) :
      scopes[target]? = some data → data.scope = current →
      RestoreScopesAtPoint.Reenters scopes current [target] target
  | nested (path : List Nat) (target parent : Nat) (data : ScopeData) :
      scopes[target]? = some data → data.scope = some parent → data.scope ≠ current →
      RestoreScopesAtPoint.Reenters scopes current path parent →
      RestoreScopesAtPoint.Reenters scopes current (path ++ [target]) target

/-- The walk of `AllocateVariableInScope` from a scope outwards: the first scope
with a parent that owns a function gives its stack frame, the first that owns
a type its member area, and the scope without a parent the global area.  The
result is the offset, converted to a 32-bit unsigned, and the state with the
watermark of that region advanced. -/
def AllocateVariableInScope.walk (ctx : ExpressionContext) (alignment size : Nat) :
    Nat → ScopeState → Nat → Analysis (Nat × ScopeState)
  | 0, _, _ => none
  | fuel + 1, state, scope =>
    match state.scopes[scope]? with
    | none => some (.undefined "invalid pointer")
    | some data =>
      match data.scope with
      | some parent =>
        match data.ownerFunction with
        | some function =>
          match state.stackSize[function]? with
          | none => some (.undefined "invalid pointer")
          | some stackSize =>
            let base := stackSize + ctx.GetAlignmentOffset stackSize alignment
            some (.ok (base % 4294967296,
              { state with stackSize := state.stackSize.set function (base + size) }))
        | none =>
          match data.ownerType with
          | some type =>
            match state.typeSize[type]? with
            | none => some (.undefined "invalid pointer")
            | some typeSize =>
              let base := typeSize + ctx.GetAlignmentOffset typeSize alignment
              some (.ok (base % 4294967296,
                { state with typeSize := state.typeSize.set type (base + size) }))
          | none => AllocateVariableInScope.walk ctx alignment size fuel state parent
      | none =>
        let base := data.globalSize + ctx.GetAlignmentOffset data.globalSize alignment
        some (.ok (base % 4294967296,
          { state with
            scopes := state.scopes.set scope { data with globalSize := base + size } }))

/-- The routine `AllocateVariableInScope(scope, alignment, type)` on the scopes
of a state; `size` is `type->size` and `fuel` bounds the walk.  The alignment
is a 32-bit unsigned, so that the asserted test `alignment & (alignment - 1)`
wraps at zero. -/
def AllocateVariableInScope.fromScope (ctx : ExpressionContext) (fuel : Nat)
    (state : ScopeState) (scope : Option Nat) (alignment size : Nat) :
    Analysis (Nat × ScopeState) :=
  if Nat.land alignment ((alignment + 4294967295) % 4294967296) = 0 ∧ alignment ≤ 16 then
    match scope with
    | none => some (.undefined "assertion failed")
    | some scope => AllocateVariableInScope.walk ctx alignment size fuel state scope
  else some (.undefined "assertion failed")

/-- A region in which `AllocateVariableInScope` allocates: the stack frame of a
function, the member area of a type, or the global area of a scope without
parent. -/
inductive AllocationRegion where
  | stack (function : Nat)
  | members (type : Nat)
  | global (scope : Nat)
  deriving DecidableEq, Repr

/-- The watermark of a region: `stackSize` of the function, `size` of the
type, `globalSize` of the scope. -/
def ScopeState.watermark (state : ScopeState) : AllocationRegion → Option Nat
  | .stack function => state.stackSize[function]?
  | .members type => state.typeSize[type]?
  | .global scope => (state.scopes[scope]?).map fun data => data.globalSize

/-- The region of a scope: `RegionOf scopes steps scope region` holds when
`region` belongs to the innermost scope, `steps` steps outwards from `scope`,
that has a parent and owns a function or a type, or else to the root scope. -/
inductive AllocateVariableInScope.RegionOf (scopes : List ScopeData) :
    Nat → Nat → AllocationRegion → Prop
  | function (scope parent function : Nat) (data : ScopeData) :
      scopes[scope]? = some data → data.scope = some parent →
      data.ownerFunction = some function →
      AllocateVariableInScope.RegionOf scopes 0 scope (.stack function)
  | type (scope parent type : Nat) (data : ScopeData) :
      scopes[scope]? = some data → data.scope = some parent →
      data.ownerFunction = none → data.ownerType = some type →
      AllocateVariableInScope.RegionOf scopes 0 scope (.members type)
  | root (scope : Nat) (data : ScopeData) :
      scopes[scope]? = some data → data.scope = none →
      AllocateVariableInScope.RegionOf scopes 0 scope (.global scope)
  | outward (steps scope parent : Nat) (region : AllocationRegion) (data : ScopeData) :
      scopes[scope]? = some data → data.scope = some parent →
      data.ownerFunction = none → data.ownerType = none →
      AllocateVariableInScope.RegionOf scopes steps parent region →
      AllocateVariableInScope.RegionOf scopes (steps + 1) scope region

/-! ## Intermediate representation of the virtual machine -/

/-- The tags of the IR types; `VM_TYPE_STRUCT` is the tag of `VmType::Struct`.
The enumeration is declared in a header that is not part of the sources. -/
inductive VmValueType where
  | VM_TYPE_VOID
  | VM_TYPE_INT
  | VM_TYPE_DOUBLE
  | VM_TYPE_LONG
  | VM_TYPE_LABEL
  | VM_TYPE_POINTER
  | VM_TYPE_FUNCTION_REF
  | VM_TYPE_ARRAY_REF
  | VM_TYPE_AUTO_REF
  | VM_TYPE_AUTO_ARRAY
  | VM_TYPE_STRUCT
  deriving DecidableEq, Repr

/-- The IR type `VmType`: a tag and a size in bytes. -/
structure VmType where
  type : VmValueType
  size : Nat
  deriving DecidableEq, Repr

/-- The constant `VmType::Void`. -/
def VmType.Void : VmType := { type := .VM_TYPE_VOID, size := 0 }

/-- The constant `VmType::Int`. -/
def VmType.Int : VmType := { type := .VM_TYPE_INT, size := 4 }

/-- The constant `VmType::Double`. -/
def VmType.Double : VmType := { type := .VM_TYPE_DOUBLE, size := 8 }

/-- The constant `VmType::Long`. -/
def VmType.Long : VmType := { type := .VM_TYPE_LONG, size := 8 }

/-- The commands `VmInstructionType` that the sources name. -/
inductive VmInstructionType where
  | VM_INST_LOAD_BYTE
  | VM_INST_LOAD_SHORT
  | VM_INST_LOAD_INT
  | VM_INST_LOAD_FLOAT
  | VM_INST_LOAD_DOUBLE
  | VM_INST_LOAD_LONG
  | VM_INST_LOAD_STRUCT
  | VM_INST_STORE_BYTE
  | VM_INST_STORE_SHORT
  | VM_INST_STORE_INT
  | VM_INST_STORE_FLOAT
  | VM_INST_STORE_DOUBLE
  | VM_INST_STORE_LONG
  | VM_INST_STORE_STRUCT
  | VM_INST_SET_RANGE
  | VM_INST_JUMP
  | VM_INST_JUMP_Z
  | VM_INST_JUMP_NZ
  | VM_INST_CALL
  | VM_INST_RETURN
  | VM_INST_YIELD
  | VM_INST_CREATE_CLOSURE
  | VM_INST_CLOSE_UPVALUES
  | VM_INST_CONVERT_POINTER
  | VM_INST_CHECKED_RETURN
  | VM_INST_DOUBLE_TO_INT
  | VM_INST_LONG_TO_INT
  | VM_INST_INT_TO_DOUBLE
  | VM_INST_LONG_TO_DOUBLE
  | VM_INST_INT_TO_LONG
  | VM_INST_DOUBLE_TO_LONG
  | VM_INST_INDEX
  | VM_INST_INDEX_UNSIZED
  | VM_INST_ADD
  | VM_INST_SUB
  | VM_INST_MUL
  | VM_INST_DIV
  | VM_INST_POW
  | VM_INST_MOD
  | VM_INST_LESS
  | VM_INST_GREATER
  | VM_INST_LESS_EQUAL
  | VM_INST_GREATER_EQUAL
  | VM_INST_EQUAL
  | VM_INST_NOT_EQUAL
  | VM_INST_SHL
  | VM_INST_SHR
  | VM_INST_BIT_AND
  | VM_INST_BIT_OR
  | VM_INST_BIT_XOR
  | VM_INST_LOG_AND
  | VM_INST_LOG_OR
  | VM_INST_LOG_XOR
  | VM_INST_NEG
  | VM_INST_BIT_NOT
  | VM_INST_LOG_NOT
  | VM_INST_FRAME_OFFSET
  | VM_INST_TYPE_ID
  deriving DecidableEq, Repr

/-- The test `HasSideEffects(cmd)`. -/
def HasSideEffects : VmInstructionType → Bool
  | .VM_INST_STORE_BYTE => true
  | .VM_INST_STORE_SHORT => true
  | .VM_INST_STORE_INT => true
  | .VM_INST_STORE_FLOAT => true
  | .VM_INST_STORE_DOUBLE => true
  | .VM_INST_STORE_LONG => true
  | .VM_INST_STORE_STRUCT => true
  | .VM_INST_SET_RANGE => true
  | .VM_INST_JUMP => true
  | .VM_INST_JUMP_Z => true
  | .VM_INST_JUMP_NZ => true
  | .VM_INST_CALL => true
  | .VM_INST_RETURN => true
  | .VM_INST_YIELD => true
  | .VM_INST_CREATE_CLOSURE => true
  | .VM_INST_CLOSE_UPVALUES => true
  | .VM_INST_CONVERT_POINTER => true
  | .VM_INST_CHECKED_RETURN => true
  | _ => false

/-- The class of an IR value, which `getType<T>` tests. -/
inductive VmValueKind where
  | VmVoid
  | VmConstant
  | VmInstruction
  | VmBlock
  | VmFunction
  deriving DecidableEq, Repr

/-- An IR value with the fields of its class that the modelled routines read or
write; the classes are declared in a header that is not part of the sources.
Pointers to values are positions in the list of all values.  A constant has
`iValue`, `dValue` and `lValue`, where `dValue` is the IEEE 754 bit pattern of
the double; an instruction has `cmd`, `arguments`, `parent` and the sibling
links; a block has `parent`, the sibling links and the ends of its instruction
list; a function has the ends of its block list. -/
structure VmValue where
  typeID : VmValueKind
  type : VmType
  hasSideEffects : Bool := false
  users : List Nat := []
  iValue : Int := 0
  dValue : Nat := 0
  lValue : Int := 0
  cmd : VmInstructionType := .VM_INST_LOAD_INT
  arguments : List Nat := []
  parent : Option Nat := none
  prevSibling : Option Nat := none
  nextSibling : Option Nat := none
  firstInstruction : Option Nat := none
  lastInstruction : Option Nat := none
  firstBlock : Option Nat := none
  lastBlock : Option Nat := none
  deriving DecidableEq, Repr

/-- A read through a pointer to a value. -/
def VmValue.read (store : List VmValue) (pointer : Nat) : Outcome VmValue :=
  match store[pointer]? with
  | none => .undefined "invalid pointer"
  | some value => .ok value

/-- The method `VmValue::AddUse`. -/
def AddUse (store : List VmValue) (value user : Nat) : Outcome (List VmValue) :=
  match store[value]? with
  | none => .undefined "invalid pointer"
  | some v => .ok (store.set value { v with users := v.users ++ [user] })

/-- The loop of `VmValue::RemoveUse` on the users array: the first entry equal
to `user` is overwritten with the last entry and the last entry is dropped. -/
def RemoveUse.erase (users : List Nat) (user : Nat) : List Nat :=
  if users.indexOf user < users.length then
    (users.set (users.indexOf user) (users.getLastD 0)).dropLast
  else users

/-- The statement `if(pointer) pointer->nextSibling = next`. -/
def VmValue.setNextSibling (store : List VmValue) (pointer next : Option Nat) :
    Outcome (List VmValue) :=
  match pointer with
  | none => .ok store
  | some target =>
    (VmValue.read store target).bind fun value =>
      .ok (store.set target { value with nextSibling := next })

/-- The statement `if(pointer) pointer->prevSibling = previous`. -/
def VmValue.setPrevSibling (store : List VmValue) (pointer previous : Option Nat) :
    Outcome (List VmValue) :=
  match pointer with
  | none => .ok store
  | some target =>
    (VmValue.read store target).bind fun value =>
      .ok (store.set target { value with prevSibling := previous })

/-- The updates of `VmBlock::RemoveInstruction` to the ends of the instruction
list of the block: `firstInstruction`, then `lastInstruction`. -/
def RemoveInstruction.ends (blockValue : VmValue) (instruction : Nat) (inst : VmValue) :
    VmValue :=
  let blockValue :=
    if blockValue.firstInstruction = some instruction then
      { blockValue with firstInstruction := inst.nextSibling }
    else blockValue
  if blockValue.lastInstruction = some instruction then
    { blockValue with lastInstruction := inst.prevSibling }
  else blockValue

/-- The pointer updates of `VmBlock::RemoveInstruction`.  The pointers have the
static types `VmBlock*` and `VmInstruction*`, so the two objects are of these
classes and distinct. -/
def RemoveInstruction.unlink (store : List VmValue) (block instruction : Nat) :
    Outcome (List VmValue) :=
  (VmValue.read store block).bind fun blockValue =>
  (VmValue.read store instruction).bind fun inst =>
  if blockValue.typeID ≠ .VmBlock ∨ inst.typeID ≠ .VmInstruction then
    .undefined "pointer to an object of another class"
  else
    let store := store.set block (RemoveInstruction.ends blockValue instruction inst)
    (VmValue.setNextSibling store inst.prevSibling inst.nextSibling).bind fun store =>
    (VmValue.read store instruction).bind fun inst =>
    VmValue.setPrevSibling store inst.nextSibling inst.prevSibling

/-- The loop of `VmBlock::RemoveInstruction` over the operands; no routine that
the loop reaches writes an operand array, so the operands are those at the
start of the loop. -/
def RemoveInstruction.operands
    (removeUse : List VmValue → Nat → Nat → Analysis (List VmValue)) (instruction : Nat) :
    List Nat → List VmValue → Analysis (List VmValue)
  | [], store => some (.ok store)
  | argument :: rest, store =>
    Analysis.bind (removeUse store argument instruction) fun store =>
      RemoveInstruction.operands removeUse instruction rest store

/-- The body of `VmBlock::RemoveInstruction`, with `VmValue::RemoveUse` passed
in. -/
def RemoveInstruction.body (removeUse : List VmValue → Nat → Nat → Analysis (List VmValue))
    (store : List VmValue) (block instruction : Nat) : Analysis (List VmValue) :=
  match store[instruction]? with
  | none => some (.undefined "invalid pointer")
  | some inst =>
    if inst.parent ≠ some block then some (.undefined "assertion failed")
    else
      Analysis.bind (some (RemoveInstruction.unlink store block instruction)) fun store =>
        RemoveInstruction.operands removeUse instruction inst.arguments store

/-- The updates of `VmFunction::RemoveBlock` to the ends of the block list of
the function: `firstBlock`, then `lastBlock`. -/
def RemoveBlock.ends (functionValue : VmValue) (block : Nat) (blockValue : VmValue) : VmValue :=
  let functionValue :=
    if functionValue.firstBlock = some block then
      { functionValue with firstBlock := blockValue.nextSibling }
    else functionValue
  if functionValue.lastBlock = some block then
    { functionValue with lastBlock := blockValue.prevSibling }
  else functionValue

/-- The pointer updates of `VmFunction::RemoveBlock`. -/
def RemoveBlock.unlink (store : List VmValue) (function block : Nat) : Outcome (List VmValue) :=
  (VmValue.read store function).bind fun functionValue =>
  (VmValue.read store block).bind fun blockValue =>
  if functionValue.typeID ≠ .VmFunction ∨ blockValue.typeID ≠ .VmBlock then
    .undefined "pointer to an object of another class"
  else
    let store := store.set function (RemoveBlock.ends functionValue block blockValue)
    (VmValue.setNextSibling store blockValue.prevSibling blockValue.nextSibling).bind
      fun store =>
    (VmValue.read store block).bind fun blockValue =>
    VmValue.setPrevSibling store blockValue.nextSibling blockValue.prevSibling

/-- The loop `while(block->lastInstruction)` of `VmFunction::RemoveBlock`, with
a bound on its iterations. -/
def RemoveBlock.instructions
    (removeInstruction : List VmValue → Nat → Nat → Analysis (List VmValue)) (block : Nat) :
    Nat → List VmValue → Analysis (List VmValue)
  | 0, _ => none
  | fuel + 1, store =>
    match store[block]? with
    | none => some (.undefined "invalid pointer")
    | some blockValue =>
      match blockValue.lastInstruction with
      | none => some (.ok store)
      | some last =>
        Analysis.bind (removeInstruction store block last) fun store =>
          RemoveBlock.instructions removeInstruction block fuel store

/-- The body of `VmFunction::RemoveBlock`, with `VmBlock::RemoveInstruction`
passed in. -/
def RemoveBlock.body (removeInstruction : List VmValue → Nat → Nat → Analysis (List VmValue))
    (fuel : Nat) (store : List VmValue) (function block : Nat) : Analysis (List VmValue) :=
  match store[block]? with
  | none => some (.undefined "invalid pointer")
  | some blockValue =>
    if blockValue.parent ≠ some function then some (.undefined "assertion failed")
    else
      Analysis.bind (some (RemoveBlock.unlink store function block)) fun store =>
        RemoveBlock.instructions removeInstruction block fuel store

/-- The body of `VmValue::RemoveUse`, with the two removal routines passed
in. -/
def RemoveUse.body
    (removeInstruction removeBlock : List VmValue → Nat → Nat → Analysis (List VmValue))
    (store : List VmValue) (value user : Nat) : Analysis (List VmValue) :=
  match store[value]? with
  | none => some (.undefined "invalid pointer")
  | some v =>
    let users := RemoveUse.erase v.users user
    let store := store.set value { v with users := users }
    if users = [] ∧ v.hasSideEffects = false then
      match v.typeID with
      | .VmInstruction =>
        match v.parent with
        | none => some (.undefined "null dereference")
        | some parent => removeInstruction store parent value
      | .VmBlock =>
        match v.parent with
        | none => some (.undefined "null dereference")
        | some parent => removeBlock store parent value
      | _ => some (.ok store)
    else some (.ok store)

mutual
/-- The method `VmValue::RemoveUse(user)` of the value `value`, with a bound on
the depth of the calls. -/
def RemoveUse : Nat → List VmValue → Nat → Nat → Analysis (List VmValue)
  | 0 => fun _ _ _ => none
  | fuel + 1 => RemoveUse.body (RemoveInstruction fuel) (RemoveBlock fuel)
/-- The method `VmBlock::RemoveInstruction(instruction)` of the block `block`. -/
def RemoveInstruction : Nat → List VmValue → Nat → Nat → Analysis (List VmValue)
  | 0 => fun _ _ _ => none
  | fuel + 1 => RemoveInstruction.body (RemoveUse fuel)
/-- The method `VmFunction::RemoveBlock(block)` of the function `function`. -/
def RemoveBlock : Nat → List VmValue → Nat → Nat → Analysis (List VmValue)
  | 0 => fun _ _ _ => none
  | fuel + 1 => RemoveBlock.body (RemoveInstruction fuel) fuel
end

/-- The method `VmInstruction::AddArgument`. -/
def AddArgument (store : List VmValue) (instruction argument : Nat) : Outcome (List VmValue) :=
  (VmValue.read store argument).bind fun argumentValue =>
  if argumentValue.type = VmType.Void then .undefined "assertion failed"
  else
    (VmValue.read store instruction).bind fun inst =>
      AddUse (store.set instruction { inst with arguments := inst.arguments ++ [argument] })
        argument instruction

/-- The statement `if(argument) inst->AddArgument(argument)`. -/
def AddArgument.optional (store : List VmValue) (instruction : Nat) (argument : Option Nat) :
    Outcome (List VmValue) :=
  match argument with
  | none => .ok store
  | some argument => AddArgument store instruction argument

/-- The routine `CreateConstantInt`: the pointer to the new constant and the
values with the constant added. -/
def CreateConstantInt (store : List VmValue) (value : Int) : Nat × List VmValue :=
  (store.length, store ++ [{ typeID := .VmConstant, type := VmType.Int, iValue := value }])

/-- The routine `CreateConstantDouble`, the double given by its bit pattern. -/
def CreateConstantDouble (store : List VmValue) (value : Nat) : Nat × List VmValue :=
  (store.length, store ++ [{ typeID := .VmConstant, type := VmType.Double, dValue := value }])

/-- The routine `CreateConstantLong`. -/
def CreateConstantLong (store : List VmValue) (value : Int) : Nat × List VmValue :=
  (store.length, store ++ [{ typeID := .VmConstant, type := VmType.Long, lValue := value }])

/-- The routine `DoesConstantIntegerMatch`. -/
def DoesConstantIntegerMatch (store : List VmValue) (value : Nat) (number : Int) :
    Outcome Bool :=
  (VmValue.read store value).bind fun constant =>
    if constant.typeID = .VmConstant then
      if constant.type = VmType.Int then .ok (decide (constant.iValue = number))
      else if constant.type = VmType.Long then .ok (decide (constant.lValue = number))
      else .ok false
    else .ok false

/-- The comparison `==` of a double with `0.0` or `1.0`, on bit patterns: both
zeros are equal to `0.0`. -/
def doubleEquals (bits : Nat) (isOne : Bool) : Bool :=
  if isOne then decide (bits = 4607182418800017408)
  else decide (bits = 0 ∨ bits = 9223372036854775808)

/-- The routine `DoesConstantMatchEither` for the pairs of arguments that the
sources pass, `(0, 0.0, 0ll)` and `(1, 1.0, 1ll)`. -/
def DoesConstantMatchEither (store : List VmValue) (value : Nat) (isOne : Bool) :
    Outcome Bool :=
  (VmValue.read store value).bind fun constant =>
    if constant.typeID = .VmConstant then
      if constant.type = VmType.Int then
        .ok (decide (constant.iValue = if isOne then 1 else 0))
      else if constant.type = VmType.Double then .ok (doubleEquals constant.dValue isOne)
      else if constant.type = VmType.Long then
        .ok (decide (constant.lValue = if isOne then 1 else 0))
      else .ok false
    else .ok false

/-- The routine `IsConstantZero`. -/
def IsConstantZero (store : List VmValue) (value : Nat) : Outcome Bool :=
  DoesConstantMatchEither store value false

/-- The routine `IsConstantOne`. -/
def IsConstantOne (store : List VmValue) (value : Nat) : Outcome Bool :=
  DoesConstantMatchEither store value true

/-- The loop of `ChangeInstructionTo` over the saved operands. -/
def ChangeInstructionTo.release (fuel : Nat) (instruction : Nat) :
    List Nat → List VmValue → Analysis (List VmValue)
  | [], store => some (.ok store)
  | argument :: rest, store =>
    Analysis.bind (RemoveUse fuel store argument instruction) fun store =>
      ChangeInstructionTo.release fuel instruction rest store

/-- The routine `ChangeInstructionTo`. -/
def ChangeInstructionTo (fuel : Nat) (store : List VmValue) (instruction : Nat)
    (cmd : VmInstructionType) (first second third : Option Nat) : Analysis (List VmValue) :=
  Analysis.bind (some (VmValue.read store instruction)) fun inst =>
    let store := store.set instruction { inst with cmd := cmd, arguments := [] }
    Analysis.bind (some (AddArgument.optional store instruction first)) fun store =>
    Analysis.bind (some (AddArgument.optional store instruction second)) fun store =>
    Analysis.bind (some (AddArgument.optional store instruction third)) fun store =>
    Analysis.bind (ChangeInstructionTo.release fuel instruction inst.arguments store)
      fun store =>
    Analysis.bind (some (VmValue.read store instruction)) fun inst =>
      some (.ok (store.set instruction { inst with hasSideEffects := HasSideEffects cmd }))

/-- One turn of the loop of `ReplaceValue` over the operand slots of an
instruction. -/
def ReplaceValue.slot (fuel : Nat) (store : List VmValue)
    (instruction original replacement index : Nat) : Analysis (List VmValue) :=
  Analysis.bind (some (VmValue.read store instruction)) fun inst =>
    if inst.arguments[index]? = some original then
      Analysis.bind (some (AddUse store replacement instruction)) fun store =>
      Analysis.bind (RemoveUse fuel store original instruction) fun store =>
      Analysis.bind (some (VmValue.read store instruction)) fun inst =>
        some (.ok (store.set instruction
          { inst with arguments := inst.arguments.set index replacement }))
    else some (.ok store)

/-- The loop of `ReplaceValue` over the operand slots of an instruction. -/
def ReplaceValue.slots (fuel : Nat) (instruction original replacement : Nat) :
    List Nat → List VmValue → Analysis (List VmValue)
  | [], store => some (.ok store)
  | index :: rest, store =>
    Analysis.bind (ReplaceValue.slot fuel store instruction original replacement index)
      fun store => ReplaceValue.slots fuel instruction original replacement rest store

/-- The routine `ReplaceValue` for an instruction. -/
def ReplaceValue.instruction (fuel : Nat) (store : List VmValue)
    (instruction original replacement : Nat) : Analysis (List VmValue) :=
  Analysis.bind (some (VmValue.read store instruction)) fun inst =>
    ReplaceValue.slots fuel instruction original replacement
      (List.range inst.arguments.length) store

/-- The loop of `ReplaceValue` over the instructions of a block, from `curr`
on, with a bound on its iterations. -/
def ReplaceValue.block (fuel : Nat) (original replacement : Nat) :
    Nat → Option Nat → List VmValue → Analysis (List VmValue)
  | 0, _, _ => none
  | _ + 1, none, store => some (.ok store)
  | bound + 1, some curr, store =>
    Analysis.bind (ReplaceValue.instruction fuel store curr original replacement) fun store =>
    Analysis.bind (some (VmValue.read store curr)) fun currValue =>
      ReplaceValue.block fuel original replacement bound currValue.nextSibling store

/-- The loop of `ReplaceValue` over the blocks of a function, from `curr` on,
with a bound on its iterations. -/
def ReplaceValue.function (fuel : Nat) (original replacement : Nat) :
    Nat → Option Nat → List VmValue → Analysis (List VmValue)
  | 0, _, _ => none
  | _ + 1, none, store => some (.ok store)
  | bound + 1, some curr, store =>
    Analysis.bind (some (VmValue.read store curr)) fun block =>
    Analysis.bind (ReplaceValue.block fuel original replacement fuel block.firstInstruction
      store) fun store =>
    Analysis.bind (some (VmValue.read store curr)) fun block =>
      ReplaceValue.function fuel original replacement bound block.nextSibling store

/-- The routine `ReplaceValue`; `fuel` bounds the loops over siblings and the
depth of the removals. -/
def ReplaceValue (fuel : Nat) (store : List VmValue) (value original replacement : Nat) :
    Analysis (List VmValue) :=
  Analysis.bind (some (VmValue.read store value)) fun v =>
    match v.typeID with
    | .VmFunction => ReplaceValue.function fuel original replacement fuel v.firstBlock store
    | .VmBlock => ReplaceValue.block fuel original replacement fuel v.firstInstruction store
    | .VmInstruction => ReplaceValue.instruction fuel store value original replacement
    | _ => some (.ok store)

/-- The loop of `ReplaceValueUsersWith` over the copy of the users. -/
def ReplaceValueUsersWith.loop (fuel : Nat) (instruction value : Nat) :
    List Nat → List VmValue → Analysis (List VmValue)
  | [], store => some (.ok store)
  | user :: rest, store =>
    Analysis.bind (ReplaceValue fuel store user instruction value) fun store =>
      ReplaceValueUsersWith.loop fuel instruction value rest store

/-- The routine `ReplaceValueUsersWith(inst, value)`. -/
def ReplaceValueUsersWith (fuel : Nat) (store : List VmValue) (instruction value : Nat) :
    Analysis (List VmValue) :=
  Analysis.bind (some (VmValue.read store instruction)) fun inst =>
    ReplaceValueUsersWith.loop fuel instruction value inst.users store

/-- The instructions of a block as the loops over `nextSibling` meet them, from
`curr` on; `none` when the bound is reached or a pointer is invalid. -/
def VmValue.siblings (store : List VmValue) : Nat → Option Nat → Option (List Nat)
  | 0, _ => none
  | _ + 1, none => some []
  | bound + 1, some curr =>
    match store[curr]? with
    | none => none
    | some value => (VmValue.siblings store bound value.nextSibling).map fun rest => curr :: rest

/-- The instruction list of a block, from `firstInstruction`. -/
def VmValue.instructions (store : List VmValue) (block : Nat) : Option (List Nat) :=
  match store[block]? with
  | none => none
  | some value => VmValue.siblings store (store.length + 1) value.firstInstruction

/-- The part of `VmModule` that the builder and the peephole pass read and
write: the values, the counter of rewrites, the block that new instructions
are added to and the counter of instruction ids. -/
structure VmModule where
  values : List VmValue
  peepholeOptimizationCount : Nat
  currentBlock : Option Nat := none
  nextInstructionId : Nat := 0
  deriving DecidableEq, Repr

/-- What `RunPeepholeOptimizations` does to an instruction that it rewrites:
`users value` is `ReplaceValueUsersWith(inst, value)`, `constant type` is
`ReplaceValueUsersWith` with the new constant zero of the type, and
`negate value` is `ChangeInstructionTo(inst, VM_INST_NEG, value, NULL, NULL)`. -/
inductive PeepholeRewrite where
  | users (value : Nat)
  | constant (type : VmType)
  | negate (value : Nat)
  deriving DecidableEq, Repr

/-- The read `inst->arguments[index]`. -/
def VmValue.argument (inst : VmValue) (index : Nat) : Outcome Nat :=
  match inst.arguments[index]? with
  | none => .undefined "index out of bounds"
  | some argument => .ok argument

/-- The tests of `RunPeepholeOptimizations` on an instruction: the rewrite that
it selects, if any. -/
def RunPeepholeOptimizations.rewrite (store : List VmValue) (inst : VmValue) :
    Outcome (Option PeepholeRewrite) :=
  match inst.cmd with
  | .VM_INST_ADD =>
    (inst.argument 0).bind fun first =>
    (IsConstantZero store first).bind fun firstZero =>
      if firstZero then (inst.argument 1).bind fun second => .ok (some (.users second))
      else
        (inst.argument 1).bind fun second =>
        (IsConstantZero store second).bind fun secondZero =>
          if secondZero then .ok (some (.users first)) else .ok none
  | .VM_INST_SUB =>
    (inst.argument 0).bind fun first =>
    (DoesConstantIntegerMatch store first 0).bind fun firstZero =>
      if firstZero then (inst.argument 1).bind fun second => .ok (some (.negate second))
      else
        (inst.argument 1).bind fun second =>
        (IsConstantZero store second).bind fun secondZero =>
          if secondZero then .ok (some (.users first)) else .ok none
  | .VM_INST_MUL =>
    (inst.argument 0).bind fun first =>
    (IsConstantZero store first).bind fun firstZero =>
    (if firstZero then .ok true
     else (inst.argument 1).bind fun second => IsConstantZero store second).bind fun zero =>
      if zero then
        if inst.type = VmType.Int then .ok (some (.constant VmType.Int))
        else if inst.type = VmType.Double then .ok (some (.constant VmType.Double))
        else if inst.type = VmType.Long then .ok (some (.constant VmType.Long))
        else .ok none
      else
        (IsConstantOne store first).bind fun firstOne =>
          if firstOne then (inst.argument 1).bind fun second => .ok (some (.users second))
          else
            (inst.argument 1).bind fun second =>
            (IsConstantOne store second).bind fun secondOne =>
              if secondOne then .ok (some (.users first)) else .ok none
  | _ => .ok none

/-- The constant zero that the rewrite of a multiplication creates. -/
def RunPeepholeOptimizations.zero (store : List VmValue) (type : VmType) : Nat × List VmValue :=
  if type = VmType.Int then CreateConstantInt store 0
  else if type = VmType.Double then CreateConstantDouble store 0
  else CreateConstantLong store 0

/-- The routine `RunPeepholeOptimizations` for an instruction. -/
def RunPeepholeOptimizations.instruction (fuel : Nat) (module : VmModule) (instruction : Nat) :
    Analysis VmModule :=
  Analysis.bind (some (VmValue.read module.values instruction)) fun inst =>
  Analysis.bind (some (RunPeepholeOptimizations.rewrite module.values inst)) fun rewrite =>
    match rewrite with
    | none => some (.ok module)
    | some (.users value) =>
      Analysis.bind (ReplaceValueUsersWith fuel module.values instruction value) fun values =>
        some (.ok { module with values := values,
                                peepholeOptimizationCount := module.peepholeOptimizationCount + 1 })
    | some (.constant type) =>
      Analysis.bind
        (ReplaceValueUsersWith fuel (RunPeepholeOptimizations.zero module.values type).2
          instruction (RunPeepholeOptimizations.zero module.values type).1) fun values =>
        some (.ok { module with values := values,
                                peepholeOptimizationCount := module.peepholeOptimizationCount + 1 })
    | some (.negate value) =>
      Analysis.bind
        (ChangeInstructionTo fuel module.values instruction .VM_INST_NEG (some value) none none)
        fun values =>
        some (.ok { module with values := values,
                                peepholeOptimizationCount := module.peepholeOptimizationCount + 1 })

/-- The loop of `RunPeepholeOptimizations` over the instructions of a block:
the next sibling is read before the instruction is rewritten. -/
def RunPeepholeOptimizations.block (fuel : Nat) :
    Nat → Option Nat → VmModule → Analysis VmModule
  | 0, _, _ => none
  | _ + 1, none, module => some (.ok module)
  | bound + 1, some curr, module =>
    Analysis.bind (some (VmValue.read module.values curr)) fun currValue =>
    Analysis.bind (RunPeepholeOptimizations.instruction fuel module curr) fun module =>
      RunPeepholeOptimizations.block fuel bound currValue.nextSibling module

/-- The loop of `RunPeepholeOptimizations` over the blocks of a function. -/
def RunPeepholeOptimizations.function (fuel : Nat) :
    Nat → Option Nat → VmModule → Analysis VmModule
  | 0, _, _ => none
  | _ + 1, none, module => some (.ok module)
  | bound + 1, some curr, module =>
    Analysis.bind (some (VmValue.read module.values curr)) fun block =>
    Analysis.bind (RunPeepholeOptimizations.block fuel fuel block.firstInstruction module)
      fun module => RunPeepholeOptimizations.function fuel bound block.nextSibling module

/-- The routine `RunPeepholeOptimizations(module, value)`; `fuel` bounds the
loops over siblings and the depth of the removals. -/
def RunPeepholeOptimizations (fuel : Nat) (module : VmModule) (value : Nat) :
    Analysis VmModule :=
  Analysis.bind (some (VmValue.read module.values value)) fun v =>
    match v.typeID with
    | .VmFunction => RunPeepholeOptimizations.function fuel fuel v.firstBlock module
    | .VmBlock => RunPeepholeOptimizations.block fuel fuel v.firstInstruction module
    | .VmInstruction => RunPeepholeOptimizations.instruction fuel module value
    | _ => some (.ok module)

/-- Modelled from the spec: the modulus of the wrap-around arithmetic of an
integer IR type, `2^32` for `Int` and `2^64` for `Long`; the interpreter of
the instructions is not part of the sources. -/
def VmType.modulus (type : VmType) : Option ℤ :=
  if type = VmType.Int then some 4294967296
  else if type = VmType.Long then some 18446744073709551616
  else none

/-- Modelled from the spec: the number that an operand stands for.  A constant
stands for its `iValue` or `lValue`; any other value of an integer type stands
for the number that `computed` gives it, which is arbitrary.  Numbers are
taken modulo the width of the type. -/
def VmValue.number (store : List VmValue) (computed : Nat → Int) (pointer : Nat) :
    Option Int :=
  match store[pointer]? with
  | none => none
  | some value =>
    match value.type.modulus with
    | none => none
    | some modulus =>
      if value.typeID = .VmConstant then
        some ((if value.type = VmType.Int then value.iValue else value.lValue) % modulus)
      else some (computed pointer % modulus)

/-- Modelled from the spec: the number that an arithmetic instruction of an
integer type computes from its operands, under wrap-around arithmetic of the
width of the instruction. -/
def VmValue.result (store : List VmValue) (computed : Nat → Int) (inst : VmValue) :
    Option Int :=
  match inst.type.modulus with
  | none => none
  | some modulus =>
    match inst.cmd, inst.arguments with
    | .VM_INST_ADD, [first, second] =>
      (VmValue.number store computed first).bind fun x =>
        (VmValue.number store computed second).map fun y => (x + y) % modulus
    | .VM_INST_SUB, [first, second] =>
      (VmValue.number store computed first).bind fun x =>
        (VmValue.number store computed second).map fun y => (x - y) % modulus
    | .VM_INST_MUL, [first, second] =>
      (VmValue.number store computed first).bind fun x =>
        (VmValue.number store computed second).map fun y => (x * y) % modulus
    | .VM_INST_NEG, [first] =>
      (VmValue.number store computed first).map fun x => (-x) % modulus
    | _, _ => none

/-- Modelled from the spec: the number of the value that replaces an
instruction after a rewrite: the operand that takes its place, the new
constant, or the instruction itself once it is changed to `VM_INST_NEG`. -/
def PeepholeRewrite.number (store : List VmValue) (computed : Nat → Int) (inst : VmValue) :
    PeepholeRewrite → Option Int
  | .users value => VmValue.number store computed value
  | .constant type =>
    VmValue.number (RunPeepholeOptimizations.zero store type).2 computed
      (RunPeepholeOptimizations.zero store type).1
  | .negate value =>
    VmValue.result store computed { inst with cmd := .VM_INST_NEG, arguments := [value] }

/-- The number of operand slots of an instruction that hold a value. -/
def VmValue.slotCount (store : List VmValue) (instruction value : Nat) : Nat :=
  match store[instruction]? with
  | none => 0
  | some inst => inst.arguments.count value

/-- The number of occurrences of an instruction in the users of a value. -/
def VmValue.useCount (store : List VmValue) (value instruction : Nat) : Nat :=
  match store[value]? with
  | none => 0
  | some v => v.users.count instruction

/-- Use-def consistency of the instructions that are linked into a block: for
each of them and every value, the number of operand slots that hold the value
is the number of occurrences of the instruction in the users of the value. -/
def UseDefConsistent (store : List VmValue) (block : Nat) : Bool :=
  match VmValue.instructions store block with
  | none => false
  | some linked =>
    linked.all fun instruction =>
      (List.range store.length).all fun value =>
        VmValue.slotCount store instruction value == VmValue.useCount store value instruction

/-- The instruction list of a block as a doubly linked list: `linked` holds the
instructions of the block in order, without repetition; the block points to
the first and the last of them; each of them is an instruction of the block
whose sibling pointers are its neighbours in the list. -/
structure VmValue.Linked (store : List VmValue) (block : Nat) (linked : List Nat) : Prop where
  nodup : linked.Nodup
  ends : ∃ blockValue, store[block]? = some blockValue ∧ blockValue.typeID = .VmBlock ∧
    blockValue.firstInstruction = linked.head? ∧ blockValue.lastInstruction = linked.getLast?
  member : ∀ (index instruction : Nat), linked[index]? = some instruction →
    ∃ inst, store[instruction]? = some inst ∧ inst.typeID = .VmInstruction ∧
      inst.parent = some block ∧
      inst.prevSibling = (if index = 0 then none else linked[index - 1]?) ∧
      inst.nextSibling = linked[index + 1]?

/-- Two values that agree in everything but their users and the pointers of
the sibling and instruction lists. -/
def VmValue.sameShape (a b : VmValue) : Prop :=
  b.typeID = a.typeID ∧ b.type = a.type ∧ b.hasSideEffects = a.hasSideEffects ∧
    b.cmd = a.cmd ∧ b.arguments = a.arguments ∧ b.parent = a.parent

/-- A state of the IR in which the removals find what they expect.  `lists`
gives the instruction list of each block, `rank` orders the values so that an
operand ranks below its instruction, and `limit` bounds the ranks of the
operands that the last two conditions speak about.
Every block has its list as a doubly linked list; only blocks have
instructions; every operand of a listed instruction is a value other than a
block, of lower rank, and, when it is an instruction without side effects of a
rank below the limit, it is listed in its parent; and for every listed
instruction and every value of a rank below the limit, the number of operand
slots of the instruction that hold the value is the number of occurrences of
the instruction in the users of the value. -/
structure VmValue.Clean (rank : Nat → Nat) (limit : Nat) (lists : Nat → List Nat)
    (store : List VmValue) : Prop where
  blocks : ∀ (block : Nat) (blockValue : VmValue), store[block]? = some blockValue →
    blockValue.typeID = .VmBlock → VmValue.Linked store block (lists block)
  owners : ∀ (block instruction : Nat), instruction ∈ lists block →
    ∃ blockValue, store[block]? = some blockValue ∧ blockValue.typeID = .VmBlock
  operands : ∀ (block instruction : Nat) (inst : VmValue), instruction ∈ lists block →
    store[instruction]? = some inst → ∀ argument ∈ inst.arguments,
      ∃ value, store[argument]? = some value ∧ rank argument < rank instruction ∧
        value.typeID ≠ .VmBlock ∧
        (rank argument < limit → value.typeID = .VmInstruction →
          value.hasSideEffects = false →
          ∃ parent, value.parent = some parent ∧ argument ∈ lists parent)
  usedef : ∀ (block instruction : Nat) (inst : VmValue), instruction ∈ lists block →
    store[instruction]? = some inst →
    ∀ (operand : Nat) (value : VmValue), store[operand]? = some value → rank operand < limit →
      inst.arguments.count operand = value.users.count instruction

/-- What the removals that start at values of a rank of at most `top` do to a
state: the values keep their shape, and above `top` their users; empty users
stay empty; the lists of the blocks only lose instructions; an instruction
that a list loses has a rank of at most `top`, no users and no side effects;
and an instruction that stays in its list with other users than before has
users left or has side effects. -/
structure RemoveUse.Cascade (rank : Nat → Nat) (top : Nat) (lists lists' : Nat → List Nat)
    (store store' : List VmValue) : Prop where
  length : store'.length = store.length
  shape : ∀ (pointer : Nat) (old : VmValue), store[pointer]? = some old →
    ∃ new, store'[pointer]? = some new ∧ VmValue.sameShape old new ∧
      (top < rank pointer → new.users = old.users) ∧ (old.users = [] → new.users = [])
  sub : ∀ (block instruction : Nat), instruction ∈ lists' block → instruction ∈ lists block
  removed : ∀ (block instruction : Nat), instruction ∈ lists block →
    instruction ∉ lists' block →
    rank instruction ≤ top ∧
      ∃ value, store'[instruction]? = some value ∧ value.users = [] ∧
        value.hasSideEffects = false
  kept : ∀ (block instruction : Nat) (old new : VmValue), instruction ∈ lists' block →
    store[instruction]? = some old → store'[instruction]? = some new →
    new.users = old.users ∨ new.users ≠ [] ∨ new.hasSideEffects = true

/-- What `RemoveUse(user)` of the value `value` does to a clean state, for
enough fuel: the call returns a clean state after a cascade from the rank of
the value; the users of the value are the old users without one occurrence of
the user; the users of every value hold a surviving value as often as before,
but for the user removed from the value; a call that leaves users or meets
side effects changes nothing else; and a call that empties the users of an
instruction without side effects takes it out of the lists and out of the users
of every other value, once for each operand slot that holds the value. -/
def RemoveUse.Removes (rank : Nat → Nat) (limit : Nat) (value : Nat) : Prop :=
  ∀ (lists : Nat → List Nat) (store : List VmValue) (user : Nat) (v : VmValue) (fuel : Nat),
    VmValue.Clean rank limit lists store → store[value]? = some v → rank value ≤ limit →
    (rank value < limit → ∀ block, user ∉ lists block) → user ≠ value →
    v.typeID ≠ .VmBlock →
    (v.typeID = .VmInstruction → v.hasSideEffects = false →
      ∃ parent, v.parent = some parent ∧ value ∈ lists parent) →
    2 * rank value + 2 ≤ fuel →
    ∃ (store' : List VmValue) (lists' : Nat → List Nat),
      RemoveUse fuel store value user = some (.ok store') ∧
      VmValue.Clean rank limit lists' store' ∧
      RemoveUse.Cascade rank (rank value) lists lists' store store' ∧
      (∃ new, store'[value]? = some new ∧ new.users = RemoveUse.erase v.users user) ∧
      (∀ (pointer x : Nat) (old new : VmValue), store[pointer]? = some old →
        store'[pointer]? = some new → (∀ block, x ∈ lists block → x ∈ lists' block) →
        new.users.count x =
          if pointer = value ∧ x = user then old.users.count x - 1 else old.users.count x) ∧
      (RemoveUse.erase v.users user ≠ [] ∨ v.hasSideEffects = true →
        store' = store.set value { v with users := RemoveUse.erase v.users user } ∧
          lists' = lists) ∧
      (RemoveUse.erase v.users user = [] → v.hasSideEffects = false →
        ∀ block, value ∉ lists' block) ∧
      (RemoveUse.erase v.users user = [] → v.hasSideEffects = false →
        v.typeID = .VmInstruction →
        ∀ (pointer : Nat) (old new : VmValue), pointer ≠ value → store[pointer]? = some old →
          store'[pointer]? = some new →
          new.users.count value = old.users.count value - v.arguments.count pointer)

/-! ## Number literals -/

/-- The syntax node `SynNumber`: the characters of the number and of its
suffix.  A number is a slice of the source text: `next` holds the characters
of the text that follow the slice, which the loops over leading zeros and
`ParseDouble` may read. -/
structure SynNumber where
  value : List Char
  suffix : List Char := []
  next : List Char := []
  deriving DecidableEq, Repr

/-- The conversion of an integer to `int`: the value of its low 32 bits as a
signed number. -/
def toInt32 (x : Int) : Int := (x + 2147483648) % 4294967296 - 2147483648

/-- The conversion of an `unsigned long long` to `long long`. -/
def toInt64 (bits : Nat) : Int :=
  if bits % 18446744073709551616 < 9223372036854775808 then
    ((bits % 18446744073709551616 : Nat) : Int)
  else ((bits % 18446744073709551616 : Nat) : Int) - 18446744073709551616

/-- The test `isDigit` of the lexer for a decimal digit; it is declared in a
header that is not part of the sources. -/
def isDigit (c : Char) : Bool := decide ('0' ≤ c ∧ c ≤ '9')

/-- The digit that `ParseLong` computes from a character:
`(*p >= '0' && *p <= '9') ? *p - '0' : (*p & ~0x20) - 'A' + 10`.  For a
character above 127 the value depends on the signedness of `char`; with
either signedness it is not a digit of a base up to 16. -/
def ParseLong.digit (c : Char) : Int :=
  if '0' ≤ c ∧ c ≤ '9' then (c.toNat : Int) - 48
  else ((c.toNat - Nat.land c.toNat 32 : Nat) : Int) - 65 + 10

/-- The loop of `ParseLong` over the characters from `s` to `e`: `res` is an
`unsigned long long`, so `res * base + digit` is taken modulo 2^64. -/
def ParseLong.loop (base : Nat) : List Char → Nat → Outcome Nat
  | [], res => .ok res
  | c :: rest, res =>
    if ParseLong.digit c < 0 ∨ ParseLong.digit c ≥ base then
      .stop "ERROR: digit is not allowed in base"
    else
      ParseLong.loop base rest ((res * base + (ParseLong.digit c).toNat) % 18446744073709551616)

/-- The routine `ParseLong(ctx, s, e, base)` on the characters from `s` to
`e`: the result is returned as a `long long`. -/
def ParseLong (text : List Char) (base : Nat) : Outcome Int :=
  (ParseLong.loop base text 0).bind fun res => .ok (toInt64 res)

/-- The loop `while(value.begin[pos] == '0') pos++` from the position `start`
of the text: the position of the first character that is not a zero. -/
def AnalyzeNumber.skipZeros (text : List Char) (start : Nat) : Outcome Nat :=
  if start + ((text.drop start).takeWhile (fun c => c = '0')).length < text.length then
    .ok (start + ((text.drop start).takeWhile (fun c => c = '0')).length)
  else .undefined "read outside the source text"

/-- The literal that the hexadecimal, binary and octal branches of
`AnalyzeNumber` build: of type `int` when `int(num) == num`, of type `long`
otherwise. -/
def AnalyzeNumber.integer (source : Option Nat) (num : Int) : ExprBase :=
  if toInt32 num = num then .integerLiteral source .tInt num
  else .integerLiteral source .tLong num

/-- The routine `AnalyzeNumber`.  `ParseDouble` is the routine of that name on
the text from the start of the number, with the double given by its bit
pattern, and `narrow` is the conversion `float(num)` of a double. -/
def AnalyzeNumber (ParseDouble : List Char → Nat) (narrow : Nat → Nat) (source : Option Nat)
    (syntax_ : SynNumber) : Outcome ExprBase :=
  let value := syntax_.value
  let text := syntax_.value ++ syntax_.next
  if value.length > 1 ∧ value[1]? = some 'x' then
    if value.length = 2 then .stop "ERROR: '0x' must be followed by number"
    else
      (AnalyzeNumber.skipZeros text 2).bind fun pos =>
      if toInt32 ((value.length : Int) - pos) > 16 then
        .stop "ERROR: overflow in hexadecimal constant"
      else
        (ParseLong (value.drop pos) 16).bind fun num =>
          .ok (AnalyzeNumber.integer source num)
  else if !value.any (fun c => c = '.' || c = 'e') then
    if syntax_.suffix = ['b'] then
      (AnalyzeNumber.skipZeros text 0).bind fun pos =>
      if toInt32 ((value.length : Int) - pos) > 64 then
        .stop "ERROR: overflow in binary constant"
      else
        (ParseLong (value.drop pos) 2).bind fun num =>
          .ok (AnalyzeNumber.integer source num)
    else if syntax_.suffix = ['l'] then
      (ParseLong value 10).bind fun num => .ok (.integerLiteral source .tLong num)
    else if syntax_.suffix ≠ [] then .stop "ERROR: unknown number suffix"
    else if value.length > 1 ∧ value[0]? = some '0' ∧ (value[1]?.map isDigit) = some true then
      (AnalyzeNumber.skipZeros text 0).bind fun pos =>
      if toInt32 ((value.length : Int) - pos) > 22
          ∨ (toInt32 ((value.length : Int) - pos) > 21 ∧ text[pos]? ≠ some '1') then
        .stop "ERROR: overflow in octal constant"
      else
        (ParseLong value 8).bind fun num => .ok (AnalyzeNumber.integer source num)
    else
      (ParseLong value 10).bind fun num =>
        if toInt32 num = num then .ok (.integerLiteral source .tInt num)
        else .stop "ERROR: overflow in decimal constant"
  else if syntax_.suffix = ['f'] then
    .ok (.rationalLiteral source .tFloat (narrow (ParseDouble text)))
  else if syntax_.suffix ≠ [] then .stop "ERROR: unknown number suffix"
  else .ok (.rationalLiteral source .tDouble (ParseDouble text))

/-- The mathematical value of a string of decimal digits. -/
def decimalValue (text : List Char) : Nat :=
  text.foldl (fun value c => value * 10 + (c.toNat - 48)) 0

/-! ## The size of a type -/

mutual
/-- The number of descriptors that the unification of generic types can visit
in a type: the type itself, the element type of a reference or an array, the
return and argument types of a function type, and the generic arguments of a
class or a generic class. -/
def TypeBase.nodes : TypeBase → Nat
  | .ref subType => subType.nodes + 1
  | .array subType _ => subType.nodes + 1
  | .unsizedArray subType => subType.nodes + 1
  | .function returnType arguments => returnType.nodes + arguments.nodes + 1
  | .cls _ _ generics _ => generics.nodes + 1
  | .genericClass _ generics => generics.nodes + 1
  | _ => 1
/-- The number of descriptors in the types of a type list. -/
def TypeList.nodes : TypeList → Nat
  | .nil => 0
  | .cons type next => type.nodes + next.nodes
/-- The number of descriptors in the types of an alias list. -/
def MatchList.nodes : MatchList → Nat
  | .nil => 0
  | .cons _ type next => type.nodes + next.nodes
end

/-! ## IR types of source types -/

/-- The constant `VmType::Label`. -/
def VmType.Label : VmType := { type := .VM_TYPE_LABEL, size := 4 }

/-- The constant `VmType::Pointer`; `ptrSize` is `NULLC_PTR_SIZE`. -/
def VmType.Pointer (ptrSize : Nat) : VmType := { type := .VM_TYPE_POINTER, size := ptrSize }

/-- The constant `VmType::FunctionRef`: context and id. -/
def VmType.FunctionRef (ptrSize : Nat) : VmType :=
  { type := .VM_TYPE_FUNCTION_REF, size := ptrSize + 4 }

/-- The constant `VmType::ArrayRef`: pointer and length. -/
def VmType.ArrayRef (ptrSize : Nat) : VmType :=
  { type := .VM_TYPE_ARRAY_REF, size := ptrSize + 4 }

/-- The constant `VmType::AutoRef`: type and pointer. -/
def VmType.AutoRef (ptrSize : Nat) : VmType :=
  { type := .VM_TYPE_AUTO_REF, size := 4 + ptrSize }

/-- The constant `VmType::AutoArray`: type, pointer and length. -/
def VmType.AutoArray (ptrSize : Nat) : VmType :=
  { type := .VM_TYPE_AUTO_ARRAY, size := 4 + ptrSize + 4 }

/-- Modelled from the spec: the IR type `Struct(bytes)` (section 4.6);
`VmType::Struct` is declared in a header that is not part of the sources. -/
def VmType.Struct (size : Nat) : VmType := { type := .VM_TYPE_STRUCT, size := size }

/-- The routine `GetVmType`.  `maxTypeSize` is the constant
`NULLC_MAX_TYPE_SIZE`, which is defined outside the sources.  A failed
assertion is an undefined outcome. -/
def GetVmType (ctx : ExpressionContext) (maxTypeSize : Nat) (type : TypeBase) : Outcome VmType :=
  if type = .tVoid then .ok VmType.Void
  else if type = .tBool ∨ type = .tChar ∨ type = .tShort ∨ type = .tInt then .ok VmType.Int
  else if type = .tLong then .ok VmType.Long
  else if type = .tFloat ∨ type = .tDouble then .ok VmType.Double
  else if type.isRef then .ok (VmType.Pointer ctx.ptrSize)
  else if type.isFunction then .ok (VmType.FunctionRef ctx.ptrSize)
  else if type.isUnsizedArray then .ok (VmType.ArrayRef ctx.ptrSize)
  else if type = .tAutoRef then .ok (VmType.AutoRef ctx.ptrSize)
  else if type = .tAutoArray then .ok (VmType.AutoArray ctx.ptrSize)
  else if type = .tTypeID then .ok VmType.Int
  else if type.isArray ∨ type.isClass then
    if type.isClass ∧ type.size ctx = 0 then .ok VmType.Int
    else if type.size ctx % 4 ≠ 0 then .undefined "assertion failed: type->size % 4 == 0"
    else if type.size ctx = 0 then .undefined "assertion failed: type->size != 0"
    else if ¬ type.size ctx < maxTypeSize then
      .undefined "assertion failed: type->size < NULLC_MAX_TYPE_SIZE"
    else .ok (VmType.Struct (type.size ctx))
  else .undefined "assertion failed: unknown type"

/-- The routine `CheckType(ctx, expr, value)`; `exprType` is `expr->type`. -/
def CheckType (ctx : ExpressionContext) (maxTypeSize : Nat) (store : List VmValue)
    (exprType : TypeBase) (value : Nat) : Outcome Nat :=
  (GetVmType ctx maxTypeSize exprType).bind fun type =>
  (VmValue.read store value).bind fun v =>
  if type = v.type then .ok value else .undefined "assertion failed: exprType == value->type"

/-! ## Construction of instructions -/

/-- The method `VmBlock::AddInstruction`.  The pointers have the static types
`VmBlock*` and `VmInstruction*`, so the two objects are of these classes. -/
def AddInstruction (store : List VmValue) (block instruction : Nat) : Outcome (List VmValue) :=
  (VmValue.read store block).bind fun blockValue =>
  (VmValue.read store instruction).bind fun inst =>
  if blockValue.typeID ≠ .VmBlock ∨ inst.typeID ≠ .VmInstruction then
    .undefined "pointer to an object of another class"
  else if inst.parent ≠ none then .undefined "assertion failed: instruction->parent == NULL"
  else
    let store := store.set instruction { inst with parent := some block }
    match blockValue.firstInstruction with
    | none =>
      .ok (store.set block
        { blockValue with firstInstruction := some instruction,
                          lastInstruction := some instruction })
    | some _ =>
      match blockValue.lastInstruction with
      | none => .undefined "null dereference"
      | some last =>
        (VmValue.read store last).bind fun lastValue =>
        let store := store.set last { lastValue with nextSibling := some instruction }
        (VmValue.read store instruction).bind fun inst =>
        let store := store.set instruction { inst with prevSibling := some last }
        (VmValue.read store block).bind fun blockValue =>
        .ok (store.set block { blockValue with lastInstruction := some instruction })

/-- The routine `CreateInstruction(module, type, cmd, first, second, third)`:
the pointer to the new instruction and the module after the call. -/
def CreateInstruction (module : VmModule) (type : VmType) (cmd : VmInstructionType)
    (first second third : Option Nat) : Outcome (Nat × VmModule) :=
  match module.currentBlock with
  | none => .undefined "assertion failed: module->currentBlock"
  | some block =>
    let inst := module.values.length
    let store := module.values ++ [{ typeID := .VmInstruction, type := type, cmd := cmd }]
    (AddArgument.optional store inst first).bind fun store =>
    (AddArgument.optional store inst second).bind fun store =>
    (AddArgument.optional store inst third).bind fun store =>
    (VmValue.read store inst).bind fun value =>
    (AddInstruction (store.set inst { value with hasSideEffects := HasSideEffects cmd })
      block inst).bind fun store =>
    .ok (inst, { module with values := store,
                             nextInstructionId := module.nextInstructionId + 1 })

/-- The routine `CreateConstantPointer`. -/
def CreateConstantPointer (ptrSize : Nat) (store : List VmValue) (value : Int) :
    Nat × List VmValue :=
  (store.length,
    store ++ [{ typeID := .VmConstant, type := VmType.Pointer ptrSize, iValue := value }])

/-- The command `VM_INST_LOAD_POINTER`: `VM_INST_LOAD_LONG` when `_M_X64` is
defined and `VM_INST_LOAD_INT` otherwise. -/
def VM_INST_LOAD_POINTER (x64 : Bool) : VmInstructionType :=
  if x64 then .VM_INST_LOAD_LONG else .VM_INST_LOAD_INT

/-- The routine `CreateLoad(ctx, module, type, address)`: the pointer to the
value of the load and the module after the call.  The assertion
`type->size != 0` stands after the return for the size 0 and cannot fail. -/
def CreateLoad (ctx : ExpressionContext) (maxTypeSize : Nat) (x64 : Bool) (module : VmModule)
    (type : TypeBase) (address : Nat) : Outcome (Nat × VmModule) :=
  if type = .tBool ∨ type = .tChar then
    CreateInstruction module VmType.Int .VM_INST_LOAD_BYTE (some address) none none
  else if type = .tShort then
    CreateInstruction module VmType.Int .VM_INST_LOAD_SHORT (some address) none none
  else if type = .tInt then
    CreateInstruction module VmType.Int .VM_INST_LOAD_INT (some address) none none
  else if type = .tFloat then
    CreateInstruction module VmType.Double .VM_INST_LOAD_FLOAT (some address) none none
  else if type = .tDouble then
    CreateInstruction module VmType.Double .VM_INST_LOAD_DOUBLE (some address) none none
  else if type = .tLong then
    CreateInstruction module VmType.Long .VM_INST_LOAD_LONG (some address) none none
  else if type.isRef then
    CreateInstruction module (VmType.Pointer ctx.ptrSize) (VM_INST_LOAD_POINTER x64)
      (some address) none none
  else if type.isFunction then
    CreateInstruction module (VmType.FunctionRef ctx.ptrSize) .VM_INST_LOAD_STRUCT
      (some address) none none
  else if type.isUnsizedArray then
    CreateInstruction module (VmType.ArrayRef ctx.ptrSize) .VM_INST_LOAD_STRUCT
      (some address) none none
  else if type = .tAutoRef then
    CreateInstruction module (VmType.AutoRef ctx.ptrSize) .VM_INST_LOAD_STRUCT
      (some address) none none
  else if type = .tAutoArray then
    CreateInstruction module (VmType.AutoArray ctx.ptrSize) .VM_INST_LOAD_STRUCT
      (some address) none none
  else if type = .tTypeID then
    CreateInstruction module VmType.Int .VM_INST_LOAD_INT (some address) none none
  else if type.size ctx = 0 then
    .ok ((CreateConstantInt module.values 0).1,
      { module with values := (CreateConstantInt module.values 0).2 })
  else if type.size ctx % 4 ≠ 0 then .undefined "assertion failed: type->size % 4 == 0"
  else if ¬ type.size ctx < maxTypeSize then
    .undefined "assertion failed: type->size < NULLC_MAX_TYPE_SIZE"
  else
    CreateInstruction module (VmType.Struct (type.size ctx)) .VM_INST_LOAD_STRUCT
      (some address) none none

/-- The routine `CreateCompareEqual(module, lhs, rhs)`. -/
def CreateCompareEqual (module : VmModule) (lhs rhs : Nat) : Outcome (Nat × VmModule) :=
  (VmValue.read module.values lhs).bind fun lhsValue =>
  (VmValue.read module.values rhs).bind fun rhsValue =>
  if !(decide (lhsValue.type = VmType.Int) || decide (lhsValue.type = VmType.Double)
      || decide (lhsValue.type = VmType.Long)) then
    .undefined "assertion failed: lhs->type is Int, Double or Long"
  else if lhsValue.type ≠ rhsValue.type then
    .undefined "assertion failed: lhs->type == rhs->type"
  else CreateInstruction module VmType.Int .VM_INST_EQUAL (some lhs) (some rhs) none

/-- The routine `CreateCompareNotEqual(module, lhs, rhs)`; `ptrSize` is
`NULLC_PTR_SIZE`. -/
def CreateCompareNotEqual (ptrSize : Nat) (module : VmModule) (lhs rhs : Nat) :
    Outcome (Nat × VmModule) :=
  (VmValue.read module.values lhs).bind fun lhsValue =>
  (VmValue.read module.values rhs).bind fun rhsValue =>
  if (lhsValue.type = VmType.FunctionRef ptrSize ∨ lhsValue.type = VmType.ArrayRef ptrSize
        ∨ lhsValue.type = VmType.AutoRef ptrSize)
      ∧ rhsValue.type = VmType.Pointer ptrSize ∧ rhsValue.typeID = .VmConstant
      ∧ rhsValue.iValue = 0 then
    CreateInstruction module VmType.Int .VM_INST_NOT_EQUAL (some lhs) (some rhs) none
  else if !(decide (lhsValue.type = VmType.Int) || decide (lhsValue.type = VmType.Double)
      || decide (lhsValue.type = VmType.Long)) then
    .undefined "assertion failed: lhs->type is Int, Double or Long"
  else if lhsValue.type ≠ rhsValue.type then
    .undefined "assertion failed: lhs->type == rhs->type"
  else CreateInstruction module VmType.Int .VM_INST_NOT_EQUAL (some lhs) (some rhs) none

/-- What the construction of the instruction `inst` leaves alone in the other
values: their number and, for each of them, its class, its IR type, its
integer value and the ends of its instruction list. -/
def CreateInstruction.Frame (inst : Nat) (store after : List VmValue) : Prop :=
  after.length = store.length ∧
  ∀ (p : Nat) (v : VmValue), p ≠ inst → store[p]? = some v →
    ∃ v', after[p]? = some v' ∧ v'.typeID = v.typeID ∧ v'.type = v.type ∧
      v'.iValue = v.iValue ∧ v'.firstInstruction = v.firstInstruction ∧
      v'.lastInstruction = v.lastInstruction

/-! ## The rating table of the specification -/

/-- The rating table as the specification words it, one constructor per row:
`RatingRow formal actual n` says that passing an actual of type `actual` for a
formal of type `formal` is listed with the addition `n`.  Every row but the
first is about two different types.  The rows for `nullptr` are the only rows
about an actual of the `nullptr` type, and a value passed as `auto ref` is a
value that is neither a reference nor `nullptr`: this is the reading under
which the rows about `auto ref` do not contradict each other. -/
inductive RatingRow : TypeBase → TypeBase → Nat → Prop where
  | exact {type : TypeBase} : RatingRow type type 0
  | numeric {formal actual : TypeBase} : IsNumericType formal = true →
      IsNumericType actual = true → actual ≠ formal → RatingRow formal actual 1
  | arrayToUnsized {type : TypeBase} {n : Nat} :
      RatingRow (.unsizedArray type) (.array type n) 2
  | derivedRefToBaseRef {derived base : TypeBase} : derived.isClass = true →
      base.isClass = true → derived ≠ base → IsDerivedFrom derived base = true →
      RatingRow (.ref base) (.ref derived) 5
  | baseRefToDerivedRef {derived base : TypeBase} : derived.isClass = true →
      base.isClass = true → derived ≠ base → IsDerivedFrom derived base = true →
      RatingRow (.ref derived) (.ref base) 10
  | nullToAutoRef : RatingRow .tAutoRef .tNullPtr 5
  | nullToAutoArray : RatingRow .tAutoArray .tNullPtr 5
  | valueToRef {type : TypeBase} : type ≠ .tNullPtr → RatingRow (.ref type) type 5
  | refToAutoRef {type : TypeBase} : RatingRow .tAutoRef (.ref type) 5
  | valueToAutoRef {type : TypeBase} : type.isRef = false → type ≠ .tNullPtr →
      type ≠ .tAutoRef → RatingRow .tAutoRef type 10
  | arrayToAutoArray {type : TypeBase} {n : Nat} : RatingRow .tAutoArray (.array type n) 5
  | unsizedToAutoArray {type : TypeBase} : RatingRow .tAutoArray (.unsizedArray type) 5

/-- A candidate rated by the table: the formals, the argument handles of the
instance type and the actuals have the same length, no formal is explicit or
generic, every actual has a type, and position by position the pair of formal
type and actual type is a row of the table with the addition listed in `adds`. -/
inductive TableRated : List ArgumentData → TypeList → List ArgumentData → List Nat → Prop where
  | nil : TableRated [] .nil [] []
  | cons {formal actual : ArgumentData} {expectedType actualType : TypeBase} {n : Nat}
      {formals actuals : List ArgumentData} {types : TypeList} {adds : List Nat} :
      formal.isExplicit = false → formal.type = some expectedType →
      expectedType.isGeneric = false → actual.type = some actualType →
      RatingRow expectedType actualType n → TableRated formals types actuals adds →
      TableRated (formal :: formals) (.cons expectedType types) (actual :: actuals) (n :: adds)

/-- The conversions that `GetFunctionRating` rates as compatible for a formal
that is neither generic nor explicit although the rating table does not list
them: `nullptr` to a reference, an unsized array or a function type; a function
or function-set value for which `GetFunctionForType` finds a function of the
formal function type; a reference to a sized array passed as a reference to the
unsized array of the same element type; a value of a derived class passed as a
value of a base class. -/
inductive AcceptedBeyondTable (ctx : ExpressionContext) : TypeBase → ArgumentData → Prop where
  | nullToPointer {expectedType : TypeBase} {actual : ArgumentData} :
      actual.type = some .tNullPtr →
      (expectedType.isRef = true ∨ expectedType.isUnsizedArray = true
        ∨ expectedType.isFunction = true) →
      AcceptedBeyondTable ctx expectedType actual
  | functionValue {target : TypeFunction} {actual : ArgumentData} :
      functionValueMatches ctx actual target = true →
      AcceptedBeyondTable ctx target.toType actual
  | arrayRefToUnsizedArrayRef {type : TypeBase} {n : Nat} {actual : ArgumentData} :
      actual.type = some (.ref (.array type n)) →
      AcceptedBeyondTable ctx (.ref (.unsizedArray type)) actual
  | derivedToBase {derived base : TypeBase} {actual : ArgumentData} :
      actual.type = some derived → derived.isClass = true → base.isClass = true →
      IsDerivedFrom derived base = true → AcceptedBeyondTable ctx base actual

/-! ## Example inputs -/

/-- The names of the types in the examples. -/
def exampleTypeName : TypeBase → String
  | .tVoid => "void"
  | .tBool => "bool"
  | .tChar => "char"
  | .tShort => "short"
  | .tInt => "int"
  | .tLong => "long"
  | .tFloat => "float"
  | .tDouble => "double"
  | .cls name _ _ _ => name
  | .ref subType => exampleTypeName subType ++ " ref"
  | _ => "type"

/-- The names of the binary operators in the examples. -/
def exampleOpName : SynBinaryOpType → String
  | .SYN_BINARY_OP_ADD => "+"
  | .SYN_BINARY_OP_SUB => "-"
  | .SYN_BINARY_OP_MUL => "*"
  | .SYN_BINARY_OP_DIV => "/"
  | .SYN_BINARY_OP_MOD => "%"
  | .SYN_BINARY_OP_POW => "**"
  | .SYN_BINARY_OP_SHL => "<<"
  | .SYN_BINARY_OP_SHR => ">>"
  | .SYN_BINARY_OP_LESS => "<"
  | .SYN_BINARY_OP_LESS_EQUAL => "<="
  | .SYN_BINARY_OP_GREATER => ">"
  | .SYN_BINARY_OP_GREATER_EQUAL => ">="
  | .SYN_BINARY_OP_EQUAL => "=="
  | .SYN_BINARY_OP_NOT_EQUAL => "!="
  | .SYN_BINARY_OP_BIT_AND => "&"
  | .SYN_BINARY_OP_BIT_OR => "|"
  | .SYN_BINARY_OP_BIT_XOR => "^"
  | .SYN_BINARY_OP_LOGICAL_AND => "&&"
  | .SYN_BINARY_OP_LOGICAL_OR => "||"
  | .SYN_BINARY_OP_LOGICAL_XOR => "^^"
  | .SYN_BINARY_OP_UNKNOWN => "unknown"

/-- A context of a 32-bit build on which the functions are evaluated in the
examples: four-byte pointers, the sizes of the primitive types, no function
found by `GetFunctionForType`, a cast that wraps the value in a cast node, and
a generic instance type whose argument types are the types of the actuals.  No
name has overloads, a node of type `int` with id `n`, also under a numerical
cast, evaluates to the literal `n`,
the number of an `align` clause evaluates to itself, a condition is true when
its handle is not zero, a variable is padded up to its alignment, and the
syntax node with handle `n` is analysed to a node of type `int` with id `n`. -/
def exampleContext : ExpressionContext :=
  { ptrSize := 4
    typeSize := fun type =>
      match type with
      | .tBool => 1
      | .tChar => 1
      | .tShort => 2
      | .tInt => 4
      | .tLong => 8
      | .tFloat => 4
      | .tDouble => 8
      | .tTypeID => 4
      | .tFunctionID => 4
      | .ref _ => 4
      | .unsizedArray _ => 8
      | .function _ _ => 8
      | .tAutoRef => 8
      | .tAutoArray => 12
      | _ => 0
    typeAlignment := fun _ => 4
    GetFunctionForType := fun _ _ => false
    CreateCast := fun source value type _ => .ok (.typeCast source type value .EXPR_CAST_NUMERICAL)
    GetGenericFunctionInstanceType := fun _ function arguments aliases =>
      .ok (some { returnType := function.type.returnType,
                  arguments := TypeList.ofList (arguments.filterMap ArgumentData.type) },
           aliases)
    typeName := exampleTypeName
    GetOpName := exampleOpName
    CreateVariableAccess := fun _ _ => .ok none
    CreateFunctionCall := fun _ _ _ _ => .ok none
    FunctionForType := fun _ _ => none
    CreateFunctionContextAccess := fun source _ => .ok (.nullptrLiteral source (.ref .tVoid))
    EvaluateInteger := fun value =>
      match value with
      | .node _ .tInt id => some (id : Int)
      | .typeCast _ _ (.node _ .tInt id) .EXPR_CAST_NUMERICAL => some (id : Int)
      | _ => none
    CreateTemporary := fun source _ => .ok (0, .node source .tVoid 0)
    EvaluateNumber := fun number => some (number : Int)
    EvaluateCondition := fun condition => .ok (some (condition != 0))
    GetAlignmentOffset := fun offset alignment =>
      if alignment = 0 then 0 else (alignment - offset % alignment) % alignment
    AnalyzeExpression := fun syntax_ => .ok (.node (some syntax_) .tInt syntax_) }

/-- A formal named `name` of type `type` without a default value. -/
def formalOf (name : String) (type : TypeBase) : ArgumentData :=
  { source := some 0, isExplicit := false, name := name, type := some type, value := none }

/-- A formal named `name` of type `type` whose default value is the expression `id`. -/
def formalWithDefault (name : String) (type : TypeBase) (id : Nat) : ArgumentData :=
  { source := some 0, isExplicit := false, name := name, type := some type,
    value := some (.node (some id) type id) }

/-- An actual of type `type` whose value is the expression `id`, passed under
`name` (the empty name for a positional actual). -/
def actualOf (name : String) (type : TypeBase) (id : Nat) : ArgumentData :=
  { source := some id, isExplicit := false, name := name, type := some type,
    value := some (.node (some id) type id) }

/-- A concrete function `name` with the given formals, declared outside any class. -/
def functionOf (uniqueId : Nat) (name : String) (returnType : TypeBase)
    (arguments : List ArgumentData) : FunctionData :=
  { uniqueId := uniqueId, name := name,
    type := { returnType := returnType,
              arguments := TypeList.ofList (arguments.filterMap ArgumentData.type) },
    generics := .nil, arguments := arguments, ownerType := none }

/-- The context expression of a function that is not a member of a class:
a null pointer literal of type `void ref`. -/
def noContext : ExprBase := .nullptrLiteral none (.ref .tVoid)

/-- A generic function `name` with the given formals, declared outside any
class; the formals of type `generic` make its type generic. -/
def genericFunctionOf (uniqueId : Nat) (name : String) (arguments : List ArgumentData) :
    FunctionData :=
  { uniqueId := uniqueId, name := name,
    type := { returnType := .tAuto,
              arguments := TypeList.ofList (arguments.filterMap ArgumentData.type) },
    generics := .nil, arguments := arguments, ownerType := none }

/-- The generic function `int f(generic a)` for the examples, declared outside
any class. -/
def exampleGenericFunction : FunctionData :=
  { uniqueId := 2, name := "f",
    type := { returnType := .tInt, arguments := .cons (.generic "generic") .nil },
    generics := .nil, arguments := [formalOf "a" (.generic "generic")], ownerType := none }

/-- An analysis of a function definition for the examples, whose body requests
no instance: the state counts the analysed definitions, the instance list is
returned as it was, and the analysed instance has the instance type, the
parent type and no explicit generic parameters. -/
def exampleAnalyze (formals : List ArgumentData) (state : Nat) (instances : List FunctionData)
    (inst : TypeFunction) (parentType : Option TypeBase) (_aliases : MatchList) :
    Outcome (FunctionData × List FunctionData × Nat) :=
  .ok ({ uniqueId := 100 + state, name := "f", type := inst, generics := .nil,
         arguments := formals, ownerType := parentType }, instances, state + 1)

/-- An analysis of the definition of `int f(generic a)`, whose body is the
call `f(1.5)` followed by `return 1`, at the instance type `int(int)`: the
function of the instance is created first, then the call in its body requests
the instance of the prototype for `double`, whose own body finds that
instance among the functions in scope and requests nothing. -/
def exampleNestedAnalyze (proto : FunctionValue) (state : Nat) (instances : List FunctionData)
    (inst : TypeFunction) (parentType : Option TypeBase) (_aliases : MatchList) :
    Outcome (FunctionData × List FunctionData × Nat) :=
  (CreateGenericFunctionInstance exampleContext (exampleAnalyze [formalOf "a" .tDouble])
      (state + 1) instances proto .nil [actualOf "" .tDouble 2]).bind fun nested =>
    .ok ({ uniqueId := 100 + state, name := "f", type := inst, generics := .nil,
           arguments := [formalOf "a" .tInt], ownerType := parentType },
      nested.2.1, nested.2.2)

/-- A scope without symbols for the examples: the parent and the depth are
given, the scope owns nothing. -/
def exampleScope (parent : Option Nat) (depth : Nat) : ScopeData :=
  { scope := parent, scopeDepth := depth, loopDepth := 0, ownerNamespace := none,
    ownerFunction := none, ownerType := none, globalSize := 0, variables_ := [],
    functions := [], types := [], aliases := [] }

/-- A variable `int` for the examples, with its name hash and the position of
its definition. -/
def exampleVariable (name : String) (nameHash pos : Nat) : VariableData :=
  { alignment := 4, type := .tInt, name := name, offset := 0, uniqueId := nameHash,
    nameHash := nameHash, pos := pos }

/-- A state for the examples with the given scopes and current scope, empty
lookup maps and no owners. -/
def exampleScopes (scopes : List ScopeData) (current : Nat) : ScopeState :=
  { scopes := scopes, scope := some current, variableMap := { entries := [] },
    functionMap := { entries := [] }, typeMap := { entries := [] }, stackSize := [],
    typeSize := [] }

/-- A prototype `void name()` without implementation for the examples. -/
def examplePrototype (name : String) (nameHash : Nat) : FunctionData :=
  { functionOf nameHash name .tVoid [] with nameHash := nameHash, isPrototype := true }

/-- A member function `void g()` of the class `C` for the examples, defined at
position 1. -/
def exampleClassFunction : FunctionData :=
  { functionOf 1 "g" .tVoid [] with
    ownerType := some (.cls "C" none .nil .none), nameHash := 1, pos := 1 }

/-- An enumeration `E` for the examples, defined at position 9 and not
imported. -/
def exampleEnum : ScopedType :=
  { type := .enum "E", nameHash := 9, imported := false, pos := 9 }

/-- Scopes for the examples of `SwitchToScopeAtPoint`: the root scope 0 has the
children 1, which is current, and 2; scope 3 is a child of scope 2.  Scope 2
owns the variables `x` at position 2 and `y` at position 8, the member
function `g` and the enumeration `E`; scope 3 owns the variable `z` at
position 4. -/
def exampleSwitch : ScopeState :=
  exampleScopes
    [exampleScope none 0, exampleScope (some 0) 1,
      { exampleScope (some 0) 1 with
        variables_ := [exampleVariable "x" 2 2, exampleVariable "y" 8 8]
        functions := [exampleClassFunction]
        types := [exampleEnum] },
      { exampleScope (some 2) 2 with variables_ := [exampleVariable "z" 4 4] }] 1

/-- An instruction of type `Int` for the examples, linked into the block 0
between `previous` and `next`. -/
def exampleInstruction (cmd : VmInstructionType) (arguments users : List Nat)
    (previous next : Option Nat) : VmValue :=
  { typeID := .VmInstruction, type := VmType.Int, hasSideEffects := HasSideEffects cmd,
    users := users, cmd := cmd, arguments := arguments, parent := some 0,
    prevSibling := previous, nextSibling := next }

/-- A block for the examples, the value 0, with the instructions 1 to 4 in
this order: 1 is a call, 2 is the negation of 1, 3 is the negation of the
constant 5, and 4 is the negation of 2.  The users lists are consistent with
the operands. -/
def exampleBlock : List VmValue :=
  [{ typeID := .VmBlock, type := VmType.Void, firstInstruction := some 1,
     lastInstruction := some 4 },
   exampleInstruction .VM_INST_CALL [] [2] none (some 2),
   exampleInstruction .VM_INST_NEG [1] [4] (some 1) (some 3),
   exampleInstruction .VM_INST_NEG [5] [] (some 2) (some 4),
   exampleInstruction .VM_INST_NEG [2] [] (some 3) none,
   { typeID := .VmConstant, type := VmType.Int, users := [3], iValue := 7 }]

/-- The example block after the instruction 2 is removed with
`RemoveInstruction`: the block holds the instructions 1, 3 and 4; the removed
instruction keeps its operand, its sibling pointers and its user 4. -/
def exampleRemoved : List VmValue :=
  [{ typeID := .VmBlock, type := VmType.Void, firstInstruction := some 1,
     lastInstruction := some 4 },
   exampleInstruction .VM_INST_CALL [] [] none (some 3),
   exampleInstruction .VM_INST_NEG [1] [4] (some 1) (some 3),
   exampleInstruction .VM_INST_NEG [5] [] (some 1) (some 4),
   exampleInstruction .VM_INST_NEG [2] [] (some 3) none,
   { typeID := .VmConstant, type := VmType.Int, users := [3], iValue := 7 }]

/-- The example block after the instructions 2 and 3 are removed: the block
holds the instructions 1 and 4; the removed instructions keep their operands
and sibling pointers. -/
def exampleUnlinked : List VmValue :=
  [{ typeID := .VmBlock, type := VmType.Void, firstInstruction := some 1,
     lastInstruction := some 4 },
   exampleInstruction .VM_INST_CALL [] [] none (some 4),
   exampleInstruction .VM_INST_NEG [1] [4] (some 1) (some 3),
   exampleInstruction .VM_INST_NEG [5] [] (some 1) (some 4),
   exampleInstruction .VM_INST_NEG [2] [] (some 1) none,
   { typeID := .VmConstant, type := VmType.Int, users := [], iValue := 7 }]

/-- The example block after the instructions 2, 3 and 4 are removed: the next
sibling of the instruction 1 is the removed instruction 3. -/
def exampleRelinked : List VmValue :=
  [{ typeID := .VmBlock, type := VmType.Void, firstInstruction := some 1,
     lastInstruction := some 1 },
   exampleInstruction .VM_INST_CALL [] [] none (some 3),
   exampleInstruction .VM_INST_NEG [1] [] (some 1) (some 3),
   exampleInstruction .VM_INST_NEG [5] [] (some 1) (some 4),
   exampleInstruction .VM_INST_NEG [2] [] (some 1) none,
   { typeID := .VmConstant, type := VmType.Int, users := [], iValue := 7 }]

/-- A block for the examples of the removals, the value 0, with two
instructions: 1 is the negation of the constant 2, and 3 returns 1. -/
def exampleChain : List VmValue :=
  [{ typeID := .VmBlock, type := VmType.Void, firstInstruction := some 1,
     lastInstruction := some 3 },
   exampleInstruction .VM_INST_NEG [2] [3] none (some 3),
   { typeID := .VmConstant, type := VmType.Int, users := [1], iValue := 7 },
   exampleInstruction .VM_INST_RETURN [1] [] (some 1) none]

/-- The instruction lists of the blocks of `exampleChain`. -/
def exampleChainLists (block : Nat) : List Nat :=
  if block = 0 then [1, 3] else []

/-- A rank for the values of `exampleChain`: the constant ranks lowest, and an
instruction ranks above its operand. -/
def exampleChainRank (value : Nat) : Nat :=
  if value = 2 then 0 else value

/-- A module for the examples: the block 0, to which new instructions are
added, a variable address (the pointer constant 1), a function value loaded
from it (the instruction 2 of IR type `FunctionRef`), and the null pointer
constant 3. -/
def exampleModule : VmModule :=
  { values :=
      [{ typeID := .VmBlock, type := VmType.Label, firstInstruction := some 2,
         lastInstruction := some 2 },
       { typeID := .VmConstant, type := VmType.Pointer 4, users := [2], iValue := 16 },
       { typeID := .VmInstruction, type := VmType.FunctionRef 4, cmd := .VM_INST_LOAD_STRUCT,
         arguments := [1], parent := some 0 },
       { typeID := .VmConstant, type := VmType.Pointer 4, iValue := 0 }]
    peepholeOptimizationCount := 0
    currentBlock := some 0
    nextInstructionId := 1 }

/-! ## The loop invariant of the selection -/

/-- What the loop of `SelectBestFunction` maintains after the first `i`
candidates: the ratings array keeps its length and its first `i` entries are
ratings of at most `~0u`; the best concrete rating is at most the rating of
every compatible concrete candidate seen and, unless it is `~0u`, it is the
rating of the stored best function, which is concrete; likewise for the best
generic rating and the stored best generic function. -/
structure SelectInvariant (functions : List FunctionValue) (i : Nat) (s : SelectState) : Prop where
  length_eq : s.ratings.length = functions.length
  best_le : s.bestRating ≤ incompatible
  generic_le : s.bestGenericRating ≤ incompatible
  concrete_ge : ∀ (k : Nat) (v : FunctionValue) (r : Nat), k < i → functions[k]? = some v →
    IsGenericFunction v.function = false → s.ratings[k]? = some r → r ≠ incompatible →
    s.bestRating ≤ r
  generic_ge : ∀ (k : Nat) (v : FunctionValue) (r : Nat), k < i → functions[k]? = some v →
    IsGenericFunction v.function = true → s.ratings[k]? = some r → s.bestGenericRating ≤ r
  best_none : s.bestFunction = none → s.bestRating = incompatible
  best_some : ∀ b, s.bestFunction = some b → ∃ k, k < i ∧ functions[k]? = some b
    ∧ s.ratings[k]? = some s.bestRating ∧ IsGenericFunction b.function = false
    ∧ s.bestRating ≠ incompatible
  generic_none : s.bestGenericFunction = none → s.bestGenericRating = incompatible
  generic_some : ∀ g, s.bestGenericFunction = some g → ∃ k, k < i ∧ functions[k]? = some g
    ∧ s.ratings[k]? = some s.bestGenericRating ∧ IsGenericFunction g.function = true
  rated_le : ∀ (k : Nat) (r : Nat), k < i → s.ratings[k]? = some r → r ≤ incompatible

end NULLC

namespace NULLC

/-! ## Rating -/

/-- A reference type is not its own target type. -/
theorem ref_ne_self (T : TypeBase) : TypeBase.ref T ≠ T := by
  intro h
  have := congrArg sizeOf h
  simp at this

/-- A class found on the base chain of another is that class or a smaller term. -/
theorem IsDerivedFrom_size_aux : ∀ (n : Nat) (type target : TypeBase), sizeOf type ≤ n →
    IsDerivedFrom type target = true → target = type ∨ sizeOf target < sizeOf type := by
  intro n
  induction n with
  | zero =>
    intro type target hn h
    cases type <;> simp at hn
  | succ n ih =>
    intro type target hn h
    cases type <;> try (simp [IsDerivedFrom] at h)
    rename_i name proto generics baseClass
    rcases h with heq | h2
    · exact Or.inl heq
    · right
      cases baseClass with
      | none => simp [IsDerivedFromChain] at h2
      | some base =>
        simp only [IsDerivedFromChain] at h2
        have hsz : sizeOf base ≤ n := by
          simp at hn
          omega
        rcases ih base target hsz h2 with h3 | h3
        · subst h3; simp; omega
        · simp; omega

/-- The target of a successful `IsDerivedFrom` is the class itself or a proper part of it. -/
theorem IsDerivedFrom_size (type target : TypeBase) (h : IsDerivedFrom type target = true) :
    target = type ∨ sizeOf target < sizeOf type :=
  IsDerivedFrom_size_aux (sizeOf type) type target (Nat.le_refl _) h

/-- Two classes that derive from each other are the same class. -/
theorem IsDerivedFrom_antisymm (a b : TypeBase) (h1 : IsDerivedFrom a b = true)
    (h2 : IsDerivedFrom b a = true) : a = b := by
  rcases IsDerivedFrom_size a b h1 with h | h
  · exact h.symm
  · rcases IsDerivedFrom_size b a h2 with h' | h'
    · exact h'
    · omega

/-- One iteration of the rating loop adds what the row of the table lists. -/
theorem GetFunctionRating.argument_of_row (ctx : ExpressionContext) (formal actual : ArgumentData)
    (expectedType actualType : TypeBase) (n : Nat)
    (hexp : formal.isExplicit = false) (hgen : expectedType.isGeneric = false)
    (htype : actual.type = some actualType) (hrow : RatingRow expectedType actualType n) :
    GetFunctionRating.argument ctx formal expectedType actual = some n := by
  cases hrow with
  | exact => simp [GetFunctionRating.argument, htype]
  | numeric hf ha hne =>
    have hne2 : ¬ expectedType = actualType := fun h => hne h.symm
    cases expectedType <;> simp [IsNumericType, IsIntegerType, IsFloatingPointType] at hf <;>
    cases actualType <;> simp [IsNumericType, IsIntegerType, IsFloatingPointType] at ha <;>
    simp_all [GetFunctionRating.argument, TypeBase.isGeneric, TypeBase.isRef,
      TypeBase.isUnsizedArray, TypeBase.isFunction, arrayToUnsizedArray,
      arrayRefToUnsizedArrayRef, derivedRefToBaseRef, baseRefToDerivedRef, derivedToBase,
      typeToTypeRef, isTypeOpt, TypeBase.isClass, TypeBase.asFunction, IsNumericType,
      IsIntegerType, IsFloatingPointType]
  | arrayToUnsized =>
    simp_all [GetFunctionRating.argument, TypeBase.isGeneric, TypeBase.isRef,
      TypeBase.isUnsizedArray, TypeBase.isFunction, arrayToUnsizedArray]
  | derivedRefToBaseRef hd hb hne hder =>
    rename_i derived base
    have hne2 : ¬ base = derived := fun h => hne h.symm
    have hg : base.isGeneric = false := by simpa [TypeBase.isGeneric] using hgen
    cases base <;> simp [TypeBase.isClass] at hb
    simp_all [GetFunctionRating.argument, TypeBase.isGeneric, TypeBase.isRef,
      TypeBase.isUnsizedArray, TypeBase.isFunction, arrayToUnsizedArray,
      arrayRefToUnsizedArrayRef, derivedRefToBaseRef, TypeBase.isClass]
  | baseRefToDerivedRef hd hb hne hder =>
    rename_i derived base
    have hnot : IsDerivedFrom base derived = false := by
      cases h : IsDerivedFrom base derived
      · rfl
      · exact absurd (IsDerivedFrom_antisymm derived base hder h) hne
    cases derived <;> simp [TypeBase.isClass] at hd
    simp_all [GetFunctionRating.argument, TypeBase.isGeneric, TypeBase.isRef,
      TypeBase.isUnsizedArray, TypeBase.isFunction, arrayToUnsizedArray,
      arrayRefToUnsizedArrayRef, derivedRefToBaseRef, baseRefToDerivedRef, TypeBase.isClass]
  | nullToAutoRef =>
    simp_all [GetFunctionRating.argument, TypeBase.isRef, TypeBase.isUnsizedArray,
      TypeBase.isFunction]
  | nullToAutoArray =>
    simp_all [GetFunctionRating.argument, TypeBase.isRef, TypeBase.isUnsizedArray,
      TypeBase.isFunction]
  | valueToRef hnull =>
    have hne : ¬ TypeBase.ref actualType = actualType := ref_ne_self actualType
    have hg : actualType.isGeneric = false := by simpa [TypeBase.isGeneric] using hgen
    have h1 : arrayRefToUnsizedArrayRef (.ref actualType) (some actualType) = false := by
      cases actualType <;> simp [arrayRefToUnsizedArrayRef]
    have h2 : derivedRefToBaseRef (.ref actualType) (some actualType) = false := by
      cases actualType <;> simp [derivedRefToBaseRef, TypeBase.isClass]
    have h3 : baseRefToDerivedRef (.ref actualType) (some actualType) = false := by
      cases actualType <;> simp [baseRefToDerivedRef, TypeBase.isClass]
    simp [GetFunctionRating.argument, htype, hexp, hne, hnull, hgen, h1, h2, h3,
      TypeBase.isGeneric, hg, arrayToUnsizedArray, derivedToBase, TypeBase.isClass,
      TypeBase.isFunction, typeToTypeRef]
  | refToAutoRef =>
    simp_all [GetFunctionRating.argument, TypeBase.isGeneric, TypeBase.isRef,
      TypeBase.isUnsizedArray, TypeBase.isFunction, arrayToUnsizedArray,
      arrayRefToUnsizedArrayRef, derivedRefToBaseRef, baseRefToDerivedRef, derivedToBase,
      typeToTypeRef, isTypeOpt, TypeBase.isClass]
  | valueToAutoRef href hnull hauto =>
    have hne : ¬ TypeBase.tAutoRef = actualType := fun h => hauto h.symm
    simp [GetFunctionRating.argument, htype, hexp, hne, hnull, TypeBase.isGeneric,
      arrayToUnsizedArray, arrayRefToUnsizedArrayRef, derivedRefToBaseRef, baseRefToDerivedRef,
      derivedToBase, typeToTypeRef, isTypeOpt, TypeBase.isClass, TypeBase.isFunction, href]
  | arrayToAutoArray =>
    simp_all [GetFunctionRating.argument, TypeBase.isGeneric, TypeBase.isRef,
      TypeBase.isUnsizedArray, TypeBase.isFunction, arrayToUnsizedArray, isTypeOpt,
      TypeBase.isArray]
  | unsizedToAutoArray =>
    simp_all [GetFunctionRating.argument, TypeBase.isGeneric, TypeBase.isRef,
      TypeBase.isUnsizedArray, TypeBase.isFunction, arrayToUnsizedArray, isTypeOpt,
      TypeBase.isArray]

/-- A candidate rated by the table has as many formals as actuals. -/
theorem TableRated.length_eq {formals actuals : List ArgumentData} {types : TypeList}
    {adds : List Nat} (h : TableRated formals types actuals adds) :
    formals.length = actuals.length := by
  induction h with
  | nil => rfl
  | cons _ _ _ _ _ _ ih => simp [ih]

/-- The rating loop adds up the rows of the table as long as the counter does not wrap. -/
theorem GetFunctionRating.loop_of_table (ctx : ExpressionContext) {formals actuals : List ArgumentData}
    {types : TypeList} {adds : List Nat} (h : TableRated formals types actuals adds) :
    ∀ rating : Nat, rating + adds.sum < 4294967296 →
      GetFunctionRating.loop ctx types formals actuals rating = .ok (rating + adds.sum) := by
  induction h with
  | nil => intro rating _; simp [GetFunctionRating.loop]
  | @cons formal actual expectedType actualType n formals actuals types adds hexp _ hgen htype
      hrow _ ih =>
    intro rating hfit
    simp only [List.sum_cons] at hfit
    have hadd : addU32 rating n = rating + n := by
      unfold addU32
      exact Nat.mod_eq_of_lt (by omega)
    simp only [GetFunctionRating.loop,
      GetFunctionRating.argument_of_row ctx formal actual expectedType actualType n hexp hgen htype hrow,
      hadd]
    rw [ih (rating + n) (by omega)]
    simp [Nat.add_assoc]

/-- Claim C3: for a candidate whose formals are neither generic nor explicit and
an actual list of the same length, where every position is a row of the rating
table (0 for the same type, 1 numeric to another numeric, 2 `Array(T,n)` to
`UnsizedArray(T)`, 5 derived reference to base reference and 10 for the
reverse, 5 `nullptr` to `auto ref` or `auto[]`, 5 a value of type `T` to
`T ref`, 5 a reference to `auto ref`, 10 a non-reference value to `auto ref`,
5 a sized or unsized array to `auto[]`), `GetFunctionRating` returns the sum of
the additions of the rows, provided the sum fits the 32-bit counter. -/
theorem GetFunctionRating_sums_rating_table (ctx : ExpressionContext) (function : FunctionData)
    (inst : TypeFunction) (arguments : List ArgumentData) (adds : List Nat)
    (hrows : TableRated function.arguments inst.arguments arguments adds)
    (hfit : adds.sum < 4294967296) :
    GetFunctionRating ctx function inst arguments = .ok adds.sum := by
  have hlen := hrows.length_eq
  have := GetFunctionRating.loop_of_table ctx hrows 0 (by simpa using hfit)
  simp [GetFunctionRating, hlen, this]

/-- The shape of the types on which the sized-to-unsized branch fires. -/
theorem arrayToUnsizedArray_inv {e a : TypeBase} (h : arrayToUnsizedArray e (some a) = true) :
    ∃ T n, e = .unsizedArray T ∧ a = .array T n := by
  unfold arrayToUnsizedArray at h
  split at h
  · rename_i l r n heq
    simp at h heq
    exact ⟨l, n, rfl, by rw [heq, h]⟩
  · simp at h

/-- An iteration of the rating loop whose conversion is neither in the table nor
among the further accepted conversions ends with `return ~0u`. -/
theorem GetFunctionRating.argument_none (ctx : ExpressionContext) (formal actual : ArgumentData)
    (expectedType actualType : TypeBase)
    (hexp : formal.isExplicit = false) (hgen : expectedType.isGeneric = false)
    (htype : actual.type = some actualType) (hne : actualType ≠ expectedType)
    (hrow : ¬ ∃ n, RatingRow expectedType actualType n)
    (hacc : ¬ AcceptedBeyondTable ctx expectedType actual) :
    GetFunctionRating.argument ctx formal expectedType actual = none := by
  have hne2 : ¬ expectedType = actualType := fun h => hne h.symm
  have c1 : ¬ (actualType = .tNullPtr ∧ (expectedType.isRef = true ∨ expectedType.isUnsizedArray = true ∨ expectedType.isFunction = true)) := by
    rintro ⟨h1, h2⟩
    exact hacc (.nullToPointer (by rw [htype, h1]) h2)
  have c2 : ¬ (actualType = .tNullPtr ∧ (expectedType = .tAutoRef ∨ expectedType = .tAutoArray)) := by
    rintro ⟨h1, h2 | h2⟩
    · exact hrow ⟨5, by rw [h1, h2]; exact .nullToAutoRef⟩
    · exact hrow ⟨5, by rw [h1, h2]; exact .nullToAutoArray⟩
  have c3 : arrayToUnsizedArray expectedType (some actualType) = false := by
    cases h : arrayToUnsizedArray expectedType (some actualType)
    · rfl
    · obtain ⟨T, n, h1, h2⟩ := arrayToUnsizedArray_inv h
      exact absurd ⟨2, by rw [h1, h2]; exact .arrayToUnsized⟩ hrow
  have c4 : ¬ (expectedType = .tAutoArray ∧ (isTypeOpt TypeBase.isArray (some actualType) = true
      ∨ isTypeOpt TypeBase.isUnsizedArray (some actualType) = true)) := by
    rintro ⟨h1, h2 | h2⟩
    · cases actualType <;> simp [isTypeOpt, TypeBase.isArray] at h2
      exact hrow ⟨5, by rw [h1]; exact .arrayToAutoArray⟩
    · cases actualType <;> simp [isTypeOpt, TypeBase.isUnsizedArray] at h2
      exact hrow ⟨5, by rw [h1]; exact .unsizedToAutoArray⟩
  have c5 : arrayRefToUnsizedArrayRef expectedType (some actualType) = false := by
    cases h : arrayRefToUnsizedArrayRef expectedType (some actualType)
    · rfl
    · exfalso
      unfold arrayRefToUnsizedArrayRef at h
      split at h
      · rename_i l r n heq
        simp at h heq
        exact hacc (.arrayRefToUnsizedArrayRef (by rw [htype, heq, h]))
      · simp at h
  have c6 : derivedRefToBaseRef expectedType (some actualType) = false := by
    cases h : derivedRefToBaseRef expectedType (some actualType)
    · rfl
    · exfalso
      unfold derivedRefToBaseRef at h
      split at h
      · rename_i l r heq
        simp at h heq
        subst heq
        exact hrow ⟨5, .derivedRefToBaseRef h.1.2 h.1.1 (fun e => hne (by rw [e])) h.2⟩
      · simp at h
  have c7 : baseRefToDerivedRef expectedType (some actualType) = false := by
    cases h : baseRefToDerivedRef expectedType (some actualType)
    · rfl
    · exfalso
      unfold baseRefToDerivedRef at h
      split at h
      · rename_i l r heq
        simp at h heq
        subst heq
        exact hrow ⟨10, .baseRefToDerivedRef h.1.1 h.1.2 (fun e => hne (by rw [e])) h.2⟩
      · simp at h
  have c8 : derivedToBase expectedType (some actualType) = false := by
    cases h : derivedToBase expectedType (some actualType)
    · rfl
    · exfalso
      simp [derivedToBase] at h
      exact hacc (.derivedToBase htype h.1.2 h.1.1 h.2)
  have c9 : ∀ target, expectedType.asFunction = some target →
      functionValueMatches ctx actual target = false := by
    intro target ht
    cases h : functionValueMatches ctx actual target
    · rfl
    · exfalso
      have : expectedType = target.toType := by
        cases expectedType <;> simp [TypeBase.asFunction] at ht
        subst ht
        rfl
      exact hacc (by rw [this]; exact .functionValue h)
  have c10 : typeToTypeRef expectedType (some actualType) = false := by
    cases h : typeToTypeRef expectedType (some actualType)
    · rfl
    · exfalso
      unfold typeToTypeRef at h
      split at h
      · rename_i sub
        simp at h
        subst h
        by_cases hn : sub = .tNullPtr
        · exact c1 ⟨hn, Or.inl rfl⟩
        · exact hrow ⟨5, .valueToRef hn⟩
      · simp at h
  have c11 : ¬ (expectedType = .tAutoRef) := by
    intro h1
    by_cases hr : actualType.isRef = true
    · cases actualType <;> simp [TypeBase.isRef] at hr
      exact hrow ⟨5, by rw [h1]; exact .refToAutoRef⟩
    · by_cases hn : actualType = .tNullPtr
      · exact c2 ⟨hn, Or.inl h1⟩
      · exact hrow ⟨10, by
          rw [h1]
          exact .valueToAutoRef (by simpa using hr) hn (fun e => hne (by rw [e, h1]))⟩
  have c12 : ¬ (IsNumericType expectedType = true ∧ isTypeOpt IsNumericType (some actualType) = true) := by
    rintro ⟨h1, h2⟩
    exact hrow ⟨1, .numeric h1 h2 hne⟩
  have c0 : ¬ (some expectedType = some actualType) := fun h => hne2 (Option.some.inj h)
  have c1n : ¬ (some actualType = some TypeBase.tNullPtr ∧ (expectedType.isRef = true
      ∨ expectedType.isUnsizedArray = true ∨ expectedType.isFunction = true)) :=
    fun h => c1 ⟨Option.some.inj h.1, h.2⟩
  have c2n : ¬ (some actualType = some TypeBase.tNullPtr
      ∧ (expectedType = .tAutoRef ∨ expectedType = .tAutoArray)) :=
    fun h => c2 ⟨Option.some.inj h.1, h.2⟩
  have c11n : ¬ (expectedType = .tAutoRef ∧ isTypeOpt TypeBase.isRef (some actualType) = true) :=
    fun h => c11 h.1
  have cf : expectedType.isFunction = true → ∃ target, expectedType.asFunction = some target := by
    intro h
    cases expectedType <;> simp [TypeBase.isFunction] at h
    exact ⟨_, rfl⟩
  unfold GetFunctionRating.argument
  simp only [htype]
  rw [if_neg c0, if_neg c1n, if_neg c2n, if_neg (by simp [hgen]), if_neg (by simp [hexp]),
    if_neg (by simp [c3]), if_neg c4, if_neg (by simp [c5]), if_neg (by simp [c6]),
    if_neg (by simp [c7]), if_neg (by simp [c8])]
  by_cases hfun : expectedType.isFunction = true
  · obtain ⟨target, ht⟩ := cf hfun
    rw [if_pos hfun]
    simp [ht, c9 target ht]
  · rw [if_neg hfun, if_neg (by simp [c10]), if_neg c11n, if_neg c11, if_neg c12]

/-- The rating loop returns `~0u` when some position it reaches is incompatible. -/
theorem GetFunctionRating.loop_incompatible (ctx : ExpressionContext) :
    ∀ (i : Nat) (types : TypeList) (formals actuals : List ArgumentData) (rating : Nat)
      (formal actual : ArgumentData) (expectedType : TypeBase),
      formals[i]? = some formal → types.toList[i]? = some expectedType →
      actuals[i]? = some actual →
      GetFunctionRating.argument ctx formal expectedType actual = none →
      GetFunctionRating.loop ctx types formals actuals rating = .ok incompatible := by
  intro i
  induction i with
  | zero =>
    intro types formals actuals rating formal actual expectedType hf ht ha hnone
    cases types with
    | nil => simp [TypeList.toList] at ht
    | cons t ts =>
      cases formals with
      | nil => simp at hf
      | cons f fs =>
        cases actuals with
        | nil => simp at ha
        | cons a as =>
          simp [TypeList.toList] at hf ht ha
          subst hf ht ha
          simp [GetFunctionRating.loop, hnone]
  | succ i ih =>
    intro types formals actuals rating formal actual expectedType hf ht ha hnone
    cases types with
    | nil => simp [TypeList.toList] at ht
    | cons t ts =>
      cases formals with
      | nil => simp at hf
      | cons f fs =>
        cases actuals with
        | nil => simp at ha
        | cons a as =>
          simp [TypeList.toList] at hf ht ha
          simp only [GetFunctionRating.loop]
          cases hhead : GetFunctionRating.argument ctx f t a with
          | none => rfl
          | some n => exact ih ts fs as _ formal actual expectedType hf ht ha hnone

/-- Claim C4, amended: `GetFunctionRating` returns incompatible (`~0u`) for every
candidate that has an argument whose actual type differs from its non-generic,
non-explicit formal type by a conversion that is neither a row of the rating
table nor one of the further conversions the code accepts (`nullptr` to a
reference, unsized array or function type; a function value matched by
`GetFunctionForType`; a reference to a sized array to a reference to the
unsized array; a derived class value to a base class value). -/
theorem GetFunctionRating_unlisted_incompatible (ctx : ExpressionContext)
    (function : FunctionData) (inst : TypeFunction) (arguments : List ArgumentData) (i : Nat)
    (formal actual : ArgumentData) (expectedType actualType : TypeBase)
    (hformal : function.arguments[i]? = some formal)
    (hexpected : inst.arguments.toList[i]? = some expectedType)
    (hactual : arguments[i]? = some actual)
    (hexp : formal.isExplicit = false) (hgen : expectedType.isGeneric = false)
    (htype : actual.type = some actualType) (hne : actualType ≠ expectedType)
    (hrow : ¬ ∃ n, RatingRow expectedType actualType n)
    (hacc : ¬ AcceptedBeyondTable ctx expectedType actual) :
    GetFunctionRating ctx function inst arguments = .ok incompatible := by
  unfold GetFunctionRating
  split
  · rfl
  · exact GetFunctionRating.loop_incompatible ctx i _ _ _ 0 formal actual expectedType hformal hexpected hactual
      (GetFunctionRating.argument_none ctx formal actual expectedType actualType hexp hgen htype hne hrow hacc)

/-- The rating table has no row for `nullptr` passed as `int ref`. -/
theorem RatingRow.no_row_nullptr_to_ref : ¬ ∃ n, RatingRow (.ref .tInt) .tNullPtr n := by
  rintro ⟨n, h⟩
  cases h with
  | numeric hf _ _ => simp [IsNumericType, IsIntegerType, IsFloatingPointType] at hf

/-- Claim C4 fails as stated: `nullptr` passed for a formal of type `int ref` is
a conversion the rating table does not list, and `GetFunctionRating` rates the
candidate `void f(int ref a)` with 0 instead of incompatible. -/
theorem GetFunctionRating_nullptr_to_ref_compatible :
    (¬ ∃ n, RatingRow (.ref .tInt) .tNullPtr n)
    ∧ GetFunctionRating exampleContext (functionOf 1 "f" .tVoid [formalOf "a" (.ref .tInt)])
        (functionOf 1 "f" .tVoid [formalOf "a" (.ref .tInt)]).type
        [actualOf "" .tNullPtr 2] = .ok 0
    ∧ GetFunctionRating exampleContext (functionOf 1 "f" .tVoid [formalOf "a" (.ref .tInt)])
        (functionOf 1 "f" .tVoid [formalOf "a" (.ref .tInt)]).type
        [actualOf "" .tNullPtr 2] ≠ .ok incompatible := by
  refine ⟨RatingRow.no_row_nullptr_to_ref, ?_, ?_⟩
  · decide
  · decide

/-- Witness of C3: `f(double a, auto ref b, int[] c)` called with an `int`, an
`int ref` and an `int[3]` is rated 1 + 5 + 2. -/
theorem GetFunctionRating_sums_rating_table_witness :
    GetFunctionRating exampleContext
      (functionOf 1 "f" .tVoid
        [formalOf "a" .tDouble, formalOf "b" .tAutoRef, formalOf "c" (.unsizedArray .tInt)])
      (functionOf 1 "f" .tVoid
        [formalOf "a" .tDouble, formalOf "b" .tAutoRef, formalOf "c" (.unsizedArray .tInt)]).type
      [actualOf "" .tInt 1, actualOf "" (.ref .tInt) 2, actualOf "" (.array .tInt 3) 3]
      = .ok 8 :=
  GetFunctionRating_sums_rating_table exampleContext _ _ _ [1, 5, 2]
    (.cons rfl rfl rfl rfl (.numeric rfl rfl (by decide))
      (.cons rfl rfl rfl rfl .refToAutoRef
        (.cons rfl rfl rfl rfl .arrayToUnsized .nil)))
    (by decide)

/-- Witness of C4 as amended: a class value passed for an `int` formal is
neither in the table nor accepted otherwise, and the candidate is incompatible. -/
theorem GetFunctionRating_unlisted_incompatible_witness :
    GetFunctionRating exampleContext (functionOf 1 "f" .tVoid [formalOf "a" .tInt])
      (functionOf 1 "f" .tVoid [formalOf "a" .tInt]).type
      [actualOf "" (.cls "Foo" none .nil .none) 2] = .ok incompatible :=
  GetFunctionRating_unlisted_incompatible exampleContext _ _ _ 0 (formalOf "a" .tInt)
    (actualOf "" (.cls "Foo" none .nil .none) 2) .tInt (.cls "Foo" none .nil .none)
    rfl rfl rfl rfl rfl rfl (by decide)
    (by
      rintro ⟨n, h⟩
      cases h with
      | numeric _ ha _ => simp [IsNumericType, IsIntegerType, IsFloatingPointType] at ha)
    (by
      intro h
      cases h with
      | nullToPointer h1 _ => simp [actualOf] at h1
      | derivedToBase _ _ hb _ => simp [TypeBase.isClass] at hb)

/-! ## Argument preparation theorems -/

/-- Claim C5, evaluated at the failing input: the formals `(int a, int b)` have no
default values and the call names only `a`; `PrepareArgumentsForFunctionCall`
returns true although the slot of `b` is left unset (its type is null). -/
theorem PrepareArgumentsForFunctionCall_named_leaves_slot_unset :
    PrepareArgumentsForFunctionCall exampleContext
      [formalOf "a" .tInt, formalOf "b" .tInt] [actualOf "a" .tInt 1] false
      = .ok (true, [actualOf "a" .tInt 1, ArgumentData.empty]) := by
  decide

/-- The loop that appends default values appends the defaults of the formals that have one. -/
theorem PrepareArgumentsForFunctionCall.appendDefaults_eq : ∀ (formals result : List ArgumentData),
    PrepareArgumentsForFunctionCall.appendDefaults formals result
      = result ++ formals.filterMap (fun formal => formal.value.map (defaultArgument formal)) := by
  intro formals
  induction formals with
  | nil => intro result; simp [PrepareArgumentsForFunctionCall.appendDefaults]
  | cons formal rest ih =>
    intro result
    cases h : formal.value with
    | none => simp [PrepareArgumentsForFunctionCall.appendDefaults, h, ih]
    | some value => simp [PrepareArgumentsForFunctionCall.appendDefaults, h, ih]

/-- A filter-map keeps the length exactly when it keeps every element. -/
theorem filterMap_length_eq_iff {α β : Type} (f : α → Option β) (l : List α) :
    (l.filterMap f).length = l.length ↔ ∀ a ∈ l, (f a).isSome = true := by
  induction l with
  | nil => simp
  | cons a l ih =>
    cases h : f a with
    | none =>
      simp [List.filterMap_cons, h]
      have := List.length_filterMap_le f l
      omega
    | some b => simp [List.filterMap_cons, h, ih]


/-- The variadic block leaves the slots alone when the last formal is not a pack. -/
theorem PrepareArgumentsForFunctionCall.pack_not_variadic (ctx : ExpressionContext)
    (functionArguments result : List ArgumentData) (prepareValues : Bool)
    (hlast : ∀ last, functionArguments.getLast? = some last →
      ¬ (last.type = some varArgType ∧ last.isExplicit = false)) :
    PrepareArgumentsForFunctionCall.pack ctx functionArguments result prepareValues
      = .ok result := by
  unfold PrepareArgumentsForFunctionCall.pack
  cases h : functionArguments.getLast? with
  | none => rfl
  | some last => simp only [if_neg (hlast last h)]

/-- Where every formal has a default, the appended slot of a formal is its default value. -/
theorem PrepareArgumentsForFunctionCall.defaults_getElem : ∀ (formals : List ArgumentData),
    (∀ formal ∈ formals, formal.value ≠ none) →
    ∀ (j : Nat) (formal : ArgumentData), formals[j]? = some formal →
      ∃ value, formal.value = some value
        ∧ (formals.filterMap (fun formal => formal.value.map (defaultArgument formal)))[j]?
            = some (defaultArgument formal value) := by
  intro formals
  induction formals with
  | nil => intro _ j formal h; simp at h
  | cons head rest ih =>
    intro hall j formal h
    have hhead := hall head (by simp)
    cases hv : head.value with
    | none => exact absurd hv hhead
    | some value =>
      cases j with
      | zero =>
        simp at h
        subst h
        exact ⟨value, hv, by simp [List.filterMap_cons, hv]⟩
      | succ j =>
        simp at h
        obtain ⟨v, h1, h2⟩ := ih (fun f hf => hall f (by simp [hf])) j formal h
        exact ⟨v, h1, by simp [List.filterMap_cons, hv, h2]⟩

/-- Claim C6: for a call without named actuals (`prepareValues = false`) to a
function whose last formal is not a variadic `auto ref[]` pack,
`PrepareArgumentsForFunctionCall` returns true exactly when the number of
actuals is at most the number of formals and every formal from that index on
has a default value; on success the result has one slot per formal, slot `i`
below the number of actuals is actual `i` unchanged and every later slot is the
default value of its formal. -/
theorem PrepareArgumentsForFunctionCall_positional (ctx : ExpressionContext)
    (functionArguments arguments : List ArgumentData)
    (hunnamed : HasNamedCallArguments arguments = false)
    (hlast : ∀ last, functionArguments.getLast? = some last →
      ¬ (last.type = some varArgType ∧ last.isExplicit = false)) :
    ∃ (success : Bool) (result : List ArgumentData),
      PrepareArgumentsForFunctionCall ctx functionArguments arguments false
        = .ok (success, result)
      ∧ (success = true ↔
          (arguments.length ≤ functionArguments.length
            ∧ ∀ (i : Nat) (formal : ArgumentData), arguments.length ≤ i →
                functionArguments[i]? = some formal → formal.value ≠ none))
      ∧ (success = true →
          result.length = functionArguments.length
          ∧ (∀ i, i < arguments.length → result[i]? = arguments[i]?)
          ∧ (∀ (i : Nat) (formal : ArgumentData), arguments.length ≤ i →
              functionArguments[i]? = some formal →
              ∃ value, formal.value = some value
                ∧ result[i]? = some (defaultArgument formal value))) := by
  have hall_iff : (∀ formal ∈ functionArguments.drop arguments.length, formal.value ≠ none) ↔
      (∀ (i : Nat) (formal : ArgumentData), arguments.length ≤ i →
        functionArguments[i]? = some formal → formal.value ≠ none) := by
    constructor
    · intro h i formal hi hf
      apply h formal
      rw [List.mem_iff_getElem?]
      refine ⟨i - arguments.length, ?_⟩
      rw [List.getElem?_drop]
      rw [show arguments.length + (i - arguments.length) = i by omega]
      exact hf
    · intro h formal hmem
      rw [List.mem_iff_getElem?] at hmem
      obtain ⟨j, hj⟩ := hmem
      rw [List.getElem?_drop] at hj
      exact h _ formal (by omega) hj
  set defaults := (functionArguments.drop arguments.length).filterMap
    (fun formal => formal.value.map (defaultArgument formal)) with hdefaults
  have hprep : PrepareArgumentsForFunctionCall ctx functionArguments arguments false
      = if (arguments ++ defaults).length ≠ functionArguments.length
        then .ok (false, arguments ++ defaults) else .ok (true, arguments ++ defaults) := by
    unfold PrepareArgumentsForFunctionCall
    simp only [hunnamed, PrepareArgumentsForFunctionCall.appendDefaults_eq,
      PrepareArgumentsForFunctionCall.pack_not_variadic ctx _ _ _ hlast, Outcome.bind]
    simp
  have hlen : (arguments ++ defaults).length = functionArguments.length ↔
      (arguments.length ≤ functionArguments.length
        ∧ ∀ formal ∈ functionArguments.drop arguments.length, formal.value ≠ none) := by
    have hle := List.length_filterMap_le (fun formal : ArgumentData =>
      formal.value.map (defaultArgument formal)) (functionArguments.drop arguments.length)
    have hiff := filterMap_length_eq_iff (fun formal : ArgumentData =>
      formal.value.map (defaultArgument formal)) (functionArguments.drop arguments.length)
    simp only [List.length_append, List.length_drop] at *
    constructor
    · intro h
      refine ⟨by omega, ?_⟩
      have : defaults.length = functionArguments.length - arguments.length := by omega
      intro formal hmem
      have := (hiff.mp this) formal hmem
      cases hv : formal.value <;> simp [hv] at this ⊢
    · rintro ⟨h1, h2⟩
      have : defaults.length = functionArguments.length - arguments.length := by
        apply hiff.mpr
        intro formal hmem
        have := h2 formal hmem
        cases hv : formal.value <;> simp [hv] at this ⊢
      omega
  by_cases hok : (arguments ++ defaults).length = functionArguments.length
  · refine ⟨true, arguments ++ defaults, ?_, ?_, ?_⟩
    · rw [hprep, if_neg (not_not.mpr hok)]
    · simp only [true_iff]
      have := hlen.mp hok
      exact ⟨this.1, hall_iff.mp this.2⟩
    · intro _
      have hh := hlen.mp hok
      refine ⟨hok, ?_, ?_⟩
      · intro i hi
        exact List.getElem?_append_left hi
      · intro i formal hi hf
        have hd : (functionArguments.drop arguments.length)[i - arguments.length]? = some formal := by
          rw [List.getElem?_drop]
          rw [show arguments.length + (i - arguments.length) = i by omega]
          exact hf
        obtain ⟨value, hv, hget⟩   := PrepareArgumentsForFunctionCall.defaults_getElem _ hh.2 _ formal hd
        refine ⟨value, hv, ?_⟩
        rw [List.getElem?_append_right hi]
        exact hget
  · refine ⟨false, arguments ++ defaults, ?_, ?_, ?_⟩
    · rw [hprep, if_pos hok]
    · simp only [Bool.false_eq_true, false_iff]
      intro h
      exact hok (hlen.mpr ⟨h.1, hall_iff.mpr h.2⟩)
    · intro h; simp at h

/-- With at least `k` actuals and a last formal without default, no default value is appended. -/
theorem PrepareArgumentsForFunctionCall.no_defaults_for_pack (functionArguments : List ArgumentData) (k n : Nat)
    (last : ArgumentData) (hlen : functionArguments.length = k + 1)
    (hlast : functionArguments.getLast? = some last) (hnodef : last.value = none)
    (hn : k ≤ n) :
    (functionArguments.drop n).filterMap (fun formal => formal.value.map (defaultArgument formal))
      = [] := by
  have hsplit : functionArguments = functionArguments.dropLast ++ [last] := by
    exact (List.dropLast_append_getLast? last hlast).symm
  have hdl : functionArguments.dropLast.length = k := by simp [hlen]
  rcases Nat.eq_or_lt_of_le hn with h | h
  · subst h
    rw [hsplit, List.drop_append_eq_append_drop, List.drop_eq_nil_of_le (by omega)]
    simp [hdl, hnodef]
  · rw [List.drop_eq_nil_of_le (by omega)]
    rfl

/-- Claim C7: when the last of the `k+1` formals has type `auto ref[]`, is not
explicit and has no default, a call with at least `k` unnamed actuals succeeds
(`prepareValues = false`) with exactly `k+1` result slots; the result is the
actual list unchanged when there are exactly `k+1` actuals and the last already
has type `auto ref[]`, and otherwise the first `k` slots are the first `k`
actuals and the last slot is the pack of type `auto ref[]` named after the last
formal. -/
theorem PrepareArgumentsForFunctionCall_variadic (ctx : ExpressionContext) (functionArguments arguments : List ArgumentData)
    (k : Nat) (last : ArgumentData)
    (hlen : functionArguments.length = k + 1)
    (hlast : functionArguments.getLast? = some last)
    (htype : last.type = some varArgType) (hexplicit : last.isExplicit = false)
    (hnodef : last.value = none)
    (hunnamed : HasNamedCallArguments arguments = false)
    (hn : k ≤ arguments.length) :
    ∃ result : List ArgumentData,
      PrepareArgumentsForFunctionCall ctx functionArguments arguments false = .ok (true, result)
      ∧ result.length = k + 1
      ∧ ((arguments.length = k + 1
            ∧ arguments.getLast?.map ArgumentData.type = some (some varArgType)) →
          result = arguments)
      ∧ (¬ (arguments.length = k + 1
            ∧ arguments.getLast?.map ArgumentData.type = some (some varArgType)) →
          result.take k = arguments.take k
          ∧ result[k]? = some (packArgument last.name none)) := by
  have hprep : PrepareArgumentsForFunctionCall ctx functionArguments arguments false
      = (PrepareArgumentsForFunctionCall.pack ctx functionArguments arguments false).bind
          fun packed =>
            if packed.length ≠ functionArguments.length then .ok (false, packed)
            else .ok (true, packed) := by
    unfold PrepareArgumentsForFunctionCall
    simp only [hunnamed, PrepareArgumentsForFunctionCall.appendDefaults_eq,
      PrepareArgumentsForFunctionCall.no_defaults_for_pack functionArguments k arguments.length last hlen hlast hnodef hn]
    simp only [List.append_nil, Bool.false_eq_true, if_false]
    cases PrepareArgumentsForFunctionCall.pack ctx functionArguments arguments false <;>
      simp [Outcome.bind]
  by_cases hex : arguments.length = k + 1
      ∧ arguments.getLast?.map ArgumentData.type = some (some varArgType)
  · refine ⟨arguments, ?_, hex.1, fun _ => rfl, fun h => absurd hex h⟩
    rw [hprep]
    unfold PrepareArgumentsForFunctionCall.pack
    simp only [hlast, htype, hexplicit, hlen, hex, Outcome.bind]
    simp [hex.1]
  · refine ⟨arguments.take k ++ [packArgument last.name none], ?_, ?_,
      fun h => absurd h hex, fun _ => ?_⟩
    · rw [hprep]
      unfold PrepareArgumentsForFunctionCall.pack
      have hex2 : ¬ (arguments.length = k + 1
          ∧ Option.map ArgumentData.type arguments.getLast? = some (some varArgType)) := hex
      simp only [hlast, htype, hexplicit, hlen, Outcome.bind]
      simp [hn, hex2]
      have hc : arguments.length = k + 1 → ∀ (x : ArgumentData),
          arguments.getLast? = some x → ¬ x.type = some varArgType := by
        intro h1 x hx hx2
        exact hex ⟨h1, by simp [hx, hx2]⟩
      rw [if_pos hc]
      simp [hn]
    · simp [List.length_take, hn]
    · constructor
      · simp [List.take_append_eq_append_take, List.length_take, hn]
      · simp [List.getElem?_append_right, List.length_take, hn]

/-- Witness of C6: `f(int a, int b = <default>)` called with one positional
actual succeeds with two slots. -/
theorem PrepareArgumentsForFunctionCall_positional_witness :
    ∃ result : List ArgumentData,
      PrepareArgumentsForFunctionCall exampleContext
        [formalOf "a" .tInt, formalWithDefault "b" .tInt 7] [actualOf "" .tInt 1] false
        = .ok (true, result)
      ∧ result.length = 2 := by
  obtain ⟨success, result, hrun, hiff, hslots⟩ :=
    PrepareArgumentsForFunctionCall_positional exampleContext
      [formalOf "a" .tInt, formalWithDefault "b" .tInt 7] [actualOf "" .tInt 1]
      (by decide) (by intro last h; simp at h; subst h; decide)
  have hsuccess : success = true := by
    have : PrepareArgumentsForFunctionCall exampleContext
        [formalOf "a" .tInt, formalWithDefault "b" .tInt 7] [actualOf "" .tInt 1] false
        = .ok (true, [actualOf "" .tInt 1,
            defaultArgument (formalWithDefault "b" .tInt 7) (.node (some 7) .tInt 7)]) := by
      decide
    rw [this] at hrun
    simp at hrun
    exact hrun.1
  subst hsuccess
  exact ⟨result, hrun, (hslots rfl).1⟩

/-- Witness of C7: `f(int a, auto ref[] args)` called with three positional
actuals succeeds with two slots. -/
theorem PrepareArgumentsForFunctionCall_variadic_witness :
    ∃ result : List ArgumentData,
      PrepareArgumentsForFunctionCall exampleContext
        [formalOf "a" .tInt, formalOf "args" varArgType]
        [actualOf "" .tInt 1, actualOf "" .tInt 2, actualOf "" .tInt 3] false
        = .ok (true, result)
      ∧ result.length = 2 := by
  obtain ⟨result, hrun, hlength, _⟩ :=
    PrepareArgumentsForFunctionCall_variadic exampleContext
      [formalOf "a" .tInt, formalOf "args" varArgType]
      [actualOf "" .tInt 1, actualOf "" .tInt 2, actualOf "" .tInt 3] 1
      (formalOf "args" varArgType) rfl rfl rfl rfl rfl (by decide) (by decide)
  exact ⟨result, hrun, hlength⟩

/-! ## Generic unification theorems -/

/-- Claim C8, amended: `MatchGenericType` with pattern `Generic(name)`, for a name
other than `generic`: when `name` is not yet in `aliases` it appends the
binding of `name` to the argument type and returns that type, where outside
strict mode a sized array `Array(T,n)` is first generalised to
`UnsizedArray(T)`; when `name` is already bound to a type `X` it returns `X`
and leaves `aliases` unchanged, whatever the argument type is. -/
theorem MatchGenericType_generic_alias (ctx : ExpressionContext) (fuel : Nat) (name : String) (argType : TypeBase)
    (aliases : MatchList) (strict : Bool) (hname : name ≠ "generic") :
    MatchGenericType ctx (fuel + 1) (.generic name) argType aliases strict
      = some (.ok
          (match aliases.find name with
           | some bound => (some bound, aliases)
           | none => (some (MatchGenericType.generalized argType strict),
                      aliases.push_back name (MatchGenericType.generalized argType strict)))) := by
  simp only [MatchGenericType, MatchGenericType.body, TypeBase.isGeneric, hname]
  cases h : aliases.find name <;> simp

/-- Claim C8 fails as stated: with `T` already bound to `int`, matching the
pattern `@T` against the different argument type `double` in strict mode does
not fail; it returns `int`. -/
theorem MatchGenericType_bound_alias_ignores_argument :
    TypeBase.tDouble ≠ TypeBase.tInt
    ∧ MatchGenericType exampleContext 1 (.generic "T") .tDouble (.cons "T" .tInt .nil) true
        = some (.ok (some .tInt, .cons "T" .tInt .nil)) := by
  decide

/-- Outside strict mode a fresh alias is bound to the generalised argument:
`@T` against `int[3]` binds `T` to `int[]`. -/
theorem MatchGenericType_fresh_alias_generalises :
    MatchGenericType exampleContext 1 (.generic "T") (.array .tInt 3) .nil false
      = some (.ok (some (.unsizedArray .tInt), .cons "T" (.unsizedArray .tInt) .nil)) := by
  decide

/-- Claim C9, evaluated at the failing input: on a build with four-byte
pointers the pattern `@T ref[2]` matched against `int ref[2]` yields
`int ref[8]`, an array of eight elements: the byte size of the pattern is
compared and passed on where the element count is meant. -/
theorem MatchGenericType_array_compares_byte_size :
    MatchGenericType exampleContext 3 (.array (.ref (.generic "T")) 2) (.array (.ref .tInt) 2)
        .nil true
      = some (.ok (some (.array (.ref .tInt) 8), .cons "T" .tInt .nil)) := by
  decide

/-- With a generic type of size zero the pattern `@T[2]` does not match `int[2]`:
the byte sizes 0 and 8 differ although the element counts agree. -/
theorem MatchGenericType_array_same_count_rejected :
    MatchGenericType exampleContext 3 (.array (.generic "T") 2) (.array .tInt 2) .nil true
      = some (.ok (none, .nil)) := by
  decide

/-- Arrays of different element counts are compared by byte size as well:
`@T ref[3]` against `long[2]` fails only because `long` is not a reference;
the sizes, 12 and 16, differ too. -/
theorem MatchGenericType_array_different_count :
    MatchGenericType exampleContext 3 (.array (.ref (.generic "T")) 3) (.array .tLong 2) .nil true
      = some (.ok (none, .nil)) := by
  decide

/-- Witness of C8 as amended: `@T` against `int` with no alias bound. -/
theorem MatchGenericType_generic_alias_witness :
    MatchGenericType exampleContext 1 (.generic "T") .tInt .nil true
      = some (.ok (some .tInt, .cons "T" .tInt .nil)) :=
  MatchGenericType_generic_alias exampleContext 0 "T" .tInt .nil true (by decide)

/-! ## Generic instance theorems -/

/-- The search loop returns the first instance that passes the three tests. -/
theorem CreateGenericFunctionInstance.search_eq_find (parentType : Option TypeBase) (generics : TypeList)
    (inst : TypeFunction) (instances : List FunctionData) :
    CreateGenericFunctionInstance.search parentType generics inst instances
      = instances.find? (CreateGenericFunctionInstance.sameInstantiation parentType generics inst) := by
  induction instances with
  | nil => rfl
  | cons data rest ih =>
    unfold CreateGenericFunctionInstance.search
    simp only [List.find?_cons, CreateGenericFunctionInstance.sameInstantiation]
    by_cases h1 : parentType = data.ownerType
    · cases h2 : SameGenerics data.generics generics
      · simpa [h1, h2] using ih
      · cases h3 : SameArguments data.type inst
        · simpa [h1, h2, h3] using ih
        · simp [h1, h2, h3]
    · simpa [h1] using ih

/-- A request whose parent type and instance type are determined returns the
first instance of the list that passes the three tests, and otherwise analyses
the definition and appends the analysed function to the list that the
analysis returns. -/
theorem CreateGenericFunctionInstance.request_eq {σ : Type} (ctx : ExpressionContext)
    (analyze : σ → List FunctionData → TypeFunction → Option TypeBase → MatchList →
      Outcome (FunctionData × List FunctionData × σ))
    (state : σ) (instances : List FunctionData) (proto : FunctionValue) (generics : TypeList)
    (arguments result : List ArgumentData) (parentType : Option TypeBase) (inst : TypeFunction)
    (aliases : MatchList)
    (hprepared : PrepareArgumentsForFunctionCall ctx proto.function.arguments arguments false
      = .ok (true, result))
    (hparent : parentTypeOf proto = .ok parentType)
    (hinst : ctx.GetGenericFunctionInstanceType parentType proto.function result
      (explicitAliases proto.function.generics generics) = .ok (some inst, aliases))
    (hconcrete : inst.toType.isGeneric = false) :
    CreateGenericFunctionInstance ctx analyze state instances proto generics arguments
      = match instances.find?
          (CreateGenericFunctionInstance.sameInstantiation parentType generics inst) with
        | some data => .ok (data, instances, state)
        | none =>
          (analyze state instances inst parentType aliases).bind fun analysed =>
            .ok (analysed.1, analysed.2.1 ++ [analysed.1], analysed.2.2) := by
  unfold CreateGenericFunctionInstance
  simp only [hprepared, hparent, hinst, Outcome.bind, hconcrete,
    CreateGenericFunctionInstance.search_eq_find]
  cases instances.find? (CreateGenericFunctionInstance.sameInstantiation parentType generics inst)
  · cases analyze state instances inst parentType aliases <;> rfl
  · rfl

/-- Counterexample to C10: the prototype `int f(generic a)` whose body calls
`f(1.5)` has no instance yet, and `f` is requested for an `int`.  No instance
of the list has the requested instantiation, and the request leaves two new
instances in the list, not one: the instance for `double`, which the call in
the body requested while the definition was analysed, and behind it the
instance for `int`, which is returned. -/
theorem CreateGenericFunctionInstance_appends_nested_instances :
    CreateGenericFunctionInstance exampleContext
        (exampleNestedAnalyze { function := exampleGenericFunction, context := noContext }) 0 []
        { function := exampleGenericFunction, context := noContext } .nil [actualOf "" .tInt 1]
      = .ok ({ uniqueId := 100, name := "f",
               type := { returnType := .tInt, arguments := .cons .tInt .nil },
               generics := .nil, arguments := [formalOf "a" .tInt], ownerType := none },
             [{ uniqueId := 101, name := "f",
                type := { returnType := .tInt, arguments := .cons .tDouble .nil },
                generics := .nil, arguments := [formalOf "a" .tDouble], ownerType := none },
              { uniqueId := 100, name := "f",
                type := { returnType := .tInt, arguments := .cons .tInt .nil },
                generics := .nil, arguments := [formalOf "a" .tInt], ownerType := none }], 2) := by
  decide

/-- Claim C10, amended: `CreateGenericFunctionInstance` is memoized per generic
prototype.  For a request whose instance type is `inst` and parent type
`parentType`: if the instance list of the prototype contains a function with
the same parent type, explicit generic types and argument types, such a
function of the list is returned and neither the instance list nor the
analysis state changes; otherwise the definition is analysed and exactly one
function, the analysed one, is appended to the instance list as the analysis
left it, behind the instances that requests made during the analysis have
appended; and when the analysed function carries the requested parent type,
generic types and argument types and no instance appended during the analysis
does, a second request to the prototype for the same instantiation, from any
call, returns the same function and changes neither the list nor the state. -/
theorem CreateGenericFunctionInstance_memoized {σ : Type} (ctx : ExpressionContext)
    (analyze : σ → List FunctionData → TypeFunction → Option TypeBase → MatchList →
      Outcome (FunctionData × List FunctionData × σ))
    (state : σ) (instances : List FunctionData) (proto : FunctionValue) (generics : TypeList)
    (arguments result : List ArgumentData) (parentType : Option TypeBase) (inst : TypeFunction)
    (aliases : MatchList)
    (hprepared : PrepareArgumentsForFunctionCall ctx proto.function.arguments arguments false
      = .ok (true, result))
    (hparent : parentTypeOf proto = .ok parentType)
    (hinst : ctx.GetGenericFunctionInstanceType parentType proto.function result
      (explicitAliases proto.function.generics generics) = .ok (some inst, aliases))
    (hconcrete : inst.toType.isGeneric = false) :
    ((∃ data ∈ instances,
        CreateGenericFunctionInstance.sameInstantiation parentType generics inst data = true) →
      ∃ found ∈ instances,
        CreateGenericFunctionInstance.sameInstantiation parentType generics inst found = true
        ∧ CreateGenericFunctionInstance ctx analyze state instances proto generics arguments
            = .ok (found, instances, state))
    ∧ ((∀ data ∈ instances,
        CreateGenericFunctionInstance.sameInstantiation parentType generics inst data = false) →
      ∀ (created : FunctionData) (instances1 : List FunctionData) (state1 : σ),
        analyze state instances inst parentType aliases = .ok (created, instances1, state1) →
        CreateGenericFunctionInstance ctx analyze state instances proto generics arguments
            = .ok (created, instances1 ++ [created], state1)
        ∧ (CreateGenericFunctionInstance.sameInstantiation parentType generics inst created = true →
            (∀ data ∈ instances1,
              CreateGenericFunctionInstance.sameInstantiation parentType generics inst data
                = false) →
            ∀ (state2 : σ) (proto2 : FunctionValue) (arguments2 result2 : List ArgumentData)
              (aliases2 : MatchList),
              proto2.function = proto.function →
              PrepareArgumentsForFunctionCall ctx proto2.function.arguments arguments2 false
                = .ok (true, result2) →
              parentTypeOf proto2 = .ok parentType →
              ctx.GetGenericFunctionInstanceType parentType proto2.function result2
                (explicitAliases proto2.function.generics generics) = .ok (some inst, aliases2) →
              CreateGenericFunctionInstance ctx analyze state2 (instances1 ++ [created]) proto2
                generics arguments2 = .ok (created, instances1 ++ [created], state2))) := by
  constructor
  · rintro ⟨data, hmem, hsame⟩
    cases hfind : instances.find?
        (CreateGenericFunctionInstance.sameInstantiation parentType generics inst) with
    | none =>
      have := List.find?_eq_none.mp hfind data hmem
      simp [hsame] at this
    | some found =>
      refine ⟨found, List.mem_of_find?_eq_some hfind, List.find?_some hfind, ?_⟩
      rw [CreateGenericFunctionInstance.request_eq ctx analyze state instances proto generics
        arguments result parentType inst aliases hprepared hparent hinst hconcrete, hfind]
  · intro hnone created instances1 state1 hanalyze
    have hfind : instances.find?
        (CreateGenericFunctionInstance.sameInstantiation parentType generics inst) = none := by
      rw [List.find?_eq_none]
      intro data hmem
      simp [hnone data hmem]
    constructor
    · rw [CreateGenericFunctionInstance.request_eq ctx analyze state instances proto generics
        arguments result parentType inst aliases hprepared hparent hinst hconcrete, hfind]
      simp [hanalyze, Outcome.bind]
    · intro hsame hfresh state2 proto2 arguments2 result2 aliases2 _ hprepared2 hparent2 hinst2
      have hfind1 : instances1.find?
          (CreateGenericFunctionInstance.sameInstantiation parentType generics inst) = none := by
        rw [List.find?_eq_none]
        intro data hmem
        simp [hfresh data hmem]
      have hfind2 : (instances1 ++ [created]).find?
          (CreateGenericFunctionInstance.sameInstantiation parentType generics inst)
          = some created := by
        rw [List.find?_append, hfind1]
        simp [hsame]
      rw [CreateGenericFunctionInstance.request_eq ctx analyze state2 (instances1 ++ [created])
        proto2 generics arguments2 result2 parentType inst aliases2 hprepared2 hparent2 hinst2
        hconcrete, hfind2]

/-- Witness of C10: the prototype `int f(generic a)` whose body calls `f(1.5)`.
The first request for an `int` analyses the definition and appends the
instance for `int` behind the instance for `double` that the body requested;
a second request for an `int`, from another call, returns the same function
and analyses nothing. -/
theorem CreateGenericFunctionInstance_memoized_witness :
    CreateGenericFunctionInstance exampleContext
        (exampleNestedAnalyze { function := exampleGenericFunction, context := noContext }) 0 []
        { function := exampleGenericFunction, context := noContext } .nil [actualOf "" .tInt 1]
      = .ok ({ uniqueId := 100, name := "f",
               type := { returnType := .tInt, arguments := .cons .tInt .nil },
               generics := .nil, arguments := [formalOf "a" .tInt], ownerType := none },
             [{ uniqueId := 101, name := "f",
                type := { returnType := .tInt, arguments := .cons .tDouble .nil },
                generics := .nil, arguments := [formalOf "a" .tDouble], ownerType := none }] ++
              [{ uniqueId := 100, name := "f",
                 type := { returnType := .tInt, arguments := .cons .tInt .nil },
                 generics := .nil, arguments := [formalOf "a" .tInt], ownerType := none }], 2)
    ∧ CreateGenericFunctionInstance exampleContext
        (exampleNestedAnalyze { function := exampleGenericFunction, context := noContext }) 2
        ([{ uniqueId := 101, name := "f",
            type := { returnType := .tInt, arguments := .cons .tDouble .nil },
            generics := .nil, arguments := [formalOf "a" .tDouble], ownerType := none }] ++
         [{ uniqueId := 100, name := "f",
            type := { returnType := .tInt, arguments := .cons .tInt .nil },
            generics := .nil, arguments := [formalOf "a" .tInt], ownerType := none }])
        { function := exampleGenericFunction, context := noContext } .nil [actualOf "" .tInt 7]
      = .ok ({ uniqueId := 100, name := "f",
               type := { returnType := .tInt, arguments := .cons .tInt .nil },
               generics := .nil, arguments := [formalOf "a" .tInt], ownerType := none },
             [{ uniqueId := 101, name := "f",
                type := { returnType := .tInt, arguments := .cons .tDouble .nil },
                generics := .nil, arguments := [formalOf "a" .tDouble], ownerType := none }] ++
              [{ uniqueId := 100, name := "f",
                 type := { returnType := .tInt, arguments := .cons .tInt .nil },
                 generics := .nil, arguments := [formalOf "a" .tInt], ownerType := none }], 2) := by
  have h := (CreateGenericFunctionInstance_memoized exampleContext
    (exampleNestedAnalyze { function := exampleGenericFunction, context := noContext }) 0 []
    { function := exampleGenericFunction, context := noContext } .nil [actualOf "" .tInt 1]
    [actualOf "" .tInt 1] none { returnType := .tInt, arguments := .cons .tInt .nil } .nil
    (by decide) (by decide) (by decide) (by decide)).2 (by simp)
    { uniqueId := 100, name := "f",
      type := { returnType := .tInt, arguments := .cons .tInt .nil },
      generics := .nil, arguments := [formalOf "a" .tInt], ownerType := none }
    [{ uniqueId := 101, name := "f",
       type := { returnType := .tInt, arguments := .cons .tDouble .nil },
       generics := .nil, arguments := [formalOf "a" .tDouble], ownerType := none }]
    2 (by decide)
  exact ⟨h.1, h.2 (by decide) (by decide) 2
    { function := exampleGenericFunction, context := noContext } [actualOf "" .tInt 7]
    [actualOf "" .tInt 7] .nil rfl (by decide) (by decide) (by decide)⟩

/-! ## Selection theorems -/

/-- The rating loop returns a value of at most `~0u`. -/
theorem GetFunctionRating.loop_le_incompatible (ctx : ExpressionContext) :
    ∀ (formals : List ArgumentData) (types : TypeList) (actuals : List ArgumentData)
      (rating r : Nat), rating ≤ incompatible →
      GetFunctionRating.loop ctx types formals actuals rating = .ok r → r ≤ incompatible := by
  intro formals
  induction formals with
  | nil =>
    intro types actuals rating r hle h
    cases types with
    | nil => simp [GetFunctionRating.loop] at h; omega
    | cons t ts => simp [GetFunctionRating.loop] at h
  | cons f fs ih =>
    intro types actuals rating r hle h
    cases types with
    | nil => simp [GetFunctionRating.loop] at h; omega
    | cons t ts =>
      cases actuals with
      | nil => simp [GetFunctionRating.loop] at h
      | cons a as =>
        simp only [GetFunctionRating.loop] at h
        cases harg : GetFunctionRating.argument ctx f t a with
        | none =>
          simp [harg] at h
          omega
        | some n =>
          simp only [harg] at h
          refine ih ts as _ r ?_ h
          unfold addU32 incompatible
          omega

/-- A rating is a 32-bit value: it is at most `~0u`. -/
theorem GetFunctionRating_le_incompatible (ctx : ExpressionContext) (function : FunctionData)
    (inst : TypeFunction) (arguments : List ArgumentData) (r : Nat)
    (h : GetFunctionRating ctx function inst arguments = .ok r) : r ≤ incompatible := by
  unfold GetFunctionRating at h
  split at h
  · simp at h; omega
  · exact GetFunctionRating.loop_le_incompatible ctx _ _ _ 0 r (by unfold incompatible; omega) h

/-- A sequence of steps that ends with a value went through a value of its first step. -/
theorem Outcome.bind_eq_ok {α β : Type} {x : Outcome α} {f : α → Outcome β} {b : β}
    (h : x.bind f = .ok b) : ∃ a, x = .ok a ∧ f a = .ok b := by
  cases x with
  | ok a => exact ⟨a, rfl, h⟩
  | stop m => simp [Outcome.bind] at h
  | undefined w => simp [Outcome.bind] at h

/-- What the body of the selection loop leaves for a candidate: a skipped candidate is rated `~0u`, a concrete competitor is not generic and rated below `~0u`, a generic competitor is generic. -/
theorem SelectBestFunction.rate_kind (ctx : ExpressionContext) (generics : TypeList)
    (arguments : List ArgumentData) (stored : Nat) (value : FunctionValue) (r : Nat)
    (kind : CandidateKind)
    (h : SelectBestFunction.rate ctx generics arguments stored value = .ok (r, kind)) :
    (kind = .skipped → r = incompatible)
    ∧ (kind = .concrete → IsGenericFunction value.function = false ∧ r ≠ incompatible
        ∧ r ≤ incompatible)
    ∧ (kind = .genericCandidate → IsGenericFunction value.function = true ∧ r ≤ incompatible) := by
  unfold SelectBestFunction.rate at h
  simp only at h
  by_cases hsize : value.function.generics.size ≠ generics.size
  · rw [if_pos hsize] at h
    simp at h; obtain ⟨h1, h2⟩ := h; subst h1 h2; simp
  · rw [if_neg hsize] at h
    by_cases hskip : generics ≠ TypeList.nil ∧
        (if generics ≠ TypeList.nil
            ∧ SelectBestFunction.genericsMismatch value.function.generics generics = true
          then incompatible else stored) = incompatible
    · rw [if_pos hskip] at h
      simp only [Outcome.ok.injEq, Prod.mk.injEq] at h
      obtain ⟨h1, h2⟩ := h
      subst h2
      simp
      rw [← h1]; exact hskip.2
    · rw [if_neg hskip] at h
      obtain ⟨prepared, hp, h⟩ := Outcome.bind_eq_ok h
      by_cases hprep : (!prepared.1) = true
      · rw [if_pos hprep] at h
        simp at h; obtain ⟨h1, h2⟩ := h; subst h1 h2; simp
      · rw [if_neg hprep] at h
        obtain ⟨rating, hr, h⟩ := Outcome.bind_eq_ok h
        have hle := GetFunctionRating_le_incompatible _ _ _ _ _ hr
        by_cases hinc : rating = incompatible
        · rw [if_pos hinc] at h
          simp at h; obtain ⟨h1, h2⟩ := h; subst h1 h2
          exact ⟨fun _ => hinc, by simp, by simp⟩
        · rw [if_neg hinc] at h
          by_cases hgen : IsGenericFunction value.function = true
          · rw [if_pos hgen] at h
            obtain ⟨parentType, hpt, h⟩ := Outcome.bind_eq_ok h
            obtain ⟨instanced, hi, h⟩ := Outcome.bind_eq_ok h
            cases hinst : instanced.1 with
            | none =>
              simp [hinst] at h; obtain ⟨h1, h2⟩ := h; subst h1 h2; simp
            | some inst =>
              simp only [hinst] at h
              obtain ⟨rating1, hr1, h⟩ := Outcome.bind_eq_ok h
              have hle1 := GetFunctionRating_le_incompatible _ _ _ _ _ hr1
              simp at h; obtain ⟨h1, h2⟩ := h; subst h1 h2
              simp [hgen, hle1]
          · rw [if_neg hgen] at h
            simp at h; obtain ⟨h1, h2⟩ := h; subst h1 h2
            simp [hinc, hle]
            simpa using hgen


/-- The invariant holds before the first candidate. -/
theorem SelectInvariant.init (functions : List FunctionValue) (stored : Nat → Nat) :
    SelectInvariant functions 0
      { ratings := (List.range functions.length).map stored, bestRating := incompatible,
        bestFunction := none, bestGenericRating := incompatible, bestGenericFunction := none } := by
  constructor <;> simp

/-- One iteration of the selection loop preserves the invariant. -/
theorem SelectInvariant.step (ctx : ExpressionContext) (generics : TypeList)
    (arguments : List ArgumentData) (functions : List FunctionValue) (i : Nat) (s : SelectState)
    (value : FunctionValue) (rated : Nat × CandidateKind) (stored : Nat)
    (hinv : SelectInvariant functions i s) (hvalue : functions[i]? = some value)
    (hrate : SelectBestFunction.rate ctx generics arguments stored value = .ok rated) :
    SelectInvariant functions (i + 1) (SelectBestFunction.update s i value rated) := by
  obtain ⟨r, kind⟩ := rated
  obtain ⟨hskipped, hconcrete, hgeneric⟩ := SelectBestFunction.rate_kind ctx generics arguments stored value r kind hrate
  have hi : i < s.ratings.length := by
    rw [hinv.length_eq]
    exact (List.getElem?_eq_some.mp hvalue).1
  have hset_i : (s.ratings.set i r)[i]? = some r := by
    rw [List.getElem?_set_self hi]
  have hset_ne : ∀ k, k < i → (s.ratings.set i r)[k]? = s.ratings[k]? := by
    intro k hk
    rw [List.getElem?_set_ne (by omega)]
  have hcases : ∀ k, k < i + 1 → k < i ∨ k = i := by intro k hk; omega
  cases kind with
  | skipped =>
    have hr := hskipped rfl
    simp only [SelectBestFunction.update]
    constructor <;> dsimp only
    · simp [hinv.length_eq]
    · exact hinv.best_le
    · exact hinv.generic_le
    · intro k v r' hk hv hg hr' hne
      rcases hcases k hk with hk | hk
      · exact hinv.concrete_ge k v r' hk hv hg (by rw [← hset_ne k hk]; exact hr') hne
      · subst hk
        rw [hset_i] at hr'
        simp at hr'
        exact absurd (hr'.symm.trans hr) hne
    · intro k v r' hk hv hg hr'
      rcases hcases k hk with hk | hk
      · exact hinv.generic_ge k v r' hk hv hg (by rw [← hset_ne k hk]; exact hr')
      · subst hk
        rw [hset_i] at hr'
        simp at hr'
        have := hinv.generic_le
        omega
    · exact hinv.best_none
    · intro b hb
      obtain ⟨k, hk, h1, h2, h3⟩ := hinv.best_some b hb
      exact ⟨k, by omega, h1, by rw [hset_ne k hk]; exact h2, h3⟩
    · exact hinv.generic_none
    · intro g hg
      obtain ⟨k, hk, h1, h2, h3⟩ := hinv.generic_some g hg
      exact ⟨k, by omega, h1, by rw [hset_ne k hk]; exact h2, h3⟩
    · intro k r' hk hr'
      rcases hcases k hk with hk | hk
      · exact hinv.rated_le k r' hk (by rw [← hset_ne k hk]; exact hr')
      · subst hk
        rw [hset_i] at hr'
        simp at hr'
        omega
  | concrete =>
    obtain ⟨hng, hne, hle⟩ := hconcrete rfl
    simp only [SelectBestFunction.update]
    by_cases hlt : r < s.bestRating
    · rw [if_pos hlt]
      constructor <;> dsimp only
      · simp [hinv.length_eq]
      · exact hle
      · exact hinv.generic_le
      · intro k v r' hk hv hg hr' hne'
        rcases hcases k hk with hk | hk
        · have := hinv.concrete_ge k v r' hk hv hg (by rw [← hset_ne k hk]; exact hr') hne'
          omega
        · subst hk
          rw [hset_i] at hr'
          simp at hr'
          omega
      · intro k v r' hk hv hg hr'
        rcases hcases k hk with hk | hk
        · exact hinv.generic_ge k v r' hk hv hg (by rw [← hset_ne k hk]; exact hr')
        · subst hk
          rw [hvalue] at hv
          simp at hv
          subst hv
          rw [hng] at hg
          simp at hg
      · intro h; simp at h
      · intro b hb
        simp at hb
        subst hb
        exact ⟨i, by omega, hvalue, hset_i, hng, hne⟩
      · exact hinv.generic_none
      · intro g hg
        obtain ⟨k, hk, h1, h2, h3⟩ := hinv.generic_some g hg
        exact ⟨k, by omega, h1, by rw [hset_ne k hk]; exact h2, h3⟩
      · intro k r' hk hr'
        rcases hcases k hk with hk | hk
        · exact hinv.rated_le k r' hk (by rw [← hset_ne k hk]; exact hr')
        · subst hk
          rw [hset_i] at hr'
          simp at hr'
          omega
    · rw [if_neg hlt]
      constructor <;> dsimp only
      · simp [hinv.length_eq]
      · exact hinv.best_le
      · exact hinv.generic_le
      · intro k v r' hk hv hg hr' hne'
        rcases hcases k hk with hk | hk
        · exact hinv.concrete_ge k v r' hk hv hg (by rw [← hset_ne k hk]; exact hr') hne'
        · subst hk
          rw [hset_i] at hr'
          simp at hr'
          omega
      · intro k v r' hk hv hg hr'
        rcases hcases k hk with hk | hk
        · exact hinv.generic_ge k v r' hk hv hg (by rw [← hset_ne k hk]; exact hr')
        · subst hk
          rw [hvalue] at hv
          simp at hv
          subst hv
          rw [hng] at hg
          simp at hg
      · exact hinv.best_none
      · intro b hb
        obtain ⟨k, hk, h1, h2, h3⟩ := hinv.best_some b hb
        exact ⟨k, by omega, h1, by rw [hset_ne k hk]; exact h2, h3⟩
      · exact hinv.generic_none
      · intro g hg
        obtain ⟨k, hk, h1, h2, h3⟩ := hinv.generic_some g hg
        exact ⟨k, by omega, h1, by rw [hset_ne k hk]; exact h2, h3⟩
      · intro k r' hk hr'
        rcases hcases k hk with hk | hk
        · exact hinv.rated_le k r' hk (by rw [← hset_ne k hk]; exact hr')
        · subst hk
          rw [hset_i] at hr'
          simp at hr'
          omega
  | genericCandidate =>
    obtain ⟨hgn, hle⟩ := hgeneric rfl
    simp only [SelectBestFunction.update]
    by_cases hlt : r < s.bestGenericRating
    · rw [if_pos hlt]
      constructor <;> dsimp only
      · simp [hinv.length_eq]
      · exact hinv.best_le
      · exact hle
      · intro k v r' hk hv hg hr' hne'
        rcases hcases k hk with hk | hk
        · exact hinv.concrete_ge k v r' hk hv hg (by rw [← hset_ne k hk]; exact hr') hne'
        · subst hk
          rw [hvalue] at hv
          simp at hv
          subst hv
          rw [hgn] at hg
          simp at hg
      · intro k v r' hk hv hg hr'
        rcases hcases k hk with hk | hk
        · have := hinv.generic_ge k v r' hk hv hg (by rw [← hset_ne k hk]; exact hr')
          omega
        · subst hk
          rw [hset_i] at hr'
          simp at hr'
          omega
      · exact hinv.best_none
      · intro b hb
        obtain ⟨k, hk, h1, h2, h3⟩ := hinv.best_some b hb
        exact ⟨k, by omega, h1, by rw [hset_ne k hk]; exact h2, h3⟩
      · intro h; simp at h
      · intro g hg
        simp at hg
        subst hg
        exact ⟨i, by omega, hvalue, hset_i, hgn⟩
      · intro k r' hk hr'
        rcases hcases k hk with hk | hk
        · exact hinv.rated_le k r' hk (by rw [← hset_ne k hk]; exact hr')
        · subst hk
          rw [hset_i] at hr'
          simp at hr'
          omega
    · rw [if_neg hlt]
      constructor <;> dsimp only
      · simp [hinv.length_eq]
      · exact hinv.best_le
      · exact hinv.generic_le
      · intro k v r' hk hv hg hr' hne'
        rcases hcases k hk with hk | hk
        · exact hinv.concrete_ge k v r' hk hv hg (by rw [← hset_ne k hk]; exact hr') hne'
        · subst hk
          rw [hvalue] at hv
          simp at hv
          subst hv
          rw [hgn] at hg
          simp at hg
      · intro k v r' hk hv hg hr'
        rcases hcases k hk with hk | hk
        · exact hinv.generic_ge k v r' hk hv hg (by rw [← hset_ne k hk]; exact hr')
        · subst hk
          rw [hset_i] at hr'
          simp at hr'
          omega
      · exact hinv.best_none
      · intro b hb
        obtain ⟨k, hk, h1, h2, h3⟩ := hinv.best_some b hb
        exact ⟨k, by omega, h1, by rw [hset_ne k hk]; exact h2, h3⟩
      · exact hinv.generic_none
      · intro g hg
        obtain ⟨k, hk, h1, h2, h3⟩ := hinv.generic_some g hg
        exact ⟨k, by omega, h1, by rw [hset_ne k hk]; exact h2, h3⟩
      · intro k r' hk hr'
        rcases hcases k hk with hk | hk
        · exact hinv.rated_le k r' hk (by rw [← hset_ne k hk]; exact hr')
        · subst hk
          rw [hset_i] at hr'
          simp at hr'
          omega

/-- The selection loop preserves the invariant. -/
theorem SelectInvariant.loop (ctx : ExpressionContext) (generics : TypeList)
    (arguments : List ArgumentData) (functions : List FunctionValue) :
    ∀ (rest : List FunctionValue) (i : Nat) (s final : SelectState),
      (∀ m, rest[m]? = functions[i + m]?) → SelectInvariant functions i s →
      SelectBestFunction.loop ctx generics arguments rest i s = .ok final →
      SelectInvariant functions (i + rest.length) final := by
  intro rest
  induction rest with
  | nil =>
    intro i s final _ hinv h
    simp [SelectBestFunction.loop] at h
    subst h
    simpa using hinv
  | cons value rest ih =>
    intro i s final hrest hinv h
    simp only [SelectBestFunction.loop] at h
    obtain ⟨rated, hrate, h⟩ := Outcome.bind_eq_ok h
    have hvalue : functions[i]? = some value := by
      have := hrest 0
      simpa using this.symm
    have hstep := SelectInvariant.step ctx generics arguments functions i s value rated _ hinv
      hvalue hrate
    have := ih (i + 1) _ final (fun m => by
      have := hrest (m + 1)
      simp only [List.getElem?_cons_succ] at this
      rw [this]
      congr 1
      omega) hstep h
    have hlen : i + (value :: rest).length = i + 1 + rest.length := by simp; omega
    rw [hlen]
    exact this

/-- Hiding resets the rating of every generic candidate and keeps the others. -/
theorem SelectBestFunction.hideGenerics_getElem : ∀ (functions : List FunctionValue) (ratings : List Nat)
    (k : Nat) (v : FunctionValue) (r : Nat), functions[k]? = some v → ratings[k]? = some r →
    (SelectBestFunction.hideGenerics functions ratings)[k]?
      = some (if IsGenericFunction v.function then incompatible else r) := by
  intro functions
  induction functions with
  | nil => intro ratings k v r h; simp at h
  | cons value rest ih =>
    intro ratings k v r hv hr
    cases ratings with
    | nil => simp at hr
    | cons rating ratings =>
      cases k with
      | zero =>
        simp at hv hr
        subst hv hr
        simp [SelectBestFunction.hideGenerics]
      | succ k =>
        simp at hv hr
        simp [SelectBestFunction.hideGenerics, ih ratings k v r hv hr]

/-- Reading back the best rating skips candidates that are not the selected function. -/
theorem CreateFunctionCall.bestRating_not_member (bestOverload : FunctionValue) :
    ∀ (functions : List FunctionValue) (ratings : List Nat) (init : Nat),
      (∀ v ∈ functions, v.function ≠ bestOverload.function) →
      CreateFunctionCall.bestRating bestOverload functions ratings init = init := by
  intro functions
  induction functions with
  | nil => intro ratings init _; cases ratings <;> rfl
  | cons value rest ih =>
    intro ratings init h
    cases ratings with
    | nil => rfl
    | cons rating ratings =>
      simp only [CreateFunctionCall.bestRating]
      rw [if_neg (h value (by simp))]
      exact ih ratings init (fun v hv => h v (by simp [hv]))

/-- Among distinct candidates the rating read back is the rating of the selected one. -/
theorem CreateFunctionCall.bestRating_of_nodup (bestOverload : FunctionValue) :
    ∀ (functions : List FunctionValue) (ratings : List Nat) (init : Nat) (k : Nat) (r : Nat),
      (functions.map FunctionValue.function).Nodup →
      functions[k]? = some bestOverload → ratings[k]? = some r →
      CreateFunctionCall.bestRating bestOverload functions ratings init = r := by
  intro functions
  induction functions with
  | nil => intro ratings init k r _ h; simp at h
  | cons value rest ih =>
    intro ratings init k r hnodup hv hr
    cases ratings with
    | nil => simp at hr
    | cons rating ratings =>
      simp only [List.map_cons, List.nodup_cons] at hnodup
      cases k with
      | zero =>
        simp at hv hr
        subst hv hr
        simp only [CreateFunctionCall.bestRating, if_true]
        apply CreateFunctionCall.bestRating_not_member
        intro v hv heq
        exact hnodup.1 (by rw [← heq]; exact List.mem_map_of_mem _ hv)
      | succ k =>
        simp at hv hr
        simp only [CreateFunctionCall.bestRating]
        have hne : value.function ≠ bestOverload.function := by
          intro heq
          apply hnodup.1
          rw [heq]
          exact List.mem_map_of_mem _ (List.mem_iff_getElem?.mpr ⟨k, hv⟩)
        rw [if_neg hne]
        exact ih ratings init k r hnodup.2 hv hr

/-- The tie check fires when another function has the best rating. -/
theorem CreateFunctionCall.sharesRating_of_index (bestOverload : FunctionValue) (bestRating : Nat) :
    ∀ (functions : List FunctionValue) (ratings : List Nat) (k : Nat) (v : FunctionValue),
      functions[k]? = some v → ratings[k]? = some bestRating →
      v.function ≠ bestOverload.function →
      CreateFunctionCall.sharesRating bestOverload bestRating functions ratings = true := by
  intro functions
  induction functions with
  | nil => intro ratings k v h; simp at h
  | cons value rest ih =>
    intro ratings k v hv hr hne
    cases ratings with
    | nil => simp at hr
    | cons rating ratings =>
      cases k with
      | zero =>
        simp at hv hr
        subst hv hr
        simp [CreateFunctionCall.sharesRating, hne]
      | succ k =>
        simp at hv hr
        simp [CreateFunctionCall.sharesRating, ih ratings k v hv hr hne]

/-- The tie check fires only for a candidate that is another function with the best rating. -/
theorem CreateFunctionCall.sharesRating_inv (bestOverload : FunctionValue) (bestRating : Nat) :
    ∀ (functions : List FunctionValue) (ratings : List Nat),
      CreateFunctionCall.sharesRating bestOverload bestRating functions ratings = true →
      ∃ (k : Nat) (v : FunctionValue), functions[k]? = some v ∧ ratings[k]? = some bestRating
        ∧ v.function ≠ bestOverload.function := by
  intro functions
  induction functions with
  | nil => intro ratings h; cases ratings <;> simp [CreateFunctionCall.sharesRating] at h
  | cons value rest ih =>
    intro ratings h
    cases ratings with
    | nil => simp [CreateFunctionCall.sharesRating] at h
    | cons rating ratings =>
      simp only [CreateFunctionCall.sharesRating, Bool.or_eq_true, Bool.and_eq_true,
        decide_eq_true_eq] at h
      rcases h with ⟨h1, h2⟩ | h
      · exact ⟨0, value, by simp, by simp [h2], h1⟩
      · obtain ⟨k, v, hv, hr, hne⟩ := ih ratings h
        exact ⟨k + 1, v, by simpa using hv, by simpa using hr, hne⟩


/-- The result of `SelectBestFunction` in terms of the final state of its loop. -/
theorem SelectBestFunction.post (ctx : ExpressionContext) (functions : List FunctionValue)
    (generics : TypeList) (arguments : List ArgumentData) (stored : Nat → Nat)
    (best : Option FunctionValue) (ratings : List Nat)
    (h : SelectBestFunction ctx functions generics arguments stored = .ok (best, ratings)) :
    ∃ state : SelectState,
      SelectBestFunction.loop ctx generics arguments functions 0
        { ratings := (List.range functions.length).map stored, bestRating := incompatible,
          bestFunction := none, bestGenericRating := incompatible,
          bestGenericFunction := none } = .ok state
      ∧ SelectInvariant functions functions.length state
      ∧ ((state.bestGenericRating < state.bestRating ∧ best = state.bestGenericFunction
            ∧ ratings = state.ratings)
          ∨ (¬ state.bestGenericRating < state.bestRating ∧ best = state.bestFunction
            ∧ ratings = SelectBestFunction.hideGenerics functions state.ratings)) := by
  unfold SelectBestFunction at h
  obtain ⟨state, hloop, h⟩ := Outcome.bind_eq_ok h
  refine ⟨state, hloop, ?_, ?_⟩
  · have := SelectInvariant.loop ctx generics arguments functions functions 0 _ state
      (fun m => by simp) (SelectInvariant.init functions stored) hloop
    simpa using this
  · by_cases hlt : state.bestGenericRating < state.bestRating
    · rw [if_pos hlt] at h
      simp at h
      exact Or.inl ⟨hlt, h.1.symm, h.2.symm⟩
    · rw [if_neg hlt] at h
      simp at h
      exact Or.inr ⟨hlt, h.1.symm, h.2.symm⟩

/-- Another function with the rating of the selected one makes the call ambiguous. -/
theorem CreateFunctionCall.select_of_tie (ctx : ExpressionContext) (valueIsTypeLiteral : Bool)
    (functions : List FunctionValue) (generics : TypeList) (arguments : List ArgumentData)
    (allowFailure : Bool) (stored : Nat → Nat) (ratings : List Nat)
    (bestOverload other : FunctionValue) (r j i : Nat)
    (hdistinct : (functions.map FunctionValue.function).Nodup)
    (hselect : SelectBestFunction ctx functions generics arguments stored
      = .ok (some bestOverload, ratings))
    (hbest : functions[j]? = some bestOverload) (hrating : ratings[j]? = some r)
    (hother : functions[i]? = some other) (hne : other.function ≠ bestOverload.function)
    (htie : ratings[i]? = some r) :
    CreateFunctionCall.select ctx valueIsTypeLiteral functions generics arguments allowFailure
      stored = .stop ambiguityError := by
  unfold CreateFunctionCall.select
  simp only [hselect, Outcome.bind]
  rw [CreateFunctionCall.bestRating_of_nodup bestOverload functions ratings incompatible j r hdistinct hbest hrating]
  rw [CreateFunctionCall.sharesRating_of_index bestOverload r functions ratings i other hother htie hne]
  simp

/-- Claim C1: in `CreateFunctionCall`, for distinct candidate functions, after
`SelectBestFunction` has returned a best overload whose rating is `r`, the call
stops with the error `ambiguity, there is more than one overloaded function
available for the call` whenever a different candidate function also has
rating `r`; in particular the call stops with that error whenever two concrete
candidates have the same compatible rating and no candidate has a lower one. -/
theorem CreateFunctionCall_tie_is_ambiguous (ctx : ExpressionContext) (valueIsTypeLiteral : Bool)
    (functions : List FunctionValue) (generics : TypeList) (arguments : List ArgumentData)
    (allowFailure : Bool) (stored : Nat → Nat) (best : Option FunctionValue)
    (ratings : List Nat)
    (hdistinct : (functions.map FunctionValue.function).Nodup)
    (hselect : SelectBestFunction ctx functions generics arguments stored = .ok (best, ratings)) :
    (∀ (bestOverload other : FunctionValue) (r j i : Nat),
        best = some bestOverload → functions[j]? = some bestOverload → ratings[j]? = some r →
        functions[i]? = some other → other.function ≠ bestOverload.function →
        ratings[i]? = some r →
        CreateFunctionCall.select ctx valueIsTypeLiteral functions generics arguments
          allowFailure stored = .stop ambiguityError)
    ∧ (∀ (first second : FunctionValue) (r i j : Nat),
        functions[i]? = some first → functions[j]? = some second →
        first.function ≠ second.function →
        IsGenericFunction first.function = false → IsGenericFunction second.function = false →
        ratings[i]? = some r → ratings[j]? = some r → r ≠ incompatible →
        (∀ (k rk : Nat), ratings[k]? = some rk → r ≤ rk) →
        CreateFunctionCall.select ctx valueIsTypeLiteral functions generics arguments
          allowFailure stored = .stop ambiguityError) := by
  constructor
  · intro bestOverload other r j i hb hbest hrating hother hne htie
    subst hb
    exact CreateFunctionCall.select_of_tie ctx valueIsTypeLiteral functions generics arguments allowFailure stored
      ratings bestOverload other r j i hdistinct hselect hbest hrating hother hne htie
  · intro first second r i j hfirst hsecond hne hg1 hg2 hr1 hr2 hcompat hmin
    obtain ⟨state, _, hinv, hcase⟩ := SelectBestFunction.post ctx functions generics arguments
      stored best ratings hselect
    have hi : i < functions.length := (List.getElem?_eq_some.mp hfirst).1
    rcases hcase with ⟨hlt, hbest, hratings⟩ | ⟨hlt, hbest, hratings⟩
    · exfalso
      subst hratings
      have h1 := hinv.concrete_ge i first r hi hfirst hg1 hr1 hcompat
      cases hg : state.bestGenericFunction with
      | none =>
        have := hinv.generic_none hg
        have := hinv.best_le
        omega
      | some g =>
        obtain ⟨k, _, _, hk, _⟩ := hinv.generic_some g hg
        have := hmin k _ hk
        omega
    · have hsi : ∃ r0, state.ratings[i]? = some r0 := by
        have : i < state.ratings.length := by rw [hinv.length_eq]; exact hi
        exact ⟨state.ratings[i], List.getElem?_eq_getElem this⟩
      obtain ⟨r0, hr0⟩ := hsi
      have hh := SelectBestFunction.hideGenerics_getElem functions state.ratings i first r0 hfirst hr0
      rw [← hratings, hr1, hg1] at hh
      simp at hh
      subst hh
      have h1 := hinv.concrete_ge i first r hi hfirst hg1 hr0 hcompat
      cases hb : state.bestFunction with
      | none =>
        exfalso
        have := hinv.best_none hb
        have := hinv.rated_le i r hi hr0
        omega
      | some b =>
        obtain ⟨k, _, hkf, hkr, hkg, _⟩ := hinv.best_some b hb
        have hh := SelectBestFunction.hideGenerics_getElem functions state.ratings k b _ hkf hkr
        rw [← hratings, hkg] at hh
        simp at hh
        have h2 := hmin k _ hh
        have heq : state.bestRating = r := by omega
        rw [heq] at hh
        rw [hb] at hbest
        subst hbest
        by_cases hfb : first.function = b.function
        · have hsb : second.function ≠ b.function := fun h => hne (hfb.trans h.symm)
          exact CreateFunctionCall.select_of_tie ctx valueIsTypeLiteral functions generics arguments allowFailure
            stored ratings b second r k j hdistinct hselect hkf hh hsecond hsb hr2
        · exact CreateFunctionCall.select_of_tie ctx valueIsTypeLiteral functions generics arguments allowFailure
            stored ratings b first r k i hdistinct hselect hkf hh hfirst hfb hr1


/-- Claim C2: with `state` the variables of `SelectBestFunction` at the end of its
loop, a generic candidate is returned only when the best generic rating is
strictly lower than the best concrete rating; when the two are equal the
concrete candidate is returned, the rating of every generic candidate is reset
to incompatible (`~0u`), and `CreateFunctionCall` selects the concrete
candidate without an ambiguity error unless another concrete function shares
its rating. -/
theorem SelectBestFunction_concrete_wins_tie (ctx : ExpressionContext) (valueIsTypeLiteral : Bool)
    (functions : List FunctionValue) (generics : TypeList) (arguments : List ArgumentData)
    (allowFailure : Bool) (stored : Nat → Nat) (state : SelectState)
    (hdistinct : (functions.map FunctionValue.function).Nodup)
    (hloop : SelectBestFunction.loop ctx generics arguments functions 0
        { ratings := (List.range functions.length).map stored, bestRating := incompatible,
          bestFunction := none, bestGenericRating := incompatible,
          bestGenericFunction := none } = .ok state) :
    (∀ (picked : FunctionValue) (ratings : List Nat),
        SelectBestFunction ctx functions generics arguments stored = .ok (some picked, ratings) →
        IsGenericFunction picked.function = true →
        state.bestGenericRating < state.bestRating)
    ∧ (∀ concrete : FunctionValue, state.bestFunction = some concrete →
        state.bestGenericRating = state.bestRating →
        ∃ ratings : List Nat,
          SelectBestFunction ctx functions generics arguments stored
            = .ok (some concrete, ratings)
          ∧ IsGenericFunction concrete.function = false
          ∧ (∀ (k : Nat) (v : FunctionValue), functions[k]? = some v →
              IsGenericFunction v.function = true → ratings[k]? = some incompatible)
          ∧ ((∀ (k : Nat) (v : FunctionValue), functions[k]? = some v →
                IsGenericFunction v.function = false → v.function ≠ concrete.function →
                ratings[k]? ≠ some state.bestRating) →
              CreateFunctionCall.select ctx valueIsTypeLiteral functions generics arguments
                allowFailure stored = .ok (.call concrete))) := by
  have hinv : SelectInvariant functions functions.length state := by
    have := SelectInvariant.loop ctx generics arguments functions functions 0 _ state
      (fun m => by simp) (SelectInvariant.init functions stored) hloop
    simpa using this
  have hsel : SelectBestFunction ctx functions generics arguments stored
      = if state.bestGenericRating < state.bestRating then
          .ok (state.bestGenericFunction, state.ratings)
        else .ok (state.bestFunction, SelectBestFunction.hideGenerics functions state.ratings) := by
    unfold SelectBestFunction
    rw [hloop]
    rfl
  constructor
  · intro picked ratings hselect hgen
    by_contra hlt
    rw [hsel, if_neg hlt] at hselect
    simp at hselect
    obtain ⟨_, _, _, _, hng, _⟩ := hinv.best_some picked hselect.1
    rw [hng] at hgen
    simp at hgen
  · intro concrete hbest heq
    have hlt : ¬ state.bestGenericRating < state.bestRating := by omega
    obtain ⟨kc, _, hkf, hkr, hkg, hkne⟩ := hinv.best_some concrete hbest
    have hselect : SelectBestFunction ctx functions generics arguments stored
        = .ok (some concrete, SelectBestFunction.hideGenerics functions state.ratings) := by
      rw [hsel, if_neg hlt, hbest]
    have hstate : ∀ (k : Nat) (v : FunctionValue), functions[k]? = some v →
        ∃ r0 : Nat, state.ratings[k]? = some r0 := by
      intro k v hv
      have : k < state.ratings.length := by
        rw [hinv.length_eq]; exact (List.getElem?_eq_some.mp hv).1
      exact ⟨state.ratings[k], List.getElem?_eq_getElem this⟩
    have hreset : ∀ (k : Nat) (v : FunctionValue), functions[k]? = some v →
        IsGenericFunction v.function = true →
        (SelectBestFunction.hideGenerics functions state.ratings)[k]? = some incompatible := by
      intro k v hv hg
      obtain ⟨r0, hr0⟩ := hstate k v hv
      rw [SelectBestFunction.hideGenerics_getElem functions state.ratings k v r0 hv hr0, hg]
      simp
    refine ⟨_, hselect, hkg, hreset, ?_⟩
    intro hothers
    have hkr2 : (SelectBestFunction.hideGenerics functions state.ratings)[kc]?
        = some state.bestRating := by
      rw [SelectBestFunction.hideGenerics_getElem functions state.ratings kc concrete _ hkf hkr, hkg]
      simp
    unfold CreateFunctionCall.select
    simp only [hselect, Outcome.bind]
    rw [CreateFunctionCall.bestRating_of_nodup concrete functions _ incompatible kc _ hdistinct hkf hkr2]
    cases hshare : CreateFunctionCall.sharesRating concrete state.bestRating functions
        (SelectBestFunction.hideGenerics functions state.ratings) with
    | false => simp
    | true =>
      exfalso
      obtain ⟨k, v, hv, hr, hne⟩ := CreateFunctionCall.sharesRating_inv concrete state.bestRating functions _ hshare
      cases hg : IsGenericFunction v.function with
      | true =>
        rw [hreset k v hv hg] at hr
        simp at hr
        exact hkne hr.symm
      | false => exact hothers k v hv hg hne hr

/-- Witness of C1: `f(int)` and `f(double)` called with a `short` are both rated
1, and the call is ambiguous. -/
theorem CreateFunctionCall_tie_is_ambiguous_witness :
    CreateFunctionCall.select exampleContext false
      [{ function := functionOf 1 "f" .tVoid [formalOf "a" .tInt], context := noContext },
       { function := functionOf 2 "f" .tVoid [formalOf "a" .tDouble], context := noContext }]
      .nil [actualOf "" .tShort 1] false (fun _ => 0) = .stop ambiguityError :=
  (CreateFunctionCall_tie_is_ambiguous exampleContext false
    [{ function := functionOf 1 "f" .tVoid [formalOf "a" .tInt], context := noContext },
     { function := functionOf 2 "f" .tVoid [formalOf "a" .tDouble], context := noContext }]
    .nil [actualOf "" .tShort 1] false (fun _ => 0)
    (some { function := functionOf 1 "f" .tVoid [formalOf "a" .tInt], context := noContext })
    [1, 1] (by decide) (by decide)).1
    { function := functionOf 1 "f" .tVoid [formalOf "a" .tInt], context := noContext }
    { function := functionOf 2 "f" .tVoid [formalOf "a" .tDouble], context := noContext }
    1 0 1 rfl rfl rfl rfl (by decide) rfl

/-- Witness of C2: the concrete `f(int)` and the generic `f(generic)` called with
an `int` are both rated 0; the concrete function is selected and the call is
not ambiguous. -/
theorem SelectBestFunction_concrete_wins_tie_witness :
    CreateFunctionCall.select exampleContext false
      [{ function := functionOf 1 "f" .tVoid [formalOf "a" .tInt], context := noContext },
       { function := genericFunctionOf 2 "f" [formalOf "a" (.generic "generic")],
         context := noContext }]
      .nil [actualOf "" .tInt 1] false (fun _ => 0)
      = .ok (.call { function := functionOf 1 "f" .tVoid [formalOf "a" .tInt],
                     context := noContext }) := by
  obtain ⟨ratings, _, _, _, hcall⟩ :=
    (SelectBestFunction_concrete_wins_tie exampleContext false
      [{ function := functionOf 1 "f" .tVoid [formalOf "a" .tInt], context := noContext },
       { function := genericFunctionOf 2 "f" [formalOf "a" (.generic "generic")],
         context := noContext }]
      .nil [actualOf "" .tInt 1] false (fun _ => 0)
      { ratings := [0, 0], bestRating := 0,
        bestFunction := some { function := functionOf 1 "f" .tVoid [formalOf "a" .tInt],
                               context := noContext },
        bestGenericRating := 0,
        bestGenericFunction := some
          { function := genericFunctionOf 2 "f" [formalOf "a" (.generic "generic")],
            context := noContext } }
      (by decide) (by decide)).2 _ rfl rfl
  apply hcall
  intro k v hv hg hne
  match k with
  | 0 =>
    simp at hv
    subst hv
    exact absurd rfl hne
  | 1 =>
    simp at hv
    subst hv
    exact absurd hg (by decide)
  | k + 2 => simp at hv

/-! ## Binary operation type theorems -/

/-- Two numeric operands always have a common type, and it is numeric. -/
theorem GetBinaryOpResultType_numeric (a b : TypeBase) (ha : IsNumericType a = true)
    (hb : IsNumericType b = true) :
    ∃ c, GetBinaryOpResultType a b = some c ∧ IsNumericType c = true := by
  cases a <;> simp [IsNumericType, IsIntegerType, IsFloatingPointType] at ha <;>
    cases b <;> simp [IsNumericType, IsIntegerType, IsFloatingPointType] at hb <;>
    exact ⟨_, rfl, by decide⟩

/-- Claim C12: for every pair of numeric types `a` and `b`,
`GetBinaryOpResultType(a, b)` is the higher-ranked of the two in the order
`Double > Float > Long > Int > Short > Char > Bool`; so the result is one of
the two arguments, and the operation is commutative. -/
theorem GetBinaryOpResultType_higher_ranked (a b : TypeBase) (ha : IsNumericType a = true)
    (hb : IsNumericType b = true) :
    GetBinaryOpResultType a b = some (higherRanked a b) ∧
      (higherRanked a b = a ∨ higherRanked a b = b) ∧
      GetBinaryOpResultType a b = GetBinaryOpResultType b a := by
  cases a <;> simp [IsNumericType, IsIntegerType, IsFloatingPointType] at ha <;>
    cases b <;> simp [IsNumericType, IsIntegerType, IsFloatingPointType] at hb <;> decide

/-- Witness of C12: the common type of `int` and `long` is `long`, in either
order of the operands. -/
theorem GetBinaryOpResultType_higher_ranked_witness :
    GetBinaryOpResultType .tInt .tLong = some .tLong ∧
      GetBinaryOpResultType .tInt .tLong = GetBinaryOpResultType .tLong .tInt :=
  ⟨(GetBinaryOpResultType_higher_ranked .tInt .tLong rfl rfl).1,
   (GetBinaryOpResultType_higher_ranked .tInt .tLong rfl rfl).2.2⟩

/-- Counterexample to C13: `double` and `void` are not a pair of two numeric
types, and `GetBinaryOpResultType` returns `double` for them, not null. -/
theorem GetBinaryOpResultType_one_numeric_operand :
    IsNumericType .tVoid = false ∧ GetBinaryOpResultType .tDouble .tVoid = some .tDouble ∧
      GetBinaryOpResultType .tVoid .tDouble = some .tDouble := by
  decide

/-- Claim C13, amended: `GetBinaryOpResultType` returns no common type (null)
exactly for the pairs of types of which neither is numeric. -/
theorem GetBinaryOpResultType_null_iff (a b : TypeBase) :
    GetBinaryOpResultType a b = none ↔ (IsNumericType a = false ∧ IsNumericType b = false) := by
  cases a <;> cases b <;>
    simp [GetBinaryOpResultType, IsNumericType, IsIntegerType, IsFloatingPointType]

/-! ## Binary operation theorems -/

/-- What a numeric type is not: void, the type of `nullptr`, `auto ref`, `typeid`,
a reference, a function, an unsized array or an enumeration. -/
theorem IsNumericType_facts (t : TypeBase) (h : IsNumericType t = true) :
    t ≠ .tVoid ∧ t ≠ .tNullPtr ∧ t ≠ .tAutoRef ∧ t ≠ .tTypeID ∧ t.isRef = false ∧
      t.isFunction = false ∧ t.isUnsizedArray = false ∧ t.isEnum = false := by
  cases t <;> simp [IsNumericType, IsIntegerType, IsFloatingPointType] at h <;>
    simp [TypeBase.isRef, TypeBase.isFunction, TypeBase.isUnsizedArray, TypeBase.isEnum]

/-- A value of numeric type is not a function definition. -/
theorem CreateCast.definition_numeric (ctx : ExpressionContext) (source : Option Nat)
    (value : ExprBase) (h : IsNumericType value.type = true) :
    CreateCast.definition ctx source value = none := by
  cases value <;> first
    | rfl
    | (simp [ExprBase.type, TypeFunction.toType, IsNumericType, IsIntegerType,
        IsFloatingPointType] at h)

/-- A cast between numeric types succeeds with a little fuel: the value itself
when it has the target type, a numerical cast node otherwise. -/
theorem CreateCast_numeric (ctx : ExpressionContext) (fuel : Nat) (source : Option Nat)
    (value : ExprBase) (type : TypeBase) (isFunctionArgument : Bool)
    (hv : IsNumericType value.type = true) (ht : IsNumericType type = true) :
    ∃ result, CreateCast ctx (fuel + 1) source value type isFunctionArgument = some (.ok result) ∧
      result.type = type ∧
      (result = value ∨ result = .typeCast source type value .EXPR_CAST_NUMERICAL) := by
  simp only [CreateCast, CreateCast.body, CreateCast.definition_numeric ctx source value hv,
    Option.orElse]
  by_cases heq : value.type = type
  · refine ⟨value, ?_, heq, Or.inl rfl⟩
    simp [heq]
  · refine ⟨.typeCast source type value .EXPR_CAST_NUMERICAL, ?_, rfl, Or.inr rfl⟩
    simp [heq, hv, ht]

/-- The condition cast leaves a value of numeric type as it is. -/
theorem CreateConditionCast_numeric (ctx : ExpressionContext)
    (cast : Option Nat → ExprBase → TypeBase → Bool → Analysis ExprBase)
    (binaryOp : Option Nat → SynBinaryOpType → ExprBase → ExprBase → Analysis ExprBase)
    (source : Option Nat) (value : ExprBase) (h : IsNumericType value.type = true) :
    CreateConditionCast ctx cast binaryOp source value = some (.ok value) := by
  simp [CreateConditionCast, h]

/-- On numeric operands for which no overload of the operator is found,
`CreateBinaryOp` goes on to the primitive operation. -/
theorem CreateBinaryOp.body_numeric (ctx : ExpressionContext)
    (cast : Option Nat → ExprBase → TypeBase → Bool → Analysis ExprBase)
    (recurse : Option Nat → SynBinaryOpType → ExprBase → ExprBase → Analysis ExprBase)
    (source : Option Nat) (op : SynBinaryOpType) (lhs rhs : ExprBase)
    (hl : IsNumericType lhs.type = true) (hr : IsNumericType rhs.type = true)
    (hover : CreateFunctionCall.byName ctx source (ctx.GetOpName op)
      [callArgument lhs, callArgument rhs] true = .ok none) :
    CreateBinaryOp.body ctx cast recurse source op lhs rhs =
      CreateBinaryOp.primitive ctx cast source op lhs rhs := by
  obtain ⟨_, hl2, hl3, hl4, hl5, hl6, hl7, _⟩ := IsNumericType_facts _ hl
  obtain ⟨_, hr2, _, _, _, _, _, _⟩ := IsNumericType_facts _ hr
  have hover2 : CreateBinaryOp.overloaded ctx cast recurse source op lhs rhs false =
      CreateBinaryOp.primitive ctx cast source op lhs rhs := by
    unfold CreateBinaryOp.overloaded
    rw [CreateConditionCast_numeric ctx cast recurse _ lhs hl,
      CreateConditionCast_numeric ctx cast recurse _ rhs hr]
    simp [Analysis.bind, hover]
  unfold CreateBinaryOp.body
  split
  · have hnull : CreateBinaryOp.nullOperands cast source lhs rhs = some (.ok (lhs, rhs)) := by
      unfold CreateBinaryOp.nullOperands
      split
      · simp [Analysis.bind, hl2, hr2]
      · rfl
    have hbuiltin : CreateBinaryOp.builtinEquality ctx source op lhs rhs = none := by
      simp [CreateBinaryOp.builtinEquality, hl3, hl6, hl7]
    rw [hnull]
    simp only [Analysis.bind, hbuiltin]
    have : decide (lhs.type = .tTypeID ∧ rhs.type = .tTypeID) = false := by simp [hl4]
    rw [this]
    exact hover2
  · exact hover2

/-- Claim C11: when the call of an overload of the operator gives nothing and
both operands are numeric, `GetBinaryOpResultType(lhs, rhs)` is a common type
and `CreateBinaryOp` behaves as follows.  A bitwise or logical operator with a
`float` or `double` operand is rejected.  Otherwise both operands are cast by
`CreateCast`, to `bool` for a logical operator and to the common type for any
other, and the result is a node over the cast operands: of type `bool` for a
comparison or logical operator, of the common type for an arithmetic or
bitwise operator. -/
theorem CreateBinaryOp_numeric_operands (ctx : ExpressionContext) (fuel : Nat)
    (source : Option Nat) (op : SynBinaryOpType) (lhs rhs : ExprBase)
    (hl : IsNumericType lhs.type = true) (hr : IsNumericType rhs.type = true)
    (hover : CreateFunctionCall.byName ctx source (ctx.GetOpName op)
      [callArgument lhs, callArgument rhs] true = .ok none) :
    ∃ commonType, GetBinaryOpResultType lhs.type rhs.type = some commonType ∧
      (((IsFloatingPointType lhs.type || IsFloatingPointType rhs.type) &&
          (IsLogicalOp op || IsBinaryOp op)) = true →
        CreateBinaryOp ctx (fuel + 1) source op lhs rhs =
          some (.stop (CreateBinaryOp.notSupported ctx op lhs rhs))) ∧
      (((IsFloatingPointType lhs.type || IsFloatingPointType rhs.type) &&
          (IsLogicalOp op || IsBinaryOp op)) = false →
        ∃ l r,
          CreateCast ctx (fuel + 1) source lhs (if IsLogicalOp op then .tBool else commonType)
            false = some (.ok l) ∧
          CreateCast ctx (fuel + 1) source rhs (if IsLogicalOp op then .tBool else commonType)
            false = some (.ok r) ∧
          l.type = (if IsLogicalOp op then .tBool else commonType) ∧
          r.type = (if IsLogicalOp op then .tBool else commonType) ∧
          CreateBinaryOp ctx (fuel + 1) source op lhs rhs =
            some (.ok (.binaryOp source
              (if IsComparisonOp op || IsLogicalOp op then .tBool else commonType) op l r))) := by
  obtain ⟨commonType, hcommon, hnum⟩ := GetBinaryOpResultType_numeric _ _ hl hr
  obtain ⟨hl1, _, _, _, _, _, _, _⟩ := IsNumericType_facts _ hl
  obtain ⟨hr1, _, _, _, _, _, _, _⟩ := IsNumericType_facts _ hr
  refine ⟨commonType, hcommon, ?_, ?_⟩
  · intro hfloat
    rw [CreateBinaryOp, CreateBinaryOp.body_numeric ctx _ _ source op lhs rhs hl hr hover]
    unfold CreateBinaryOp.primitive
    simp only [hl, hr, Bool.and_self, Bool.true_or, Bool.not_true, Bool.false_eq_true,
      if_false, hl1, hr1, hfloat, if_true]
  · intro hfloat
    have htarget : IsNumericType (if IsLogicalOp op then TypeBase.tBool else commonType) = true := by
      split
      · rfl
      · exact hnum
    obtain ⟨l, hlc, hlt, _⟩ := CreateCast_numeric ctx fuel source lhs _ false hl htarget
    obtain ⟨r, hrc, hrt, _⟩ := CreateCast_numeric ctx fuel source rhs _ false hr htarget
    refine ⟨l, r, hlc, hrc, hlt, hrt, ?_⟩
    rw [CreateBinaryOp, CreateBinaryOp.body_numeric ctx _ _ source op lhs rhs hl hr hover]
    unfold CreateBinaryOp.primitive
    simp only [hl, hr, Bool.and_self, Bool.true_or, Bool.not_true, Bool.false_eq_true,
      if_false, hl1, hr1, hfloat]
    have hpromote : CreateBinaryOp.promote (CreateCast ctx (fuel + 1)) source op lhs rhs =
        some (.ok (l, r)) := by
      unfold CreateBinaryOp.promote
      by_cases hlog : IsLogicalOp op = true
      · rw [if_pos hlog] at hlc hrc
        rw [if_pos hlog, hlc]
        simp only [Analysis.bind]
        rw [hrc]
      · rw [if_neg hlog] at hlc hrc
        rw [if_neg hlog, if_pos ⟨hl, hr⟩, hcommon]
        simp only
        rw [hlc]
        simp only [Analysis.bind]
        rw [hrc]
    rw [hpromote]
    simp only [Analysis.bind]
    rw [if_neg (by rw [hlt, hrt]; exact fun h => h rfl)]
    by_cases hlog : IsLogicalOp op = true
    · simp [hlog]
    · simp only [hlt, hlog]
      simp

/-- Witness of C11: `int + double` without an overload of `+` is the node of
type `double` over the operands cast to `double`. -/
theorem CreateBinaryOp_numeric_operands_witness :
    ∃ l r : ExprBase,
      CreateBinaryOp exampleContext 1 none .SYN_BINARY_OP_ADD (.node none .tInt 0)
        (.node none .tDouble 1) = some (.ok (.binaryOp none .tDouble .SYN_BINARY_OP_ADD l r)) ∧
      l.type = .tDouble ∧ r.type = .tDouble := by
  obtain ⟨commonType, hcommon, _, hok⟩ :=
    CreateBinaryOp_numeric_operands exampleContext 0 none .SYN_BINARY_OP_ADD
      (.node none .tInt 0) (.node none .tDouble 1) (by decide) (by decide) (by decide)
  have hdouble : commonType = .tDouble := by
    have h : GetBinaryOpResultType .tInt .tDouble = some .tDouble := by decide
    rw [show (ExprBase.node none TypeBase.tInt 0).type = .tInt from rfl,
      show (ExprBase.node none TypeBase.tDouble 1).type = .tDouble from rfl, h] at hcommon
    exact (Option.some.inj hcommon).symm
  subst hdouble
  obtain ⟨l, r, _, _, hl, hr, hres⟩ := hok (by decide)
  exact ⟨l, r, hres, hl, hr⟩

/-! ## Alignment theorems -/

/-- The conjunction of two 64-bit patterns that both have the top bit set is
not zero. -/
theorem land_top_bit (a b : Nat) (ha : 9223372036854775808 ≤ a) (ha2 : a < 18446744073709551616)
    (hb : 9223372036854775808 ≤ b) (hb2 : b < 18446744073709551616) : Nat.land a b ≠ 0 := by
  intro h
  have h1 : (Nat.land a b).testBit 63 = (a.testBit 63 && b.testBit 63) := Nat.testBit_land a b 63
  have h2 : (2 : Nat) ^ 63 = 9223372036854775808 := by norm_num
  have ha3 : a.testBit 63 = true := by
    rw [Nat.testBit_to_div_mod, h2]
    simp only [decide_eq_true_eq]
    omega
  have hb3 : b.testBit 63 = true := by
    rw [Nat.testBit_to_div_mod, h2]
    simp only [decide_eq_true_eq]
    omega
  rw [h, ha3, hb3] at h1
  simp at h1

/-- For a negative value above the least one, `v & (v - 1)` is not zero. -/
theorem bitAnd64_negative (v : Int) (hlow : minLong < v) (hneg : v < 0) :
    bitAnd64 v (v - 1) ≠ 0 := by
  unfold minLong at hlow
  have h1 := land_top_bit (toUnsigned64 v) (toUnsigned64 (v - 1))
    (by unfold toUnsigned64; omega) (by unfold toUnsigned64; omega)
    (by unfold toUnsigned64; omega) (by unfold toUnsigned64; omega)
  unfold bitAnd64
  simp only
  split
  · intro h; apply h1; exact_mod_cast h
  · rename_i hge
    have : Nat.land (toUnsigned64 v) (toUnsigned64 (v - 1)) < 18446744073709551616 := by
      apply Nat.lt_of_le_of_lt (Nat.and_le_left)
      unfold toUnsigned64; omega
    omega

/-- The values that `AnalyzeAlignment` returns, for an evaluator that yields 64-bit
values: zero and the powers of two up to 16. -/
theorem AnalyzeAlignment_ok_values (ctx : ExpressionContext) (s : SynAlign) (a : Nat)
    (hrange : ∀ (number : Nat) (v : Int), ctx.EvaluateNumber number = some v → minLong ≤ v)
    (h : AnalyzeAlignment ctx s = .ok a) : a ∈ [0, 1, 2, 4, 8, 16] := by
  unfold AnalyzeAlignment at h
  cases hv : s.value with
  | none => rw [hv] at h; simp only [Outcome.ok.injEq] at h; subst h; decide
  | some number =>
    rw [hv] at h
    simp only at h
    cases he : ctx.EvaluateNumber number with
    | none => rw [he] at h; simp at h
    | some v =>
      rw [he] at h
      simp only at h
      by_cases h16 : v > 16
      · rw [if_pos h16] at h; simp at h
      · rw [if_neg h16] at h
        by_cases hmin : v = minLong
        · rw [if_pos hmin] at h; simp at h
        · rw [if_neg hmin] at h
          by_cases hand : bitAnd64 v (v - 1) ≠ 0
          · rw [if_pos hand] at h; simp at h
          · rw [if_neg hand] at h
            simp only [Outcome.ok.injEq] at h
            subst h
            simp only [ne_eq, not_not] at hand
            by_cases hneg : v < 0
            · exfalso
              have hlow : minLong < v := lt_of_le_of_ne (hrange number v he) (Ne.symm hmin)
              exact bitAnd64_negative v hlow hneg hand
            · have hv0 : 0 ≤ v := by omega
              have hv16 : v ≤ 16 := by omega
              interval_cases v <;> first | decide | (exfalso; revert hand; decide)

/-- Claim C19, evaluated at the failing input: the clause `align(0)`, whose
value evaluates to 0, is accepted by `AnalyzeAlignment`, which returns 0; the
test `value & (value - 1)` is zero for 0, which is not a power of two. -/
theorem AnalyzeAlignment_accepts_zero :
    AnalyzeAlignment exampleContext { value := some 0 } = .ok 0 ∧
      (0 : Nat) ∉ [1, 2, 4, 8, 16] := by
  decide

/-- Rounding a size up by the missing remainder gives the least multiple that is
not below it. -/
theorem least_multiple (size m k : Nat) (hm : 0 < m) (hr : size % m ≠ 0) (hk : size ≤ k)
    (hkm : k % m = 0) : size + (m - size % m) ≤ k := by
  have h1 := Nat.div_add_mod size m
  have h2 := Nat.div_add_mod k m
  rw [hkm] at h2
  have h3 : size % m < m := Nat.mod_lt _ hm
  have h4 : size / m < k / m := by
    by_contra hcon
    have : k / m ≤ size / m := by omega
    have := Nat.mul_le_mul_left m this
    omega
  have h5 : m * (size / m + 1) ≤ m * (k / m) := Nat.mul_le_mul_left m h4
  rw [Nat.mul_add] at h5
  omega

/-- Claim C17: after `FinalizeAlignment` the size of the class is a multiple of
`max(alignment, 4)`, for the alignment that the routine leaves; it is not
below the size before the call and not above any such multiple that is not
below the size before the call; and when the size changed, `padding` is the
number of bytes added. -/
theorem FinalizeAlignment_size (type : TypeClass) :
    (FinalizeAlignment type).size % max (FinalizeAlignment type).alignment 4 = 0 ∧
      type.size ≤ (FinalizeAlignment type).size ∧
      (∀ k : Nat, type.size ≤ k → k % max (FinalizeAlignment type).alignment 4 = 0 →
        (FinalizeAlignment type).size ≤ k) ∧
      ((FinalizeAlignment type).size ≠ type.size →
        (FinalizeAlignment type).padding = (FinalizeAlignment type).size - type.size) := by
  unfold FinalizeAlignment
  simp only
  generalize (if type.alignment = 0 then
      List.foldl (fun maximumAlignment curr =>
        if maximumAlignment > curr.alignment then maximumAlignment else curr.alignment) 0
        type.members
    else type.alignment) = a
  have hmax : (if a < 4 then 4 else a) = max a 4 := by
    split <;> omega
  rw [hmax]
  have hm : 0 < max a 4 := by omega
  by_cases hr : type.size % max a 4 ≠ 0
  · rw [if_pos hr]
    simp only
    have h3 : type.size % max a 4 < max a 4 := Nat.mod_lt _ hm
    refine ⟨?_, by omega, ?_, ?_⟩
    · have h1 := Nat.div_add_mod type.size (max a 4)
      have : type.size + (max a 4 - type.size % max a 4) = max a 4 * (type.size / max a 4 + 1) := by
        rw [Nat.mul_add]; omega
      rw [this]
      exact Nat.mul_mod_right _ _
    · intro k hk hkm
      exact least_multiple type.size (max a 4) k hm hr hk hkm
    · intro _
      omega
  · rw [if_neg hr]
    simp only [ne_eq, not_not] at hr
    simp only
    refine ⟨hr, le_refl _, fun k hk _ => hk, fun h => absurd rfl h⟩

/-- Witness of C17: a class of five bytes without members is padded to eight
bytes. -/
theorem FinalizeAlignment_size_witness :
    (FinalizeAlignment
        { size := 5, alignment := 0, padding := 0, extendable := false, members := [] }).size ≤ 8 :=
  (FinalizeAlignment_size
    { size := 5, alignment := 0, padding := 0, extendable := false, members := [] }).2.2.1 8
    (by decide) (by decide)

/-- An allocation that succeeds has passed the assertion on the alignment, and
leaves the alignment, the members and the flag of the class alone. -/
theorem AllocateVariableInScope_ok (ctx : ExpressionContext) (c : TypeClass) (a : Nat)
    (t : TypeBase) (r : Nat × TypeClass) (h : AllocateVariableInScope ctx c a t = .ok r) :
    admittedAlignment a ∧ r.2.alignment = c.alignment ∧ r.2.members = c.members ∧
      r.2.extendable = c.extendable := by
  unfold AllocateVariableInScope at h
  split at h
  · rename_i hcond
    simp only [Outcome.ok.injEq] at h
    subst h
    refine ⟨?_, rfl, rfl, rfl⟩
    obtain ⟨hland, hle⟩ := hcond
    unfold admittedAlignment
    interval_cases a <;> first | decide | (exfalso; revert hland; decide)
  · simp at h

/-- The maximum of admitted alignments is admitted. -/
theorem foldl_max_admitted (members : List VariableData) :
    ∀ (start : Nat), admittedAlignment start →
      (∀ member ∈ members, admittedAlignment member.alignment) →
      admittedAlignment (members.foldl (fun maximumAlignment curr =>
        if maximumAlignment > curr.alignment then maximumAlignment else curr.alignment) start) := by
  induction members with
  | nil => intro start hs _; exact hs
  | cons m rest ih =>
    intro start hs hall
    rw [List.foldl_cons]
    apply ih
    · split
      · exact hs
      · exact hall m (List.mem_cons_self _ _)
    · intro member hmem
      exact hall member (List.mem_cons_of_mem _ hmem)

/-- The alignment that `FinalizeAlignment` leaves: the given one, or the maximum
of the member alignments when none is given. -/
theorem FinalizeAlignment_alignment (c : TypeClass) :
    (FinalizeAlignment c).alignment =
      (if c.alignment = 0 then
        c.members.foldl (fun maximumAlignment curr =>
          if maximumAlignment > curr.alignment then maximumAlignment else curr.alignment) 0
      else c.alignment) := by
  unfold FinalizeAlignment
  simp only
  split_ifs <;> rfl

/-- The routine `FinalizeAlignment` leaves the members alone. -/
theorem FinalizeAlignment_members (c : TypeClass) :
    (FinalizeAlignment c).members = c.members := by
  unfold FinalizeAlignment
  simp only
  split_ifs <;> rfl

/-- The routine `FinalizeAlignment` keeps the alignments admitted. -/
theorem FinalizeAlignment_admitted (c : TypeClass) (h : c.admitted) :
    (FinalizeAlignment c).admitted := by
  have hfold := foldl_max_admitted c.members 0 (by unfold admittedAlignment; decide) h.2
  constructor
  · rw [FinalizeAlignment_alignment]
    split
    · exact hfold
    · exact h.1
  · rw [FinalizeAlignment_members]
    exact h.2

/-- A member that is defined has an admitted alignment. -/
theorem AnalyzeVariableDefinition_ok (ctx : ExpressionContext) (c : TypeClass)
    (s : SynVariableDefinition) (a : Nat) (t : TypeBase) (r : VariableData × TypeClass)
    (h : AnalyzeVariableDefinition ctx c s a t = .ok r) :
    admittedAlignment r.1.alignment ∧ r.2.alignment = c.alignment ∧ r.2.members = c.members := by
  unfold AnalyzeVariableDefinition at h
  split at h
  · simp at h
  · simp only at h
    split at h
    · simp at h
    · split at h
      · simp at h
      · obtain ⟨allocated, hal, hr⟩ := Outcome.bind_eq_ok h
        simp only [Outcome.ok.injEq] at hr
        subst hr
        have := AllocateVariableInScope_ok ctx c _ t allocated hal
        exact ⟨this.1, this.2.1, this.2.2.1⟩

/-- The members that one definition node defines have admitted alignments. -/
theorem AnalyzeVariableDefinitions.loop_ok (ctx : ExpressionContext) (a : Nat) (t : TypeBase)
    (definitions : List SynVariableDefinition) :
    ∀ (c : TypeClass) (r : List (VariableData × Bool) × TypeClass),
      AnalyzeVariableDefinitions.loop ctx a t c definitions = .ok r →
      (∀ d ∈ r.1, admittedAlignment d.1.alignment) ∧ r.2.alignment = c.alignment ∧
        r.2.members = c.members := by
  induction definitions with
  | nil =>
    intro c r h
    simp only [AnalyzeVariableDefinitions.loop, Outcome.ok.injEq] at h
    subst h
    exact ⟨fun d hd => absurd hd (List.not_mem_nil d), rfl, rfl⟩
  | cons el rest ih =>
    intro c r h
    rw [AnalyzeVariableDefinitions.loop] at h
    obtain ⟨defined, hdef, h⟩ := Outcome.bind_eq_ok h
    obtain ⟨others, hoth, h⟩ := Outcome.bind_eq_ok h
    simp only [Outcome.ok.injEq] at h
    subst h
    have h1 := AnalyzeVariableDefinition_ok ctx c el a t defined hdef
    have h2 := ih defined.2 others hoth
    refine ⟨?_, h2.2.1.trans h1.2.1, h2.2.2.trans h1.2.2⟩
    intro d hd
    rcases List.mem_cons.mp hd with hd | hd
    · subst hd; exact h1.1
    · exact h2.1 d hd

/-- Appending members of admitted alignment keeps the class admitted. -/
theorem AnalyzeClassElements.push_ok (definitions : List (VariableData × Bool)) :
    ∀ (c r : TypeClass), AnalyzeClassElements.push c definitions = .ok r →
      (∀ d ∈ definitions, admittedAlignment d.1.alignment) → c.admitted → r.admitted := by
  induction definitions with
  | nil =>
    intro c r h _ hc
    simp only [AnalyzeClassElements.push, Outcome.ok.injEq] at h
    subst h
    exact hc
  | cons d rest ih =>
    intro c r h hall hc
    rw [AnalyzeClassElements.push] at h
    split at h
    · simp at h
    · apply ih _ r h (fun d' hd' => hall d' (List.mem_cons_of_mem _ hd'))
      refine ⟨hc.1, ?_⟩
      intro member hmem
      rcases List.mem_append.mp hmem with hmem | hmem
      · exact hc.2 member hmem
      · rw [List.mem_singleton] at hmem
        subst hmem
        exact hall d (List.mem_cons_self _ _)

/-- The loop over the member nodes keeps the class admitted. -/
theorem AnalyzeClassElements.members_ok (ctx : ExpressionContext)
    (members : List SynVariableDefinitions) :
    ∀ (c r : TypeClass), AnalyzeClassElements.members ctx c members = .ok r →
      c.admitted → r.admitted := by
  induction members with
  | nil =>
    intro c r h hc
    simp only [AnalyzeClassElements.members, Outcome.ok.injEq] at h
    subst h
    exact hc
  | cons member rest ih =>
    intro c r h hc
    rw [AnalyzeClassElements.members] at h
    obtain ⟨node, hnode, h⟩ := Outcome.bind_eq_ok h
    obtain ⟨c2, hpush, h⟩ := Outcome.bind_eq_ok h
    unfold AnalyzeVariableDefinitions at hnode
    obtain ⟨alignment, _, hloop⟩ := Outcome.bind_eq_ok hnode
    have h1 := AnalyzeVariableDefinitions.loop_ok ctx alignment member.type member.definitions c
      node hloop
    have hnode2 : node.2.admitted := by
      refine ⟨?_, ?_⟩
      · rw [h1.2.1]; exact hc.1
      · rw [h1.2.2]; exact hc.2
    exact ih c2 r h (AnalyzeClassElements.push_ok node.1 node.2 c2 hpush h1.1 hnode2)

mutual
/-- The analysis of the elements keeps the class admitted. -/
theorem AnalyzeClassElements_admitted (ctx : ExpressionContext) :
    ∀ (elements : SynClassElements) (c r : TypeClass),
      AnalyzeClassElements ctx c elements = .ok r → c.admitted → r.admitted
  | .mk members staticIfs, c, r, h, hc => by
    rw [AnalyzeClassElements] at h
    cases hm : AnalyzeClassElements.members ctx c members with
    | ok c2 =>
      rw [hm] at h
      exact AnalyzeClassElements.staticIfs_admitted ctx staticIfs _ r h
        (FinalizeAlignment_admitted c2 (AnalyzeClassElements.members_ok ctx members c c2 hm hc))
    | stop m => rw [hm] at h; simp at h
    | undefined w => rw [hm] at h; simp at h
/-- The loop over the static conditions keeps the class admitted. -/
theorem AnalyzeClassElements.staticIfs_admitted (ctx : ExpressionContext) :
    ∀ (staticIfs : SynClassStaticIfList) (c r : TypeClass),
      AnalyzeClassElements.staticIfs ctx c staticIfs = .ok r → c.admitted → r.admitted
  | .nil, c, r, h, hc => by
    rw [AnalyzeClassElements.staticIfs] at h
    simp only [Outcome.ok.injEq] at h
    subst h
    exact hc
  | .cons staticIf next, c, r, h, hc => by
    rw [AnalyzeClassElements.staticIfs] at h
    cases hs : AnalyzeClassStaticIf ctx c staticIf with
    | ok c2 =>
      rw [hs] at h
      exact AnalyzeClassElements.staticIfs_admitted ctx next c2 r h
        (AnalyzeClassStaticIf_admitted ctx staticIf c c2 hs hc)
    | stop m => rw [hs] at h; simp at h
    | undefined w => rw [hs] at h; simp at h
/-- The analysis of a static condition keeps the class admitted. -/
theorem AnalyzeClassStaticIf_admitted (ctx : ExpressionContext) :
    ∀ (staticIf : SynClassStaticIf) (c r : TypeClass),
      AnalyzeClassStaticIf ctx c staticIf = .ok r → c.admitted → r.admitted
  | .mk condition trueBlock falseBlock, c, r, h, hc => by
    rw [AnalyzeClassStaticIf] at h
    unfold AnalyzeClassStaticIf.select at h
    cases hcond : ctx.EvaluateCondition condition with
    | ok value =>
      rw [hcond] at h
      cases value with
      | none => simp at h
      | some b =>
        cases b with
        | true => exact AnalyzeClassElements_admitted ctx trueBlock c r h hc
        | false => exact AnalyzeClassStaticIf.falseBlock_admitted ctx falseBlock c r h hc
    | stop m => rw [hcond] at h; simp at h
    | undefined w => rw [hcond] at h; simp at h
/-- The analysis of a false block keeps the class admitted. -/
theorem AnalyzeClassStaticIf.falseBlock_admitted (ctx : ExpressionContext) :
    ∀ (falseBlock : OptClassElements) (c r : TypeClass),
      AnalyzeClassStaticIf.falseBlock ctx c falseBlock = .ok r → c.admitted → r.admitted
  | .none, c, r, h, hc => by
    rw [AnalyzeClassStaticIf.falseBlock] at h
    simp only [Outcome.ok.injEq] at h
    subst h
    exact hc
  | .some elements, c, r, h, hc => by
    rw [AnalyzeClassStaticIf.falseBlock] at h
    exact AnalyzeClassElements_admitted ctx elements c r h hc
end

/-- The alignment of an optional clause is admitted. -/
theorem optionalAlignment_ok (ctx : ExpressionContext) (align : Option SynAlign) (a : Nat)
    (hrange : ∀ (number : Nat) (v : Int), ctx.EvaluateNumber number = some v → minLong ≤ v)
    (h : optionalAlignment ctx align = .ok a) : admittedAlignment a := by
  unfold optionalAlignment at h
  cases align with
  | none =>
    simp only [Outcome.ok.injEq] at h
    subst h
    unfold admittedAlignment
    decide
  | some s => exact AnalyzeAlignment_ok_values ctx s a hrange h

/-- The hidden member keeps the class admitted. -/
theorem AnalyzeClassDefinition.typeid_ok (ctx : ExpressionContext) (c r : TypeClass)
    (baseClass : Option TypeClass) (h : AnalyzeClassDefinition.typeid ctx c baseClass = .ok r)
    (hc : c.admitted) : r.admitted := by
  unfold AnalyzeClassDefinition.typeid at h
  split at h
  · obtain ⟨allocated, hal, h⟩ := Outcome.bind_eq_ok h
    simp only [Outcome.ok.injEq] at h
    subst h
    have h1 := AllocateVariableInScope_ok ctx c _ _ allocated hal
    refine ⟨?_, ?_⟩
    · show admittedAlignment allocated.2.alignment
      rw [h1.2.1]; exact hc.1
    · intro member hmem
      rcases List.mem_append.mp hmem with hmem | hmem
      · rw [h1.2.2.1] at hmem; exact hc.2 member hmem
      · rw [List.mem_singleton] at hmem
        subst hmem
        exact h1.1
  · simp only [Outcome.ok.injEq] at h
    subst h
    exact hc

/-- The members taken over from a base class keep the class admitted. -/
theorem AnalyzeClassDefinition.inherit_ok (ctx : ExpressionContext) (members : List VariableData) :
    ∀ (c r : TypeClass), AnalyzeClassDefinition.inherit ctx c members = .ok r →
      c.admitted → r.admitted := by
  induction members with
  | nil =>
    intro c r h hc
    simp only [AnalyzeClassDefinition.inherit, Outcome.ok.injEq] at h
    subst h
    exact hc
  | cons el rest ih =>
    intro c r h hc
    rw [AnalyzeClassDefinition.inherit] at h
    obtain ⟨allocated, hal, h⟩ := Outcome.bind_eq_ok h
    split at h
    · simp at h
    · have h1 := AllocateVariableInScope_ok ctx c _ _ allocated hal
      apply ih _ r h
      refine ⟨?_, ?_⟩
      · show admittedAlignment allocated.2.alignment
        rw [h1.2.1]; exact hc.1
      · intro member hmem
        rcases List.mem_append.mp hmem with hmem | hmem
        · rw [h1.2.2.1] at hmem; exact hc.2 member hmem
        · rw [List.mem_singleton] at hmem
          subst hmem
          exact h1.1

/-- Taking over a base class of admitted alignment keeps the class admitted. -/
theorem AnalyzeClassDefinition.base_ok (ctx : ExpressionContext) (c r : TypeClass)
    (baseClass : Option TypeClass) (h : AnalyzeClassDefinition.base ctx c baseClass = .ok r)
    (hbase : ∀ b : TypeClass, baseClass = some b → admittedAlignment b.alignment)
    (hc : c.admitted) : r.admitted := by
  unfold AnalyzeClassDefinition.base at h
  cases baseClass with
  | none =>
    simp only [Outcome.ok.injEq] at h
    subst h
    exact hc
  | some b =>
    simp only at h
    obtain ⟨c2, hin, h⟩ := Outcome.bind_eq_ok h
    split at h
    · simp only [Outcome.ok.injEq] at h
      subst h
      exact AnalyzeClassDefinition.inherit_ok ctx b.members _ c2 hin ⟨hbase b rfl, hc.2⟩
    · simp at h

/-- The base class that passes the check is the class of the base clause. -/
theorem AnalyzeClassDefinition.baseClass_ok (baseClass : Option BaseClassType)
    (b : TypeClass) (h : AnalyzeClassDefinition.baseClass baseClass = .ok (some b)) :
    ∃ type, baseClass = some type ∧ type.classType = some b := by
  unfold AnalyzeClassDefinition.baseClass at h
  cases baseClass with
  | none => simp at h
  | some type =>
    simp only at h
    cases hct : type.classType with
    | none => rw [hct] at h; simp at h
    | some b2 =>
      rw [hct] at h
      simp only at h
      split at h
      · simp only [Outcome.ok.injEq, Option.some.injEq] at h
        subst h
        exact ⟨type, rfl, hct⟩
      · simp at h

/-- Claim C18, amended: every class type that `AnalyzeClassDefinition` produces has
an alignment in `{0, 1, 2, 4, 8, 16}`, for a new descriptor whose alignment
and member alignments are in that set, a base class whose alignment is in that
set, and an evaluator that yields 64-bit values. -/
theorem AnalyzeClassDefinition_alignment (ctx : ExpressionContext)
    (syntax_ : SynClassDefinition) (classType result : TypeClass)
    (hrange : ∀ (number : Nat) (v : Int), ctx.EvaluateNumber number = some v → minLong ≤ v)
    (hnew : classType.admitted)
    (hbase : ∀ (type : BaseClassType) (baseClass : TypeClass), syntax_.baseClass = some type →
      type.classType = some baseClass → admittedAlignment baseClass.alignment)
    (h : AnalyzeClassDefinition ctx syntax_ classType = .ok result) :
    result.alignment ∈ [0, 1, 2, 4, 8, 16] := by
  unfold AnalyzeClassDefinition at h
  obtain ⟨alignment, halign, h⟩ := Outcome.bind_eq_ok h
  obtain ⟨baseClass, hbc, h⟩ := Outcome.bind_eq_ok h
  obtain ⟨c1, htypeid, h⟩ := Outcome.bind_eq_ok h
  obtain ⟨c2, hbase2, h⟩ := Outcome.bind_eq_ok h
  obtain ⟨c3, helem, h⟩ := Outcome.bind_eq_ok h
  split at h
  · simp at h
  · simp only [Outcome.ok.injEq] at h
    subst h
    have h1 : c1.admitted := AnalyzeClassDefinition.typeid_ok ctx _ c1 baseClass htypeid hnew
    have h2 : c2.admitted := by
      apply AnalyzeClassDefinition.base_ok ctx c1 c2 baseClass hbase2 _ h1
      intro b hb
      subst hb
      obtain ⟨type, ht, hct⟩ := AnalyzeClassDefinition.baseClass_ok _ b hbc
      exact hbase type b ht hct
    have h3 : (if syntax_.align.isSome then { c2 with alignment := alignment } else c2).admitted := by
      split
      · exact ⟨optionalAlignment_ok ctx _ alignment hrange halign, h2.2⟩
      · exact h2
    exact (AnalyzeClassElements_admitted ctx _ _ c3 helem h3).1

/-- Counterexample to C18: a class without members, without a base class and
without an `align` clause, whose new descriptor has no alignment set, is
produced with alignment 0, which is not in `{1, 2, 4, 8, 16}`. -/
theorem AnalyzeClassDefinition_empty_class_alignment :
    AnalyzeClassDefinition exampleContext
        { align := none, extendable := false, baseClass := none, elements := .mk [] .nil }
        { size := 0, alignment := 0, padding := 0, extendable := false, members := [] } =
      .ok { size := 0, alignment := 0, padding := 0, extendable := false, members := [] } ∧
    (0 : Nat) ∉ [1, 2, 4, 8, 16] := by
  decide

/-- Witness of C18: an extendable class with the clause `align(8)` and one
member of type `int` is produced with alignment 8. -/
theorem AnalyzeClassDefinition_alignment_witness :
    ∃ result : TypeClass,
      AnalyzeClassDefinition exampleContext
        { align := some { value := some 8 }, extendable := true, baseClass := none,
          elements := .mk
            [{ align := none, type := .tInt,
               definitions := [{ name := "x", initializer := false }] }] .nil }
        { size := 0, alignment := 0, padding := 0, extendable := false, members := [] } =
        .ok result ∧
      result.alignment ∈ [0, 1, 2, 4, 8, 16] := by
  have hrun : AnalyzeClassDefinition exampleContext
      { align := some { value := some 8 }, extendable := true, baseClass := none,
        elements := .mk
          [{ align := none, type := .tInt,
             definitions := [{ name := "x", initializer := false }] }] .nil }
      { size := 0, alignment := 0, padding := 0, extendable := false, members := [] } =
      .ok { size := 8, alignment := 8, padding := 0, extendable := true,
            members := [{ alignment := 4, type := .tTypeID, name := "$typeid", offset := 0 },
                        { alignment := 4, type := .tInt, name := "x", offset := 4 }] } := by
    decide
  refine ⟨_, hrun, ?_⟩
  refine AnalyzeClassDefinition_alignment exampleContext
    { align := some { value := some 8 }, extendable := true, baseClass := none,
      elements := .mk
        [{ align := none, type := .tInt,
           definitions := [{ name := "x", initializer := false }] }] .nil }
    { size := 0, alignment := 0, padding := 0, extendable := false, members := [] } _
    ?_ ?_ ?_ hrun
  · intro number v h
    have hv : v = (number : Int) := by
      simp only [exampleContext, Option.some.injEq] at h
      exact h.symm
    subst hv
    unfold minLong
    omega
  · refine ⟨?_, ?_⟩
    · unfold admittedAlignment
      decide
    · intro member hmem
      simp at hmem
  · intro type baseClass h
    simp at h

/-! ## Cast theorems -/

/-- A value whose type is a reference is not a function definition. -/
theorem CreateCast.definition_ref (ctx : ExpressionContext) (source : Option Nat)
    (value : ExprBase) (subType : TypeBase) (h : value.type = .ref subType) :
    CreateCast.definition ctx source value = none := by
  cases value <;> first
    | rfl
    | (simp [ExprBase.type, TypeFunction.toType] at h)

/-- Claim C14: `CreateCast` of a value whose type is a reference to a class to a
reference to a different class.  When the class of the value derives from the
target class, the result is a single reinterpreting cast node over the value.
When it does not and the target class derives from the class of the value, the
result is a reinterpreting cast node over the call of `assert_derived_from_base`
on the value reinterpreted as `void ref` and the type id of the target class.
When neither class derives from the other, the cast stops with the "can't
convert" error. -/
theorem CreateCast_class_references (ctx : ExpressionContext) (fuel : Nat) (source : Option Nat)
    (value : ExprBase) (valueClass targetClass : TypeBase) (isFunctionArgument : Bool)
    (hv : value.type = .ref valueClass) (hvc : valueClass.isClass = true)
    (htc : targetClass.isClass = true) (hne : valueClass ≠ targetClass) :
    (IsDerivedFrom valueClass targetClass = true →
      CreateCast ctx (fuel + 1) source value (.ref targetClass) isFunctionArgument =
        some (.ok (.typeCast source (.ref targetClass) value .EXPR_CAST_REINTERPRET))) ∧
    (IsDerivedFrom valueClass targetClass = false → IsDerivedFrom targetClass valueClass = true →
      ∀ checked : ExprBase,
        CreateFunctionCall.byName ctx source "assert_derived_from_base"
          [callArgument (.typeCast source (.ref .tVoid) value .EXPR_CAST_REINTERPRET),
           callArgument (.typeLiteral source .tTypeID targetClass)] false = .ok (some checked) →
        CreateCast ctx (fuel + 1) source value (.ref targetClass) isFunctionArgument =
          some (.ok (.typeCast source (.ref targetClass) checked .EXPR_CAST_REINTERPRET))) ∧
    (IsDerivedFrom valueClass targetClass = false → IsDerivedFrom targetClass valueClass = false →
      CreateCast ctx (fuel + 1) source value (.ref targetClass) isFunctionArgument =
        some (.stop ("ERROR: can't convert '" ++ ctx.typeName (.ref valueClass) ++ "' to '" ++
          ctx.typeName (.ref targetClass) ++ "'"))) := by
  have hdef := CreateCast.definition_ref ctx source value valueClass hv
  have hne2 : ¬ (TypeBase.ref valueClass = TypeBase.ref targetClass) := by
    intro h; injection h with h; exact hne h
  have harr : CreateCast.arrayRef source value (.ref targetClass) targetClass valueClass = none := by
    cases targetClass <;> simp [TypeBase.isClass] at htc
    rfl
  have hstart : ∀ r : Option (Analysis ExprBase),
      CreateCast.classRef ctx source value (.ref targetClass) targetClass valueClass = r →
      CreateCast ctx (fuel + 1) source value (.ref targetClass) isFunctionArgument =
        (r.getD (some (.stop ("ERROR: can't convert '" ++ ctx.typeName (.ref valueClass) ++
          "' to '" ++ ctx.typeName (.ref targetClass) ++ "'")))) := by
    intro r hr
    simp only [CreateCast, CreateCast.body, hdef, Option.orElse, hv, hne2, if_false,
      IsNumericType, IsIntegerType, IsFloatingPointType, CreateCast.toBool, CreateCast.fromNull,
      CreateCast.toUnsized, CreateCast.toRef, harr, hr, CreateCast.toAutoRef,
      CreateCast.toAutoArray, CreateCast.toFunction, TypeBase.asFunction, CreateCast.unboxing]
    cases r with
    | some x => simp
    | none => simp
  refine ⟨?_, ?_, ?_⟩
  · intro h1
    rw [hstart _ rfl]
    simp [CreateCast.classRef, hvc, htc, h1]
  · intro h1 h2 checked hcall
    rw [hstart _ rfl]
    simp [CreateCast.classRef, hvc, htc, h1, h2, CreateFunctionCall.required, hcall, Outcome.bind]
  · intro h1 h2
    rw [hstart _ rfl]
    simp [CreateCast.classRef, hvc, htc, h1, h2]

/-- Witness of C14: a reference to the class `B`, which derives from `A`, is
cast to a reference to `A` by one reinterpreting node. -/
theorem CreateCast_class_references_witness :
    CreateCast exampleContext 1 none
        (.node none (.ref (.cls "B" none .nil (.some (.cls "A" none .nil .none)))) 0)
        (.ref (.cls "A" none .nil .none)) false =
      some (.ok (.typeCast none (.ref (.cls "A" none .nil .none))
        (.node none (.ref (.cls "B" none .nil (.some (.cls "A" none .nil .none)))) 0)
        .EXPR_CAST_REINTERPRET)) :=
  (CreateCast_class_references exampleContext 0 none
    (.node none (.ref (.cls "B" none .nil (.some (.cls "A" none .nil .none)))) 0)
    (.cls "B" none .nil (.some (.cls "A" none .nil .none))) (.cls "A" none .nil .none) false
    rfl rfl rfl (by decide)).1 (by decide)

/-! ## Return theorems -/

/-- A cast of a value that is not a function definition to its own type is the
value. -/
theorem CreateCast_same_type (ctx : ExpressionContext) (fuel : Nat) (source : Option Nat)
    (value : ExprBase) (isFunctionArgument : Bool)
    (hdef : value.isFunctionDefinition = false) :
    CreateCast ctx (fuel + 1) source value value.type isFunctionArgument = some (.ok value) := by
  simp [CreateCast, CreateCast.body, CreateCast.definition, hdef, Option.orElse]

/-- Claim C15: in a function whose return type is still `auto`, `AnalyzeReturn` on
an expression of a non-generic type `T` (an expression that is not a function
definition, and `T` not the placeholder `auto`) succeeds and leaves the
function with the type `Function(T, same arguments)` and `hasExplicitReturn`
set.  For every later `return` in that function: when `CreateCast` of its value
to `T` stops, so does `AnalyzeReturn`; when `AnalyzeReturn` succeeds, its node
returns the value converted by `CreateCast` to `T` and the function, with its
type, is unchanged; and it does succeed when the converted value has the type
`T`. -/
theorem AnalyzeReturn_latches_auto (ctx : ExpressionContext) (fuel : Nat) (function : FunctionData)
    (source : Option Nat) (value : Option ExprBase)
    (hauto : function.type.returnType = .tAuto)
    (hgeneric : (AnalyzeReturn.result source value).type.isGeneric = false)
    (hplace : (AnalyzeReturn.result source value).type ≠ .tAuto)
    (hdef : (AnalyzeReturn.result source value).isFunctionDefinition = false) :
    ∃ latched : FunctionData,
      AnalyzeReturn ctx (fuel + 1) (some function) source value =
        some (.ok (.exprReturn source .tVoid (AnalyzeReturn.result source value), some latched)) ∧
      latched.type = { returnType := (AnalyzeReturn.result source value).type,
                       arguments := function.type.arguments } ∧
      latched.hasExplicitReturn = true ∧
      ∀ (later : Option Nat) (laterValue : Option ExprBase),
        (∀ message : String,
          CreateCast ctx (fuel + 1) later (AnalyzeReturn.result later laterValue)
            (AnalyzeReturn.result source value).type false = some (.stop message) →
          AnalyzeReturn ctx (fuel + 1) (some latched) later laterValue = some (.stop message)) ∧
        (∀ (node : ExprBase) (after : Option FunctionData),
          AnalyzeReturn ctx (fuel + 1) (some latched) later laterValue = some (.ok (node, after)) →
          after = some latched ∧
          ∃ converted : ExprBase,
            CreateCast ctx (fuel + 1) later (AnalyzeReturn.result later laterValue)
              (AnalyzeReturn.result source value).type false = some (.ok converted) ∧
            node = .exprReturn later .tVoid converted) ∧
        (∀ converted : ExprBase,
          CreateCast ctx (fuel + 1) later (AnalyzeReturn.result later laterValue)
            (AnalyzeReturn.result source value).type false = some (.ok converted) →
          converted.type = (AnalyzeReturn.result source value).type →
          AnalyzeReturn ctx (fuel + 1) (some latched) later laterValue =
            some (.ok (.exprReturn later .tVoid converted, some latched))) := by
  generalize hres : AnalyzeReturn.result source value = result at *
  refine ⟨{ function with
      type := { returnType := result.type, arguments := function.type.arguments },
      hasExplicitReturn := true }, ?_, rfl, rfl, ?_⟩
  · unfold AnalyzeReturn
    simp only [hres, hauto, if_true, hgeneric, Bool.false_eq_true, if_false, Analysis.bind]
    rw [CreateCast_same_type ctx fuel source result false hdef]
    simp
  · intro later laterValue
    generalize hlater : AnalyzeReturn.result later laterValue = laterResult
    have hunfold : AnalyzeReturn ctx (fuel + 1)
        (some { function with
          type := { returnType := result.type, arguments := function.type.arguments },
          hasExplicitReturn := true }) later laterValue =
        Analysis.bind (CreateCast ctx (fuel + 1) later laterResult result.type false)
          fun converted =>
            if result.type = .tVoid ∧ converted.type ≠ .tVoid then
              some (.stop "ERROR: 'void' function returning a value")
            else if result.type ≠ .tVoid ∧ converted.type = .tVoid then
              some (.stop ("ERROR: function must return a value of type '" ++
                ctx.typeName result.type ++ "'"))
            else
              some (.ok (.exprReturn later .tVoid converted,
                some { function with
                  type := { returnType := result.type, arguments := function.type.arguments },
                  hasExplicitReturn := true })) := by
      unfold AnalyzeReturn
      simp only [hlater, hplace, if_false, Analysis.bind]
    rw [hunfold]
    refine ⟨?_, ?_, ?_⟩
    · intro message hcast
      rw [hcast]
      rfl
    · intro node after h
      cases hcast : CreateCast ctx (fuel + 1) later laterResult result.type false with
      | none => rw [hcast] at h; simp [Analysis.bind] at h
      | some outcome =>
        rw [hcast] at h
        cases outcome with
        | ok converted =>
          simp only [Analysis.bind] at h
          split at h
          · simp at h
          · split at h
            · simp at h
            · simp only [Option.some.injEq, Outcome.ok.injEq, Prod.mk.injEq] at h
              exact ⟨h.2.symm, converted, rfl, h.1.symm⟩
        | stop m => simp [Analysis.bind] at h
        | undefined w => simp [Analysis.bind] at h
    · intro converted hcast htype
      rw [hcast]
      simp only [Analysis.bind, htype]
      simp

/-- Witness of C15: the first `return` of an `int` value in `auto f()` latches
the type `int f()`. -/
theorem AnalyzeReturn_latches_auto_witness :
    ∃ latched : FunctionData,
      AnalyzeReturn exampleContext 1 (some (functionOf 1 "f" .tAuto [])) none
        (some (.node none .tInt 0)) =
        some (.ok (.exprReturn none .tVoid (.node none .tInt 0), some latched)) ∧
      latched.type = { returnType := .tInt, arguments := .nil } ∧
      latched.hasExplicitReturn = true := by
  obtain ⟨latched, hrun, htype, hflag, _⟩ :=
    AnalyzeReturn_latches_auto exampleContext 0 (functionOf 1 "f" .tAuto []) none
      (some (.node none .tInt 0)) (by decide) (by decide) (by decide) (by decide)
  exact ⟨latched, hrun, htype, hflag⟩

/-! ## Interning theorems -/

/-- Claim C16, amended: for every type `T` that is not generic, two requests
`GetReferenceType(T)` return the same type object, and the second request
creates no new reference type: it leaves the store as the first left it. -/
theorem GetReferenceType_interned (store : TypeStore) (type : Nat) (object : TypeObject)
    (hobject : store.objects[type]? = some object) (hconcrete : object.isGeneric = false) :
    ∃ (result : Nat) (after : TypeStore),
      GetReferenceType store type = .ok (result, after) ∧
      GetReferenceType after type = .ok (result, after) := by
  cases href : object.refType with
  | some refType =>
    refine ⟨refType, store, ?_, ?_⟩ <;> simp [GetReferenceType, hobject, href]
  | none =>
    have hlt : type < store.objects.length := by
      rcases List.getElem?_eq_some_iff.mp hobject with ⟨h, _⟩
      exact h
    refine ⟨store.objects.length,
      { objects := (store.objects ++
          [({ isGeneric := object.isGeneric, refType := none, subType := some type } : TypeObject)]).set type
            { object with refType := some store.objects.length },
        types := store.types ++ [store.objects.length] }, ?_, ?_⟩
    · simp [GetReferenceType, hobject, href, hconcrete]
    · have hget : ((store.objects ++
          [({ isGeneric := object.isGeneric, refType := none, subType := some type } : TypeObject)]).set type
            { object with refType := some store.objects.length })[type]? =
          some { object with refType := some store.objects.length } := by
        rw [List.getElem?_set_self]
        rw [List.length_append]
        omega
      simp only [GetReferenceType, hget]

/-- Counterexample to C16: for a generic type the reference type is not saved;
the second request returns another object than the first and allocates one
more descriptor. -/
theorem GetReferenceType_generic_not_interned :
    ∃ (first second : Nat) (after afterSecond : TypeStore),
      GetReferenceType
        { objects := [{ isGeneric := true, refType := none, subType := none }], types := [] } 0 =
          .ok (first, after) ∧
      GetReferenceType after 0 = .ok (second, afterSecond) ∧
      first ≠ second ∧ afterSecond.objects.length = after.objects.length + 1 :=
  ⟨1, 2, _, _, rfl, rfl, by decide, by decide⟩

/-- Witness of C16: two requests for the reference type of a type that is not
generic. -/
theorem GetReferenceType_interned_witness :
    ∃ (result : Nat) (after : TypeStore),
      GetReferenceType
        { objects := [{ isGeneric := false, refType := none, subType := none }], types := [] } 0 =
        .ok (result, after) ∧
      GetReferenceType after 0 = .ok (result, after) :=
  GetReferenceType_interned
    { objects := [{ isGeneric := false, refType := none, subType := none }], types := [] } 0
    { isGeneric := false, refType := none, subType := none } rfl rfl

/-! ## Array index theorems -/

/-- Claim C20: `CreateArrayIndex` with one unnamed argument for which no overload
of `[]` is found, whose index, cast to `int`, evaluates to the constant `i`.
For a sized array of length `n` the access is accepted when `0 <= i < n`,
stops with "array index cannot be negative" when `i < 0` and with "array index
bounds" when `i >= n`.  For an unsized array it is accepted when `0 <= i` and
stops with "array index cannot be negative" when `i < 0`. -/
theorem CreateArrayIndex_constant_index (ctx : ExpressionContext) (fuel : Nat)
    (source : Option Nat) (original value wrapped indexArgument index : ExprBase)
    (argument : ArgumentData) (i : Int)
    (hwrap : CreateArrayIndex.wrap ctx source original = .ok (value, wrapped))
    (hname : argument.name = "") (hvalue : argument.value = some indexArgument)
    (hoverload : CreateArrayIndex.overload ctx source wrapped [argument] = .ok none)
    (hcast : CreateCast ctx (fuel + 1) source indexArgument .tInt false = some (.ok index))
    (hconstant : ctx.EvaluateInteger index = some i) :
    (∀ (subType : TypeBase) (n : Nat), value.type = .array subType n →
      wrapped.type.isRef = true →
      (0 ≤ i ∧ i < n →
        CreateArrayIndex ctx (fuel + 1) source original [argument] =
          some (.ok (.dereference source subType
            (.arrayIndex source (.ref subType) wrapped index)))) ∧
      (i < 0 →
        CreateArrayIndex ctx (fuel + 1) source original [argument] =
          some (.stop "ERROR: array index cannot be negative")) ∧
      ((n : Int) ≤ i →
        CreateArrayIndex ctx (fuel + 1) source original [argument] =
          some (.stop "ERROR: array index bounds"))) ∧
    (∀ subType : TypeBase, value.type = .unsizedArray subType →
      (0 ≤ i →
        CreateArrayIndex ctx (fuel + 1) source original [argument] =
          some (.ok (.dereference source subType
            (.arrayIndex source (.ref subType) wrapped index)))) ∧
      (i < 0 →
        CreateArrayIndex ctx (fuel + 1) source original [argument] =
          some (.stop "ERROR: array index cannot be negative"))) := by
  have hfind : CreateArrayIndex.findOverload [argument] = false := by
    simp [CreateArrayIndex.findOverload, hname]
  have hstart : ∀ (hcond : wrapped.type.isRef = true ∨ value.type.isUnsizedArray = true),
      CreateArrayIndex ctx (fuel + 1) source original [argument] =
        CreateArrayIndex.builtin ctx (fuel + 1) source value wrapped [argument] := by
    intro hcond
    unfold CreateArrayIndex
    simp only [hwrap, Analysis.bind, hcond, if_true, hoverload, hfind, Bool.false_eq_true,
      if_false]
  refine ⟨?_, ?_⟩
  · intro subType n htype href
    rw [hstart (Or.inl href)]
    unfold CreateArrayIndex.builtin
    simp only [hvalue, hcast, Analysis.bind, hconstant, decide_eq_true_eq, htype]
    refine ⟨?_, ?_, ?_⟩
    · intro h
      rw [if_neg (by omega), if_neg (by omega)]
    · intro h
      rw [if_pos h]
    · intro h
      rw [if_neg (by omega), if_pos (by omega)]
  · intro subType htype
    have hcond : wrapped.type.isRef = true ∨ value.type.isUnsizedArray = true := by
      right; rw [htype]; rfl
    rw [hstart hcond]
    unfold CreateArrayIndex.builtin
    simp only [hvalue, hcast, Analysis.bind, hconstant, decide_eq_true_eq, htype]
    refine ⟨?_, ?_⟩
    · intro h
      rw [if_neg (by omega)]
    · intro h
      rw [if_pos h]

/-- Witness of C20: the element 3 of a variable of type `int[5]`. -/
theorem CreateArrayIndex_constant_index_witness :
    CreateArrayIndex exampleContext 1 none (.variableAccess none (.array .tInt 5) 7)
        [actualOf "" .tInt 3] =
      some (.ok (.dereference none .tInt
        (.arrayIndex none (.ref .tInt) (.getAddress none (.ref (.array .tInt 5)) 7)
          (.node (some 3) .tInt 3)))) :=
  ((CreateArrayIndex_constant_index exampleContext 0 none
    (.variableAccess none (.array .tInt 5) 7) (.variableAccess none (.array .tInt 5) 7)
    (.getAddress none (.ref (.array .tInt 5)) 7) (.node (some 3) .tInt 3)
    (.node (some 3) .tInt 3) (actualOf "" .tInt 3) 3
    (by decide) (by decide) rfl (by decide) (by decide) (by decide)).1
    .tInt 5 rfl rfl).1 ⟨by decide, by decide⟩

/-! ## Break and continue theorems -/

/-- The level of a `break` or `continue` with a constant number `N`: `N` itself
when `1 <= N <= loopDepth`, a stop otherwise. -/
theorem AnalyzeBreak.depth_constant (ctx : ExpressionContext) (fuel : Nat) (loopDepth : Nat)
    (number : Nat) (keyword : String) (numberValue cast : ExprBase) (N : Int)
    (hdepth : loopDepth < 4294967296)
    (hexpr : ctx.AnalyzeExpression number = .ok numberValue)
    (hcast : CreateCast ctx fuel (some number) numberValue .tLong false = some (.ok cast))
    (hconstant : ctx.EvaluateInteger cast = some N) :
    AnalyzeBreak.depth ctx fuel loopDepth { number := some number } keyword =
      if N ≤ 0 then some (.stop ("ERROR: " ++ keyword ++ " level can't be negative or zero"))
      else if (loopDepth : Int) < N then
        some (.stop ("ERROR: " ++ keyword ++ " level is greater that loop depth"))
      else some (.ok N.toNat) := by
  unfold AnalyzeBreak.depth
  simp only [hexpr, Analysis.bind, hcast, hconstant]
  by_cases h0 : N ≤ 0
  · rw [if_pos h0, if_pos h0]
  · rw [if_neg h0, if_neg h0]
    by_cases h1 : (loopDepth : Int) < N
    · rw [if_pos h1, if_pos h1]
    · rw [if_neg h1, if_neg h1]
      have : N % 4294967296 = N := Int.emod_eq_of_lt (by omega) (by omega)
      rw [this]

/-- Claim C21: for `break N` and `continue N` whose number, cast to `long`,
evaluates to the constant `N`, in a scope of loop depth `loopDepth`: when
`1 <= N <= loopDepth` the statement is accepted and its node carries the depth
`N`; when `N <= 0` or `N > loopDepth` it is rejected. -/
theorem AnalyzeBreak_constant_level (ctx : ExpressionContext) (fuel : Nat) (loopDepth : Nat)
    (source : Option Nat) (number : Nat) (numberValue cast : ExprBase) (N : Int)
    (hdepth : loopDepth < 4294967296)
    (hexpr : ctx.AnalyzeExpression number = .ok numberValue)
    (hcast : CreateCast ctx fuel (some number) numberValue .tLong false = some (.ok cast))
    (hconstant : ctx.EvaluateInteger cast = some N) :
    (1 ≤ N ∧ N ≤ loopDepth →
      AnalyzeBreak ctx fuel loopDepth source { number := some number } =
        some (.ok (.exprBreak source .tVoid N.toNat)) ∧
      AnalyzeContinue ctx fuel loopDepth source { number := some number } =
        some (.ok (.exprContinue source .tVoid N.toNat)) ∧
      (N.toNat : Int) = N) ∧
    (N ≤ 0 →
      AnalyzeBreak ctx fuel loopDepth source { number := some number } =
        some (.stop "ERROR: break level can't be negative or zero") ∧
      AnalyzeContinue ctx fuel loopDepth source { number := some number } =
        some (.stop "ERROR: continue level can't be negative or zero")) ∧
    ((loopDepth : Int) < N →
      AnalyzeBreak ctx fuel loopDepth source { number := some number } =
        some (.stop "ERROR: break level is greater that loop depth") ∧
      AnalyzeContinue ctx fuel loopDepth source { number := some number } =
        some (.stop "ERROR: continue level is greater that loop depth")) := by
  have hb := AnalyzeBreak.depth_constant ctx fuel loopDepth number "break" numberValue cast N
    hdepth hexpr hcast hconstant
  have hc := AnalyzeBreak.depth_constant ctx fuel loopDepth number "continue" numberValue cast N
    hdepth hexpr hcast hconstant
  unfold AnalyzeBreak AnalyzeContinue
  rw [hb, hc]
  refine ⟨?_, ?_, ?_⟩
  · intro h
    rw [if_neg (by omega), if_neg (by omega), if_neg (by omega), if_neg (by omega)]
    exact ⟨rfl, rfl, Int.toNat_of_nonneg (by omega)⟩
  · intro h
    rw [if_pos h, if_pos h]
    exact ⟨rfl, rfl⟩
  · intro h
    have h0 : ¬ N ≤ 0 := by omega
    rw [if_neg h0, if_pos h, if_neg h0, if_pos h]
    exact ⟨rfl, rfl⟩

/-- Witness of C21: `break 2` at loop depth 2 is accepted with depth 2. -/
theorem AnalyzeBreak_constant_level_witness :
    AnalyzeBreak exampleContext 1 2 none { number := some 2 } =
      some (.ok (.exprBreak none .tVoid 2)) :=
  ((AnalyzeBreak_constant_level exampleContext 1 2 none 2 (.node (some 2) .tInt 2)
    (.typeCast (some 2) .tLong (.node (some 2) .tInt 2) .EXPR_CAST_NUMERICAL) 2
    (by decide) rfl (by decide) (by decide)).1 ⟨by decide, by decide⟩).1

/-! ## Closure theorems -/

/-- An allocation with an admitted alignment succeeds and leaves the members of
the class alone. -/
theorem AllocateVariableInScope_admitted (ctx : ExpressionContext) (classType : TypeClass)
    (alignment : Nat) (type : TypeBase) (h : admittedAlignment alignment) :
    ∃ result : Nat × TypeClass,
      AllocateVariableInScope ctx classType alignment type = .ok result ∧
      result.2.members = classType.members := by
  unfold AllocateVariableInScope
  have hcond : Nat.land alignment ((alignment + 4294967295) % 4294967296) = 0 ∧
      alignment ≤ 16 := by
    unfold admittedAlignment at h
    simp only [List.mem_cons, List.mem_singleton, List.not_mem_nil, or_false] at h
    rcases h with h | h | h | h | h | h <;> subst h <;> decide
  rw [if_pos hcond]
  exact ⟨_, rfl, rfl⟩

/-- A class member of a type that is not generic and has an admitted alignment
is allocated: it has the given type and id, and the members of the class are
left alone. -/
theorem AllocateClassMember_admitted (ctx : ExpressionContext) (classType : TypeClass)
    (type : TypeBase) (name : String) (uniqueId : Nat)
    (halign : admittedAlignment (type.alignment ctx)) (hgeneric : type.isGeneric = false) :
    ∃ result : VariableData × TypeClass,
      AllocateClassMember ctx classType type name uniqueId = .ok result ∧
      result.1.type = type ∧ result.2.members = classType.members := by
  obtain ⟨allocated, hal, hmembers⟩ :=
    AllocateVariableInScope_admitted ctx classType (type.alignment ctx) type halign
  unfold AllocateClassMember
  rw [hal]
  simp only [Outcome.bind, hgeneric, Bool.false_eq_true, if_false]
  exact ⟨_, rfl, rfl, hmembers⟩

/-- Claim C26: `AddFunctionUpvalue` records a captured variable once per
function.  For a variable `data` of a type `T` that is not generic, not yet
among the upvalues of the function, with a closure class and alignments that
pass the assertions of the allocation: the first capture succeeds and adds to
the closure class exactly one target member of type `Ref(T)` followed by one
copy member of type `T`, and one entry to the upvalue list; a second call for
the same variable returns the target member of the first call and changes
nothing. -/
theorem AddFunctionUpvalue_deduplicated (ctx : ExpressionContext) (state : ClosureState)
    (classType : TypeClass) (data : VariableData)
    (hclass : state.classType = some classType)
    (hfresh : ∀ upvalue ∈ state.upvalues, upvalue.variableData ≠ data)
    (hgeneric : data.type.isGeneric = false)
    (htarget : admittedAlignment ((TypeBase.ref data.type).alignment ctx))
    (hcopy : admittedAlignment (data.type.alignment ctx)) :
    ∃ (target copy : VariableData) (closure : TypeClass) (after : ClosureState),
      AddFunctionUpvalue ctx state data = .ok (target, after) ∧
      after.classType = some closure ∧
      closure.members = classType.members ++ [target, copy] ∧
      target.type = .ref data.type ∧ copy.type = data.type ∧
      after.upvalues =
        state.upvalues ++ [{ variableData := data, target := target, copy := copy }] ∧
      AddFunctionUpvalue ctx after data = .ok (target, after) := by
  have hfind : state.upvalues.find? (fun upvalue => upvalue.variableData = data) = none := by
    rw [List.find?_eq_none]
    intro upvalue hmem
    simpa using hfresh upvalue hmem
  obtain ⟨first, hal1, htype1, hmem1⟩ := AllocateClassMember_admitted ctx classType
    (.ref data.type) (GetFunctionContextMemberName data.name "target") state.uniqueVariableId
    htarget (by simpa [TypeBase.isGeneric] using hgeneric)
  obtain ⟨second, hal2, htype2, hmem2⟩ := AllocateClassMember_admitted ctx
    { first.2 with members := first.2.members ++ [first.1] } data.type
    (GetFunctionContextMemberName data.name "copy") (state.uniqueVariableId + 1) hcopy hgeneric
  have hrun : AddFunctionUpvalue ctx state data = .ok (first.1,
      { upvalues := state.upvalues ++
          [{ variableData := data, target := first.1, copy := second.1 }],
        classType := some { second.2 with members := second.2.members ++ [second.1] },
        uniqueVariableId := state.uniqueVariableId + 2,
        scopeVariables := state.scopeVariables ++ [first.1, second.1] }) := by
    unfold AddFunctionUpvalue
    rw [hfind, hclass]
    simp only [hal1, Outcome.bind, hal2]
  refine ⟨first.1, second.1, _, _, hrun, rfl, ?_, htype1, htype2, rfl, ?_⟩
  · show second.2.members ++ [second.1] = classType.members ++ [first.1, second.1]
    rw [hmem2]
    show (first.2.members ++ [first.1]) ++ [second.1] = _
    rw [hmem1]
    simp
  · unfold AddFunctionUpvalue
    have hfound : (state.upvalues ++
        [({ variableData := data, target := first.1, copy := second.1 } : UpvalueData)]).find?
          (fun upvalue => upvalue.variableData = data) =
        some { variableData := data, target := first.1, copy := second.1 } := by
      rw [List.find?_append, hfind]
      simp
    simp only [hfound]

/-- Witness of C26: the first capture of `int x` in an empty closure class. -/
theorem AddFunctionUpvalue_deduplicated_witness :
    ∃ (target copy : VariableData) (closure : TypeClass) (after : ClosureState),
      AddFunctionUpvalue exampleContext
        { upvalues := [], uniqueVariableId := 10, scopeVariables := [],
          classType := some { size := 0, alignment := 0, padding := 0, extendable := false,
                              members := [] } }
        { alignment := 4, type := .tInt, name := "x", offset := 0, uniqueId := 5 } =
        .ok (target, after) ∧
      after.classType = some closure ∧
      closure.members = [target, copy] ∧
      target.type = .ref .tInt ∧ copy.type = .tInt := by
  obtain ⟨target, copy, closure, after, hrun, hclosure, hmembers, htarget, hcopy, _, _⟩ :=
    AddFunctionUpvalue_deduplicated exampleContext
      { upvalues := [], uniqueVariableId := 10, scopeVariables := [],
        classType := some { size := 0, alignment := 0, padding := 0, extendable := false,
                            members := [] } }
      { size := 0, alignment := 0, padding := 0, extendable := false, members := [] }
      { alignment := 4, type := .tInt, name := "x", offset := 0, uniqueId := 5 }
      rfl (by intro upvalue h; simp at h) (by decide)
      (by unfold admittedAlignment; decide) (by unfold admittedAlignment; decide)
  exact ⟨target, copy, closure, after, hrun, hclosure, hmembers, htarget, hcopy⟩

/-! ## Scope theorems -/

/-- With more fuel than steps, the search of `PopScope` finds the adopter. -/
theorem PopScope.adopter_of_adopts (scopes : List ScopeData) (steps start adopter : Nat)
    (h : PopScope.Adopts scopes steps start adopter) :
    ∀ fuel, steps < fuel → PopScope.adopter scopes fuel start = some (.ok adopter) := by
  induction h with
  | found start data hdata hstop =>
    intro fuel hfuel
    obtain ⟨fuel, rfl⟩ : ∃ n, fuel = n + 1 := ⟨fuel - 1, by omega⟩
    simp only [PopScope.adopter, hdata]
    rcases hstop with hns | hroot
    · cases hparent : data.scope with
      | none => rfl
      | some parent =>
        have : data.ownerNamespace.isNone = false := by
          cases hn : data.ownerNamespace with
          | none => simp [hn] at hns
          | some n => rfl
        simp [this]
    · simp [hroot]
  | outward steps start parent adopter data hdata hns hparent _ ih =>
    intro fuel hfuel
    obtain ⟨fuel, rfl⟩ : ∃ n, fuel = n + 1 := ⟨fuel - 1, by omega⟩
    simp only [PopScope.adopter, hdata, hparent, hns, Option.isNone_none, if_true]
    exact ih fuel (by omega)

/-- Claim C23: `PopScope` with a null location on a namespace scope hands the
contents of the scope to the adopter, the nearest enclosing scope that owns a
namespace or else the root scope.  With more fuel than the steps to the adopter
the call returns; the variable, function and type maps are unchanged; the
variables, functions, types and aliases of the scope are appended in order to
the lists of the adopter; the lists of the popped scope are empty; every other
scope is unchanged; and the parent is the current scope. -/
theorem PopScope_namespace_adopted (fuel : Nat) (state : ScopeState)
    (current parent adopter steps owner : Nat) (data adopterData : ScopeData)
    (hscope : state.scope = some current)
    (hdata : state.scopes[current]? = some data)
    (hnamespace : data.ownerNamespace = some owner)
    (hparent : data.scope = some parent)
    (hadopts : PopScope.Adopts state.scopes steps parent adopter)
    (hfuel : steps < fuel)
    (hadopter : state.scopes[adopter]? = some adopterData)
    (hne : adopter ≠ current) :
    ∃ after, PopScope fuel state none = some (.ok after) ∧
      after.variableMap = state.variableMap ∧
      after.functionMap = state.functionMap ∧
      after.typeMap = state.typeMap ∧
      after.scopes[adopter]? = some { adopterData with
        variables_ := adopterData.variables_ ++ data.variables_
        functions := adopterData.functions ++ data.functions
        types := adopterData.types ++ data.types
        aliases := adopterData.aliases ++ data.aliases } ∧
      after.scopes[current]? = some { data with
        variables_ := [], functions := [], types := [], aliases := [] } ∧
      (∀ other, other ≠ adopter → other ≠ current →
        after.scopes[other]? = state.scopes[other]?) ∧
      after.scope = some parent := by
  have hsearch := PopScope.adopter_of_adopts state.scopes steps parent adopter hadopts fuel hfuel
  have hcur : current < state.scopes.length := by
    rcases Nat.lt_or_ge current state.scopes.length with h | h
    · exact h
    · rw [List.getElem?_eq_none h] at hdata; cases hdata
  have hado : adopter < state.scopes.length := by
    rcases Nat.lt_or_ge adopter state.scopes.length with h | h
    · exact h
    · rw [List.getElem?_eq_none h] at hadopter; cases hadopter
  have hread : (state.scopes.set adopter { adopterData with
        variables_ := adopterData.variables_ ++ data.variables_
        functions := adopterData.functions ++ data.functions
        types := adopterData.types ++ data.types
        aliases := adopterData.aliases ++ data.aliases })[current]? = some data := by
    rw [List.getElem?_set_ne hne]; exact hdata
  have hrun : PopScope fuel state none = some (.ok { state with
      scopes := (state.scopes.set adopter { adopterData with
        variables_ := adopterData.variables_ ++ data.variables_
        functions := adopterData.functions ++ data.functions
        types := adopterData.types ++ data.types
        aliases := adopterData.aliases ++ data.aliases }).set current
          { data with variables_ := [], functions := [], types := [], aliases := [] }
      scope := some parent }) := by
    simp only [PopScope, hscope, hdata, hnamespace, hparent, hsearch, Analysis.bind, hadopter,
      hread, Option.isNone_none, Option.isSome_some, and_self, if_true]
  refine ⟨_, hrun, rfl, rfl, rfl, ?_, ?_, ?_, rfl⟩
  · simp only
    rw [List.getElem?_set_ne (Ne.symm hne), List.getElem?_set_self hado]
  · simp only
    rw [List.getElem?_set_self (by simpa using hcur)]
  · intro other h1 h2
    simp only
    rw [List.getElem?_set_ne (Ne.symm h2), List.getElem?_set_ne (Ne.symm h1)]

/-- Witness of C23: a namespace scope with the variable `x`, nested in a plain
scope of the root scope, is popped; the root scope adopts `x`. -/
theorem PopScope_namespace_adopted_witness :
    ∃ after,
      PopScope 2
        (exampleScopes
          [exampleScope none 0, exampleScope (some 0) 1,
            { exampleScope (some 1) 2 with
              ownerNamespace := some 0, variables_ := [exampleVariable "x" 7 3] }] 2)
        none = some (.ok after) ∧
      after.scopes[0]? =
        some { exampleScope none 0 with variables_ := [exampleVariable "x" 7 3] } ∧
      after.scope = some 1 := by
  obtain ⟨after, hrun, _, _, _, hadopter, _, _, hscope⟩ :=
    PopScope_namespace_adopted 2
      (exampleScopes
        [exampleScope none 0, exampleScope (some 0) 1,
          { exampleScope (some 1) 2 with
            ownerNamespace := some 0, variables_ := [exampleVariable "x" 7 3] }] 2)
      2 1 0 1 0
      { exampleScope (some 1) 2 with
        ownerNamespace := some 0, variables_ := [exampleVariable "x" 7 3] }
      (exampleScope none 0) rfl rfl rfl rfl
      (.outward 0 1 0 0 (exampleScope (some 0) 1) rfl rfl rfl
        (.found 0 (exampleScope none 0) rfl (Or.inr rfl)))
      (by decide) rfl (by decide)
  exact ⟨after, hrun, hadopter, hscope⟩

/-- A prototype in the list that `PopScope` walks stops the walk, at that
prototype or at an earlier one, once the scope has a parent. -/
theorem PopScope.functions_stop (functions : List FunctionData) (function : FunctionData)
    (hmem : function ∈ functions) (hclass : function.ownerType = none)
    (hproto : function.isPrototype = true) (himpl : function.implementation = none) :
    ∀ map : HashMap FunctionData, ∃ found, found ∈ functions ∧ found.ownerType = none ∧
      found.isPrototype = true ∧ found.implementation = none ∧
      PopScope.functions true map functions = .stop (PopScope.unimplemented found.name) := by
  induction functions with
  | nil => cases hmem
  | cons head rest ih =>
    intro map
    by_cases hhead : head.ownerType = none ∧ head.isPrototype = true ∧
        head.implementation = none
    · refine ⟨head, List.mem_cons_self _ _, hhead.1, hhead.2.1, hhead.2.2, ?_⟩
      simp [PopScope.functions, hhead.1, hhead.2.1, hhead.2.2]
    · have hrest : function ∈ rest := by
        rcases List.mem_cons.mp hmem with h | h
        · subst h; exact absurd ⟨hclass, hproto, himpl⟩ hhead
        · exact h
      have step : ∃ map', PopScope.functions true map (head :: rest) =
          PopScope.functions true map' rest := by
        by_cases h1 : head.ownerType.isSome = true
        · exact ⟨map, by simp [PopScope.functions, h1]⟩
        · have h1' : head.ownerType = none := by
            cases h : head.ownerType with
            | none => rfl
            | some t => simp [h] at h1
          by_cases h3 : map.find head.nameHash head = true
          · refine ⟨map.remove head.nameHash head, ?_⟩
            simp only [PopScope.functions, h1', Option.isSome_none, Bool.false_eq_true,
              if_false, h3, if_true, true_and]
            rw [if_neg]
            rintro ⟨hp, hi⟩
            exact hhead ⟨h1', hp, by
              cases h : head.implementation with
              | none => rfl
              | some t => simp [h] at hi⟩
          · refine ⟨map, ?_⟩
            simp only [PopScope.functions, h1', Option.isSome_none, Bool.false_eq_true,
              if_false, h3, true_and]
            rw [if_neg]
            rintro ⟨hp, hi⟩
            exact hhead ⟨h1', hp, by
              cases h : head.implementation with
              | none => rfl
              | some t => simp [h] at hi⟩
      obtain ⟨map', hstep⟩ := step
      obtain ⟨found, hfound, h1, h2, h3, hrun⟩ := ih hrest map'
      exact ⟨found, List.mem_cons_of_mem _ hfound, h1, h2, h3, by rw [hstep, hrun]⟩

/-- Counterexample to C24: the root scope owns the prototype `f`, which has no
implementation, and is popped; the analysis goes on, with no scope current. -/
theorem PopScope_root_keeps_prototype :
    PopScope 1
      (exampleScopes [{ exampleScope none 0 with functions := [examplePrototype "f" 3] }] 0)
      none =
    some (.ok { exampleScopes
      [{ exampleScope none 0 with functions := [examplePrototype "f" 3] }] 0 with
      scope := none }) := by
  decide

/-- Claim C24, amended: a scope other than the root scope is popped, and not as
a namespace scope with a null location, whose contents move to the adopter.
While the scope owns a prototype that belongs to no class and has no
implementation, `PopScope` stops the analysis with the message for such a
prototype of the scope. -/
theorem PopScope_unimplemented_prototype (fuel : Nat) (state : ScopeState)
    (location : Option Nat) (current parent : Nat) (data : ScopeData) (function : FunctionData)
    (hscope : state.scope = some current)
    (hdata : state.scopes[current]? = some data)
    (hparent : data.scope = some parent)
    (hlocation : location ≠ none ∨ data.ownerNamespace = none)
    (hmem : function ∈ data.functions)
    (hclass : function.ownerType = none)
    (hproto : function.isPrototype = true)
    (himpl : function.implementation = none) :
    ∃ found, found ∈ data.functions ∧ found.ownerType = none ∧ found.isPrototype = true ∧
      found.implementation = none ∧
      PopScope fuel state location = some (.stop (PopScope.unimplemented found.name)) := by
  obtain ⟨found, hfound, h1, h2, h3, hrun⟩ :=
    PopScope.functions_stop data.functions.reverse function (List.mem_reverse.mpr hmem)
      hclass hproto himpl state.functionMap
  refine ⟨found, List.mem_reverse.mp hfound, h1, h2, h3, ?_⟩
  have hbranch : ¬ (location.isNone = true ∧ data.ownerNamespace.isSome = true) := by
    rintro ⟨hl, hn⟩
    rcases hlocation with h | h
    · cases location with
      | none => exact h rfl
      | some l => simp at hl
    · simp [h] at hn
  simp only [PopScope, hscope, hdata, hbranch, if_false, hparent, Option.isSome_some, hrun,
    Analysis.bind]

/-- Witness of C24: a scope of the root scope with the prototype `f`. -/
theorem PopScope_unimplemented_prototype_witness :
    ∃ found, found ∈ [examplePrototype "f" 3] ∧
      PopScope 1
        (exampleScopes
          [exampleScope none 0,
            { exampleScope (some 0) 1 with functions := [examplePrototype "f" 3] }] 1)
        none = some (.stop (PopScope.unimplemented found.name)) := by
  obtain ⟨found, hfound, _, _, _, hrun⟩ :=
    PopScope_unimplemented_prototype 1
      (exampleScopes
        [exampleScope none 0,
          { exampleScope (some 0) 1 with functions := [examplePrototype "f" 3] }] 1)
      none 1 0
      { exampleScope (some 0) 1 with functions := [examplePrototype "f" 3] }
      (examplePrototype "f" 3) rfl rfl rfl (Or.inr rfl) (List.mem_singleton.mpr rfl)
      rfl rfl rfl
  exact ⟨found, hfound, hrun⟩

/-- The entries of a lookup map after a loop that inserts the items that pass a
test. -/
theorem HashMap.foldl_insert_mem {α β : Type} (test : β → Bool) (key : β → Nat)
    (val : β → α) (items : List β) (hash : Nat) (value : α) :
    ∀ map : HashMap α,
      (hash, value) ∈ (items.foldl
        (fun map item => if test item then map.insert (key item) (val item) else map)
        map).entries ↔
        (hash, value) ∈ map.entries ∨
        ∃ item, item ∈ items ∧ test item = true ∧ hash = key item ∧ value = val item := by
  induction items with
  | nil => intro map; simp
  | cons head rest ih =>
    intro map
    rw [List.foldl_cons, ih]
    by_cases htest : test head = true
    · simp only [htest, if_true, HashMap.insert, List.mem_cons, Prod.mk.injEq]
      constructor
      · rintro ((⟨h1, h2⟩ | h) | ⟨item, h1, h2, h3, h4⟩)
        · exact Or.inr ⟨head, Or.inl rfl, htest, h1, h2⟩
        · exact Or.inl h
        · exact Or.inr ⟨item, Or.inr h1, h2, h3, h4⟩
      · rintro (h | ⟨item, h1 | h1, h2, h3, h4⟩)
        · exact Or.inl (Or.inr h)
        · subst h1; exact Or.inl (Or.inl ⟨h3, h4⟩)
        · exact Or.inr ⟨item, h1, h2, h3, h4⟩
    · simp only [htest, Bool.false_eq_true, if_false, List.mem_cons]
      constructor
      · rintro (h | ⟨item, h1, h2, h3, h4⟩)
        · exact Or.inl h
        · exact Or.inr ⟨item, Or.inr h1, h2, h3, h4⟩
      · rintro (h | ⟨item, h1 | h1, h2, h3, h4⟩)
        · exact Or.inl h
        · subst h1; exact absurd h2 htest
        · exact Or.inr ⟨item, h1, h2, h3, h4⟩

/-- The entries of the variable map after the variables of a scope are
restored. -/
theorem RestoreScopesAtPoint.variables_mem (location : Option Nat)
    (variables_ : List VariableData) (hash : Nat) (value : VariableData)
    (map : HashMap VariableData) :
    (hash, value) ∈ (RestoreScopesAtPoint.variables location map variables_).entries ↔
      (hash, value) ∈ map.entries ∨
      (value ∈ variables_ ∧ hash = value.nameHash ∧
        RestoreScopesAtPoint.visible location value.imported value.pos = true) := by
  unfold RestoreScopesAtPoint.variables
  rw [HashMap.foldl_insert_mem
    (fun item : VariableData => RestoreScopesAtPoint.visible location item.imported item.pos)
    (fun item => item.nameHash) (fun item => item)]
  constructor
  · rintro (h | ⟨item, h1, h2, h3, h4⟩)
    · exact Or.inl h
    · subst h4; exact Or.inr ⟨h1, h3, h2⟩
  · rintro (h | ⟨h1, h2, h3⟩)
    · exact Or.inl h
    · exact Or.inr ⟨value, h1, h3, h2, rfl⟩

/-- The entries of the function map after the functions of a scope are
restored. -/
theorem RestoreScopesAtPoint.functions_mem (location : Option Nat)
    (functions : List FunctionData) (hash : Nat) (value : FunctionData)
    (map : HashMap FunctionData) :
    (hash, value) ∈ (RestoreScopesAtPoint.functions location map functions).entries ↔
      (hash, value) ∈ map.entries ∨
      (value ∈ functions ∧ hash = value.nameHash ∧ value.ownerType = none ∧
        RestoreScopesAtPoint.visible location value.imported value.pos = true) := by
  have hloop : RestoreScopesAtPoint.functions location map functions =
      functions.foldl (fun map item =>
        if (!item.ownerType.isSome &&
            RestoreScopesAtPoint.visible location item.imported item.pos) then
          map.insert item.nameHash item
        else map) map := by
    unfold RestoreScopesAtPoint.functions
    congr 1
    funext map item
    cases item.ownerType.isSome <;>
      cases RestoreScopesAtPoint.visible location item.imported item.pos <;> simp
  rw [hloop, HashMap.foldl_insert_mem
    (fun item : FunctionData => (!item.ownerType.isSome &&
      RestoreScopesAtPoint.visible location item.imported item.pos))
    (fun item => item.nameHash) (fun item => item)]
  have hnone : ∀ item : FunctionData,
      (!item.ownerType.isSome) = true ↔ item.ownerType = none := by
    intro item
    cases item.ownerType <;> simp
  constructor
  · rintro (h | ⟨item, h1, h2, h3, h4⟩)
    · exact Or.inl h
    · subst h4
      simp only [Bool.and_eq_true] at h2
      exact Or.inr ⟨h1, h3, (hnone _).mp h2.1, h2.2⟩
  · rintro (h | ⟨h1, h2, h3, h4⟩)
    · exact Or.inl h
    · refine Or.inr ⟨value, h1, ?_, h2, rfl⟩
      simp only [Bool.and_eq_true]
      exact ⟨(hnone _).mpr h3, h4⟩

/-- The entries of the type map after the types of a scope are restored. -/
theorem RestoreScopesAtPoint.types_mem (location : Option Nat)
    (types : List ScopedType) (hash : Nat) (value : ScopedType) (map : HashMap ScopedType) :
    (hash, value) ∈ (RestoreScopesAtPoint.types location map types).entries ↔
      (hash, value) ∈ map.entries ∨
      (value ∈ types ∧ hash = value.nameHash ∧
        (value.type.isClass = true ∨ value.type.isGenericClassProto = true →
          RestoreScopesAtPoint.visible location value.imported value.pos = true)) := by
  have hloop : RestoreScopesAtPoint.types location map types =
      types.foldl (fun map item =>
        if ((!item.type.isClass && !item.type.isGenericClassProto) ||
            RestoreScopesAtPoint.visible location item.imported item.pos) then
          map.insert item.nameHash item
        else map) map := by
    unfold RestoreScopesAtPoint.types
    congr 1
    funext map item
    cases item.type.isClass <;> cases item.type.isGenericClassProto <;>
      cases RestoreScopesAtPoint.visible location item.imported item.pos <;> simp
  rw [hloop, HashMap.foldl_insert_mem
    (fun item : ScopedType => ((!item.type.isClass && !item.type.isGenericClassProto) ||
      RestoreScopesAtPoint.visible location item.imported item.pos))
    (fun item => item.nameHash) (fun item => item)]
  have htest : ∀ item : ScopedType,
      ((!item.type.isClass && !item.type.isGenericClassProto) ||
        RestoreScopesAtPoint.visible location item.imported item.pos) = true ↔
      (item.type.isClass = true ∨ item.type.isGenericClassProto = true →
        RestoreScopesAtPoint.visible location item.imported item.pos = true) := by
    intro item
    cases item.type.isClass <;> cases item.type.isGenericClassProto <;>
      cases RestoreScopesAtPoint.visible location item.imported item.pos <;> simp
  constructor
  · rintro (h | ⟨item, h1, h2, h3, h4⟩)
    · exact Or.inl h
    · subst h4
      exact Or.inr ⟨h1, h3, (htest _).mp h2⟩
  · rintro (h | ⟨h1, h2, h3⟩)
    · exact Or.inl h
    · exact Or.inr ⟨value, h1, (htest _).mpr h3, h2, rfl⟩

/-- The entries of the type map after the aliases of a scope are restored. -/
theorem RestoreScopesAtPoint.aliases_mem (location : Option Nat)
    (aliases : List AliasData) (hash : Nat) (value : ScopedType) (map : HashMap ScopedType) :
    (hash, value) ∈ (RestoreScopesAtPoint.aliases location map aliases).entries ↔
      (hash, value) ∈ map.entries ∨
      ∃ aliasData, aliasData ∈ aliases ∧ hash = aliasData.nameHash ∧
        value = aliasData.type ∧
        RestoreScopesAtPoint.visible location aliasData.imported aliasData.pos = true := by
  unfold RestoreScopesAtPoint.aliases
  rw [HashMap.foldl_insert_mem
    (fun item : AliasData => RestoreScopesAtPoint.visible location item.imported item.pos)
    (fun item => item.nameHash) (fun item => item.type)]
  constructor
  · rintro (h | ⟨item, h1, h2, h3, h4⟩)
    · exact Or.inl h
    · exact Or.inr ⟨item, h1, h3, h4, h2⟩
  · rintro (h | ⟨item, h1, h2, h3, h4⟩)
    · exact Or.inl h
    · exact Or.inr ⟨item, h1, h4, h2, h3⟩

/-- Along the scopes that it enters, `RestoreScopesAtPoint` returns with enough
fuel, leaves the scope objects alone, makes the target current, and adds to
each lookup map the symbols of those scopes that pass its test. -/
theorem RestoreScopesAtPoint_along (location : Option Nat) (scopes : List ScopeData)
    (current : Option Nat) (path : List Nat) (target : Nat)
    (h : RestoreScopesAtPoint.Reenters scopes current path target) :
    ∀ (fuel : Nat) (state : ScopeState), state.scopes = scopes → state.scope = current →
      path.length ≤ fuel →
      ∃ after, RestoreScopesAtPoint fuel state target location = some (.ok after) ∧
        after.scopes = scopes ∧ after.scope = some target ∧
        (∀ hash value, (hash, value) ∈ after.variableMap.entries ↔
          (hash, value) ∈ state.variableMap.entries ∨
          ∃ scope data, scope ∈ path ∧ scopes[scope]? = some data ∧
            value ∈ data.variables_ ∧ hash = value.nameHash ∧
            RestoreScopesAtPoint.visible location value.imported value.pos = true) ∧
        (∀ hash value, (hash, value) ∈ after.functionMap.entries ↔
          (hash, value) ∈ state.functionMap.entries ∨
          ∃ scope data, scope ∈ path ∧ scopes[scope]? = some data ∧
            value ∈ data.functions ∧ hash = value.nameHash ∧ value.ownerType = none ∧
            RestoreScopesAtPoint.visible location value.imported value.pos = true) ∧
        (∀ hash value, (hash, value) ∈ after.typeMap.entries ↔
          (hash, value) ∈ state.typeMap.entries ∨
          ∃ scope data, scope ∈ path ∧ scopes[scope]? = some data ∧
            ((value ∈ data.types ∧ hash = value.nameHash ∧
              (value.type.isClass = true ∨ value.type.isGenericClassProto = true →
                RestoreScopesAtPoint.visible location value.imported value.pos = true)) ∨
             ∃ aliasData, aliasData ∈ data.aliases ∧ hash = aliasData.nameHash ∧
               value = aliasData.type ∧
               RestoreScopesAtPoint.visible location aliasData.imported aliasData.pos =
                 true)) := by
  induction h with
  | child target data hdata hparent =>
    intro fuel state hscopes hscope hfuel
    obtain ⟨fuel, rfl⟩ : ∃ n, fuel = n + 1 := ⟨fuel - 1, by simp at hfuel; omega⟩
    have hdata' : state.scopes[target]? = some data := by rw [hscopes]; exact hdata
    have hsame : ¬ (data.scope ≠ state.scope) := by rw [hscope, hparent]; simp
    refine ⟨RestoreScopesAtPoint.enter state target data location, ?_, hscopes, rfl, ?_, ?_, ?_⟩
    · simp only [RestoreScopesAtPoint, RestoreScopesAtPoint.body, hdata', hsame, if_false,
        Analysis.bind]
    · intro hash value
      show (hash, value) ∈
        (RestoreScopesAtPoint.variables location state.variableMap data.variables_).entries ↔ _
      rw [RestoreScopesAtPoint.variables_mem]
      constructor
      · rintro (h | h)
        · exact Or.inl h
        · exact Or.inr ⟨target, data, List.mem_singleton.mpr rfl, hdata, h⟩
      · rintro (h | ⟨scope, data', hmem, hd, h⟩)
        · exact Or.inl h
        · rw [List.mem_singleton.mp hmem, hdata] at hd
          cases hd
          exact Or.inr h
    · intro hash value
      show (hash, value) ∈
        (RestoreScopesAtPoint.functions location state.functionMap data.functions).entries ↔ _
      rw [RestoreScopesAtPoint.functions_mem]
      constructor
      · rintro (h | h)
        · exact Or.inl h
        · exact Or.inr ⟨target, data, List.mem_singleton.mpr rfl, hdata, h⟩
      · rintro (h | ⟨scope, data', hmem, hd, h⟩)
        · exact Or.inl h
        · rw [List.mem_singleton.mp hmem, hdata] at hd
          cases hd
          exact Or.inr h
    · intro hash value
      show (hash, value) ∈
        (RestoreScopesAtPoint.aliases location
          (RestoreScopesAtPoint.types location state.typeMap data.types) data.aliases).entries ↔ _
      rw [RestoreScopesAtPoint.aliases_mem, RestoreScopesAtPoint.types_mem]
      constructor
      · rintro ((h | h) | h)
        · exact Or.inl h
        · exact Or.inr ⟨target, data, List.mem_singleton.mpr rfl, hdata, Or.inl h⟩
        · exact Or.inr ⟨target, data, List.mem_singleton.mpr rfl, hdata, Or.inr h⟩
      · rintro (h | ⟨scope, data', hmem, hd, h⟩)
        · exact Or.inl (Or.inl h)
        · rw [List.mem_singleton.mp hmem, hdata] at hd
          cases hd
          rcases h with h | h
          · exact Or.inl (Or.inr h)
          · exact Or.inr h
  | nested path target parent data hdata hparent hne _ ih =>
    intro fuel state hscopes hscope hfuel
    obtain ⟨fuel, rfl⟩ : ∃ n, fuel = n + 1 := ⟨fuel - 1, by simp at hfuel; omega⟩
    have hdata' : state.scopes[target]? = some data := by rw [hscopes]; exact hdata
    have hdiff : ¬ (some parent = state.scope) := by rw [hscope, ← hparent]; exact hne
    obtain ⟨mid, hmid, hmscopes, _, hvars, hfuns, htypes⟩ :=
      ih fuel state hscopes hscope (by simp at hfuel; omega)
    have hdata'' : mid.scopes[target]? = some data := by rw [hmscopes]; exact hdata
    refine ⟨RestoreScopesAtPoint.enter mid target data location, ?_, hmscopes, rfl, ?_, ?_, ?_⟩
    · simp only [RestoreScopesAtPoint, RestoreScopesAtPoint.body, hdata', hparent, ne_eq, hdiff,
        not_false_eq_true, if_true, hmid, Analysis.bind, hdata'']
    · intro hash value
      show (hash, value) ∈
        (RestoreScopesAtPoint.variables location mid.variableMap data.variables_).entries ↔ _
      rw [RestoreScopesAtPoint.variables_mem, hvars]
      constructor
      · rintro ((h | ⟨scope, data', hmem, hd, h⟩) | h)
        · exact Or.inl h
        · exact Or.inr ⟨scope, data', List.mem_append_left _ hmem, hd, h⟩
        · exact Or.inr ⟨target, data, List.mem_append_right _ (List.mem_singleton.mpr rfl),
            hdata, h⟩
      · rintro (h | ⟨scope, data', hmem, hd, h⟩)
        · exact Or.inl (Or.inl h)
        · rcases List.mem_append.mp hmem with hm | hm
          · exact Or.inl (Or.inr ⟨scope, data', hm, hd, h⟩)
          · rw [List.mem_singleton.mp hm, hdata] at hd
            cases hd
            exact Or.inr h
    · intro hash value
      show (hash, value) ∈
        (RestoreScopesAtPoint.functions location mid.functionMap data.functions).entries ↔ _
      rw [RestoreScopesAtPoint.functions_mem, hfuns]
      constructor
      · rintro ((h | ⟨scope, data', hmem, hd, h⟩) | h)
        · exact Or.inl h
        · exact Or.inr ⟨scope, data', List.mem_append_left _ hmem, hd, h⟩
        · exact Or.inr ⟨target, data, List.mem_append_right _ (List.mem_singleton.mpr rfl),
            hdata, h⟩
      · rintro (h | ⟨scope, data', hmem, hd, h⟩)
        · exact Or.inl (Or.inl h)
        · rcases List.mem_append.mp hmem with hm | hm
          · exact Or.inl (Or.inr ⟨scope, data', hm, hd, h⟩)
          · rw [List.mem_singleton.mp hm, hdata] at hd
            cases hd
            exact Or.inr h
    · intro hash value
      show (hash, value) ∈
        (RestoreScopesAtPoint.aliases location
          (RestoreScopesAtPoint.types location mid.typeMap data.types) data.aliases).entries ↔ _
      rw [RestoreScopesAtPoint.aliases_mem, RestoreScopesAtPoint.types_mem, htypes]
      constructor
      · rintro (((h | ⟨scope, data', hmem, hd, h⟩) | h) | h)
        · exact Or.inl h
        · exact Or.inr ⟨scope, data', List.mem_append_left _ hmem, hd, h⟩
        · exact Or.inr ⟨target, data, List.mem_append_right _ (List.mem_singleton.mpr rfl),
            hdata, Or.inl h⟩
        · exact Or.inr ⟨target, data, List.mem_append_right _ (List.mem_singleton.mpr rfl),
            hdata, Or.inr h⟩
      · rintro (h | ⟨scope, data', hmem, hd, h⟩)
        · exact Or.inl (Or.inl (Or.inl h))
        · rcases List.mem_append.mp hmem with hm | hm
          · exact Or.inl (Or.inl (Or.inr ⟨scope, data', hm, hd, h⟩))
          · rw [List.mem_singleton.mp hm, hdata] at hd
            cases hd
            rcases h with h | h
            · exact Or.inl (Or.inr h)
            · exact Or.inr h

/-- Counterexample to C22: scope 3 is entered from scope 1 at the point 5.
The enumeration `E` of scope 2, defined at position 9 and not imported, is in
the type map, and the member function `g` of scope 2, defined at position 1,
is not in the function map. -/
theorem SwitchToScopeAtPoint_enum_and_class_function :
    SwitchToScopeAtPoint 3 exampleSwitch none 3 (some 5) =
      some (.ok { exampleSwitch with
        scope := some 3
        variableMap := { entries := [(4, exampleVariable "z" 4 4), (2, exampleVariable "x" 2 2)] }
        functionMap := { entries := [] }
        typeMap := { entries := [(9, exampleEnum)] } }) := by
  decide

/-- Claim C22, amended: after `SwitchToScopeAtPoint(_, S, P)` with a point `P`
that is not null, where `popped` is the state in which the scopes are left and
`path` the scopes that are entered again, the call returns with enough fuel
and the lookup maps hold, besides the entries of `popped`, exactly these
symbols of the scopes of `path`: the variables, the functions of no class, the
classes, the generic class prototypes and the aliases that are imported or
defined at a position `<= P`, and every type of another kind.  Class
functions are not inserted. -/
theorem SwitchToScopeAtPoint_restores_visible (fuel : Nat) (state popped : ScopeState)
    (currLocation : Option Nat) (target P : Nat) (path : List Nat)
    (hleave : SwitchToScopeAtPoint.leave fuel state currLocation target = some (.ok popped))
    (hpath : RestoreScopesAtPoint.Reenters popped.scopes popped.scope path target)
    (hfuel : path.length ≤ fuel) :
    ∃ after, SwitchToScopeAtPoint fuel state currLocation target (some P) = some (.ok after) ∧
      after.scopes = popped.scopes ∧ after.scope = some target ∧
      (∀ hash value, (hash, value) ∈ after.variableMap.entries ↔
        (hash, value) ∈ popped.variableMap.entries ∨
        ∃ scope data, scope ∈ path ∧ popped.scopes[scope]? = some data ∧
          value ∈ data.variables_ ∧ hash = value.nameHash ∧
          (value.imported = true ∨ value.pos ≤ P)) ∧
      (∀ hash value, (hash, value) ∈ after.functionMap.entries ↔
        (hash, value) ∈ popped.functionMap.entries ∨
        ∃ scope data, scope ∈ path ∧ popped.scopes[scope]? = some data ∧
          value ∈ data.functions ∧ hash = value.nameHash ∧ value.ownerType = none ∧
          (value.imported = true ∨ value.pos ≤ P)) ∧
      (∀ hash value, (hash, value) ∈ after.typeMap.entries ↔
        (hash, value) ∈ popped.typeMap.entries ∨
        ∃ scope data, scope ∈ path ∧ popped.scopes[scope]? = some data ∧
          ((value ∈ data.types ∧ hash = value.nameHash ∧
            (value.type.isClass = true ∨ value.type.isGenericClassProto = true →
              value.imported = true ∨ value.pos ≤ P)) ∨
           ∃ aliasData, aliasData ∈ data.aliases ∧ hash = aliasData.nameHash ∧
             value = aliasData.type ∧ (aliasData.imported = true ∨ aliasData.pos ≤ P))) := by
  have hvisible : ∀ (imported : Bool) (pos : Nat),
      RestoreScopesAtPoint.visible (some P) imported pos = true ↔
        (imported = true ∨ pos ≤ P) := by
    intro imported pos
    simp [RestoreScopesAtPoint.visible]
  obtain ⟨after, hrun, hscopes, hscope, hvars, hfuns, htypes⟩ :=
    RestoreScopesAtPoint_along (some P) popped.scopes popped.scope path target hpath fuel popped
      rfl rfl hfuel
  refine ⟨after, ?_, hscopes, hscope, ?_, ?_, ?_⟩
  · simp only [SwitchToScopeAtPoint, hleave, Analysis.bind, hrun]
  · intro hash value
    rw [hvars]
    simp only [hvisible]
  · intro hash value
    rw [hfuns]
    simp only [hvisible]
  · intro hash value
    rw [htypes]
    simp only [hvisible]

/-- Witness of C22: in the example, scope 1 is left for the root scope, and the
scopes 2 and 3 are entered at the point 5. -/
theorem SwitchToScopeAtPoint_restores_visible_witness :
    ∃ after, SwitchToScopeAtPoint 3 exampleSwitch none 3 (some 5) = some (.ok after) ∧
      after.scope = some 3 ∧
      (∀ hash value, (hash, value) ∈ after.variableMap.entries ↔
        ∃ scope data, scope ∈ [2, 3] ∧ exampleSwitch.scopes[scope]? = some data ∧
          value ∈ data.variables_ ∧ hash = value.nameHash ∧
          (value.imported = true ∨ value.pos ≤ 5)) := by
  obtain ⟨after, hrun, _, hscope, hvars, _, _⟩ :=
    SwitchToScopeAtPoint_restores_visible 3 exampleSwitch { exampleSwitch with scope := some 0 }
      none 3 5 [2, 3] (by decide)
      (.nested [2] 3 2 _ rfl rfl (by decide) (.child 2 _ rfl rfl))
      (by decide)
  refine ⟨after, hrun, hscope, ?_⟩
  intro hash value
  rw [hvars]
  constructor
  · rintro (h | h)
    · cases h
    · exact h
  · intro h
    exact Or.inr h

/-- The regions of scopes are the same in two scope lists whose scopes agree in
their parents and owners. -/
theorem AllocateVariableInScope.RegionOf_congr (scopes scopes' : List ScopeData)
    (hsame : ∀ (index : Nat) (data : ScopeData), scopes[index]? = some data →
      ∃ data', scopes'[index]? = some data' ∧ data'.scope = data.scope ∧
        data'.ownerFunction = data.ownerFunction ∧ data'.ownerType = data.ownerType)
    (steps scope : Nat) (region : AllocationRegion)
    (h : AllocateVariableInScope.RegionOf scopes steps scope region) :
    AllocateVariableInScope.RegionOf scopes' steps scope region := by
  induction h with
  | function scope parent function data hdata hparent hfunction =>
    obtain ⟨data', h1, h2, h3, _⟩ := hsame scope data hdata
    exact .function scope parent function data' h1 (h2.trans hparent) (h3.trans hfunction)
  | type scope parent type data hdata hparent hfunction htype =>
    obtain ⟨data', h1, h2, h3, h4⟩ := hsame scope data hdata
    exact .type scope parent type data' h1 (h2.trans hparent) (h3.trans hfunction)
      (h4.trans htype)
  | root scope data hdata hparent =>
    obtain ⟨data', h1, h2, _, _⟩ := hsame scope data hdata
    exact .root scope data' h1 (h2.trans hparent)
  | outward steps scope parent region data hdata hparent hfunction htype _ ih =>
    obtain ⟨data', h1, h2, h3, h4⟩ := hsame scope data hdata
    exact .outward steps scope parent region data' h1 (h2.trans hparent) (h3.trans hfunction)
      (h4.trans htype) ih

/-- The walk of `AllocateVariableInScope` reaches the region of the scope with
more fuel than steps: it returns the padded watermark, advances the watermark
of that region by the padding and the size, and changes no other region and
no parent or owner of a scope. -/
theorem AllocateVariableInScope.walk_region (ctx : ExpressionContext) (alignment size : Nat)
    (scopes : List ScopeData) (steps scope : Nat) (region : AllocationRegion)
    (h : AllocateVariableInScope.RegionOf scopes steps scope region) :
    ∀ (fuel : Nat) (state : ScopeState) (old : Nat), state.scopes = scopes → steps < fuel →
      state.watermark region = some old →
      ∃ after, AllocateVariableInScope.walk ctx alignment size fuel state scope =
          some (.ok ((old + ctx.GetAlignmentOffset old alignment) % 4294967296, after)) ∧
        after.watermark region = some (old + ctx.GetAlignmentOffset old alignment + size) ∧
        (∀ other, other ≠ region → after.watermark other = state.watermark other) ∧
        (∀ (index : Nat) (data : ScopeData), scopes[index]? = some data →
          ∃ data', after.scopes[index]? = some data' ∧ data'.scope = data.scope ∧
            data'.ownerFunction = data.ownerFunction ∧ data'.ownerType = data.ownerType) := by
  induction h with
  | function scope parent function data hdata hparent hfunction =>
    intro fuel state old hscopes hfuel hold
    obtain ⟨fuel, rfl⟩ : ∃ n, fuel = n + 1 := ⟨fuel - 1, by omega⟩
    have hdata' : state.scopes[scope]? = some data := by rw [hscopes]; exact hdata
    have hold' : state.stackSize[function]? = some old := hold
    have hlt : function < state.stackSize.length := by
      rcases Nat.lt_or_ge function state.stackSize.length with h | h
      · exact h
      · rw [List.getElem?_eq_none h] at hold'; cases hold'
    have hrun : AllocateVariableInScope.walk ctx alignment size (fuel + 1) state scope =
        some (.ok ((old + ctx.GetAlignmentOffset old alignment) % 4294967296,
          { state with stackSize := (state.stackSize.set function
              (old + ctx.GetAlignmentOffset old alignment + size)) })) := by
      simp only [AllocateVariableInScope.walk, hdata', hparent, hfunction, hold']
    refine ⟨_, hrun, ?_, ?_, ?_⟩
    · show (state.stackSize.set function _)[function]? = _
      rw [List.getElem?_set_self hlt]
    · intro other hother
      cases other with
      | stack other =>
        show (state.stackSize.set function _)[other]? = state.stackSize[other]?
        rw [List.getElem?_set_ne]
        intro heq; exact hother (by rw [heq])
      | members other => rfl
      | global other => rfl
    · intro index data'' hd
      exact ⟨data'', by rw [← hscopes] at hd; exact hd, rfl, rfl, rfl⟩
  | type scope parent type data hdata hparent hfunction htype =>
    intro fuel state old hscopes hfuel hold
    obtain ⟨fuel, rfl⟩ : ∃ n, fuel = n + 1 := ⟨fuel - 1, by omega⟩
    have hdata' : state.scopes[scope]? = some data := by rw [hscopes]; exact hdata
    have hold' : state.typeSize[type]? = some old := hold
    have hlt : type < state.typeSize.length := by
      rcases Nat.lt_or_ge type state.typeSize.length with h | h
      · exact h
      · rw [List.getElem?_eq_none h] at hold'; cases hold'
    have hrun : AllocateVariableInScope.walk ctx alignment size (fuel + 1) state scope =
        some (.ok ((old + ctx.GetAlignmentOffset old alignment) % 4294967296,
          { state with typeSize := (state.typeSize.set type
              (old + ctx.GetAlignmentOffset old alignment + size)) })) := by
      simp only [AllocateVariableInScope.walk, hdata', hparent, hfunction, htype, hold']
    refine ⟨_, hrun, ?_, ?_, ?_⟩
    · show (state.typeSize.set type _)[type]? = _
      rw [List.getElem?_set_self hlt]
    · intro other hother
      cases other with
      | stack other => rfl
      | members other =>
        show (state.typeSize.set type _)[other]? = state.typeSize[other]?
        rw [List.getElem?_set_ne]
        intro heq; exact hother (by rw [heq])
      | global other => rfl
    · intro index data'' hd
      exact ⟨data'', by rw [← hscopes] at hd; exact hd, rfl, rfl, rfl⟩
  | root scope data hdata hparent =>
    intro fuel state old hscopes hfuel hold
    obtain ⟨fuel, rfl⟩ : ∃ n, fuel = n + 1 := ⟨fuel - 1, by omega⟩
    have hdata' : state.scopes[scope]? = some data := by rw [hscopes]; exact hdata
    have hold' : data.globalSize = old := by
      have : (state.scopes[scope]?).map (fun data => data.globalSize) = some old := hold
      rw [hdata'] at this
      simpa using this
    have hlt : scope < state.scopes.length := by
      rcases Nat.lt_or_ge scope state.scopes.length with h | h
      · exact h
      · rw [List.getElem?_eq_none h] at hdata'; cases hdata'
    have hrun : AllocateVariableInScope.walk ctx alignment size (fuel + 1) state scope =
        some (.ok ((old + ctx.GetAlignmentOffset old alignment) % 4294967296,
          { state with scopes := (state.scopes.set scope
              { data with globalSize := old + ctx.GetAlignmentOffset old alignment + size }) })) := by
      simp only [AllocateVariableInScope.walk, hdata', hparent, hold']
    refine ⟨_, hrun, ?_, ?_, ?_⟩
    · show ((state.scopes.set scope _)[scope]?).map (fun data => data.globalSize) = _
      rw [List.getElem?_set_self hlt]
      rfl
    · intro other hother
      cases other with
      | stack other => rfl
      | members other => rfl
      | global other =>
        show ((state.scopes.set scope _)[other]?).map (fun data => data.globalSize) =
          (state.scopes[other]?).map (fun data => data.globalSize)
        rw [List.getElem?_set_ne]
        intro heq; exact hother (by rw [heq])
    · intro index data'' hd
      rw [← hscopes] at hd
      by_cases hindex : scope = index
      · subst hindex
        rw [hdata'] at hd
        cases hd
        exact ⟨_, List.getElem?_set_self hlt, rfl, rfl, rfl⟩
      · exact ⟨data'', by
          show (state.scopes.set scope _)[index]? = _
          rw [List.getElem?_set_ne hindex]; exact hd, rfl, rfl, rfl⟩
  | outward steps scope parent region data hdata hparent hfunction htype _ ih =>
    intro fuel state old hscopes hfuel hold
    obtain ⟨fuel, rfl⟩ : ∃ n, fuel = n + 1 := ⟨fuel - 1, by omega⟩
    have hdata' : state.scopes[scope]? = some data := by rw [hscopes]; exact hdata
    obtain ⟨after, hrun, h1, h2, h3⟩ := ih fuel state old hscopes (by omega) hold
    refine ⟨after, ?_, h1, h2, h3⟩
    simp only [AllocateVariableInScope.walk, hdata', hparent, hfunction, htype]
    exact hrun

/-- An admitted alignment passes the assertion of `AllocateVariableInScope`. -/
theorem admittedAlignment_asserted (alignment : Nat) (h : admittedAlignment alignment) :
    Nat.land alignment ((alignment + 4294967295) % 4294967296) = 0 ∧ alignment ≤ 16 := by
  unfold admittedAlignment at h
  simp only [List.mem_cons, List.mem_singleton, List.not_mem_nil, or_false] at h
  rcases h with h | h | h | h | h | h <;> subst h <;> decide

/-- The watermark padded by the distance to the next multiple is a multiple. -/
theorem next_multiple_dvd (old alignment : Nat) (h : 0 < alignment) :
    alignment ∣ old + (alignment - old % alignment) % alignment := by
  have hmod : old % alignment < alignment := Nat.mod_lt _ h
  have hdiv := Nat.div_add_mod old alignment
  by_cases hzero : old % alignment = 0
  · rw [hzero, Nat.sub_zero, Nat.mod_self, Nat.add_zero]
    exact Nat.dvd_of_mod_eq_zero hzero
  · have hlt : alignment - old % alignment < alignment := by omega
    rw [Nat.mod_eq_of_lt hlt]
    refine ⟨old / alignment + 1, ?_⟩
    rw [Nat.mul_add, Nat.mul_one]
    omega

/-- Counterexample to C25: two successive allocations in the global area of
the root scope, both with alignment 4.  The first, of a type of 4294967296
bytes such as `int[1073741824]`, returns the base 0 and sets the watermark to
4294967296; the second, of 4 bytes, pads the watermark by 0 and returns it
converted to a 32-bit unsigned: the base 0 again, which is below the previous
watermark, so that the two allocations overlap. -/
theorem AllocateVariableInScope_offsets_wrap_around :
    AllocateVariableInScope.fromScope exampleContext 1
        (exampleScopes [exampleScope none 0] 0) (some 0) 4 4294967296 =
      some (.ok (0, exampleScopes [{ exampleScope none 0 with globalSize := 4294967296 }] 0)) ∧
    AllocateVariableInScope.fromScope exampleContext 1
        (exampleScopes [{ exampleScope none 0 with globalSize := 4294967296 }] 0) (some 0) 4 4 =
      some (.ok (0, exampleScopes [{ exampleScope none 0 with globalSize := 4294967300 }] 0)) ∧
    (exampleScopes [{ exampleScope none 0 with globalSize := 4294967296 }] 0).watermark
        (.global 0) = some 4294967296 := by
  refine ⟨by decide, by decide, by decide⟩

/-- Claim C25, amended: `AllocateVariableInScope(scope, alignment, type)`
allocates in the region of the scope: the stack frame or the member area of
the innermost scope with a parent that owns a function or a type, else the
global area of the root scope.  With more fuel than the steps to that scope
and an admitted alignment, the call advances the watermark `old` of that
region by the padding `GetAlignmentOffset` and the size, returns the padded
watermark converted to a 32-bit unsigned, and leaves the watermark of every
other region unchanged.  Provided that the padded watermark is below `2^32`,
the returned base is not below `old` and, the padding being the distance to
the next multiple of a positive alignment, is a multiple of the alignment;
the watermark of the region becomes `base + size`; and a following allocation
in the same region, from any scope of that region, whose padded watermark is
below `2^32` as well, returns a base that is not below `base + size`, so that
the two allocations do not overlap. -/
theorem AllocateVariableInScope_region (ctx : ExpressionContext) (fuel : Nat)
    (state : ScopeState) (scope alignment size steps : Nat) (region : AllocationRegion)
    (old : Nat)
    (hregion : AllocateVariableInScope.RegionOf state.scopes steps scope region)
    (hfuel : steps < fuel)
    (hold : state.watermark region = some old)
    (halign : admittedAlignment alignment)
    (hoffset : 0 < alignment →
      ctx.GetAlignmentOffset old alignment = (alignment - old % alignment) % alignment) :
    ∃ base after,
      AllocateVariableInScope.fromScope ctx fuel state (some scope) alignment size =
        some (.ok (base, after)) ∧
      base = (old + ctx.GetAlignmentOffset old alignment) % 4294967296 ∧
      after.watermark region = some (old + ctx.GetAlignmentOffset old alignment + size) ∧
      (∀ other, other ≠ region → after.watermark other = state.watermark other) ∧
      (old + ctx.GetAlignmentOffset old alignment < 4294967296 →
        old ≤ base ∧
        (0 < alignment → alignment ∣ base) ∧
        after.watermark region = some (base + size) ∧
        ∀ (fuel2 scope2 steps2 alignment2 size2 : Nat),
          AllocateVariableInScope.RegionOf state.scopes steps2 scope2 region → steps2 < fuel2 →
          admittedAlignment alignment2 →
          base + size + ctx.GetAlignmentOffset (base + size) alignment2 < 4294967296 →
          ∃ base2 after2,
            AllocateVariableInScope.fromScope ctx fuel2 after (some scope2) alignment2 size2 =
              some (.ok (base2, after2)) ∧
            base + size ≤ base2 ∧
            after2.watermark region = some (base2 + size2)) := by
  obtain ⟨after, hrun, hmark, hframe, hshape⟩ :=
    AllocateVariableInScope.walk_region ctx alignment size state.scopes steps scope region
      hregion fuel state old rfl hfuel hold
  refine ⟨(old + ctx.GetAlignmentOffset old alignment) % 4294967296, after, ?_, rfl, hmark,
    hframe, ?_⟩
  · unfold AllocateVariableInScope.fromScope
    rw [if_pos (admittedAlignment_asserted alignment halign)]
    exact hrun
  · intro hbound
    rw [Nat.mod_eq_of_lt hbound]
    refine ⟨Nat.le_add_right _ _, ?_, hmark, ?_⟩
    · intro hpos
      rw [hoffset hpos]
      exact next_multiple_dvd old alignment hpos
    · intro fuel2 scope2 steps2 alignment2 size2 hregion2 hfuel2 halign2 hbound2
      have hregion2' : AllocateVariableInScope.RegionOf after.scopes steps2 scope2 region :=
        AllocateVariableInScope.RegionOf_congr state.scopes after.scopes hshape steps2 scope2
          region hregion2
      obtain ⟨after2, hrun2, hmark2, _, _⟩ :=
        AllocateVariableInScope.walk_region ctx alignment2 size2 after.scopes steps2 scope2
          region hregion2' fuel2 after _ rfl hfuel2 hmark
      refine ⟨_, after2, ?_, Nat.le_add_right _ _, hmark2⟩
      unfold AllocateVariableInScope.fromScope
      rw [if_pos (admittedAlignment_asserted alignment2 halign2)]
      show AllocateVariableInScope.walk ctx alignment2 size2 fuel2 after scope2 = _
      rw [hrun2, Nat.mod_eq_of_lt hbound2]

/-- Witness of C25: a block scope inside the scope of a function whose stack
frame holds 5 bytes; a variable of 8 bytes with alignment 4 is put at 8 and
the frame grows to 16 bytes, and a following variable of 4 bytes, allocated
from the scope of the function, is not put below 16. -/
theorem AllocateVariableInScope_region_witness :
    ∃ base after,
      AllocateVariableInScope.fromScope exampleContext 2
        { exampleScopes
            [exampleScope none 0, { exampleScope (some 0) 1 with ownerFunction := some 0 },
              exampleScope (some 1) 2] 2 with stackSize := [5] }
        (some 2) 4 8 = some (.ok (base, after)) ∧
      base = 8 ∧ after.watermark (.stack 0) = some 16 ∧
      ∃ base2 after2,
        AllocateVariableInScope.fromScope exampleContext 1 after (some 1) 4 4 =
          some (.ok (base2, after2)) ∧
        16 ≤ base2 := by
  obtain ⟨base, after, hrun, hbase, hmark, _, hbounded⟩ :=
    AllocateVariableInScope_region exampleContext 2
      { exampleScopes
          [exampleScope none 0, { exampleScope (some 0) 1 with ownerFunction := some 0 },
            exampleScope (some 1) 2] 2 with stackSize := [5] }
      2 4 8 1 (.stack 0) 5
      (.outward 0 2 1 (.stack 0) (exampleScope (some 1) 2) rfl rfl rfl rfl
        (.function 1 0 0 { exampleScope (some 0) 1 with ownerFunction := some 0 } rfl rfl rfl))
      (by decide) rfl (by unfold admittedAlignment; decide) (fun _ => by decide)
  have hbase8 : base = 8 := by rw [hbase]; decide
  subst hbase8
  obtain ⟨_, _, _, hnext⟩ := hbounded (by decide)
  obtain ⟨base2, after2, hrun2, hle2, _⟩ := hnext 1 1 0 4 4
    (.function 1 0 0 { exampleScope (some 0) 1 with ownerFunction := some 0 } rfl rfl rfl)
    (by decide) (by unfold admittedAlignment; decide) (by decide)
  exact ⟨8, after, hrun, rfl, hmark, base2, after2, hrun2, hle2⟩

/-! ## Use-def theorems -/

/-- One step of `RemoveInstruction`: after the pointer updates, `RemoveUse` is
applied to each operand. -/
theorem RemoveInstruction_step (fuel : Nat) (store unlinked : List VmValue)
    (block instruction : Nat) (inst : VmValue)
    (hread : store[instruction]? = some inst) (hparent : inst.parent = some block)
    (hunlink : RemoveInstruction.unlink store block instruction = .ok unlinked) :
    RemoveInstruction (fuel + 1) store block instruction =
      RemoveInstruction.operands (RemoveUse fuel) instruction inst.arguments unlinked := by
  rw [RemoveInstruction]
  simp only [RemoveInstruction.body, hread, hparent, ne_eq, not_true_eq_false, if_false,
    hunlink, Analysis.bind]

/-- A call of `RemoveUse` that leaves users, or on a value with side effects,
or on a value that is neither an instruction nor a block, only removes the
user. -/
theorem RemoveUse_keeps (fuel : Nat) (store : List VmValue) (value user : Nat) (v : VmValue)
    (hread : store[value]? = some v)
    (hkeep : RemoveUse.erase v.users user ≠ [] ∨ v.hasSideEffects = true ∨
      (v.typeID ≠ .VmInstruction ∧ v.typeID ≠ .VmBlock)) :
    RemoveUse (fuel + 1) store value user =
      some (.ok (store.set value { v with users := RemoveUse.erase v.users user })) := by
  rw [RemoveUse]
  simp only [RemoveUse.body, hread]
  rcases hkeep with h | h | h
  · rw [if_neg (fun hc => h hc.1)]
  · rw [if_neg (fun hc => by rw [h] at hc; exact absurd hc.2 (by decide))]
  · split
    · cases hk : v.typeID <;> simp_all
    · rfl

/-- A call of `RemoveUse` that empties the users of an instruction without
side effects removes the instruction from its block. -/
theorem RemoveUse_unlinks (fuel : Nat) (store : List VmValue) (value user block : Nat)
    (v : VmValue) (hread : store[value]? = some v)
    (hempty : RemoveUse.erase v.users user = []) (heffects : v.hasSideEffects = false)
    (hkind : v.typeID = .VmInstruction) (hparent : v.parent = some block) :
    RemoveUse (fuel + 1) store value user =
      RemoveInstruction fuel (store.set value { v with users := [] }) block value := by
  rw [RemoveUse]
  simp only [RemoveUse.body, hread, hempty, heffects, and_self, if_true, hkind, hparent]

/-- The removal of the instruction 2 from the example block. -/
theorem exampleBlock_removed :
    RemoveInstruction 4 exampleBlock 0 2 = some (.ok exampleRemoved) := by
  decide

/-- The removal of the instruction 3 after the instruction 2. -/
theorem exampleRemoved_unlinked :
    RemoveInstruction 4 exampleRemoved 0 3 = some (.ok exampleUnlinked) := by
  decide

/-- The removal of the instruction 4 after the instructions 2 and 3: the
instruction 4 is unlinked, the users of the instruction 2 become empty, the
instruction 2 is unlinked again, and the call 1 keeps its place. -/
theorem exampleUnlinked_relinked :
    RemoveInstruction 4 exampleUnlinked 0 4 = some (.ok exampleRelinked) := by
  rw [RemoveInstruction_step 3 exampleUnlinked
    [{ typeID := .VmBlock, type := VmType.Void, firstInstruction := some 1,
       lastInstruction := some 1 },
     exampleInstruction .VM_INST_CALL [] [] none none,
     exampleInstruction .VM_INST_NEG [1] [4] (some 1) (some 3),
     exampleInstruction .VM_INST_NEG [5] [] (some 1) (some 4),
     exampleInstruction .VM_INST_NEG [2] [] (some 1) none,
     { typeID := .VmConstant, type := VmType.Int, users := [], iValue := 7 }]
    0 4 (exampleInstruction .VM_INST_NEG [2] [] (some 1) none) (by decide) (by decide)
    (by decide)]
  have harguments : (exampleInstruction .VM_INST_NEG [2] [] (some 1) none).arguments = [2] :=
    rfl
  rw [harguments]
  simp only [RemoveInstruction.operands]
  rw [RemoveUse_unlinks 2 _ 2 4 0 (exampleInstruction .VM_INST_NEG [1] [4] (some 1) (some 3))
    (by decide) (by decide) (by decide) (by decide) (by decide)]
  rw [RemoveInstruction_step 1 _ exampleRelinked 0 2
    (exampleInstruction .VM_INST_NEG [1] [] (some 1) (some 3)) (by decide) (by decide)
    (by decide)]
  have harguments2 :
      (exampleInstruction .VM_INST_NEG [1] [] (some 1) (some 3)).arguments = [1] := rfl
  rw [harguments2]
  simp only [RemoveInstruction.operands]
  rw [RemoveUse_keeps 0 exampleRelinked 1 2 (exampleInstruction .VM_INST_CALL [] [] none (some 3))
    (by decide) (by decide)]
  decide

/-- The example block is consistent before and after the first two removals,
and not after the third. -/
theorem exampleBlock_consistent :
    UseDefConsistent exampleBlock 0 = true ∧ UseDefConsistent exampleUnlinked 0 = true ∧
      UseDefConsistent exampleRelinked 0 = false := by
  refine ⟨by decide, by decide, by decide⟩

/-- Claim C27, evaluated at the failing input: in the example block, which is
consistent, the instructions 2 and 3 are removed with `RemoveInstruction`; the
block then holds the instructions 1 and 4 and is consistent.  The removal of
the instruction 4 empties the users of the removed instruction 2, which is
unlinked a second time through its stale sibling pointers: the removed
instructions 3 and 4 are in the instruction list of the block again, the users
of the operand 5 of the instruction 3 do not hold it, and the block is not
consistent. -/
theorem RemoveInstruction_relinks_removed_instructions :
    UseDefConsistent exampleBlock 0 = true ∧
    RemoveInstruction 4 exampleBlock 0 2 = some (.ok exampleRemoved) ∧
    RemoveInstruction 4 exampleRemoved 0 3 = some (.ok exampleUnlinked) ∧
    VmValue.instructions exampleUnlinked 0 = some [1, 4] ∧
    UseDefConsistent exampleUnlinked 0 = true ∧
    RemoveInstruction 4 exampleUnlinked 0 4 = some (.ok exampleRelinked) ∧
    VmValue.instructions exampleRelinked 0 = some [1, 3, 4] ∧
    VmValue.slotCount exampleRelinked 3 5 = 1 ∧
    VmValue.useCount exampleRelinked 5 3 = 0 ∧
    UseDefConsistent exampleRelinked 0 = false :=
  ⟨exampleBlock_consistent.1, exampleBlock_removed, exampleRemoved_unlinked, by decide,
    exampleBlock_consistent.2.1, exampleUnlinked_relinked, by decide, by decide, by decide,
    exampleBlock_consistent.2.2⟩

/-- When the user is not in the list, the loop of `RemoveUse` leaves the list
alone. -/
theorem RemoveUse.erase_of_not_mem (users : List Nat) (user : Nat) (h : user ∉ users) :
    RemoveUse.erase users user = users := by
  unfold RemoveUse.erase
  rw [if_neg]
  rw [List.indexOf_lt_length]
  exact h

/-- The loop of `RemoveUse` on a list whose head is not the user. -/
theorem RemoveUse.erase_cons_ne (head user : Nat) (rest : List Nat) (hne : head ≠ user)
    (hmem : user ∈ rest) :
    RemoveUse.erase (head :: rest) user = head :: RemoveUse.erase rest user := by
  have hidx : rest.indexOf user < rest.length := List.indexOf_lt_length.mpr hmem
  have hne' : rest ≠ [] := List.ne_nil_of_mem hmem
  unfold RemoveUse.erase
  rw [List.indexOf_cons_ne _ hne, if_pos (by simpa using hidx), if_pos hidx]
  simp only [List.set_cons_succ, List.getLastD_cons]
  have hlast : rest.getLastD head = rest.getLastD 0 := by
    obtain ⟨first, tail, rfl⟩ := List.exists_cons_of_ne_nil hne'
    rw [List.getLastD_cons, List.getLastD_cons]
  rw [hlast]
  exact List.dropLast_cons_of_ne_nil (by
    intro h
    have := congrArg List.length h
    simp at this
    exact hne' this)

/-- The loop of `RemoveUse` removes one occurrence of the user: the result is a
permutation of the list without the first occurrence. -/
theorem RemoveUse.erase_perm (users : List Nat) (user : Nat) (h : user ∈ users) :
    (RemoveUse.erase users user).Perm (users.erase user) := by
  induction users with
  | nil => cases h
  | cons head rest ih =>
    by_cases hhead : head = user
    · subst hhead
      rw [List.erase_cons_head]
      unfold RemoveUse.erase
      rw [List.indexOf_cons_self, if_pos (by simp)]
      cases rest with
      | nil => simp
      | cons first tail =>
        simp only [List.set_cons_zero, List.getLastD_cons]
        rw [List.dropLast_cons_of_ne_nil (by simp)]
        have hsplit : (first :: tail).dropLast ++ [(first :: tail).getLast (by simp)] =
            first :: tail := List.dropLast_append_getLast (by simp)
        rw [List.getLast_eq_getLastD] at hsplit
        have hperm : (tail.getLastD first :: (first :: tail).dropLast).Perm
            ((first :: tail).dropLast ++ [tail.getLastD first]) :=
          (List.perm_append_singleton _ _).symm
        rw [hsplit] at hperm
        exact hperm
    · have hmem : user ∈ rest := by
        rcases List.mem_cons.mp h with h | h
        · exact absurd h.symm hhead
        · exact h
      rw [RemoveUse.erase_cons_ne head user rest hhead hmem,
        List.erase_cons_tail (by simpa using hhead)]
      exact (ih hmem).cons head

/-- The loop of `RemoveUse` removes exactly one occurrence of a user that is in
the list and no occurrence of another value. -/
theorem RemoveUse.erase_count (users : List Nat) (user other : Nat) :
    (RemoveUse.erase users user).count other =
      if other = user then users.count user - 1 else users.count other := by
  by_cases hmem : user ∈ users
  · rw [(RemoveUse.erase_perm users user hmem).count_eq, List.count_erase]
    by_cases h : other = user
    · subst h; simp
    · have h' : ¬ (user == other) = true := by simpa using fun hc => h hc.symm
      simp [h, h']
  · rw [RemoveUse.erase_of_not_mem users user hmem]
    by_cases h : other = user
    · subst h
      rw [if_pos rfl, List.count_eq_zero_of_not_mem hmem]
    · rw [if_neg h]

/-- Two positions of a list without repetition that hold the same value are
the same position. -/
theorem List.Nodup.index_unique {l : List Nat} (h : l.Nodup) {i j x : Nat}
    (hi : l[i]? = some x) (hj : l[j]? = some x) : i = j := by
  by_contra hne
  have hlt : i < l.length := by
    rcases Nat.lt_or_ge i l.length with h' | h'
    · exact h'
    · rw [List.getElem?_eq_none h'] at hi; cases hi
  exact (List.nodup_iff_getElem?_ne_getElem?.mp h) i j
    (by
      rcases Nat.lt_or_ge i j with h' | h'
      · exact h'
      · exfalso
        have hlt' : j < l.length := by
          rcases Nat.lt_or_ge j l.length with h'' | h''
          · exact h''
          · rw [List.getElem?_eq_none h''] at hj; cases hj
        exact (List.nodup_iff_getElem?_ne_getElem?.mp h) j i (by omega) hlt (by rw [hi, hj]))
    (by
      rcases Nat.lt_or_ge j l.length with h'' | h''
      · exact h''
      · rw [List.getElem?_eq_none h''] at hj; cases hj)
    (by rw [hi, hj])

/-- The values after the pointer updates of `RemoveInstruction`, cell by cell,
when the neighbours of the instruction are other objects than the block and
the instruction. -/
theorem RemoveInstruction.unlink_read (store : List VmValue) (block instruction : Nat)
    (blockValue inst : VmValue)
    (hblock : store[block]? = some blockValue) (hblockKind : blockValue.typeID = .VmBlock)
    (hinst : store[instruction]? = some inst) (hinstKind : inst.typeID = .VmInstruction)
    (hprevious : ∀ previous, inst.prevSibling = some previous →
      ∃ value, store[previous]? = some value ∧ previous ≠ block ∧ previous ≠ instruction)
    (hnext : ∀ next, inst.nextSibling = some next →
      ∃ value, store[next]? = some value ∧ next ≠ block ∧ next ≠ instruction ∧
        inst.prevSibling ≠ some next) :
    ∃ unlinked, RemoveInstruction.unlink store block instruction = .ok unlinked ∧
      unlinked.length = store.length ∧
      ∀ pointer, unlinked[pointer]? =
        if inst.nextSibling = some pointer then
          (store[pointer]?).map fun value => { value with prevSibling := inst.prevSibling }
        else if inst.prevSibling = some pointer then
          (store[pointer]?).map fun value => { value with nextSibling := inst.nextSibling }
        else if pointer = block then
          some (RemoveInstruction.ends blockValue instruction inst)
        else store[pointer]? := by
  have hne : block ≠ instruction := by
    intro h
    rw [h, hinst] at hblock
    cases hblock
    rw [hinstKind] at hblockKind
    cases hblockKind
  have hblockLt : block < store.length := by
    rcases Nat.lt_or_ge block store.length with h | h
    · exact h
    · rw [List.getElem?_eq_none h] at hblock; cases hblock
  have hread : VmValue.read store block = .ok blockValue := by
    simp [VmValue.read, hblock]
  have hreadInst : VmValue.read store instruction = .ok inst := by
    simp [VmValue.read, hinst]
  unfold RemoveInstruction.unlink
  simp only [hread, hreadInst, Outcome.bind, hblockKind, hinstKind, ne_eq, not_true_eq_false,
    or_self, if_false]
  have hstore1 : ∀ pointer, pointer ≠ block →
      (store.set block (RemoveInstruction.ends blockValue instruction inst))[pointer]? =
        store[pointer]? := by
    intro pointer h
    exact List.getElem?_set_ne (Ne.symm h)
  have hreadInst1 : VmValue.read (store.set block
      (RemoveInstruction.ends blockValue instruction inst)) instruction = .ok inst := by
    simp [VmValue.read, hstore1 instruction (Ne.symm hne), hinst]
  rcases hp : inst.prevSibling with _ | previous
  · simp only [VmValue.setNextSibling, Outcome.bind, hreadInst1]
    rcases hn : inst.nextSibling with _ | next
    · simp only [hp, VmValue.setPrevSibling]
      refine ⟨_, rfl, by simp, ?_⟩
      intro pointer
      by_cases hpb : pointer = block
      · subst hpb
        simp [List.getElem?_set_self hblockLt]
      · simp [hpb, hstore1 pointer hpb]
    · obtain ⟨nextValue, hnv, hnb, hni, _⟩ := hnext next hn
      have hlt : next < store.length := by
        rcases Nat.lt_or_ge next store.length with h | h
        · exact h
        · rw [List.getElem?_eq_none h] at hnv; cases hnv
      simp only [hp, VmValue.setPrevSibling, VmValue.read, hstore1 next hnb, hnv, Outcome.bind]
      refine ⟨_, rfl, by simp, ?_⟩
      intro pointer
      by_cases hpn : next = pointer
      · subst hpn
        simp [List.getElem?_set_self, hlt, hnv]
      · have hpn' : ¬ (some next = some pointer) := by simpa using hpn
        simp only [hpn', if_false, List.getElem?_set_ne hpn]
        by_cases hpb : pointer = block
        · subst hpb
          simp [List.getElem?_set_self hblockLt]
        · simp [hpb, hstore1 pointer hpb]
  · obtain ⟨previousValue, hpv, hpb', hpi⟩ := hprevious previous hp
    have hpLt : previous < store.length := by
      rcases Nat.lt_or_ge previous store.length with h | h
      · exact h
      · rw [List.getElem?_eq_none h] at hpv; cases hpv
    have hreadInst2 : ∀ value : VmValue, VmValue.read ((store.set block
        (RemoveInstruction.ends blockValue instruction inst)).set previous value)
        instruction = .ok inst := by
      intro value
      simp [VmValue.read, List.getElem?_set_ne hpi, hstore1 instruction (Ne.symm hne), hinst]
    simp only [VmValue.setNextSibling, VmValue.read, hstore1 previous hpb', hpv, Outcome.bind]
    have hreadInst2' := hreadInst2 { previousValue with nextSibling := inst.nextSibling }
    simp only [VmValue.read] at hreadInst2'
    rw [hreadInst2']
    simp only []
    rcases hn : inst.nextSibling with _ | next
    · simp only [hp, VmValue.setPrevSibling]
      refine ⟨_, rfl, by simp, ?_⟩
      intro pointer
      by_cases hpp : previous = pointer
      · subst hpp
        simp [List.getElem?_set_self, hpLt, hpv]
      · have hpp' : ¬ (some previous = some pointer) := by simpa using hpp
        simp only [hpp', if_false, List.getElem?_set_ne hpp]
        by_cases hpb : pointer = block
        · subst hpb
          simp [List.getElem?_set_self hblockLt]
        · simp [hpb, hstore1 pointer hpb]
    · obtain ⟨nextValue, hnv, hnb, hni, hnp⟩ := hnext next hn
      have hnp' : previous ≠ next := by
        intro h; apply hnp; rw [hp, h]
      have hnLt : next < store.length := by
        rcases Nat.lt_or_ge next store.length with h | h
        · exact h
        · rw [List.getElem?_eq_none h] at hnv; cases hnv
      simp only [hp, VmValue.setPrevSibling, VmValue.read, List.getElem?_set_ne hnp',
        hstore1 next hnb, hnv, Outcome.bind]
      refine ⟨_, rfl, by simp, ?_⟩
      intro pointer
      by_cases hpn : next = pointer
      · subst hpn
        simp [List.getElem?_set_self, hnLt, hnv]
      · have hpn' : ¬ (some next = some pointer) := by simpa using hpn
        simp only [hpn', if_false, List.getElem?_set_ne hpn]
        by_cases hpp : previous = pointer
        · subst hpp
          simp [List.getElem?_set_self, hpLt, hpv]
        · have hpp' : ¬ (some previous = some pointer) := by simpa using hpp
          simp only [hpp', if_false, List.getElem?_set_ne hpp]
          by_cases hpb : pointer = block
          · subst hpb
            simp [List.getElem?_set_self hblockLt]
          · simp [hpb, hstore1 pointer hpb]

/-- The fields of a block that the updates of its ends leave alone. -/
theorem RemoveInstruction.ends_shape (blockValue : VmValue) (instruction : Nat)
    (inst : VmValue) :
    VmValue.sameShape blockValue (RemoveInstruction.ends blockValue instruction inst) ∧
    (RemoveInstruction.ends blockValue instruction inst).users = blockValue.users ∧
    (RemoveInstruction.ends blockValue instruction inst).firstInstruction =
      (if blockValue.firstInstruction = some instruction then inst.nextSibling
        else blockValue.firstInstruction) ∧
    (RemoveInstruction.ends blockValue instruction inst).lastInstruction =
      (if blockValue.lastInstruction = some instruction then inst.prevSibling
        else blockValue.lastInstruction) := by
  unfold RemoveInstruction.ends VmValue.sameShape
  by_cases h1 : blockValue.firstInstruction = some instruction <;>
    by_cases h2 : blockValue.lastInstruction = some instruction <;> simp [h1, h2]

/-- The pointer updates of `RemoveInstruction` take an instruction out of the
instruction list of its block: the list of the block is the old list without
the instruction; the instruction itself, the users and the operands of all
values, and every value outside the block are as before. -/
theorem RemoveInstruction.unlink_linked (store : List VmValue) (block instruction : Nat)
    (linked : List Nat) (h : VmValue.Linked store block linked) (hmem : instruction ∈ linked) :
    ∃ unlinked, RemoveInstruction.unlink store block instruction = .ok unlinked ∧
      unlinked.length = store.length ∧
      VmValue.Linked unlinked block (linked.erase instruction) ∧
      unlinked[instruction]? = store[instruction]? ∧
      (∀ (pointer : Nat) (value : VmValue), store[pointer]? = some value →
        ∃ value', unlinked[pointer]? = some value' ∧ VmValue.sameShape value value' ∧
          value'.users = value.users) ∧
      (∀ pointer : Nat, pointer ≠ block → pointer ∉ linked →
        unlinked[pointer]? = store[pointer]?) := by
  obtain ⟨j, hj⟩ := List.mem_iff_getElem?.mp hmem
  obtain ⟨inst, hinst, hkind, hparent, hprev, hnext⟩ := h.member j instruction hj
  obtain ⟨blockValue, hblock, hbk, hfirst, hlast⟩ := h.ends
  have hjlt : j < linked.length := by
    rcases Nat.lt_or_ge j linked.length with h' | h'
    · exact h'
    · rw [List.getElem?_eq_none h'] at hj; cases hj
  -- the members are instructions, the block is not
  have hnotBlock : ∀ (i y : Nat), linked[i]? = some y → y ≠ block := by
    intro i y hy heq
    obtain ⟨v, hv, hvk, _⟩ := h.member i y hy
    rw [heq, hblock] at hv
    cases hv
    rw [hbk] at hvk
    cases hvk
  have hnextIff : ∀ (i y : Nat), linked[i]? = some y →
      (inst.nextSibling = some y ↔ i = j + 1) := by
    intro i y hy
    rw [hnext]
    constructor
    · intro h'
      exact List.Nodup.index_unique h.nodup hy h'
    · intro h'
      subst h'
      exact hy
  have hprevIff : ∀ (i y : Nat), linked[i]? = some y →
      (inst.prevSibling = some y ↔ i + 1 = j) := by
    intro i y hy
    rw [hprev]
    constructor
    · intro h'
      by_cases hj0 : j = 0
      · rw [if_pos hj0] at h'; cases h'
      · rw [if_neg hj0] at h'
        have := List.Nodup.index_unique h.nodup hy h'
        omega
    · intro h'
      have hj0 : j ≠ 0 := by omega
      rw [if_neg hj0]
      have : j - 1 = i := by omega
      rw [this]
      exact hy
  have hprevMem : ∀ previous, inst.prevSibling = some previous →
      ∃ i : Nat, linked[i]? = some previous ∧ i + 1 = j := by
    intro previous hp
    by_cases hj0 : j = 0
    · rw [hprev, if_pos hj0] at hp; cases hp
    · rw [hprev, if_neg hj0] at hp
      exact ⟨j - 1, hp, by omega⟩
  have hnextMem : ∀ next, inst.nextSibling = some next → linked[j + 1]? = some next := by
    intro next hn
    rw [hnext] at hn
    exact hn
  obtain ⟨unlinked, hrun, hlen, hread⟩ := RemoveInstruction.unlink_read store block instruction
    blockValue inst hblock hbk hinst hkind
    (by
      intro previous hp
      obtain ⟨i, hi, hij⟩ := hprevMem previous hp
      obtain ⟨v, hv, _⟩ := h.member i previous hi
      refine ⟨v, hv, hnotBlock i previous hi, ?_⟩
      intro heq
      rw [heq] at hi
      have := List.Nodup.index_unique h.nodup hi hj
      omega)
    (by
      intro next hn
      have hi := hnextMem next hn
      obtain ⟨v, hv, _⟩ := h.member (j + 1) next hi
      refine ⟨v, hv, hnotBlock _ next hi, ?_, ?_⟩
      · intro heq
        rw [heq] at hi
        have := List.Nodup.index_unique h.nodup hi hj
        omega
      · intro hp
        have := (hprevIff (j + 1) next hi).mp hp
        omega)
  have hblockNext : inst.nextSibling ≠ some block := by
    intro hn
    exact hnotBlock _ block (hnextMem block hn) rfl
  have hblockPrev : inst.prevSibling ≠ some block := by
    intro hp
    obtain ⟨i, hi, _⟩ := hprevMem block hp
    exact hnotBlock _ block hi rfl
  have herase : linked.erase instruction = linked.eraseIdx j := by
    have hget : linked[j] = instruction := by
      have := List.getElem?_eq_getElem hjlt
      rw [this] at hj
      exact Option.some.inj hj
    rw [← hget]
    exact h.nodup.erase_getElem j hjlt
  refine ⟨unlinked, hrun, hlen, ?_, ?_, ?_, ?_⟩
  · -- the list
    rw [herase]
    have hshape := RemoveInstruction.ends_shape blockValue instruction inst
    have hat : ∀ k : Nat, (linked.eraseIdx j)[k]? =
        if k < j then linked[k]? else linked[k + 1]? := fun k => List.getElem?_eraseIdx linked j k
    have hlength : (linked.eraseIdx j).length = linked.length - 1 :=
      List.length_eraseIdx_of_lt hjlt
    refine ⟨h.nodup.eraseIdx j, ⟨RemoveInstruction.ends blockValue instruction inst, ?_, ?_, ?_, ?_⟩,
      ?_⟩
    · rw [hread block, if_neg hblockNext, if_neg hblockPrev, if_pos rfl]
    · rw [hshape.1.1]; exact hbk
    · rw [hshape.2.2.1, List.head?_eq_getElem?, hat 0, hfirst, List.head?_eq_getElem?]
      by_cases hj0 : j = 0
      · subst hj0
        rw [if_pos hj, hnext]
        simp
      · have hne : ¬ (linked[0]? = some instruction) := by
          intro h0
          have := List.Nodup.index_unique h.nodup h0 hj
          omega
        rw [if_neg hne, if_pos (by omega)]
    · rw [hshape.2.2.2, List.getLast?_eq_getElem?, hat, hlength, hlast,
        List.getLast?_eq_getElem?]
      by_cases hjl : j = linked.length - 1
      · have hlastIs : linked[linked.length - 1]? = some instruction := by rw [← hjl]; exact hj
        rw [if_pos hlastIs, hprev]
        by_cases hj0 : j = 0
        · rw [if_pos hj0, if_neg (by omega)]
          rw [List.getElem?_eq_none (by omega)]
        · rw [if_neg hj0, if_pos (by omega)]
          congr 1
          omega
      · have hne : ¬ (linked[linked.length - 1]? = some instruction) := by
          intro h0
          have := List.Nodup.index_unique h.nodup h0 hj
          omega
        rw [if_neg hne, if_neg (by omega)]
        congr 1
        omega
    · intro k x hk
      rw [hat k] at hk
      by_cases hkj : k < j
      · rw [if_pos hkj] at hk
        obtain ⟨v, hv, hvk, hvp, hvprev, hvnext⟩ := h.member k x hk
        have h1 : ¬ (inst.nextSibling = some x) := by
          intro hn
          have := (hnextIff k x hk).mp hn
          omega
        have hprevTarget : (if k = 0 then none else (linked.eraseIdx j)[k - 1]?) =
            (if k = 0 then none else linked[k - 1]?) := by
          by_cases hk0 : k = 0
          · rw [if_pos hk0, if_pos hk0]
          · rw [if_neg hk0, if_neg hk0, hat, if_pos (by omega)]
        rw [hread x, if_neg h1, hprevTarget]
        by_cases hk1 : k + 1 = j
        · have h2 : inst.prevSibling = some x := (hprevIff k x hk).mpr hk1
          rw [if_pos h2, hv]
          refine ⟨_, rfl, hvk, hvp, hvprev, ?_⟩
          show inst.nextSibling = _
          rw [hat, if_neg (by omega), hnext]
          congr 1
          omega
        · have h2 : ¬ (inst.prevSibling = some x) := by
            intro hp
            exact hk1 ((hprevIff k x hk).mp hp)
          rw [if_neg h2, if_neg (hnotBlock k x hk)]
          refine ⟨v, hv, hvk, hvp, hvprev, ?_⟩
          rw [hvnext, hat, if_pos (by omega)]
      · rw [if_neg hkj] at hk
        obtain ⟨v, hv, hvk, hvp, hvprev, hvnext⟩ := h.member (k + 1) x hk
        rw [if_neg (by omega)] at hvprev
        have hk' : k + 1 - 1 = k := by omega
        rw [hk'] at hvprev
        have h2 : ¬ (inst.prevSibling = some x) := by
          intro hp
          have := (hprevIff (k + 1) x hk).mp hp
          omega
        have hnextTarget : (linked.eraseIdx j)[k + 1]? = linked[k + 1 + 1]? := by
          rw [hat, if_neg (by omega)]
        rw [hread x, hnextTarget]
        by_cases hk1 : k = j
        · have h1 : inst.nextSibling = some x := (hnextIff (k + 1) x hk).mpr (by omega)
          rw [if_pos h1, hv]
          refine ⟨_, rfl, hvk, hvp, ?_, hvnext⟩
          show inst.prevSibling = _
          rw [hprev, hk1]
          by_cases hj0 : j = 0
          · rw [if_pos hj0, if_pos hj0]
          · rw [if_neg hj0, if_neg hj0, hat, if_pos (by omega)]
        · have h1 : ¬ (inst.nextSibling = some x) := by
            intro hn
            have := (hnextIff (k + 1) x hk).mp hn
            omega
          rw [if_neg h1, if_neg h2, if_neg (hnotBlock (k + 1) x hk)]
          refine ⟨v, hv, hvk, hvp, ?_, hvnext⟩
          rw [hvprev, if_neg (by omega), hat, if_neg (by omega)]
          congr 1
          omega
  · -- the instruction itself
    rw [hread instruction]
    have h1 : ¬ (inst.nextSibling = some instruction) := by
      intro hn
      have := (hnextIff j instruction hj).mp hn
      omega
    have h2 : ¬ (inst.prevSibling = some instruction) := by
      intro hp
      have := (hprevIff j instruction hj).mp hp
      omega
    have h3 : instruction ≠ block := hnotBlock j instruction hj
    rw [if_neg h1, if_neg h2, if_neg h3]
  · -- the shape of all values
    intro pointer value hvalue
    rw [hread pointer]
    by_cases h1 : inst.nextSibling = some pointer
    · rw [if_pos h1, hvalue]
      exact ⟨_, rfl, ⟨rfl, rfl, rfl, rfl, rfl, rfl⟩, rfl⟩
    · rw [if_neg h1]
      by_cases h2 : inst.prevSibling = some pointer
      · rw [if_pos h2, hvalue]
        exact ⟨_, rfl, ⟨rfl, rfl, rfl, rfl, rfl, rfl⟩, rfl⟩
      · rw [if_neg h2]
        by_cases h3 : pointer = block
        · rw [if_pos h3]
          subst h3
          rw [hblock] at hvalue
          cases hvalue
          have hshape := RemoveInstruction.ends_shape blockValue instruction inst
          exact ⟨_, rfl, hshape.1, hshape.2.1⟩
        · rw [if_neg h3]
          exact ⟨value, hvalue, ⟨rfl, rfl, rfl, rfl, rfl, rfl⟩, rfl⟩
  · -- the values outside the block
    intro pointer hpb hpl
    rw [hread pointer]
    have h1 : ¬ (inst.nextSibling = some pointer) := by
      intro hn
      exact hpl (List.mem_iff_getElem?.mpr ⟨_, hnextMem pointer hn⟩)
    have h2 : ¬ (inst.prevSibling = some pointer) := by
      intro hp
      obtain ⟨i, hi, _⟩ := hprevMem pointer hp
      exact hpl (List.mem_iff_getElem?.mpr ⟨i, hi⟩)
    rw [if_neg h1, if_neg h2, if_neg hpb]

/-- A listed instruction is an instruction of the block that lists it. -/
theorem VmValue.Clean.listed {rank : Nat → Nat} {limit : Nat} {lists : Nat → List Nat}
    {store : List VmValue} (h : VmValue.Clean rank limit lists store) {block instruction : Nat}
    (hmem : instruction ∈ lists block) :
    ∃ inst, store[instruction]? = some inst ∧ inst.typeID = .VmInstruction ∧
      inst.parent = some block := by
  obtain ⟨blockValue, hblock, hkind⟩ := h.owners block instruction hmem
  obtain ⟨index, hindex⟩ := List.mem_iff_getElem?.mp hmem
  obtain ⟨inst, hinst, hk, hp, _⟩ := (h.blocks block blockValue hblock hkind).member index
    instruction hindex
  exact ⟨inst, hinst, hk, hp⟩

/-- The instruction list of a block is the same doubly linked list in a state
that agrees with the old state on the block and on the listed instructions. -/
theorem VmValue.Linked.congr {store store' : List VmValue} {block : Nat} {linked : List Nat}
    (h : VmValue.Linked store block linked)
    (hblock : ∀ value, store[block]? = some value →
      ∃ value', store'[block]? = some value' ∧ value'.typeID = value.typeID ∧
        value'.firstInstruction = value.firstInstruction ∧
        value'.lastInstruction = value.lastInstruction)
    (hmember : ∀ instruction ∈ linked, ∀ value, store[instruction]? = some value →
      ∃ value', store'[instruction]? = some value' ∧ value'.typeID = value.typeID ∧
        value'.parent = value.parent ∧ value'.prevSibling = value.prevSibling ∧
        value'.nextSibling = value.nextSibling) :
    VmValue.Linked store' block linked := by
  refine ⟨h.nodup, ?_, ?_⟩
  · obtain ⟨blockValue, hb, hk, hf, hl⟩ := h.ends
    obtain ⟨value', hb', hk', hf', hl'⟩ := hblock blockValue hb
    exact ⟨value', hb', hk'.trans hk, hf'.trans hf, hl'.trans hl⟩
  · intro index instruction hindex
    obtain ⟨inst, hinst, hk, hp, hprev, hnext⟩ := h.member index instruction hindex
    obtain ⟨value', hv', hk', hp', hprev', hnext'⟩ :=
      hmember instruction (List.mem_iff_getElem?.mpr ⟨index, hindex⟩) inst hinst
    exact ⟨value', hv', hk'.trans hk, hp'.trans hp, hprev'.trans hprev, hnext'.trans hnext⟩

/-- The state stays clean when the users of a value lose a user that is not
listed; below the limit nothing else is needed, at the limit or above it the
user may be any value. -/
theorem VmValue.Clean.erase_user {rank : Nat → Nat} {limit : Nat} {lists : Nat → List Nat}
    {store : List VmValue} (h : VmValue.Clean rank limit lists store) (value user : Nat)
    (v : VmValue) (hread : store[value]? = some v)
    (huser : rank value < limit → ∀ block, user ∉ lists block) :
    VmValue.Clean rank limit lists
      (store.set value { v with users := RemoveUse.erase v.users user }) := by
  have hlt : value < store.length := by
    rcases Nat.lt_or_ge value store.length with h' | h'
    · exact h'
    · rw [List.getElem?_eq_none h'] at hread; cases hread
  have hat : ∀ pointer : Nat,
      (store.set value { v with users := RemoveUse.erase v.users user })[pointer]? =
        if pointer = value then some { v with users := RemoveUse.erase v.users user }
        else store[pointer]? := by
    intro pointer
    by_cases hp : pointer = value
    · subst hp
      rw [if_pos rfl, List.getElem?_set_self hlt]
    · rw [if_neg hp, List.getElem?_set_ne (Ne.symm hp)]
  have hback : ∀ (pointer : Nat) (value' : VmValue),
      (store.set value { v with users := RemoveUse.erase v.users user })[pointer]? =
        some value' →
      ∃ old, store[pointer]? = some old ∧ value'.typeID = old.typeID ∧
        value'.hasSideEffects = old.hasSideEffects ∧ value'.arguments = old.arguments ∧
        value'.parent = old.parent ∧
        value'.users = (if pointer = value then RemoveUse.erase old.users user
          else old.users) := by
    intro pointer value' hv'
    rw [hat pointer] at hv'
    by_cases hp : pointer = value
    · rw [if_pos hp] at hv'
      cases hv'
      subst hp
      exact ⟨v, hread, rfl, rfl, rfl, rfl, by simp⟩
    · rw [if_neg hp] at hv'
      exact ⟨value', hv', rfl, rfl, rfl, rfl, by simp [hp]⟩
  have hforth : ∀ (pointer : Nat) (old : VmValue), store[pointer]? = some old →
      ∃ value', (store.set value { v with users := RemoveUse.erase v.users user })[pointer]? =
          some value' ∧ value'.typeID = old.typeID ∧
        value'.hasSideEffects = old.hasSideEffects ∧ value'.arguments = old.arguments ∧
        value'.parent = old.parent ∧ value'.prevSibling = old.prevSibling ∧
        value'.nextSibling = old.nextSibling ∧
        value'.firstInstruction = old.firstInstruction ∧
        value'.lastInstruction = old.lastInstruction := by
    intro pointer old hold
    rw [hat pointer]
    by_cases hp : pointer = value
    · rw [if_pos hp]
      subst hp
      rw [hread] at hold
      cases hold
      exact ⟨_, rfl, rfl, rfl, rfl, rfl, rfl, rfl, rfl, rfl⟩
    · rw [if_neg hp]
      exact ⟨old, hold, rfl, rfl, rfl, rfl, rfl, rfl, rfl, rfl⟩
  refine ⟨?_, ?_, ?_, ?_⟩
  · intro block blockValue hblock hkind
    obtain ⟨old, hold, hk, _⟩ := hback block blockValue hblock
    refine (h.blocks block old hold (hk ▸ hkind)).congr ?_ ?_
    · intro value0 hv0
      obtain ⟨value', hv', hk', _, _, _, _, _, hf, hl⟩ := hforth block value0 hv0
      exact ⟨value', hv', hk', hf, hl⟩
    · intro instruction _ value0 hv0
      obtain ⟨value', hv', hk', _, _, hp, hprev, hnext, _, _⟩ := hforth instruction value0 hv0
      exact ⟨value', hv', hk', hp, hprev, hnext⟩
  · intro block instruction hmem
    obtain ⟨blockValue, hblock, hkind⟩ := h.owners block instruction hmem
    obtain ⟨value', hv', hk', _⟩ := hforth block blockValue hblock
    exact ⟨value', hv', hk'.trans hkind⟩
  · intro block instruction inst hmem hinst argument harg
    obtain ⟨old, hold, _, _, hargs, _, _⟩ := hback instruction inst hinst
    rw [hargs] at harg
    obtain ⟨argValue, hav, hrank, hkind, hlive⟩ :=
      h.operands block instruction old hmem hold argument harg
    obtain ⟨value', hv', hk', he', _, hp', _⟩ := hforth argument argValue hav
    refine ⟨value', hv', hrank, by rw [hk']; exact hkind, ?_⟩
    intro hlimit hki hse
    rw [hk'] at hki
    rw [he'] at hse
    rw [hp']
    exact hlive hlimit hki hse
  · intro block instruction inst hmem hinst operand value' hv' hlimit
    obtain ⟨old, hold, _, _, hargs, _, _⟩ := hback instruction inst hinst
    obtain ⟨oldValue, holdValue, _, _, _, _, husers⟩ := hback operand value' hv'
    rw [hargs, husers, h.usedef block instruction old hmem hold operand oldValue holdValue hlimit]
    by_cases hp : operand = value
    · rw [if_pos hp, RemoveUse.erase_count]
      have hne : instruction ≠ user := by
        intro heq
        subst heq
        exact huser (hp ▸ hlimit) block hmem
      rw [if_neg hne]
    · rw [if_neg hp]

/-- The state stays clean when a listed instruction is taken out of the list of
its block, provided that below the limit the instruction has no users. -/
theorem VmValue.Clean.unlink {rank : Nat → Nat} {limit : Nat} {lists : Nat → List Nat}
    {store : List VmValue} (h : VmValue.Clean rank limit lists store) (block value : Nat)
    (v : VmValue) (hread : store[value]? = some v) (hmem : value ∈ lists block)
    (husers : rank value < limit → v.users = []) :
    ∃ unlinked, RemoveInstruction.unlink store block value = .ok unlinked ∧
      unlinked.length = store.length ∧
      VmValue.Clean rank limit (Function.update lists block ((lists block).erase value))
        unlinked ∧
      unlinked[value]? = some v ∧
      (∀ (pointer : Nat) (old : VmValue), store[pointer]? = some old →
        ∃ new, unlinked[pointer]? = some new ∧ VmValue.sameShape old new ∧
          new.users = old.users) ∧
      (∀ other, value ∉ Function.update lists block ((lists block).erase value) other) := by
  obtain ⟨blockValue, hblock, hblockKind⟩ := h.owners block value hmem
  have hlinked := h.blocks block blockValue hblock hblockKind
  obtain ⟨unlinked, hrun, hlen, hnew, hself, hshape, hframe⟩ :=
    RemoveInstruction.unlink_linked store block value (lists block) hlinked hmem
  have hsub : ∀ other x, x ∈ Function.update lists block ((lists block).erase value) other →
      x ∈ lists other := by
    intro other x hx
    by_cases ho : other = block
    · subst ho
      rw [Function.update_same] at hx
      exact List.mem_of_mem_erase hx
    · rw [Function.update_noteq ho] at hx
      exact hx
  have hnot : ∀ other, value ∉ Function.update lists block ((lists block).erase value) other := by
    intro other hx
    by_cases ho : other = block
    · subst ho
      rw [Function.update_same] at hx
      exact (hlinked.nodup.mem_erase_iff.mp hx).1 rfl
    · rw [Function.update_noteq ho] at hx
      obtain ⟨inst1, h1, _, hp1⟩ := h.listed hx
      obtain ⟨inst2, h2, _, hp2⟩ := h.listed hmem
      rw [h1] at h2
      cases h2
      rw [hp1] at hp2
      exact ho (Option.some.inj hp2)
  have hback : ∀ (pointer : Nat) (new : VmValue), unlinked[pointer]? = some new →
      ∃ old, store[pointer]? = some old ∧ VmValue.sameShape old new ∧
        new.users = old.users := by
    intro pointer new hnewRead
    have hlt : pointer < store.length := by
      rcases Nat.lt_or_ge pointer unlinked.length with h' | h'
      · rw [← hlen]; exact h'
      · rw [List.getElem?_eq_none h'] at hnewRead; cases hnewRead
    obtain ⟨new', hn', hs', hu'⟩ := hshape pointer store[pointer] (List.getElem?_eq_getElem hlt)
    rw [hnewRead] at hn'
    cases hn'
    exact ⟨_, List.getElem?_eq_getElem hlt, hs', hu'⟩
  refine ⟨unlinked, hrun, hlen, ⟨?_, ?_, ?_, ?_⟩, by rw [hself, hread], hshape, hnot⟩
  · intro other otherValue hother hotherKind
    by_cases ho : other = block
    · subst ho
      rw [Function.update_same]
      exact hnew
    · rw [Function.update_noteq ho]
      obtain ⟨old, hold, hs, _⟩ := hback other otherValue hother
      have holdKind : old.typeID = .VmBlock := by rw [← hs.1]; exact hotherKind
      have hotherNot : other ∉ lists block := by
        intro hx
        obtain ⟨inst, hi, hk, _⟩ := h.listed hx
        rw [hold] at hi
        cases hi
        rw [holdKind] at hk
        cases hk
      refine (h.blocks other old hold holdKind).congr ?_ ?_
      · intro value0 hv0
        rw [hframe other ho hotherNot]
        exact ⟨value0, hv0, rfl, rfl, rfl⟩
      · intro instruction hin value0 hv0
        have hne : instruction ≠ block := by
          intro heq
          obtain ⟨inst, hi, hk, _⟩ := h.listed hin
          rw [heq, hblock] at hi
          cases hi
          rw [hblockKind] at hk
          cases hk
        have hnotIn : instruction ∉ lists block := by
          intro hx
          obtain ⟨inst1, h1, _, hp1⟩ := h.listed hx
          obtain ⟨inst2, h2, _, hp2⟩ := h.listed hin
          rw [h1] at h2
          cases h2
          rw [hp1] at hp2
          exact ho (Option.some.inj hp2).symm
        rw [hframe instruction hne hnotIn]
        exact ⟨value0, hv0, rfl, rfl, rfl, rfl⟩
  · intro other instruction hin
    obtain ⟨otherValue, hother, hotherKind⟩ := h.owners other instruction (hsub other _ hin)
    obtain ⟨new, hn, hs, _⟩ := hshape other otherValue hother
    exact ⟨new, hn, hs.1.trans hotherKind⟩
  · intro other instruction inst hin hinst argument harg
    obtain ⟨old, hold, hs, _⟩ := hback instruction inst hinst
    rw [hs.2.2.2.2.1] at harg
    obtain ⟨argValue, hav, hrank, hkind, hlive⟩ :=
      h.operands other instruction old (hsub other _ hin) hold argument harg
    obtain ⟨new, hn, hsn, _⟩ := hshape argument argValue hav
    refine ⟨new, hn, hrank, by rw [hsn.1]; exact hkind, ?_⟩
    intro hlimit hki hse
    rw [hsn.1] at hki
    rw [hsn.2.2.1] at hse
    obtain ⟨parent, hparent, hlisted⟩ := hlive hlimit hki hse
    refine ⟨parent, by rw [hsn.2.2.2.2.2]; exact hparent, ?_⟩
    have hne : argument ≠ value := by
      intro heq
      subst heq
      have hcount := h.usedef other instruction old (hsub other _ hin) hold argument v hread
        hlimit
      rw [husers hlimit] at hcount
      have hpos : 0 < old.arguments.count argument := List.count_pos_iff.mpr harg
      rw [hcount] at hpos
      simp at hpos
    by_cases hp : parent = block
    · subst hp
      rw [Function.update_same]
      exact (List.mem_erase_of_ne hne).mpr hlisted
    · rw [Function.update_noteq hp]
      exact hlisted
  · intro other instruction inst hin hinst operand value' hv' hlimit
    obtain ⟨old, hold, hs, _⟩ := hback instruction inst hinst
    obtain ⟨oldValue, holdValue, _, hu⟩ := hback operand value' hv'
    rw [hs.2.2.2.2.1, hu]
    exact h.usedef other instruction old (hsub other _ hin) hold operand oldValue holdValue
      hlimit

/-- The cascade that does nothing. -/
theorem RemoveUse.Cascade.refl (rank : Nat → Nat) (top : Nat) (lists : Nat → List Nat)
    (store : List VmValue) : RemoveUse.Cascade rank top lists lists store store :=
  ⟨rfl, fun _ old h => ⟨old, h, ⟨rfl, rfl, rfl, rfl, rfl, rfl⟩, fun _ => rfl, fun h' => h'⟩,
    fun _ _ h => h, fun _ _ h h' => absurd h h',
    fun _ _ old new _ hold hnew => Or.inl (by rw [hold] at hnew; cases hnew; rfl)⟩

/-- A read in the state after a cascade comes from a read before it. -/
theorem RemoveUse.Cascade.back {rank : Nat → Nat} {top : Nat} {lists lists' : Nat → List Nat}
    {store store' : List VmValue} (h : RemoveUse.Cascade rank top lists lists' store store')
    {pointer : Nat} {new : VmValue} (hnew : store'[pointer]? = some new) :
    ∃ old, store[pointer]? = some old ∧ VmValue.sameShape old new ∧
      (top < rank pointer → new.users = old.users) ∧ (old.users = [] → new.users = []) := by
  have hlt : pointer < store.length := by
    rcases Nat.lt_or_ge pointer store'.length with h' | h'
    · rw [← h.length]; exact h'
    · rw [List.getElem?_eq_none h'] at hnew; cases hnew
  obtain ⟨new', hn', hs, hu, he⟩ := h.shape pointer store[pointer] (List.getElem?_eq_getElem hlt)
  rw [hnew] at hn'
  cases hn'
  exact ⟨_, List.getElem?_eq_getElem hlt, hs, hu, he⟩

/-- Two cascades in a row are a cascade. -/
theorem RemoveUse.Cascade.trans {rank : Nat → Nat} {top top1 top2 : Nat}
    {lists lists1 lists2 : Nat → List Nat} {store store1 store2 : List VmValue}
    (h1 : RemoveUse.Cascade rank top1 lists lists1 store store1)
    (h2 : RemoveUse.Cascade rank top2 lists1 lists2 store1 store2)
    (ht1 : top1 ≤ top) (ht2 : top2 ≤ top) :
    RemoveUse.Cascade rank top lists lists2 store store2 := by
  refine ⟨h2.length.trans h1.length, ?_, ?_, ?_, ?_⟩
  · intro pointer old hold
    obtain ⟨mid, hmid, hs1, hu1, he1⟩ := h1.shape pointer old hold
    obtain ⟨new, hnew, hs2, hu2, he2⟩ := h2.shape pointer mid hmid
    refine ⟨new, hnew, ?_, ?_, ?_⟩
    · exact ⟨hs2.1.trans hs1.1, hs2.2.1.trans hs1.2.1, hs2.2.2.1.trans hs1.2.2.1,
        hs2.2.2.2.1.trans hs1.2.2.2.1, hs2.2.2.2.2.1.trans hs1.2.2.2.2.1,
        hs2.2.2.2.2.2.trans hs1.2.2.2.2.2⟩
    · intro hr
      rw [hu2 (by omega), hu1 (by omega)]
    · intro he
      exact he2 (he1 he)
  · intro block instruction hin
    exact h1.sub block instruction (h2.sub block instruction hin)
  · intro block instruction hin hout
    by_cases hmid : instruction ∈ lists1 block
    · obtain ⟨hr, value, hv, hu, hse⟩ := h2.removed block instruction hmid hout
      exact ⟨by omega, value, hv, hu, hse⟩
    · obtain ⟨hr, value, hv, hu, hse⟩ := h1.removed block instruction hin hmid
      obtain ⟨new, hnew, hs2, _, he2⟩ := h2.shape instruction value hv
      exact ⟨by omega, new, hnew, he2 hu, hs2.2.2.1.trans hse⟩
  · intro block instruction old new hin hold hnew
    obtain ⟨mid, hmid, _⟩ := h1.shape instruction old hold
    rcases h2.kept block instruction mid new hin hmid hnew with h | h | h
    · rcases h1.kept block instruction old mid (h2.sub block instruction hin) hold hmid with
        h' | h' | h'
      · exact Or.inl (h.trans h')
      · exact Or.inr (Or.inl (by rw [h]; exact h'))
      · obtain ⟨new', hnew', hs, _⟩ := h2.shape instruction mid hmid
        rw [hnew] at hnew'
        cases hnew'
        exact Or.inr (Or.inr (hs.2.2.1.trans h'))
    · exact Or.inr (Or.inl h)
    · exact Or.inr (Or.inr h)

/-- The loop of `RemoveInstruction` over the operands of a removed instruction,
when `RemoveUse` does to every value of a lower rank what `RemoveUse.Removes`
says: the loop returns a clean state after a cascade below the rank of the
instruction; the users of every value hold a surviving value other than the
instruction as often as before, and the instruction as often as before less
the number of operand slots that hold the value. -/
theorem RemoveInstruction.operands_removes (rank : Nat → Nat) (limit value0 fuel : Nat)
    (hlower : ∀ a, rank a < rank value0 → RemoveUse.Removes rank limit a)
    (hlimit : rank value0 ≤ limit) :
    ∀ (rest : List Nat) (lists : Nat → List Nat) (store : List VmValue),
      VmValue.Clean rank limit lists store → (∀ block, value0 ∉ lists block) →
      (∀ a ∈ rest, ∃ av, store[a]? = some av ∧ rank a < rank value0 ∧
        av.typeID ≠ .VmBlock ∧ rest.count a ≤ av.users.count value0 ∧
        (av.typeID = .VmInstruction → av.hasSideEffects = false →
          ∃ parent, av.parent = some parent ∧ a ∈ lists parent)) →
      (∀ a ∈ rest, 2 * rank a + 2 ≤ fuel) →
      ∃ (store' : List VmValue) (lists' : Nat → List Nat),
        RemoveInstruction.operands (RemoveUse fuel) value0 rest store = some (.ok store') ∧
        VmValue.Clean rank limit lists' store' ∧
        RemoveUse.Cascade rank (rank value0 - 1) lists lists' store store' ∧
        (∀ (pointer x : Nat) (old new : VmValue), store[pointer]? = some old →
          store'[pointer]? = some new → (∀ block, x ∈ lists block → x ∈ lists' block) →
          x ≠ value0 → new.users.count x = old.users.count x) ∧
        (∀ (pointer : Nat) (old new : VmValue), store[pointer]? = some old →
          store'[pointer]? = some new →
          new.users.count value0 = old.users.count value0 - rest.count pointer) := by
  intro rest
  induction rest with
  | nil =>
    intro lists store hclean _ _ _
    refine ⟨store, lists, rfl, hclean, RemoveUse.Cascade.refl _ _ _ _, ?_, ?_⟩
    · intro pointer x old new hold hnew _ _
      rw [hold] at hnew
      cases hnew
      rfl
    · intro pointer old new hold hnew
      rw [hold] at hnew
      cases hnew
      simp
  | cons a0 rest' ih =>
    intro lists store hclean hdead hpre hfuel
    obtain ⟨av0, hav0, hrank0, hkind0, _, hlive0⟩ := hpre a0 (List.mem_cons_self _ _)
    obtain ⟨store1, lists1, hrun1, hclean1, hcas1, _, hcount1, _, _⟩ :=
      hlower a0 hrank0 lists store value0 av0 fuel hclean hav0 (by omega)
        (fun _ => hdead) (by intro heq; rw [heq] at hrank0; omega) hkind0 hlive0
        (hfuel a0 (List.mem_cons_self _ _))
    have hdead1 : ∀ block, value0 ∉ lists1 block := fun block hin =>
      hdead block (hcas1.sub block value0 hin)
    have hcountUser : ∀ (pointer : Nat) (old mid : VmValue), store[pointer]? = some old →
        store1[pointer]? = some mid →
        mid.users.count value0 =
          if pointer = a0 then old.users.count value0 - 1 else old.users.count value0 := by
      intro pointer old mid hold hmid
      rw [hcount1 pointer value0 old mid hold hmid (fun block hin => absurd hin (hdead block))]
      simp
    obtain ⟨store2, lists2, hrun2, hclean2, hcas2, hother2, hself2⟩ :=
      ih lists1 store1 hclean1 hdead1
        (by
          intro a ha
          obtain ⟨av, hav, hrank, hkind, hcount, hlive⟩ := hpre a (List.mem_cons_of_mem _ ha)
          obtain ⟨av1, hav1, hs, _, _⟩ := hcas1.shape a av hav
          have hc := hcountUser a av av1 hav hav1
          have hcons : (a0 :: rest').count a = rest'.count a + if a = a0 then 1 else 0 := by
            rw [List.count_cons]
            by_cases h : a = a0
            · subst h; simp
            · have : ¬ (a0 = a) := fun h' => h h'.symm
              simp [h, this]
          have hpos : 0 < rest'.count a := List.count_pos_iff.mpr ha
          have hle : rest'.count a ≤ av1.users.count value0 := by
            rw [hc]
            rw [hcons] at hcount
            by_cases h : a = a0
            · rw [if_pos h]; rw [if_pos h] at hcount; omega
            · rw [if_neg h]; rw [if_neg h] at hcount; omega
          refine ⟨av1, hav1, hrank, by rw [hs.1]; exact hkind, hle, ?_⟩
          intro hki hse
          rw [hs.1] at hki
          rw [hs.2.2.1] at hse
          obtain ⟨parent, hparent, hlisted⟩ := hlive hki hse
          refine ⟨parent, by rw [hs.2.2.2.2.2]; exact hparent, ?_⟩
          by_contra hout
          obtain ⟨_, removedValue, hrv, hru, _⟩ := hcas1.removed parent a hlisted hout
          rw [hav1] at hrv
          cases hrv
          rw [hru] at hle
          simp at hle
          omega)
        (fun a ha => hfuel a (List.mem_cons_of_mem _ ha))
    refine ⟨store2, lists2, ?_, hclean2, ?_, ?_, ?_⟩
    · show Analysis.bind (RemoveUse fuel store a0 value0) _ = _
      rw [hrun1]
      exact hrun2
    · exact hcas1.trans hcas2 (by omega) (le_refl _)
    · intro pointer x old new hold hnew hsurvive hx
      obtain ⟨mid, hmid, _⟩ := hcas1.shape pointer old hold
      rw [hother2 pointer x mid new hmid hnew
        (fun block hin => hsurvive block (hcas1.sub block x hin)) hx,
        hcount1 pointer x old mid hold hmid
        (fun block hin => hcas2.sub block x (hsurvive block hin))]
      rw [if_neg (fun h => hx h.2)]
    · intro pointer old new hold hnew
      obtain ⟨mid, hmid, _⟩ := hcas1.shape pointer old hold
      rw [hself2 pointer mid new hmid hnew, hcountUser pointer old mid hold hmid,
        List.count_cons]
      by_cases h : pointer = a0
      · subst h
        simp
        omega
      · have : ¬ (a0 = pointer) := fun h' => h h'.symm
        simp [h, this]

/-- The loop of `RemoveUse` on an empty users array. -/
theorem RemoveUse.erase_nil (user : Nat) : RemoveUse.erase [] user = [] := rfl

/-- One call of `RemoveUse` does what `RemoveUse.Removes` says when the calls
for the values of a lower rank do. -/
theorem RemoveUse.removes_of_lower (rank : Nat → Nat) (limit value : Nat)
    (hlower : ∀ a, rank a < rank value → RemoveUse.Removes rank limit a) :
    RemoveUse.Removes rank limit value := by
  intro lists store user v fuel hclean hread hle huser hne hkind hlive hfuel
  obtain ⟨f, rfl⟩ : ∃ f, fuel = f + 1 := ⟨fuel - 1, by omega⟩
  have hlt : value < store.length := by
    rcases Nat.lt_or_ge value store.length with h' | h'
    · exact h'
    · rw [List.getElem?_eq_none h'] at hread; cases hread
  have hclean0 := hclean.erase_user value user v hread huser
  have hat : ∀ pointer : Nat,
      (store.set value { v with users := RemoveUse.erase v.users user })[pointer]? =
        if pointer = value then some { v with users := RemoveUse.erase v.users user }
        else store[pointer]? := by
    intro pointer
    by_cases hp : pointer = value
    · subst hp
      rw [if_pos rfl, List.getElem?_set_self hlt]
    · rw [if_neg hp, List.getElem?_set_ne (Ne.symm hp)]
  have hshape0 : ∀ (pointer : Nat) (old : VmValue), store[pointer]? = some old →
      ∃ mid, (store.set value { v with users := RemoveUse.erase v.users user })[pointer]? =
          some mid ∧ VmValue.sameShape old mid ∧
        mid.users = (if pointer = value then RemoveUse.erase v.users user else old.users) ∧
        (old.users = [] → mid.users = []) := by
    intro pointer old hold
    rw [hat pointer]
    by_cases hp : pointer = value
    · rw [hp] at hold
      rw [hread] at hold
      have hov : old = v := (Option.some.inj hold).symm
      rw [if_pos hp, hov]
      refine ⟨_, rfl, ⟨rfl, rfl, rfl, rfl, rfl, rfl⟩, by rw [if_pos hp], ?_⟩
      intro he
      show RemoveUse.erase v.users user = []
      rw [he]
      rfl
    · rw [if_neg hp]
      exact ⟨old, hold, ⟨rfl, rfl, rfl, rfl, rfl, rfl⟩, by rw [if_neg hp], fun h => h⟩
  have hcount0 : ∀ (pointer x : Nat) (old new : VmValue), store[pointer]? = some old →
      (store.set value { v with users := RemoveUse.erase v.users user })[pointer]? = some new →
      new.users.count x =
        if pointer = value ∧ x = user then old.users.count x - 1 else old.users.count x := by
    intro pointer x old new hold hnew
    rw [hat pointer] at hnew
    by_cases hp : pointer = value
    · rw [hp] at hold
      rw [hread] at hold
      have hov : old = v := (Option.some.inj hold).symm
      rw [if_pos hp] at hnew
      have hnv : new = { v with users := RemoveUse.erase v.users user } :=
        (Option.some.inj hnew).symm
      rw [hnv, hov]
      show (RemoveUse.erase v.users user).count x = _
      rw [RemoveUse.erase_count]
      by_cases hx : x = user
      · rw [if_pos hx, if_pos ⟨hp, hx⟩, hx]
      · rw [if_neg hx, if_neg (fun h => hx h.2)]
    · rw [if_neg hp, hold] at hnew
      cases hnew
      rw [if_neg (fun h => hp h.1)]
  by_cases hcase : RemoveUse.erase v.users user = [] ∧ v.hasSideEffects = false ∧
      v.typeID = .VmInstruction
  · -- the instruction is removed
    obtain ⟨hempty, heffects, hinstruction⟩ := hcase
    obtain ⟨block, hparent, hmem⟩ := hlive hinstruction heffects
    obtain ⟨f', rfl⟩ : ∃ f', f = f' + 1 := ⟨f - 1, by omega⟩
    have hread0 : (store.set value { v with users := RemoveUse.erase v.users user })[value]? =
        some { v with users := RemoveUse.erase v.users user } := by
      rw [hat value, if_pos rfl]
    obtain ⟨unlinked, hrunU, hlenU, hcleanU, hselfU, hshapeU, hnotU⟩ :=
      hclean0.unlink block value { v with users := RemoveUse.erase v.users user } hread0 hmem
        (fun _ => hempty)
    have hoperands := hclean.operands block value v hmem hread
    obtain ⟨store', lists', hrunF, hcleanF, hcasF, hotherF, hselfF⟩ :=
      RemoveInstruction.operands_removes rank limit value f' hlower hle v.arguments
        (Function.update lists block ((lists block).erase value)) unlinked hcleanU hnotU
        (by
          intro a ha
          obtain ⟨av, hav, hrank, hkinda, hlivea⟩ := hoperands a ha
          have hane : a ≠ value := by
            intro heq
            rw [heq] at hrank
            exact lt_irrefl _ hrank
          have hav0 : (store.set value
              { v with users := RemoveUse.erase v.users user })[a]? = some av := by
            rw [hat a, if_neg hane]
            exact hav
          obtain ⟨new, hnew, hs, hu⟩ := hshapeU a av hav0
          refine ⟨new, hnew, hrank, by rw [hs.1]; exact hkinda, ?_, ?_⟩
          · rw [hu, ← hclean.usedef block value v hmem hread a av hav (by omega)]
          · intro hki hse
            rw [hs.1] at hki
            rw [hs.2.2.1] at hse
            obtain ⟨parent, hp, hlisted⟩ := hlivea (by omega) hki hse
            refine ⟨parent, by rw [hs.2.2.2.2.2]; exact hp, ?_⟩
            by_cases hpb : parent = block
            · subst hpb
              rw [Function.update_same]
              exact (List.mem_erase_of_ne hane).mpr hlisted
            · rw [Function.update_noteq hpb]
              exact hlisted)
        (by
          intro a ha
          obtain ⟨_, _, hrank, _, _⟩ := hoperands a ha
          omega)
    have hcasU : RemoveUse.Cascade rank (rank value) lists
        (Function.update lists block ((lists block).erase value)) store unlinked := by
      refine ⟨hlenU.trans (List.length_set ..), ?_, ?_, ?_, ?_⟩
      · intro pointer old hold
        obtain ⟨mid, hmid, hs0, hu0, he0⟩ := hshape0 pointer old hold
        obtain ⟨new, hnew, hs, hu⟩ := hshapeU pointer mid hmid
        refine ⟨new, hnew, ?_, ?_, ?_⟩
        · exact ⟨hs.1.trans hs0.1, hs.2.1.trans hs0.2.1, hs.2.2.1.trans hs0.2.2.1,
            hs.2.2.2.1.trans hs0.2.2.2.1, hs.2.2.2.2.1.trans hs0.2.2.2.2.1,
            hs.2.2.2.2.2.trans hs0.2.2.2.2.2⟩
        · intro hr
          have hp : pointer ≠ value := by
            intro heq
            rw [heq] at hr
            exact lt_irrefl _ hr
          rw [hu, hu0, if_neg hp]
        · intro he
          rw [hu, he0 he]
      · intro other instruction hin
        by_cases ho : other = block
        · subst ho
          rw [Function.update_same] at hin
          exact List.mem_of_mem_erase hin
        · rw [Function.update_noteq ho] at hin
          exact hin
      · intro other instruction hin hout
        have hvalue : instruction = value := by
          by_contra hne'
          apply hout
          by_cases ho : other = block
          · subst ho
            rw [Function.update_same]
            exact (List.mem_erase_of_ne hne').mpr hin
          · rw [Function.update_noteq ho]
            exact hin
        rw [hvalue]
        exact ⟨le_refl _, _, hselfU, hempty, heffects⟩
      · intro other instruction old new hin hold hnew
        have hp : instruction ≠ value := by
          intro heq
          rw [heq] at hin
          exact hnotU other hin
        obtain ⟨mid, hmid, _, hu0, _⟩ := hshape0 instruction old hold
        obtain ⟨new', hnew', _, hu⟩ := hshapeU instruction mid hmid
        rw [hnew] at hnew'
        cases hnew'
        exact Or.inl (by rw [hu, hu0, if_neg hp])
    refine ⟨store', lists', ?_, hcleanF, hcasU.trans hcasF (le_refl _) (by omega), ?_, ?_, ?_, ?_,
      ?_⟩
    · rw [RemoveUse_unlinks (f' + 1) store value user block v hread hempty heffects hinstruction
        hparent]
      have hsame : store.set value { v with users := [] } =
          store.set value { v with users := RemoveUse.erase v.users user } := by
        rw [hempty]
      rw [hsame, RemoveInstruction_step f' _ unlinked block value
        { v with users := RemoveUse.erase v.users user } hread0 hparent hrunU]
      exact hrunF
    · obtain ⟨new, hnew, _, _, he⟩ := hcasF.shape value _ hselfU
      exact ⟨new, hnew, by rw [he hempty, hempty]⟩
    · intro pointer x old new hold hnew hsurvive
      have hxne : x ≠ value := by
        intro heq
        subst heq
        exact (fun hin => hnotU block (hcasF.sub block x hin)) (hsurvive block hmem)
      obtain ⟨mid, hmid, _, _, _⟩ := hshape0 pointer old hold
      obtain ⟨mid', hmid', _, hu'⟩ := hshapeU pointer mid hmid
      rw [hotherF pointer x mid' new hmid' hnew
        (fun other hin => hsurvive other (hcasU.sub other x hin)) hxne, hu',
        hcount0 pointer x old mid hold hmid]
    · intro hkeep
      rcases hkeep with h | h
      · exact absurd hempty h
      · rw [heffects] at h; cases h
    · intro _ _ other hin
      exact hnotU other (hcasF.sub other value hin)
    · intro _ _ _ pointer old new hp hold hnew
      obtain ⟨mid, hmid, _, hu0, _⟩ := hshape0 pointer old hold
      obtain ⟨mid', hmid', _, hu'⟩ := hshapeU pointer mid hmid
      rw [hselfF pointer mid' new hmid' hnew, hu', hu0, if_neg hp]
  · -- only the user is removed
    have hkeep : RemoveUse.erase v.users user ≠ [] ∨ v.hasSideEffects = true ∨
        (v.typeID ≠ .VmInstruction ∧ v.typeID ≠ .VmBlock) := by
      by_cases h1 : RemoveUse.erase v.users user = []
      · by_cases h2 : v.hasSideEffects = false
        · right; right
          exact ⟨fun h3 => hcase ⟨h1, h2, h3⟩, hkind⟩
        · right; left
          cases hv : v.hasSideEffects
          · exact absurd hv h2
          · rfl
      · left; exact h1
    have hunlisted : RemoveUse.erase v.users user = [] → v.hasSideEffects = false →
        ∀ other, value ∉ lists other := by
      intro hempty heffects other hin
      obtain ⟨inst, hinst, hk, _⟩ := hclean.listed hin
      rw [hread] at hinst
      have hiv : inst = v := (Option.some.inj hinst).symm
      rw [hiv] at hk
      exact hcase ⟨hempty, heffects, hk⟩
    have hcas0 : RemoveUse.Cascade rank (rank value) lists lists store
        (store.set value { v with users := RemoveUse.erase v.users user }) := by
      refine ⟨List.length_set .., ?_, fun _ _ h => h, fun _ _ h h' => absurd h h', ?_⟩
      · intro pointer old hold
        obtain ⟨mid, hmid, hs0, hu0, he0⟩ := hshape0 pointer old hold
        refine ⟨mid, hmid, hs0, ?_, he0⟩
        intro hr
        have hp : pointer ≠ value := by
          intro heq
          rw [heq] at hr
          exact lt_irrefl _ hr
        rw [hu0, if_neg hp]
      · intro other instruction old new hin hold hnew
        obtain ⟨mid, hmid, hs0, hu0, _⟩ := hshape0 instruction old hold
        rw [hnew] at hmid
        have hmn : mid = new := (Option.some.inj hmid).symm
        rw [hmn] at hu0 hs0
        by_cases hp : instruction = value
        · rw [hu0, if_pos hp]
          by_cases h1 : RemoveUse.erase v.users user = []
          · by_cases h2 : v.hasSideEffects = false
            · exact absurd (hp ▸ hin) (hunlisted h1 h2 other)
            · right; right
              rw [hp, hread] at hold
              have hov : old = v := (Option.some.inj hold).symm
              rw [hs0.2.2.1, hov]
              cases hv : v.hasSideEffects
              · exact absurd hv h2
              · rfl
          · exact Or.inr (Or.inl h1)
        · exact Or.inl (by rw [hu0, if_neg hp])
    refine ⟨_, lists, RemoveUse_keeps f store value user v hread hkeep, hclean0, hcas0,
      ⟨_, by rw [hat value, if_pos rfl], rfl⟩, ?_, fun _ => ⟨rfl, rfl⟩, hunlisted, ?_⟩
    · intro pointer x old new hold hnew _
      exact hcount0 pointer x old new hold hnew
    · intro hempty heffects hk
      exact absurd ⟨hempty, heffects, hk⟩ hcase

/-- With enough fuel, `RemoveUse` does to every value of a clean state what
`RemoveUse.Removes` says. -/
theorem RemoveUse.removes (rank : Nat → Nat) (limit : Nat) :
    ∀ value, RemoveUse.Removes rank limit value := by
  have hall : ∀ n value, rank value ≤ n → RemoveUse.Removes rank limit value := by
    intro n
    induction n with
    | zero =>
      intro value hvalue
      exact RemoveUse.removes_of_lower rank limit value (fun a ha => by omega)
    | succ n ih =>
      intro value hvalue
      exact RemoveUse.removes_of_lower rank limit value (fun a ha => ih a (by omega))
  intro value
  exact hall (rank value) value (le_refl _)

/-- A list of positions of a list, without repetition, is not longer than the
list. -/
theorem List.Nodup.length_le_of_lt {l : List Nat} (h : l.Nodup) {n : Nat}
    (hlt : ∀ x ∈ l, x < n) : l.length ≤ n := by
  have hsub : l.toFinset ⊆ Finset.range n := by
    intro x hx
    rw [List.mem_toFinset] at hx
    exact Finset.mem_range.mpr (hlt x hx)
  have hcard := Finset.card_le_card hsub
  rw [List.toFinset_card_of_nodup h, Finset.card_range] at hcard
  exact hcard

/-- The loop over the next siblings meets the instructions of a linked list in
order. -/
theorem VmValue.Linked.siblings {store : List VmValue} {block : Nat} {linked : List Nat}
    (h : VmValue.Linked store block linked) :
    ∀ (bound index : Nat), linked.length - index < bound →
      VmValue.siblings store bound linked[index]? = some (linked.drop index) := by
  intro bound
  induction bound with
  | zero => intro index hlt; omega
  | succ bound ih =>
    intro index hlt
    by_cases hindex : index < linked.length
    · have hget : linked[index]? = some linked[index] := List.getElem?_eq_getElem hindex
      obtain ⟨inst, hinst, _, _, _, hnext⟩ := h.member index linked[index] hget
      rw [hget]
      simp only [VmValue.siblings, hinst, hnext]
      rw [ih (index + 1) (by omega)]
      simp only [Option.map]
      congr 1
      exact (List.drop_eq_getElem_cons hindex).symm
    · rw [List.getElem?_eq_none (by omega), List.drop_eq_nil_of_le (by omega)]
      rfl

/-- The instruction list of a block, read through the sibling pointers, is the
linked list of the block. -/
theorem VmValue.Linked.instructions {store : List VmValue} {block : Nat} {linked : List Nat}
    (h : VmValue.Linked store block linked) :
    VmValue.instructions store block = some linked := by
  obtain ⟨blockValue, hblock, _, hfirst, _⟩ := h.ends
  have hlength : linked.length ≤ store.length := by
    apply List.Nodup.length_le_of_lt h.nodup
    intro x hx
    obtain ⟨index, hindex⟩ := List.mem_iff_getElem?.mp hx
    obtain ⟨inst, hinst, _⟩ := h.member index x hindex
    rcases Nat.lt_or_ge x store.length with h' | h'
    · exact h'
    · rw [List.getElem?_eq_none h'] at hinst; cases hinst
  unfold VmValue.instructions
  rw [hblock]
  simp only []
  rw [hfirst, List.head?_eq_getElem?, h.siblings (store.length + 1) 0 (by omega)]
  rfl

/-- A clean state is clean for every lower limit. -/
theorem VmValue.Clean.mono {rank : Nat → Nat} {limit limit' : Nat} {lists : Nat → List Nat}
    {store : List VmValue} (h : VmValue.Clean rank limit lists store) (hle : limit' ≤ limit) :
    VmValue.Clean rank limit' lists store := by
  refine ⟨h.blocks, h.owners, ?_, ?_⟩
  · intro block instruction inst hmem hinst argument harg
    obtain ⟨value, hv, hr, hk, hlive⟩ := h.operands block instruction inst hmem hinst argument harg
    exact ⟨value, hv, hr, hk, fun hl => hlive (by omega)⟩
  · intro block instruction inst hmem hinst operand value hv hl
    exact h.usedef block instruction inst hmem hinst operand value hv (by omega)

/-- In a clean state the instruction list of a block, read through the sibling
pointers, is the list of the block. -/
theorem VmValue.Clean.traversal {rank : Nat → Nat} {limit : Nat} {lists : Nat → List Nat}
    {store : List VmValue} (h : VmValue.Clean rank limit lists store) (block : Nat)
    (blockValue : VmValue) (hblock : store[block]? = some blockValue)
    (hkind : blockValue.typeID = .VmBlock) :
    VmValue.instructions store block = some (lists block) :=
  (h.blocks block blockValue hblock hkind).instructions

/-- Claim C29, amended: in a clean state, `RemoveInstruction` of an instruction
of the instruction list of a block returns with enough fuel; afterwards the
instruction list of the block, read through the sibling pointers, is part of
the old list and does not hold the instruction; and the operand array of the
instruction is the one it had. -/
theorem RemoveInstruction_unlinks_keeps_operands (rank : Nat → Nat)
    (lists : Nat → List Nat) (store : List VmValue) (block instruction fuel : Nat)
    (inst : VmValue)
    (hclean : VmValue.Clean rank (rank instruction) lists store)
    (hread : store[instruction]? = some inst)
    (hmem : instruction ∈ lists block)
    (hfuel : 2 * rank instruction + 1 ≤ fuel) :
    VmValue.instructions store block = some (lists block) ∧
    ∃ (after : List VmValue) (linked : List Nat),
      RemoveInstruction fuel store block instruction = some (.ok after) ∧
      VmValue.instructions after block = some linked ∧
      instruction ∉ linked ∧ (∀ other ∈ linked, other ∈ lists block) ∧
      ∃ new, after[instruction]? = some new ∧ new.arguments = inst.arguments := by
  obtain ⟨blockValue, hblock, hblockKind⟩ := hclean.owners block instruction hmem
  obtain ⟨inst', hinst', _, hparent⟩ := hclean.listed hmem
  rw [hread] at hinst'
  have hii : inst' = inst := (Option.some.inj hinst').symm
  rw [hii] at hparent
  obtain ⟨f, rfl⟩ : ∃ f, fuel = f + 1 := ⟨fuel - 1, by omega⟩
  obtain ⟨unlinked, hrunU, hlenU, hcleanU, hselfU, hshapeU, hnotU⟩ :=
    hclean.unlink block instruction inst hread hmem (fun h => absurd h (lt_irrefl _))
  have hoperands := hclean.operands block instruction inst hmem hread
  obtain ⟨after, lists', hrunF, hcleanF, hcasF, _, _⟩ :=
    RemoveInstruction.operands_removes rank (rank instruction) instruction f
      (fun a _ => RemoveUse.removes rank (rank instruction) a) (le_refl _) inst.arguments
      (Function.update lists block ((lists block).erase instruction)) unlinked hcleanU hnotU
      (by
        intro a ha
        obtain ⟨av, hav, hrank, hkinda, hlivea⟩ := hoperands a ha
        have hane : a ≠ instruction := by
          intro heq
          rw [heq] at hrank
          exact lt_irrefl _ hrank
        obtain ⟨new, hnew, hs, hu⟩ := hshapeU a av hav
        refine ⟨new, hnew, hrank, by rw [hs.1]; exact hkinda, ?_, ?_⟩
        · rw [hu, ← hclean.usedef block instruction inst hmem hread a av hav hrank]
        · intro hki hse
          rw [hs.1] at hki
          rw [hs.2.2.1] at hse
          obtain ⟨parent, hp, hlisted⟩ := hlivea hrank hki hse
          refine ⟨parent, by rw [hs.2.2.2.2.2]; exact hp, ?_⟩
          by_cases hpb : parent = block
          · subst hpb
            rw [Function.update_same]
            exact (List.mem_erase_of_ne hane).mpr hlisted
          · rw [Function.update_noteq hpb]
            exact hlisted)
      (by
        intro a ha
        obtain ⟨_, _, hrank, _, _⟩ := hoperands a ha
        omega)
  refine ⟨hclean.traversal block blockValue hblock hblockKind, after, lists' block, ?_, ?_,
    ?_, ?_, ?_⟩
  · rw [RemoveInstruction_step f store unlinked block instruction inst hread hparent hrunU]
    exact hrunF
  · obtain ⟨mid, hmid, hs, _⟩ := hshapeU block blockValue hblock
    obtain ⟨new, hnew, hs', _⟩ := hcasF.shape block mid hmid
    exact hcleanF.traversal block new hnew (by rw [hs'.1, hs.1]; exact hblockKind)
  · intro hin
    exact hnotU block (hcasF.sub block instruction hin)
  · intro other hin
    have := hcasF.sub block other hin
    rw [Function.update_same] at this
    exact List.mem_of_mem_erase this
  · obtain ⟨new, hnew, hs, _⟩ := hcasF.shape instruction inst hselfU
    exact ⟨new, hnew, hs.2.2.2.2.1⟩

/-- The example state `exampleChain` is clean. -/
theorem exampleChain_clean :
    VmValue.Clean exampleChainRank 3 exampleChainLists exampleChain := by
  have hlists : ∀ block instruction, instruction ∈ exampleChainLists block →
      block = 0 ∧ (instruction = 1 ∨ instruction = 3) := by
    intro block instruction hmem
    unfold exampleChainLists at hmem
    by_cases hb : block = 0
    · rw [if_pos hb] at hmem
      simp at hmem
      exact ⟨hb, hmem⟩
    · rw [if_neg hb] at hmem
      cases hmem
  have hstore : ∀ (pointer : Nat) (value : VmValue), exampleChain[pointer]? = some value →
      pointer < 4 := by
    intro pointer value hv
    rcases Nat.lt_or_ge pointer 4 with h | h
    · exact h
    · rw [List.getElem?_eq_none (by simpa [exampleChain] using h)] at hv
      cases hv
  refine ⟨?_, ?_, ?_, ?_⟩
  · intro block blockValue hblock hkind
    have hlt := hstore block blockValue hblock
    interval_cases block
    · refine ⟨by decide, ⟨_, rfl, rfl, rfl, rfl⟩, ?_⟩
      intro index instruction hindex
      have hi : index < 2 := by
        rcases Nat.lt_or_ge index 2 with h | h
        · exact h
        · rw [List.getElem?_eq_none (by simpa [exampleChainLists] using h)] at hindex
          cases hindex
      interval_cases index
      · have : instruction = 1 := by
          simpa [exampleChainLists] using hindex.symm
        subst this
        exact ⟨_, rfl, rfl, rfl, rfl, rfl⟩
      · have : instruction = 3 := by
          simpa [exampleChainLists] using hindex.symm
        subst this
        exact ⟨_, rfl, rfl, rfl, rfl, rfl⟩
    · simp [exampleChain, exampleInstruction] at hblock
      rw [← hblock] at hkind
      cases hkind
    · simp [exampleChain] at hblock
      rw [← hblock] at hkind
      cases hkind
    · simp [exampleChain, exampleInstruction] at hblock
      rw [← hblock] at hkind
      cases hkind
  · intro block instruction hmem
    obtain ⟨hb, _⟩ := hlists block instruction hmem
    subst hb
    exact ⟨_, rfl, rfl⟩
  · intro block instruction inst hmem hinst argument harg
    obtain ⟨hb, hi⟩ := hlists block instruction hmem
    subst hb
    rcases hi with hi | hi
    · subst hi
      simp [exampleChain] at hinst
      rw [← hinst] at harg
      simp [exampleInstruction] at harg
      subst harg
      refine ⟨_, rfl, by decide, by decide, ?_⟩
      intro _ hk
      cases hk
    · subst hi
      simp [exampleChain] at hinst
      rw [← hinst] at harg
      simp [exampleInstruction] at harg
      subst harg
      refine ⟨_, rfl, by decide, by decide, ?_⟩
      intro _ _ _
      exact ⟨0, rfl, by decide⟩
  · intro block instruction inst hmem hinst operand value hv hlimit
    obtain ⟨hb, hi⟩ := hlists block instruction hmem
    subst hb
    have hlt := hstore operand value hv
    rcases hi with hi | hi
    · subst hi
      simp [exampleChain] at hinst
      rw [← hinst]
      interval_cases operand <;> simp [exampleChain] at hv <;> rw [← hv] <;>
        simp [exampleInstruction]
    · subst hi
      simp [exampleChain] at hinst
      rw [← hinst]
      interval_cases operand <;> simp [exampleChain] at hv <;> rw [← hv] <;>
        simp [exampleInstruction]

/-- Witness of C29: in the example state the instruction 3, which returns the
instruction 1, is removed; no instruction is left in the list of the block,
and the instruction 3 keeps its operand. -/
theorem RemoveInstruction_unlinks_keeps_operands_witness :
    VmValue.instructions exampleChain 0 = some (exampleChainLists 0) ∧
    ∃ (after : List VmValue) (linked : List Nat),
      RemoveInstruction 7 exampleChain 0 3 = some (.ok after) ∧
      VmValue.instructions after 0 = some linked ∧
      3 ∉ linked ∧ (∀ other ∈ linked, other ∈ exampleChainLists 0) ∧
      ∃ new, after[3]? = some new ∧
        new.arguments = (exampleInstruction .VM_INST_RETURN [1] [] (some 1) none).arguments :=
  RemoveInstruction_unlinks_keeps_operands exampleChainRank exampleChainLists exampleChain 0 3 7
    (exampleInstruction .VM_INST_RETURN [1] [] (some 1) none) exampleChain_clean rfl
    (by decide) (by decide)

/-- Counterexample to C29: the instruction 3 of the example block, the negation
of the constant 5, is removed from the block; its operand array still holds
the constant. -/
theorem RemoveInstruction_keeps_operand_array :
    RemoveInstruction 4 exampleBlock 0 3 = some (.ok
      [{ typeID := .VmBlock, type := VmType.Void, firstInstruction := some 1,
         lastInstruction := some 4 },
       exampleInstruction .VM_INST_CALL [] [2] none (some 2),
       exampleInstruction .VM_INST_NEG [1] [4] (some 1) (some 4),
       exampleInstruction .VM_INST_NEG [5] [] (some 2) (some 4),
       exampleInstruction .VM_INST_NEG [2] [] (some 2) none,
       { typeID := .VmConstant, type := VmType.Int, users := [], iValue := 7 }]) := by
  decide

/-- Claim C28: in a clean state, `RemoveUse(user)` of a value that is not a
block returns with enough fuel.  The users of the value are the old users
without one occurrence of the user.  When users are left or the value has side
effects, nothing else changes and no instruction is unlinked.  When the users
are empty and the value is an instruction without side effects, the
instruction is no longer in the instruction list of a block, and the users of
every other value hold it once less for each operand slot of the instruction
that holds the value.  The state after the call is clean, the lists of the
blocks are their instruction lists, every instruction that left a list has no
users and no side effects, and every instruction that stayed with other users
than before has users left or has side effects. -/
theorem RemoveUse_removes_one_use (rank : Nat → Nat) (lists : Nat → List Nat)
    (store : List VmValue) (value user fuel : Nat) (v : VmValue)
    (hclean : VmValue.Clean rank (rank value) lists store)
    (hread : store[value]? = some v)
    (hne : user ≠ value)
    (hkind : v.typeID ≠ .VmBlock)
    (hlive : v.typeID = .VmInstruction → v.hasSideEffects = false →
      ∃ parent, v.parent = some parent ∧ value ∈ lists parent)
    (hfuel : 2 * rank value + 2 ≤ fuel) :
    (∀ x, (RemoveUse.erase v.users user).count x =
      if x = user then v.users.count user - 1 else v.users.count x) ∧
    ∃ (after : List VmValue) (lists' : Nat → List Nat),
      RemoveUse fuel store value user = some (.ok after) ∧
      (∃ new, after[value]? = some new ∧ new.users = RemoveUse.erase v.users user) ∧
      (RemoveUse.erase v.users user ≠ [] ∨ v.hasSideEffects = true →
        after = store.set value { v with users := RemoveUse.erase v.users user } ∧
          lists' = lists) ∧
      (RemoveUse.erase v.users user = [] → v.hasSideEffects = false →
        v.typeID = .VmInstruction →
        (∀ block, value ∉ lists' block) ∧
        ∀ (pointer : Nat) (old new : VmValue), pointer ≠ value → store[pointer]? = some old →
          after[pointer]? = some new →
          new.users.count value = old.users.count value - v.arguments.count pointer) ∧
      VmValue.Clean rank (rank value) lists' after ∧
      (∀ (block : Nat) (blockValue : VmValue), after[block]? = some blockValue →
        blockValue.typeID = .VmBlock →
        VmValue.instructions after block = some (lists' block)) ∧
      RemoveUse.Cascade rank (rank value) lists lists' store after := by
  refine ⟨fun x => ?_, ?_⟩
  · rw [RemoveUse.erase_count]
  · obtain ⟨after, lists', hrun, hcleanA, hcas, hself, _, hkeep, hout, hcount⟩ :=
      RemoveUse.removes rank (rank value) value lists store user v fuel hclean hread (le_refl _)
        (fun h => absurd h (lt_irrefl _)) hne hkind hlive hfuel
    exact ⟨after, lists', hrun, hself, hkeep,
      fun h1 h2 h3 => ⟨hout h1 h2, hcount h1 h2 h3⟩, hcleanA,
      fun block blockValue hb hk => hcleanA.traversal block blockValue hb hk, hcas⟩

/-- Witness of C28: in the example state the instruction 3 stops using the
instruction 1; the users of 1 become empty and 1 leaves the list of the
block. -/
theorem RemoveUse_removes_one_use_witness :
    ∃ (after : List VmValue) (lists' : Nat → List Nat),
      RemoveUse 4 exampleChain 1 3 = some (.ok after) ∧
      (∃ new, after[1]? = some new ∧ new.users = []) ∧
      (∀ block, 1 ∉ lists' block) ∧
      VmValue.instructions after 0 = some (lists' 0) := by
  obtain ⟨_, after, lists', hrun, hself, _, hout, _, hlists, hcas⟩ :=
    RemoveUse_removes_one_use exampleChainRank exampleChainLists exampleChain 1 3 4
      (exampleInstruction .VM_INST_NEG [2] [3] none (some 3))
      (exampleChain_clean.mono (by decide)) rfl (by decide) (by decide)
      (fun _ _ => ⟨0, rfl, by decide⟩) (by decide)
  obtain ⟨blockValue, hb, hs, _⟩ := hcas.shape 0 _ rfl
  exact ⟨after, lists', hrun, hself, (hout (by decide) (by decide) (by decide)).1,
    hlists 0 blockValue hb hs.1⟩

/-! ## Peephole theorems -/

/-- The integer that a constant of an integer type holds. -/
theorem VmType.modulus_integer (type : VmType) (h : type = VmType.Int ∨ type = VmType.Long) :
    type.modulus = some (if type = VmType.Int then 4294967296 else 18446744073709551616) := by
  rcases h with h | h <;> subst h <;> decide

/-- The constant tests and the number of an operand of an integer type. -/
theorem IsConstantZero_integer (store : List VmValue) (pointer : Nat) (value : VmValue)
    (hread : store[pointer]? = some value)
    (htype : value.type = VmType.Int ∨ value.type = VmType.Long) :
    IsConstantZero store pointer = .ok (decide (value.typeID = .VmConstant ∧
      (if value.type = VmType.Int then value.iValue else value.lValue) = 0)) ∧
    IsConstantOne store pointer = .ok (decide (value.typeID = .VmConstant ∧
      (if value.type = VmType.Int then value.iValue else value.lValue) = 1)) ∧
    DoesConstantIntegerMatch store pointer 0 = .ok (decide (value.typeID = .VmConstant ∧
      (if value.type = VmType.Int then value.iValue else value.lValue) = 0)) ∧
    ∀ computed : Nat → Int, VmValue.number store computed pointer =
      some ((if value.typeID = .VmConstant then
          (if value.type = VmType.Int then value.iValue else value.lValue)
        else computed pointer) %
        (if value.type = VmType.Int then 4294967296 else 18446744073709551616)) := by
  have hmod := VmType.modulus_integer value.type htype
  refine ⟨?_, ?_, ?_, ?_⟩
  · unfold IsConstantZero DoesConstantMatchEither VmValue.read
    rw [hread]
    simp only [Outcome.bind]
    by_cases hc : value.typeID = .VmConstant
    · rcases htype with h | h
      · simp [hc, h]
      · have hne : ¬ (VmType.Long = VmType.Int) := by decide
        have hne2 : ¬ (VmType.Long = VmType.Double) := by decide
        simp [hc, h, hne, hne2]
    · simp [hc]
  · unfold IsConstantOne DoesConstantMatchEither VmValue.read
    rw [hread]
    simp only [Outcome.bind]
    by_cases hc : value.typeID = .VmConstant
    · rcases htype with h | h
      · simp [hc, h]
      · have hne : ¬ (VmType.Long = VmType.Int) := by decide
        have hne2 : ¬ (VmType.Long = VmType.Double) := by decide
        simp [hc, h, hne, hne2]
    · simp [hc]
  · unfold DoesConstantIntegerMatch VmValue.read
    rw [hread]
    simp only [Outcome.bind]
    by_cases hc : value.typeID = .VmConstant
    · rcases htype with h | h
      · simp [hc, h]
      · have hne : ¬ (VmType.Long = VmType.Int) := by decide
        simp [hc, h, hne]
    · simp [hc]
  · intro computed
    unfold VmValue.number
    rw [hread]
    simp only [hmod]
    by_cases hc : value.typeID = .VmConstant
    · simp [hc]
    · simp [hc]

/-- Claim C30: for an add, a sub or a mul of type `Int` or `Long` whose two
operands have the type of the instruction, the tests of the peephole pass
select a rewrite as follows: add with a constant zero first operand is
replaced by the second operand, else with a constant zero second operand by
the first; sub with an integer constant zero first operand is changed to neg
of the second operand, else with a constant zero second operand is replaced by
the first; mul with a constant zero operand is replaced by the new constant 0
of the type of the instruction, else with a constant one first operand by the
second operand, else with a constant one second operand by the first.  For
every rewrite selected and all numbers that the operands may stand for, the
replacing value stands for the number that the instruction computes under
wrap-around arithmetic of its width. -/
theorem RunPeepholeOptimizations_preserves_integers (store : List VmValue)
    (inst a b : VmValue) (first second : Nat)
    (hcmd : inst.cmd = .VM_INST_ADD ∨ inst.cmd = .VM_INST_SUB ∨ inst.cmd = .VM_INST_MUL)
    (htype : inst.type = VmType.Int ∨ inst.type = VmType.Long)
    (harguments : inst.arguments = [first, second])
    (hfirst : store[first]? = some a) (hsecond : store[second]? = some b)
    (hfirstType : a.type = inst.type) (hsecondType : b.type = inst.type) :
    ∃ rewrite, RunPeepholeOptimizations.rewrite store inst = .ok rewrite ∧
      (inst.cmd = .VM_INST_ADD → IsConstantZero store first = .ok true →
        rewrite = some (.users second)) ∧
      (inst.cmd = .VM_INST_ADD → IsConstantZero store first = .ok false →
        IsConstantZero store second = .ok true → rewrite = some (.users first)) ∧
      (inst.cmd = .VM_INST_SUB → DoesConstantIntegerMatch store first 0 = .ok true →
        rewrite = some (.negate second)) ∧
      (inst.cmd = .VM_INST_SUB → DoesConstantIntegerMatch store first 0 = .ok false →
        IsConstantZero store second = .ok true → rewrite = some (.users first)) ∧
      (inst.cmd = .VM_INST_MUL →
        IsConstantZero store first = .ok true ∨ IsConstantZero store second = .ok true →
        rewrite = some (.constant inst.type)) ∧
      (inst.cmd = .VM_INST_MUL → IsConstantZero store first = .ok false →
        IsConstantZero store second = .ok false → IsConstantOne store first = .ok true →
        rewrite = some (.users second)) ∧
      (inst.cmd = .VM_INST_MUL → IsConstantZero store first = .ok false →
        IsConstantZero store second = .ok false → IsConstantOne store first = .ok false →
        IsConstantOne store second = .ok true → rewrite = some (.users first)) ∧
      ∀ r, rewrite = some r → ∀ computed : Nat → Int,
        ∃ n, VmValue.result store computed inst = some n ∧
          r.number store computed inst = some n := by
  obtain ⟨hza, hoa, hia, hna⟩ := IsConstantZero_integer store first a hfirst
    (by rw [hfirstType]; exact htype)
  obtain ⟨hzb, hob, _, hnb⟩ := IsConstantZero_integer store second b hsecond
    (by rw [hsecondType]; exact htype)
  rw [hfirstType] at hza hoa hia hna
  rw [hsecondType] at hzb hob hnb
  have hmod := VmType.modulus_integer inst.type htype
  have harg0 : inst.argument 0 = .ok first := by simp [VmValue.argument, harguments]
  have harg1 : inst.argument 1 = .ok second := by simp [VmValue.argument, harguments]
  have hne : ¬ (VmType.Long = VmType.Int) := by decide
  have hne2 : ¬ (VmType.Long = VmType.Double) := by decide
  obtain ⟨za, hza'⟩ : ∃ za : Bool, za = decide (a.typeID = .VmConstant ∧
      (if inst.type = VmType.Int then a.iValue else a.lValue) = 0) := ⟨_, rfl⟩
  obtain ⟨zb, hzb'⟩ : ∃ zb : Bool, zb = decide (b.typeID = .VmConstant ∧
      (if inst.type = VmType.Int then b.iValue else b.lValue) = 0) := ⟨_, rfl⟩
  obtain ⟨oa, hoa'⟩ : ∃ oa : Bool, oa = decide (a.typeID = .VmConstant ∧
      (if inst.type = VmType.Int then a.iValue else a.lValue) = 1) := ⟨_, rfl⟩
  obtain ⟨ob, hob'⟩ : ∃ ob : Bool, ob = decide (b.typeID = .VmConstant ∧
      (if inst.type = VmType.Int then b.iValue else b.lValue) = 1) := ⟨_, rfl⟩
  rw [← hza'] at hza hia
  rw [← hzb'] at hzb
  rw [← hoa'] at hoa
  rw [← hob'] at hob
  have hresult : ∀ computed : Nat → Int, VmValue.result store computed inst =
      some ((match inst.cmd with
        | .VM_INST_ADD =>
          (if a.typeID = .VmConstant then
              if inst.type = VmType.Int then a.iValue else a.lValue else computed first) %
            (if inst.type = VmType.Int then 4294967296 else 18446744073709551616) +
          (if b.typeID = .VmConstant then
              if inst.type = VmType.Int then b.iValue else b.lValue else computed second) %
            (if inst.type = VmType.Int then 4294967296 else 18446744073709551616)
        | .VM_INST_SUB =>
          (if a.typeID = .VmConstant then
              if inst.type = VmType.Int then a.iValue else a.lValue else computed first) %
            (if inst.type = VmType.Int then 4294967296 else 18446744073709551616) -
          (if b.typeID = .VmConstant then
              if inst.type = VmType.Int then b.iValue else b.lValue else computed second) %
            (if inst.type = VmType.Int then 4294967296 else 18446744073709551616)
        | _ =>
          (if a.typeID = .VmConstant then
              if inst.type = VmType.Int then a.iValue else a.lValue else computed first) %
            (if inst.type = VmType.Int then 4294967296 else 18446744073709551616) *
          ((if b.typeID = .VmConstant then
              if inst.type = VmType.Int then b.iValue else b.lValue else computed second) %
            (if inst.type = VmType.Int then 4294967296 else 18446744073709551616))) %
        (if inst.type = VmType.Int then 4294967296 else 18446744073709551616)) := by
    intro computed
    rcases hcmd with hc | hc | hc <;>
      simp only [VmValue.result, hmod, hc, harguments, hna, hnb, Option.bind, Option.map]
  rcases hcmd with hc | hc | hc
  · -- add
    refine ⟨if za then some (.users second) else if zb then some (.users first) else none,
      ?_, ?_, ?_, ?_, ?_, ?_, ?_, ?_, ?_⟩
    · simp only [RunPeepholeOptimizations.rewrite, hc, harg0, harg1, hza, hzb, Outcome.bind]
      cases za <;> cases zb <;> rfl
    · intro _ h; rw [hza] at h; cases h; rfl
    · intro _ h1 h2; rw [hza] at h1; rw [hzb] at h2; cases h1; cases h2; rfl
    · intro h; rw [hc] at h; cases h
    · intro h; rw [hc] at h; cases h
    · intro h; rw [hc] at h; cases h
    · intro h; rw [hc] at h; cases h
    · intro h; rw [hc] at h; cases h
    · intro r hr computed
      refine ⟨_, hresult computed, ?_⟩
      cases za with
      | true =>
        have hA := of_decide_eq_true hza'.symm
        cases hr
        simp only [PeepholeRewrite.number, hnb, hc, hA.1, hA.2, if_true]
        rcases htype with ht | ht <;> simp [ht, hne]
      | false =>
        cases zb with
        | true =>
          have hB := of_decide_eq_true hzb'.symm
          cases hr
          simp only [PeepholeRewrite.number, hna, hc, hB.1, hB.2, if_true]
          rcases htype with ht | ht <;> simp [ht, hne]
        | false => cases hr
  · -- sub
    refine ⟨if za then some (.negate second) else if zb then some (.users first) else none,
      ?_, ?_, ?_, ?_, ?_, ?_, ?_, ?_, ?_⟩
    · simp only [RunPeepholeOptimizations.rewrite, hc, harg0, harg1, hia, hzb, Outcome.bind]
      cases za <;> cases zb <;> rfl
    · intro h; rw [hc] at h; cases h
    · intro h; rw [hc] at h; cases h
    · intro _ h; rw [hia] at h; cases h; rfl
    · intro _ h1 h2; rw [hia] at h1; rw [hzb] at h2; cases h1; cases h2; rfl
    · intro h; rw [hc] at h; cases h
    · intro h; rw [hc] at h; cases h
    · intro h; rw [hc] at h; cases h
    · intro r hr computed
      refine ⟨_, hresult computed, ?_⟩
      cases za with
      | true =>
        have hA := of_decide_eq_true hza'.symm
        cases hr
        simp only [PeepholeRewrite.number, VmValue.result, hmod, hnb, hc, hA.1, hA.2, if_true,
          Option.map]
        rcases htype with ht | ht <;> simp [ht, hne]
      | false =>
        cases zb with
        | true =>
          have hB := of_decide_eq_true hzb'.symm
          cases hr
          simp only [PeepholeRewrite.number, hna, hc, hB.1, hB.2, if_true]
          rcases htype with ht | ht <;> simp [ht, hne]
        | false => cases hr
  · -- mul
    refine ⟨if za || zb then some (.constant inst.type)
        else if oa then some (.users second) else if ob then some (.users first) else none,
      ?_, ?_, ?_, ?_, ?_, ?_, ?_, ?_, ?_⟩
    · simp only [RunPeepholeOptimizations.rewrite, hc, harg0, harg1, hza, hzb, hoa, hob,
        Outcome.bind]
      rcases htype with ht | ht <;>
        cases za <;> cases zb <;> cases oa <;> cases ob <;> simp [ht, hne, hne2, Outcome.bind]
    · intro h; rw [hc] at h; cases h
    · intro h; rw [hc] at h; cases h
    · intro h; rw [hc] at h; cases h
    · intro h; rw [hc] at h; cases h
    · intro _ h
      rcases h with h | h
      · rw [hza] at h; cases h; rfl
      · rw [hzb] at h; cases h; simp
    · intro _ h1 h2 h3
      rw [hza] at h1; rw [hzb] at h2; rw [hoa] at h3
      cases h1; cases h2; cases h3; rfl
    · intro _ h1 h2 h3 h4
      rw [hza] at h1; rw [hzb] at h2; rw [hoa] at h3; rw [hob] at h4
      cases h1; cases h2; cases h3; cases h4; rfl
    · intro r hr computed
      refine ⟨_, hresult computed, ?_⟩
      have hzero : VmValue.number (RunPeepholeOptimizations.zero store inst.type).2 computed
          (RunPeepholeOptimizations.zero store inst.type).1 = some 0 := by
        rcases htype with ht | ht
        · rw [ht]
          simp [RunPeepholeOptimizations.zero, CreateConstantInt, VmValue.number,
            VmType.modulus]
        · rw [ht]
          simp [RunPeepholeOptimizations.zero, CreateConstantLong, VmValue.number,
            VmType.modulus, hne, hne2]
      by_cases hz : (za || zb) = true
      · rw [if_pos hz] at hr
        cases hr
        simp only [PeepholeRewrite.number, hzero, hc]
        cases za with
        | true =>
          have hA := of_decide_eq_true hza'.symm
          simp only [hA.1, hA.2, if_true]
          rcases htype with ht | ht <;> simp [ht, hne]
        | false =>
          have hzb'' : zb = true := by simpa using hz
          subst hzb''
          have hB := of_decide_eq_true hzb'.symm
          simp only [hB.1, hB.2, if_true]
          rcases htype with ht | ht <;> simp [ht, hne]
      · rw [if_neg hz] at hr
        cases oa with
        | true =>
          have hA := of_decide_eq_true hoa'.symm
          cases hr
          simp only [PeepholeRewrite.number, hnb, hc, hA.1, hA.2, if_true]
          rcases htype with ht | ht <;> simp [ht, hne]
        | false =>
          cases ob with
          | true =>
            have hB := of_decide_eq_true hob'.symm
            cases hr
            simp only [PeepholeRewrite.number, hna, hc, hB.1, hB.2, if_true]
            rcases htype with ht | ht <;> simp [ht, hne]
          | false => cases hr

/-- Witness of C30: in the example block, a sub of type `Int` whose first
operand is the constant 0 and whose second operand is the instruction 1 is
changed to the negation of 1, which stands for the same number when 1 stands
for 7. -/
theorem RunPeepholeOptimizations_preserves_integers_witness :
    ∃ n,
      VmValue.result
        (exampleBlock ++ [{ typeID := .VmConstant, type := VmType.Int, iValue := 0 }])
        (fun _ => 7) (exampleInstruction .VM_INST_SUB [6, 1] [] none none) = some n ∧
      (PeepholeRewrite.negate 1).number
        (exampleBlock ++ [{ typeID := .VmConstant, type := VmType.Int, iValue := 0 }])
        (fun _ => 7) (exampleInstruction .VM_INST_SUB [6, 1] [] none none) = some n := by
  obtain ⟨rewrite, _, _, _, hnegate, _, _, _, _, hsound⟩ :=
    RunPeepholeOptimizations_preserves_integers
      (exampleBlock ++ [{ typeID := .VmConstant, type := VmType.Int, iValue := 0 }])
      (exampleInstruction .VM_INST_SUB [6, 1] [] none none)
      { typeID := .VmConstant, type := VmType.Int, iValue := 0 }
      (exampleInstruction .VM_INST_CALL [] [2] none (some 2)) 6 1
      (Or.inr (Or.inl rfl)) (Or.inl rfl) rfl rfl rfl rfl rfl
  exact hsound (.negate 1) (hnegate rfl (by decide)) (fun _ => 7)

/-! ## Break and continue outside a loop -/

/-- Claim C34, evaluated at the failing input: outside every loop (loop depth
0) a `break` and a `continue` without a number are accepted, and their nodes
carry the depth 1, which is greater than the loop depth; the same statements
with the number 1 are rejected. -/
theorem AnalyzeBreak_accepts_break_outside_loop :
    AnalyzeBreak exampleContext 1 0 none { number := none } =
      some (.ok (.exprBreak none .tVoid 1)) ∧
    AnalyzeContinue exampleContext 1 0 none { number := none } =
      some (.ok (.exprContinue none .tVoid 1)) ∧
    AnalyzeBreak exampleContext 1 0 none { number := some 1 } =
      some (.stop "ERROR: break level is greater that loop depth") ∧
    AnalyzeContinue exampleContext 1 0 none { number := some 1 } =
      some (.stop "ERROR: continue level is greater that loop depth") := by
  refine ⟨rfl, rfl, by decide, by decide⟩

/-! ## The pack of a function whose only formal is the pack -/

/-- Claim C35, evaluated at the failing input: for a function whose only
formal is a pack `auto ref[] args` that is not explicit, called without
actuals, the prepared array is empty when the pack is built.  Without
`prepareValues` the pack is built without a value; with `prepareValues` the
source reads `result[0].value->source`, an element outside the empty array,
before it builds the null literal. -/
theorem PrepareArgumentsForFunctionCall_reads_outside_empty_result :
    PrepareArgumentsForFunctionCall exampleContext [formalOf "args" varArgType] [] false =
      .ok (true, [packArgument "args" none]) ∧
    PrepareArgumentsForFunctionCall.appendDefaults
      ([formalOf "args" varArgType].drop ([] : List ArgumentData).length) [] = [] ∧
    PrepareArgumentsForFunctionCall.packValue exampleContext [formalOf "args" varArgType] [] =
      .undefined "slot index out of range" ∧
    PrepareArgumentsForFunctionCall exampleContext [formalOf "args" varArgType] [] true =
      .undefined "slot index out of range" := by
  refine ⟨by decide, by decide, by decide, by decide⟩

/-- With a prepared argument in front of the pack and no argument left for the
pack, the value of the pack is the null literal converted to `auto ref[]`. -/
theorem PrepareArgumentsForFunctionCall.packValue_null (ctx : ExpressionContext)
    (functionArguments result : List ArgumentData) (first : ArgumentData)
    (firstValue : ExprBase)
    (hfirst : result[0]? = some first) (hvalue : first.value = some firstValue)
    (hlength : result.length ≤ functionArguments.length - 1) :
    PrepareArgumentsForFunctionCall.packValue ctx functionArguments result =
      ctx.CreateCast firstValue.source (.nullptrLiteral firstValue.source .tNullPtr)
        varArgType true := by
  unfold PrepareArgumentsForFunctionCall.packValue
  simp only [hfirst, hvalue, List.drop_eq_nil_of_le hlength,
    PrepareArgumentsForFunctionCall.castTail, Outcome.bind, List.isEmpty_nil, if_true]

/-! ## Number literal theorems -/

/-- Claim C38, evaluated at the failing input: the decimal literal
`18446744073709551615`, whose value `2^64 - 1` is greater than `2^31 - 1`, is
not rejected: `ParseLong` wraps around in its `unsigned long long`, the
`long long` it returns is `-1`, and `AnalyzeNumber` returns the `int` literal
`-1`; likewise the literal `18446744073709551616` gives the `int` literal 0.
The literal `2147483648` is rejected. -/
theorem AnalyzeNumber_decimal_wraps_around :
    decimalValue "18446744073709551615".toList = 18446744073709551615 ∧
    ParseLong "18446744073709551615".toList 10 = .ok (-1) ∧
    AnalyzeNumber (fun _ => 0) (fun bits => bits) none
        { value := "18446744073709551615".toList } =
      .ok (.integerLiteral none .tInt (-1)) ∧
    AnalyzeNumber (fun _ => 0) (fun bits => bits) none
        { value := "18446744073709551616".toList } =
      .ok (.integerLiteral none .tInt 0) ∧
    AnalyzeNumber (fun _ => 0) (fun bits => bits) none { value := "2147483648".toList } =
      .stop "ERROR: overflow in decimal constant" := by
  refine ⟨by decide, by decide, by decide, by decide, by decide⟩

/-- A decimal digit as `ParseLong` reads it. -/
theorem ParseLong.digit_of_isDigit (c : Char) (h : isDigit c = true) :
    48 ≤ c.toNat ∧ c.toNat ≤ 57 ∧ ParseLong.digit c = ((c.toNat - 48 : Nat) : Int) := by
  simp only [isDigit, decide_eq_true_eq] at h
  have h1 : 48 ≤ c.toNat := by
    have := h.1
    rw [Char.le_def] at this
    exact this
  have h2 : c.toNat ≤ 57 := by
    have := h.2
    rw [Char.le_def] at this
    exact this
  refine ⟨h1, h2, ?_⟩
  unfold ParseLong.digit
  rw [if_pos h]
  omega

/-- The value of a digit string modulo 2^64 depends on the start value modulo
2^64 only. -/
theorem decimalValue_congr : ∀ (text : List Char) (a b : Nat),
    a % 18446744073709551616 = b % 18446744073709551616 →
    text.foldl (fun value c => value * 10 + (c.toNat - 48)) a % 18446744073709551616 =
      text.foldl (fun value c => value * 10 + (c.toNat - 48)) b % 18446744073709551616
  | [], _, _, h => h
  | c :: rest, a, b, h => by
    simp only [List.foldl_cons]
    apply decimalValue_congr rest
    omega

/-- The loop of `ParseLong` on decimal digits computes the value of the digit
string modulo 2^64. -/
theorem ParseLong.loop_decimal : ∀ (text : List Char) (res : Nat),
    (∀ c ∈ text, isDigit c = true) → res < 18446744073709551616 →
    ParseLong.loop 10 text res =
      .ok (text.foldl (fun value c => value * 10 + (c.toNat - 48)) res % 18446744073709551616)
  | [], res, _, hres => by
    simp only [ParseLong.loop, List.foldl_nil]
    rw [Nat.mod_eq_of_lt hres]
  | c :: rest, res, hdigits, _ => by
    obtain ⟨h1, h2, h3⟩ := ParseLong.digit_of_isDigit c (hdigits c (by simp))
    have hno : ¬ (ParseLong.digit c < 0 ∨ ParseLong.digit c ≥ ((10 : Nat) : Int)) := by
      rw [h3]
      omega
    simp only [ParseLong.loop, List.foldl_cons]
    rw [if_neg hno, h3, Int.toNat_ofNat,
      ParseLong.loop_decimal rest _ (fun d hd => hdigits d (by simp [hd]))
        (Nat.mod_lt _ (by decide))]
    exact congrArg Outcome.ok (decimalValue_congr rest _ _ (Nat.mod_mod _ _))

/-- The routine `AnalyzeNumber` on an unsuffixed string of decimal digits that
is not a 0 followed by another digit: the value that `ParseLong` returns is
the value of the string modulo 2^64, read as a `long long`; the literal is
an `int` literal of that value when the value is that of its low 32 bits,
and an overflow otherwise. -/
theorem AnalyzeNumber_decimal (ParseDouble : List Char → Nat) (narrow : Nat → Nat)
    (source : Option Nat) (text next : List Char)
    (hdigits : ∀ c ∈ text, isDigit c = true)
    (hoctal : ¬ (text.length > 1 ∧ text[0]? = some '0')) :
    AnalyzeNumber ParseDouble narrow source { value := text, next := next } =
      if toInt32 (toInt64 (decimalValue text)) = toInt64 (decimalValue text) then
        .ok (.integerLiteral source .tInt (toInt64 (decimalValue text)))
      else .stop "ERROR: overflow in decimal constant" := by
  have hhex : ¬ (text.length > 1 ∧ text[1]? = some 'x') := by
    rintro ⟨_, hx⟩
    have := hdigits 'x' (List.mem_iff_getElem?.mpr ⟨1, hx⟩)
    simp [isDigit] at this
  have hfp : text.any (fun c => c = '.' || c = 'e') = false := by
    rw [List.any_eq_false]
    intro c hc
    have := hdigits c hc
    simp only [Bool.or_eq_true, decide_eq_true_eq, not_or]
    constructor
    · rintro rfl
      simp [isDigit] at this
    · rintro rfl
      simp [isDigit] at this
  have hparse : ParseLong text 10 = .ok (toInt64 (decimalValue text)) := by
    unfold ParseLong
    rw [ParseLong.loop_decimal text 0 hdigits (by decide)]
    simp only [Outcome.bind, decimalValue, toInt64, Nat.mod_mod]
  unfold AnalyzeNumber
  simp only [hhex, if_false, hfp, Bool.not_false, if_true, reduceCtorEq, ne_eq,
    not_true_eq_false, hparse, Outcome.bind]
  rw [if_neg (by
    rintro ⟨h1, h2, _⟩
    exact hoctal ⟨h1, h2⟩)]

/-- The decimal literals that `AnalyzeNumber` accepts and rejects, among those
below 2^64: a value of at most `2^31 - 1` gives the `int` literal of that
value, a value from `2^31` up to `2^64 - 2^31 - 1` is rejected as an overflow,
and a value from `2^64 - 2^31` on gives the `int` literal of the value minus
2^64. -/
theorem AnalyzeNumber_decimal_range (ParseDouble : List Char → Nat) (narrow : Nat → Nat)
    (source : Option Nat) (text next : List Char)
    (hdigits : ∀ c ∈ text, isDigit c = true)
    (hoctal : ¬ (text.length > 1 ∧ text[0]? = some '0')) :
    (decimalValue text ≤ 2147483647 →
      AnalyzeNumber ParseDouble narrow source { value := text, next := next } =
        .ok (.integerLiteral source .tInt (decimalValue text))) ∧
    (2147483648 ≤ decimalValue text → decimalValue text < 18446744071562067968 →
      AnalyzeNumber ParseDouble narrow source { value := text, next := next } =
        .stop "ERROR: overflow in decimal constant") ∧
    (18446744071562067968 ≤ decimalValue text → decimalValue text < 18446744073709551616 →
      AnalyzeNumber ParseDouble narrow source { value := text, next := next } =
        .ok (.integerLiteral source .tInt ((decimalValue text : Int) - 18446744073709551616))) := by
  rw [AnalyzeNumber_decimal ParseDouble narrow source text next hdigits hoctal]
  refine ⟨?_, ?_, ?_⟩
  · intro h
    have h64 : toInt64 (decimalValue text) = decimalValue text := by
      unfold toInt64
      rw [Nat.mod_eq_of_lt (by omega), if_pos (by omega)]
    rw [h64, if_pos (by unfold toInt32; omega)]
  · intro h1 h2
    by_cases hhalf : decimalValue text < 9223372036854775808
    · have h64 : toInt64 (decimalValue text) = decimalValue text := by
        unfold toInt64
        rw [Nat.mod_eq_of_lt (by omega), if_pos hhalf]
      rw [h64, if_neg (by unfold toInt32; omega)]
    · have h64 : toInt64 (decimalValue text) =
          (decimalValue text : Int) - 18446744073709551616 := by
        unfold toInt64
        rw [Nat.mod_eq_of_lt (by omega), if_neg hhalf]
      rw [h64, if_neg (by unfold toInt32; omega)]
  · intro h1 h2
    have h64 : toInt64 (decimalValue text) =
        (decimalValue text : Int) - 18446744073709551616 := by
      unfold toInt64
      rw [Nat.mod_eq_of_lt (by omega), if_neg (by omega)]
    rw [h64, if_pos (by unfold toInt32; omega)]

/-! ## IR type theorems -/

/-- The IR type of a class of size 0, and of a sized array or class whose size
passes the assertions of `GetVmType`. -/
theorem GetVmType_mapping_aux (ctx : ExpressionContext) (maxTypeSize : Nat) :
    (∀ type : TypeBase, type.isClass = true → type.size ctx = 0 →
      GetVmType ctx maxTypeSize type = .ok VmType.Int) ∧
    (∀ type : TypeBase, type.isArray = true ∨ type.isClass = true → type.size ctx ≠ 0 →
      type.size ctx % 4 = 0 → type.size ctx < maxTypeSize →
      GetVmType ctx maxTypeSize type = .ok (VmType.Struct (type.size ctx))) := by
  refine ⟨?_, ?_⟩
  · intro type hclass hsize
    cases type <;> simp [TypeBase.isClass] at hclass
    simp [GetVmType, TypeBase.isRef, TypeBase.isFunction, TypeBase.isUnsizedArray,
      TypeBase.isArray, TypeBase.isClass, hsize]
  · intro type hkind hsize hmod hlt
    cases type <;> simp [TypeBase.isClass, TypeBase.isArray] at hkind
    all_goals
      simp [GetVmType, TypeBase.isRef, TypeBase.isFunction, TypeBase.isUnsizedArray,
        TypeBase.isArray, TypeBase.isClass, hsize, hmod, hlt]

/-- Claim C31: `GetVmType` maps `bool`, `char`, `short`, `int` and `typeid` to
`Int`, `long` to `Long`, `float` and `double` to `Double`, every reference
type to `Pointer`, every function type to `FunctionRef`, every unsized array
to `ArrayRef`, `auto ref` to `AutoRef`, `auto[]` to `AutoArray`, and a class
of size 0 to `Int`.  For a sized array or a class of non-zero size `s` the
only IR type it returns is `Struct(s)`, and it returns it when the size
passes the assertions of the routine (a multiple of 4 below
`NULLC_MAX_TYPE_SIZE`). -/
theorem GetVmType_mapping (ctx : ExpressionContext) (maxTypeSize : Nat) :
    GetVmType ctx maxTypeSize .tBool = .ok VmType.Int ∧
    GetVmType ctx maxTypeSize .tChar = .ok VmType.Int ∧
    GetVmType ctx maxTypeSize .tShort = .ok VmType.Int ∧
    GetVmType ctx maxTypeSize .tInt = .ok VmType.Int ∧
    GetVmType ctx maxTypeSize .tTypeID = .ok VmType.Int ∧
    GetVmType ctx maxTypeSize .tLong = .ok VmType.Long ∧
    GetVmType ctx maxTypeSize .tFloat = .ok VmType.Double ∧
    GetVmType ctx maxTypeSize .tDouble = .ok VmType.Double ∧
    (∀ subType, GetVmType ctx maxTypeSize (.ref subType) = .ok (VmType.Pointer ctx.ptrSize)) ∧
    (∀ returnType arguments,
      GetVmType ctx maxTypeSize (.function returnType arguments) =
        .ok (VmType.FunctionRef ctx.ptrSize)) ∧
    (∀ subType,
      GetVmType ctx maxTypeSize (.unsizedArray subType) = .ok (VmType.ArrayRef ctx.ptrSize)) ∧
    GetVmType ctx maxTypeSize .tAutoRef = .ok (VmType.AutoRef ctx.ptrSize) ∧
    GetVmType ctx maxTypeSize .tAutoArray = .ok (VmType.AutoArray ctx.ptrSize) ∧
    (∀ type : TypeBase, type.isClass = true → type.size ctx = 0 →
      GetVmType ctx maxTypeSize type = .ok VmType.Int) ∧
    (∀ (type : TypeBase) (result : VmType), type.isArray = true ∨ type.isClass = true →
      type.size ctx ≠ 0 → GetVmType ctx maxTypeSize type = .ok result →
      result = VmType.Struct (type.size ctx)) ∧
    (∀ type : TypeBase, type.isArray = true ∨ type.isClass = true → type.size ctx ≠ 0 →
      type.size ctx % 4 = 0 → type.size ctx < maxTypeSize →
      GetVmType ctx maxTypeSize type = .ok (VmType.Struct (type.size ctx))) := by
  refine ⟨rfl, rfl, rfl, rfl, rfl, rfl, rfl, rfl, fun _ => rfl, fun _ _ => rfl, fun _ => rfl,
    rfl, rfl, (GetVmType_mapping_aux ctx maxTypeSize).1, ?_,
    (GetVmType_mapping_aux ctx maxTypeSize).2⟩
  intro type result hkind hsize hrun
  cases type <;> simp [TypeBase.isClass, TypeBase.isArray] at hkind
  all_goals
    simp only [GetVmType, TypeBase.isRef, TypeBase.isFunction, TypeBase.isUnsizedArray,
      TypeBase.isArray, TypeBase.isClass, hsize, reduceCtorEq, false_or, or_false, or_true,
      true_or, if_false, if_true, and_false, false_and, Bool.false_eq_true, ne_eq,
      not_true_eq_false, not_false_eq_true] at hrun
    split at hrun
    · cases hrun
    · split at hrun
      · cases hrun
      · exact (Outcome.ok.inj hrun).symm

/-- Witness of C31: in the example context the array `int[4]`, of size 16, is
mapped to `Struct(16)`, and an empty class to `Int`. -/
theorem GetVmType_mapping_witness :
    GetVmType exampleContext 65536 (.array .tInt 4) = .ok (VmType.Struct 16) ∧
    GetVmType exampleContext 65536 (.cls "Empty" none .nil .none) = .ok VmType.Int :=
  ⟨(GetVmType_mapping exampleContext 65536).2.2.2.2.2.2.2.2.2.2.2.2.2.2.2 (.array .tInt 4)
      (Or.inl rfl) (by decide) (by decide) (by decide),
    (GetVmType_mapping exampleContext 65536).2.2.2.2.2.2.2.2.2.2.2.2.2.1
      (.cls "Empty" none .nil .none) rfl (by decide)⟩

/-- Counterexample to C32: in the example context, with the limit 65536,
`GetVmType` reaches the `unknown type` assertion for `auto`, the assertion
`type->size != 0` for an array of four objects of an empty class, and the
assertion `type->size < NULLC_MAX_TYPE_SIZE` for the array `int[16384]`. -/
theorem GetVmType_reaches_assertions :
    GetVmType exampleContext 65536 .tAuto = .undefined "assertion failed: unknown type" ∧
    GetVmType exampleContext 65536 (.array (.cls "Empty" none .nil .none) 4) =
      .undefined "assertion failed: type->size != 0" ∧
    GetVmType exampleContext 65536 (.array .tInt 16384) =
      .undefined "assertion failed: type->size < NULLC_MAX_TYPE_SIZE" := by
  refine ⟨by decide, by decide, by decide⟩

/-- Claim C32, amended: `GetVmType` returns an IR type, without reaching an
assertion, for `void`, `bool`, `char`, `short`, `int`, `long`, `float`,
`double`, `typeid`, every reference, function and unsized array type,
`auto ref`, `auto[]`, every class of size 0 and every sized array or class
whose size is not zero, a multiple of 4 and below `NULLC_MAX_TYPE_SIZE`.  It
reaches the `unknown type` assertion for `auto` and for every generic type
`@name`, and a size assertion for every sized array of size 0 and for every
sized array or class whose size is not zero and not a multiple of 4 or not
below `NULLC_MAX_TYPE_SIZE`. -/
theorem GetVmType_defined (ctx : ExpressionContext) (maxTypeSize : Nat) :
    (∀ type : TypeBase,
      (type = .tVoid ∨ type = .tBool ∨ type = .tChar ∨ type = .tShort ∨ type = .tInt
        ∨ type = .tLong ∨ type = .tFloat ∨ type = .tDouble ∨ type = .tTypeID
        ∨ type.isRef = true ∨ type.isFunction = true ∨ type.isUnsizedArray = true
        ∨ type = .tAutoRef ∨ type = .tAutoArray
        ∨ (type.isClass = true ∧ type.size ctx = 0)
        ∨ ((type.isArray = true ∨ type.isClass = true) ∧ type.size ctx ≠ 0
            ∧ type.size ctx % 4 = 0 ∧ type.size ctx < maxTypeSize)) →
      ∃ result, GetVmType ctx maxTypeSize type = .ok result) ∧
    GetVmType ctx maxTypeSize .tAuto = .undefined "assertion failed: unknown type" ∧
    (∀ name, GetVmType ctx maxTypeSize (.generic name) =
      .undefined "assertion failed: unknown type") ∧
    (∀ type : TypeBase, type.isArray = true → type.size ctx = 0 →
      GetVmType ctx maxTypeSize type = .undefined "assertion failed: type->size != 0") ∧
    (∀ type : TypeBase, type.isArray = true ∨ type.isClass = true → type.size ctx ≠ 0 →
      type.size ctx % 4 ≠ 0 ∨ ¬ type.size ctx < maxTypeSize →
      GetVmType ctx maxTypeSize type =
          .undefined "assertion failed: type->size % 4 == 0" ∨
        GetVmType ctx maxTypeSize type =
          .undefined "assertion failed: type->size < NULLC_MAX_TYPE_SIZE") := by
  refine ⟨?_, rfl, fun _ => rfl, ?_, ?_⟩
  · intro type h
    rcases h with h | h | h | h | h | h | h | h | h | h | h | h | h | h | h | h
    any_goals (subst h; exact ⟨_, rfl⟩)
    · cases type <;> simp [TypeBase.isRef] at h
      exact ⟨_, rfl⟩
    · cases type <;> simp [TypeBase.isFunction] at h
      exact ⟨_, rfl⟩
    · cases type <;> simp [TypeBase.isUnsizedArray] at h
      exact ⟨_, rfl⟩
    · exact ⟨_, (GetVmType_mapping_aux ctx maxTypeSize).1 type h.1 h.2⟩
    · exact ⟨_, (GetVmType_mapping_aux ctx maxTypeSize).2 type h.1 h.2.1 h.2.2.1 h.2.2.2⟩
  · intro type hkind hsize
    cases type <;> simp [TypeBase.isArray] at hkind
    simp [GetVmType, TypeBase.isRef, TypeBase.isFunction, TypeBase.isUnsizedArray,
      TypeBase.isArray, TypeBase.isClass, hsize]
  · intro type hkind hsize hbad
    by_cases hmod : type.size ctx % 4 = 0
    · right
      have hlt : ¬ type.size ctx < maxTypeSize := by
        rcases hbad with hbad | hbad
        · exact absurd hmod hbad
        · exact hbad
      cases type <;> simp [TypeBase.isClass, TypeBase.isArray] at hkind
      all_goals
        simp [GetVmType, TypeBase.isRef, TypeBase.isFunction, TypeBase.isUnsizedArray,
          TypeBase.isArray, TypeBase.isClass, hsize, hmod, hlt]
    · left
      cases type <;> simp [TypeBase.isClass, TypeBase.isArray] at hkind
      all_goals
        simp [GetVmType, TypeBase.isRef, TypeBase.isFunction, TypeBase.isUnsizedArray,
          TypeBase.isArray, TypeBase.isClass, hsize, hmod]

/-- Witness of C32: in the example context `GetVmType` is defined on the array
`int[4]`. -/
theorem GetVmType_defined_witness :
    ∃ result, GetVmType exampleContext 65536 (.array .tInt 4) = .ok result :=
  (GetVmType_defined exampleContext 65536).1 (.array .tInt 4)
    (Or.inr (Or.inr (Or.inr (Or.inr (Or.inr (Or.inr (Or.inr (Or.inr (Or.inr (Or.inr (Or.inr
      (Or.inr (Or.inr (Or.inr (Or.inr
        ⟨Or.inl rfl, by decide, by decide, by decide⟩)))))))))))))))

/-! ## Construction of instructions: theorems -/

/-- Nothing changes when nothing is done. -/
theorem CreateInstruction.Frame.unchanged (inst : Nat) (store : List VmValue) :
    CreateInstruction.Frame inst store store :=
  ⟨rfl, fun _ v _ h => ⟨v, h, rfl, rfl, rfl, rfl, rfl⟩⟩

/-- Frames compose. -/
theorem CreateInstruction.Frame.compose {inst : Nat} {a b c : List VmValue}
    (hab : CreateInstruction.Frame inst a b) (hbc : CreateInstruction.Frame inst b c) :
    CreateInstruction.Frame inst a c := by
  refine ⟨hbc.1.trans hab.1, fun p v hp hv => ?_⟩
  obtain ⟨v1, h1, e1, e2, e3, e4, e5⟩ := hab.2 p v hp hv
  obtain ⟨v2, h2, f1, f2, f3, f4, f5⟩ := hbc.2 p v1 hp h1
  exact ⟨v2, h2, f1.trans e1, f2.trans e2, f3.trans e3, f4.trans e4, f5.trans e5⟩

/-- A write of the users, the parent or a sibling pointer of a value is within
the frame of every instruction. -/
theorem CreateInstruction.Frame.set (inst : Nat) (store : List VmValue) (p : Nat)
    (old new : VmValue) (hold : store[p]? = some old)
    (hsame : new.typeID = old.typeID ∧ new.type = old.type ∧ new.iValue = old.iValue ∧
      new.firstInstruction = old.firstInstruction ∧ new.lastInstruction = old.lastInstruction) :
    CreateInstruction.Frame inst store (store.set p new) := by
  have hlt : p < store.length := (List.getElem?_eq_some_iff.mp hold).1
  refine ⟨List.length_set _ _ _, fun q v _ hv => ?_⟩
  by_cases hqp : q = p
  · subst hqp
    rw [hold] at hv
    cases hv
    exact ⟨new, List.getElem?_set_self hlt, hsame⟩
  · exact ⟨v, by rw [List.getElem?_set_ne (Ne.symm hqp)]; exact hv, rfl, rfl, rfl, rfl, rfl⟩

/-- A write to the instruction itself is within its frame. -/
theorem CreateInstruction.Frame.set_self (inst : Nat) (store : List VmValue) (new : VmValue) :
    CreateInstruction.Frame inst store (store.set inst new) :=
  ⟨List.length_set _ _ _, fun q v hq hv =>
    ⟨v, by rw [List.getElem?_set_ne (Ne.symm hq)]; exact hv, rfl, rfl, rfl, rfl, rfl⟩⟩

/-- The method `AddArgument` on an operand that is a value of a type other than
`Void`: the operand is appended to the operands of the instruction. -/
theorem AddArgument.appends (store : List VmValue) (instruction argument : Nat)
    (inst arg : VmValue)
    (hinst : store[instruction]? = some inst) (harg : store[argument]? = some arg)
    (hne : argument ≠ instruction) (htype : arg.type ≠ VmType.Void) :
    ∃ after, AddArgument store instruction argument = .ok after ∧
      CreateInstruction.Frame instruction store after ∧
      after[instruction]? = some { inst with arguments := inst.arguments ++ [argument] } := by
  have hilt : instruction < store.length := (List.getElem?_eq_some_iff.mp hinst).1
  have harg1 : (store.set instruction
      { inst with arguments := inst.arguments ++ [argument] })[argument]? = some arg := by
    rw [List.getElem?_set_ne (Ne.symm hne)]; exact harg
  refine ⟨(store.set instruction { inst with arguments := inst.arguments ++ [argument] }).set
    argument { arg with users := arg.users ++ [instruction] }, ?_, ?_, ?_⟩
  · simp only [AddArgument, VmValue.read, harg, hinst, Outcome.bind, htype, if_false, AddUse,
      harg1]
  · exact (CreateInstruction.Frame.set_self instruction store _).compose
      (CreateInstruction.Frame.set instruction _ argument arg _ harg1 ⟨rfl, rfl, rfl, rfl, rfl⟩)
  · rw [List.getElem?_set_ne hne]
    exact List.getElem?_set_self hilt

/-- The statement `if(argument) inst->AddArgument(argument)`. -/
theorem AddArgument.optional_appends (store : List VmValue) (instruction : Nat)
    (argument : Option Nat) (inst : VmValue)
    (hinst : store[instruction]? = some inst)
    (harg : ∀ a, argument = some a →
      a ≠ instruction ∧ ∃ v, store[a]? = some v ∧ v.type ≠ VmType.Void) :
    ∃ after, AddArgument.optional store instruction argument = .ok after ∧
      CreateInstruction.Frame instruction store after ∧
      after[instruction]? =
        some { inst with arguments := inst.arguments ++ argument.toList } := by
  cases argument with
  | none =>
    refine ⟨store, rfl, CreateInstruction.Frame.unchanged _ _, ?_⟩
    simp [hinst]
  | some a =>
    obtain ⟨hne, v, hv, ht⟩ := harg a rfl
    exact AddArgument.appends store instruction a inst v hinst hv hne ht

/-- The method `AddInstruction` for a new instruction and a block whose last
instruction, when it has instructions, is a value: the instruction becomes a
child of the block and keeps its class, type, command, operands and flag. -/
theorem AddInstruction.links (store : List VmValue) (block instruction : Nat)
    (blockValue inst : VmValue)
    (hblock : store[block]? = some blockValue) (hinst : store[instruction]? = some inst)
    (hkind : blockValue.typeID = .VmBlock) (hclass : inst.typeID = .VmInstruction)
    (hparent : inst.parent = none)
    (hlast : blockValue.firstInstruction ≠ none →
      ∃ last, blockValue.lastInstruction = some last ∧ last ≠ instruction ∧
        last < store.length) :
    ∃ after new, AddInstruction store block instruction = .ok after ∧
      after.length = store.length ∧
      after[instruction]? = some new ∧ new.typeID = inst.typeID ∧ new.type = inst.type ∧
      new.cmd = inst.cmd ∧ new.arguments = inst.arguments ∧
      new.hasSideEffects = inst.hasSideEffects ∧ new.parent = some block := by
  have hilt : instruction < store.length := (List.getElem?_eq_some_iff.mp hinst).1
  have hblt : block < store.length := (List.getElem?_eq_some_iff.mp hblock).1
  have hne : block ≠ instruction := by
    intro h
    rw [h, hinst] at hblock
    cases hblock
    rw [hkind] at hclass
    cases hclass
  have hguard : ¬ (blockValue.typeID ≠ .VmBlock ∨ inst.typeID ≠ .VmInstruction) := by
    rw [hkind, hclass]
    simp
  have hfree : ¬ (inst.parent ≠ none) := by
    rw [hparent]
    simp
  simp only [AddInstruction, VmValue.read, hblock, hinst, Outcome.bind]
  rw [if_neg hguard, if_neg hfree]
  rcases hfirst : blockValue.firstInstruction with _ | first
  · refine ⟨_, { inst with parent := some block }, rfl, ?_, ?_, rfl, rfl, rfl, rfl, rfl, rfl⟩
    · simp
    · rw [List.getElem?_set_ne hne]
      exact List.getElem?_set_self hilt
  · obtain ⟨last, hl, hli, hllt⟩ := hlast (by rw [hfirst]; simp)
    simp only [hl]
    have h1 : ∃ lastValue, (store.set instruction { inst with parent := some block })[last]? =
        some lastValue := by
      rw [List.getElem?_set_ne (Ne.symm hli)]
      exact ⟨store[last], List.getElem?_eq_getElem hllt⟩
    obtain ⟨lastValue, hlv⟩ := h1
    have h2 : ((store.set instruction { inst with parent := some block }).set last
        { lastValue with nextSibling := some instruction })[instruction]? =
          some { inst with parent := some block } := by
      rw [List.getElem?_set_ne hli]
      exact List.getElem?_set_self hilt
    have h3 : ∃ blockValue', (((store.set instruction { inst with parent := some block }).set last
        { lastValue with nextSibling := some instruction }).set instruction
          { inst with parent := some block, prevSibling := some last })[block]? =
            some blockValue' := by
      refine ⟨_, List.getElem?_eq_getElem ?_⟩
      simp only [List.length_set]
      exact hblt
    obtain ⟨blockValue', hbv⟩ := h3
    simp only [hlv, h2, hbv]
    refine ⟨_, { inst with parent := some block, prevSibling := some last }, rfl, ?_, ?_,
      rfl, rfl, rfl, rfl, rfl, rfl⟩
    · simp
    · rw [List.getElem?_set_ne hne]
      refine List.getElem?_set_self ?_
      simp only [List.length_set]
      exact hilt

/-- The routine `CreateInstruction` in a module whose current block is a block
whose last instruction, when it has instructions, is a value, on operands that
are values of types other than `Void`: the new instruction is the next value
of the module, it has the given type and command, the operands in order, and
the current block as its parent. -/
theorem CreateInstruction.creates (module : VmModule) (type : VmType) (cmd : VmInstructionType)
    (first second third : Option Nat) (block : Nat) (blockValue : VmValue)
    (hcurrent : module.currentBlock = some block)
    (hblock : module.values[block]? = some blockValue)
    (hkind : blockValue.typeID = .VmBlock)
    (hlast : blockValue.firstInstruction ≠ none →
      ∃ last, blockValue.lastInstruction = some last ∧ last < module.values.length)
    (hfirst : ∀ a, first = some a → ∃ v, module.values[a]? = some v ∧ v.type ≠ VmType.Void)
    (hsecond : ∀ a, second = some a → ∃ v, module.values[a]? = some v ∧ v.type ≠ VmType.Void)
    (hthird : ∀ a, third = some a → ∃ v, module.values[a]? = some v ∧ v.type ≠ VmType.Void) :
    ∃ after inst,
      CreateInstruction module type cmd first second third =
        .ok (module.values.length, after) ∧
      after.values[module.values.length]? = some inst ∧
      inst.typeID = .VmInstruction ∧ inst.type = type ∧ inst.cmd = cmd ∧
      inst.arguments = first.toList ++ second.toList ++ third.toList ∧
      inst.hasSideEffects = HasSideEffects cmd ∧ inst.parent = some block := by
  have old : ∀ (p : Nat) (v : VmValue), module.values[p]? = some v →
      p ≠ module.values.length ∧
        (module.values ++ [({ typeID := .VmInstruction, type := type, cmd := cmd } : VmValue)])[p]?
          = some v := by
    intro p v hv
    have hlt : p < module.values.length := (List.getElem?_eq_some_iff.mp hv).1
    exact ⟨by omega, by rw [List.getElem?_append_left hlt]; exact hv⟩
  have hnew : (module.values ++
      [({ typeID := .VmInstruction, type := type, cmd := cmd } : VmValue)])[module.values.length]?
        = some { typeID := .VmInstruction, type := type, cmd := cmd } := by
    simp
  obtain ⟨s1, hrun1, hframe1, hinst1⟩ := AddArgument.optional_appends _ module.values.length first _
    hnew (fun a ha => by
      obtain ⟨v, hv, ht⟩ := hfirst a ha
      exact ⟨(old a v hv).1, v, (old a v hv).2, ht⟩)
  obtain ⟨s2, hrun2, hframe2, hinst2⟩ := AddArgument.optional_appends s1 module.values.length second
    _ hinst1 (fun a ha => by
      obtain ⟨v, hv, ht⟩ := hsecond a ha
      obtain ⟨v', hv', _, ht', _⟩ := hframe1.2 a v (old a v hv).1 (old a v hv).2
      exact ⟨(old a v hv).1, v', hv', by rw [ht']; exact ht⟩)
  obtain ⟨s3, hrun3, hframe3, hinst3⟩ := AddArgument.optional_appends s2 module.values.length third
    _ hinst2 (fun a ha => by
      obtain ⟨v, hv, ht⟩ := hthird a ha
      obtain ⟨v', hv', _, ht', _⟩ :=
        (hframe1.compose hframe2).2 a v (old a v hv).1 (old a v hv).2
      exact ⟨(old a v hv).1, v', hv', by rw [ht']; exact ht⟩)
  have hframe := ((hframe1.compose hframe2).compose hframe3).compose
    (CreateInstruction.Frame.set_self module.values.length s3
      { typeID := .VmInstruction, type := type, cmd := cmd,
        arguments := [] ++ first.toList ++ second.toList ++ third.toList,
        hasSideEffects := HasSideEffects cmd })
  obtain ⟨blockValue', hblock', hk', _, _, hf', hl'⟩ :=
    hframe.2 block blockValue (old block blockValue hblock).1 (old block blockValue hblock).2
  have hlen3 : module.values.length < s3.length := by
    rw [((hframe1.compose hframe2).compose hframe3).1]
    simp
  obtain ⟨after, new, hrun4, _, hget, e1, e2, e3, e4, e5, e6⟩ :=
    AddInstruction.links _ block module.values.length blockValue' _ hblock'
      (List.getElem?_set_self hlen3) (hk'.trans hkind) rfl rfl (fun h => by
        rw [hf'] at h
        obtain ⟨last, hl, hlt⟩ := hlast h
        refine ⟨last, by rw [hl']; exact hl, by omega, ?_⟩
        rw [hframe.1]
        simp
        omega)
  refine ⟨{ module with values := after, nextInstructionId := module.nextInstructionId + 1 },
    new, ?_, hget, e1, e2, e3, ?_, e5, e6⟩
  · simp only [CreateInstruction, hcurrent, hrun1, hrun2, hrun3, Outcome.bind, VmValue.read,
      hinst3, hrun4]
  · rw [e4]
    simp

/-- Claim C39, evaluated at the failing input: for the type `void`, which
`GetVmType` maps to the IR type `Void`, `CreateLoad` finds the size 0 and
returns a new constant `Int 0`, the value 4 of the example module, whose IR
type is `Int`; the assertion of `CheckType` for an expression of type `void`
with this value fails.  This is the load that the lowering of a conditional
expression of type `void` passes to `CheckType`. -/
theorem CreateLoad_void_is_not_void :
    GetVmType exampleContext 65536 .tVoid = .ok VmType.Void ∧
    CreateLoad exampleContext 65536 false exampleModule .tVoid 1 =
      .ok (4, { exampleModule with
        values := exampleModule.values ++
          [{ typeID := .VmConstant, type := VmType.Int, iValue := 0 }] }) ∧
    CheckType exampleContext 65536
        (exampleModule.values ++ [{ typeID := .VmConstant, type := VmType.Int, iValue := 0 }])
        .tVoid 4 =
      .undefined "assertion failed: exprType == value->type" ∧
    CheckType exampleContext 65536
        (exampleModule.values ++ [{ typeID := .VmConstant, type := VmType.Int, iValue := 0 }])
        .tInt 4 = .ok 4 := by
  refine ⟨by decide, by decide, by decide, by decide⟩

/-- For every type other than `void` that `GetVmType` maps to an IR type, the
value that `CreateLoad` produces has this IR type (in a module whose current
block is a block whose last instruction, when it has instructions, is a value,
and for an address that is a value of a type other than `Void`). -/
theorem CreateLoad.type_eq (ctx : ExpressionContext) (maxTypeSize : Nat) (x64 : Bool)
    (module : VmModule) (type : TypeBase) (address block : Nat)
    (blockValue addressValue : VmValue) (result : VmType)
    (hcurrent : module.currentBlock = some block)
    (hblock : module.values[block]? = some blockValue)
    (hkind : blockValue.typeID = .VmBlock)
    (hlast : blockValue.firstInstruction ≠ none →
      ∃ last, blockValue.lastInstruction = some last ∧ last < module.values.length)
    (haddress : module.values[address]? = some addressValue)
    (hpointer : addressValue.type ≠ VmType.Void)
    (hvoid : type ≠ .tVoid)
    (htype : GetVmType ctx maxTypeSize type = .ok result) :
    ∃ after value,
      CreateLoad ctx maxTypeSize x64 module type address = .ok (module.values.length, after) ∧
      after.values[module.values.length]? = some value ∧ value.type = result := by
  have create : ∀ (irType : VmType) (cmd : VmInstructionType), irType = result →
      ∃ after value,
        CreateInstruction module irType cmd (some address) none none =
          .ok (module.values.length, after) ∧
        after.values[module.values.length]? = some value ∧ value.type = result := by
    intro irType cmd hir
    obtain ⟨after, inst, hrun, hget, _, e2, _⟩ :=
      CreateInstruction.creates module irType cmd (some address) none none block blockValue
        hcurrent hblock hkind hlast
        (fun a ha => by cases ha; exact ⟨addressValue, haddress, hpointer⟩)
        (fun a ha => by cases ha) (fun a ha => by cases ha)
    exact ⟨after, inst, hrun, hget, e2.trans hir⟩
  have ok : ∀ a b : VmType, (Outcome.ok a : Outcome VmType) = .ok b → a = b :=
    fun a b h => Outcome.ok.inj h
  by_cases hsize : type.size ctx = 0
  · cases type <;>
      simp only [GetVmType, TypeBase.isRef, TypeBase.isFunction, TypeBase.isUnsizedArray,
        TypeBase.isArray, TypeBase.isClass, reduceCtorEq, false_or, or_false, or_true,
        true_or, if_false, if_true, and_false, false_and, true_and, Bool.false_eq_true, ne_eq,
        not_true_eq_false, not_false_eq_true, or_self, hsize, Nat.zero_mod] at htype <;>
      first
        | exact absurd rfl hvoid
        | (cases htype; done)
        | (simp only [CreateLoad, TypeBase.isRef, TypeBase.isFunction, TypeBase.isUnsizedArray,
            reduceCtorEq, false_or, or_false, or_true, true_or, if_false, if_true,
            Bool.false_eq_true, or_self, hsize]
           first
             | exact create _ _ (ok _ _ htype)
             | exact ⟨_, { typeID := .VmConstant, type := VmType.Int, iValue := 0 }, rfl,
                 by simp [CreateConstantInt], ok _ _ htype⟩)
  · cases type <;>
      simp only [GetVmType, TypeBase.isRef, TypeBase.isFunction, TypeBase.isUnsizedArray,
        TypeBase.isArray, TypeBase.isClass, reduceCtorEq, false_or, or_false, or_true,
        true_or, if_false, if_true, and_false, false_and, true_and, Bool.false_eq_true, ne_eq,
        not_true_eq_false, not_false_eq_true, or_self, hsize] at htype <;>
      first
        | exact absurd rfl hvoid
        | (cases htype; done)
        | (simp only [CreateLoad, TypeBase.isRef, TypeBase.isFunction, TypeBase.isUnsizedArray,
            reduceCtorEq, false_or, or_false, or_true, true_or, if_false, if_true,
            Bool.false_eq_true, or_self, hsize]
           exact create _ _ (ok _ _ htype))
        | (split at htype
           · cases htype
           · split at htype
             · cases htype
             · rename_i hmod hlt
               simp only [CreateLoad, TypeBase.isRef, TypeBase.isFunction,
                 TypeBase.isUnsizedArray, reduceCtorEq, false_or, or_false, or_true, true_or,
                 if_false, if_true, Bool.false_eq_true, or_self, hsize]
               rw [if_neg hmod, if_neg hlt]
               exact create _ _ (ok _ _ htype))

/-- Counterexample to C33: in the example module the value 2 has the IR type
`FunctionRef` and the value 3 is the null pointer constant.
`CreateCompareEqual` fails its assertion on the type of the left operand. -/
theorem CreateCompareEqual_rejects_null_comparison :
    (exampleModule.values[2]?).map VmValue.type = some (VmType.FunctionRef 4) ∧
    (exampleModule.values[3]?).map
        (fun value => (value.typeID, value.type, value.iValue)) =
      some (.VmConstant, VmType.Pointer 4, 0) ∧
    CreateCompareEqual exampleModule 2 3 =
      .undefined "assertion failed: lhs->type is Int, Double or Long" := by
  refine ⟨by decide, by decide, by decide⟩

/-- Claim C33, amended: in a module whose current block is a block whose last
instruction, when it has instructions, is a value, for a left operand of IR
type `FunctionRef`, `ArrayRef` or `AutoRef` and a right operand that is a
constant of type `Pointer` with the value 0, `CreateCompareNotEqual` fails no
assertion and emits the instruction `not_equal` of type `Int` on the two
operands; `CreateCompareEqual` has no such case: it fails its assertion on
the type of the left operand. -/
theorem CreateCompareNotEqual_accepts_null_comparison (ptrSize : Nat) (module : VmModule)
    (lhs rhs block : Nat) (lhsValue rhsValue blockValue : VmValue)
    (hcurrent : module.currentBlock = some block)
    (hblock : module.values[block]? = some blockValue)
    (hkind : blockValue.typeID = .VmBlock)
    (hlast : blockValue.firstInstruction ≠ none →
      ∃ last, blockValue.lastInstruction = some last ∧ last < module.values.length)
    (hlhs : module.values[lhs]? = some lhsValue)
    (hrhs : module.values[rhs]? = some rhsValue)
    (hleft : lhsValue.type = VmType.FunctionRef ptrSize ∨ lhsValue.type = VmType.ArrayRef ptrSize
      ∨ lhsValue.type = VmType.AutoRef ptrSize)
    (hright : rhsValue.type = VmType.Pointer ptrSize ∧ rhsValue.typeID = .VmConstant
      ∧ rhsValue.iValue = 0) :
    (∃ after inst,
      CreateCompareNotEqual ptrSize module lhs rhs = .ok (module.values.length, after) ∧
      after.values[module.values.length]? = some inst ∧
      inst.typeID = .VmInstruction ∧ inst.type = VmType.Int ∧
      inst.cmd = .VM_INST_NOT_EQUAL ∧ inst.arguments = [lhs, rhs] ∧
      inst.parent = some block) ∧
    CreateCompareEqual module lhs rhs =
      .undefined "assertion failed: lhs->type is Int, Double or Long" := by
  have hl : lhsValue.type ≠ VmType.Void ∧ lhsValue.type ≠ VmType.Int ∧
      lhsValue.type ≠ VmType.Double ∧ lhsValue.type ≠ VmType.Long := by
    rcases hleft with h | h | h <;> rw [h] <;>
      simp [VmType.FunctionRef, VmType.ArrayRef, VmType.AutoRef, VmType.Void, VmType.Int,
        VmType.Double, VmType.Long]
  have hr : rhsValue.type ≠ VmType.Void := by
    rw [hright.1]
    simp [VmType.Pointer, VmType.Void]
  refine ⟨?_, ?_⟩
  · obtain ⟨after, inst, hrun, hget, e1, e2, e3, e4, _, e6⟩ :=
      CreateInstruction.creates module VmType.Int .VM_INST_NOT_EQUAL (some lhs) (some rhs) none
        block blockValue hcurrent hblock hkind hlast
        (fun a ha => by cases ha; exact ⟨lhsValue, hlhs, hl.1⟩)
        (fun a ha => by cases ha; exact ⟨rhsValue, hrhs, hr⟩)
        (fun a ha => by cases ha)
    refine ⟨after, inst, ?_, hget, e1, e2, e3, by simpa using e4, e6⟩
    simp only [CreateCompareNotEqual, VmValue.read, hlhs, hrhs, Outcome.bind]
    rw [if_pos ⟨hleft, hright⟩]
    exact hrun
  · simp only [CreateCompareEqual, VmValue.read, hlhs, hrhs, Outcome.bind]
    simp [hl.2.1, hl.2.2.1, hl.2.2.2]

/-- Witness of C33: in the example module, the comparison of the function
value 2 with the null pointer constant 3 by `CreateCompareNotEqual` gives the
new instruction 4, of type `Int`. -/
theorem CreateCompareNotEqual_accepts_null_comparison_witness :
    ∃ after inst,
      CreateCompareNotEqual 4 exampleModule 2 3 = .ok (4, after) ∧
      after.values[4]? = some inst ∧
      inst.typeID = .VmInstruction ∧ inst.type = VmType.Int ∧
      inst.cmd = .VM_INST_NOT_EQUAL ∧ inst.arguments = [2, 3] ∧ inst.parent = some 0 :=
  (CreateCompareNotEqual_accepts_null_comparison 4 exampleModule 2 3 0
    { typeID := .VmInstruction, type := VmType.FunctionRef 4, cmd := .VM_INST_LOAD_STRUCT,
      arguments := [1], parent := some 0 }
    { typeID := .VmConstant, type := VmType.Pointer 4, iValue := 0 }
    { typeID := .VmBlock, type := VmType.Label, firstInstruction := some 2,
      lastInstruction := some 2 }
    rfl rfl rfl (fun _ => ⟨2, rfl, by decide⟩) rfl rfl (Or.inl rfl) ⟨rfl, rfl, rfl⟩).1

/-! ## The candidate with the least rating -/

/-- The candidate whose rating at the end of the loop of `SelectBestFunction`
is not incompatible and is lower than the rating of every other candidate is
the one returned. -/
theorem SelectBestFunction.least_before_hiding (functions : List FunctionValue)
    (state : SelectState) (i : Nat) (candidate : FunctionValue) (rating : Nat)
    (hinv : SelectInvariant functions functions.length state)
    (hcandidate : functions[i]? = some candidate)
    (hrating : state.ratings[i]? = some rating)
    (hcompatible : rating ≠ incompatible)
    (hunique : ∀ (k r : Nat), k ≠ i → state.ratings[k]? = some r → rating < r) :
    (if state.bestGenericRating < state.bestRating then state.bestGenericFunction
      else state.bestFunction) = some candidate := by
  have hilt : i < functions.length := (List.getElem?_eq_some_iff.mp hcandidate).1
  have hle := hinv.rated_le i rating hilt hrating
  have hbest : ∀ b, state.bestFunction = some b → state.bestRating ≤ rating →
      b = candidate := by
    intro b hb hbr
    obtain ⟨k, _, hk, hkr, _, _⟩ := hinv.best_some b hb
    by_cases hki : k = i
    · subst hki
      rw [hcandidate] at hk
      exact (Option.some.inj hk).symm
    · have := hunique k _ hki hkr
      omega
  have hgeneric : ∀ g, state.bestGenericFunction = some g →
      state.bestGenericRating ≤ rating → g = candidate := by
    intro g hg hgr
    obtain ⟨k, _, hk, hkr, _⟩ := hinv.generic_some g hg
    by_cases hki : k = i
    · subst hki
      rw [hcandidate] at hk
      exact (Option.some.inj hk).symm
    · have := hunique k _ hki hkr
      omega
  have hown : (IsGenericFunction candidate.function = true →
        state.bestGenericRating ≤ rating) ∧
      (IsGenericFunction candidate.function = false → state.bestRating ≤ rating) :=
    ⟨fun h => hinv.generic_ge i candidate rating hilt hcandidate h hrating,
      fun h => hinv.concrete_ge i candidate rating hilt hcandidate h hrating hcompatible⟩
  by_cases hlt : state.bestGenericRating < state.bestRating
  · rw [if_pos hlt]
    have hle2 : state.bestGenericRating ≤ rating := by
      cases hgen : IsGenericFunction candidate.function with
      | true => exact hown.1 hgen
      | false =>
        have := hown.2 hgen
        omega
    rcases hg : state.bestGenericFunction with _ | g
    · have := hinv.generic_none hg
      omega
    · rw [hgeneric g hg hle2]
  · rw [if_neg hlt]
    have hle2 : state.bestRating ≤ rating := by
      cases hgen : IsGenericFunction candidate.function with
      | true =>
        have := hown.1 hgen
        omega
      | false => exact hown.2 hgen
    rcases hb : state.bestFunction with _ | b
    · have := hinv.best_none hb
      omega
    · rw [hbest b hb hle2]

/-- Claim C37: when the rating of the candidate at index `i` is not
incompatible (`~0u`) and is lower than the rating of every other candidate,
concrete or generic, `SelectBestFunction` returns that candidate.  This holds
for the ratings that the function leaves in `ratings` on return, where the
generic candidates are reset when none of them is selected, and for the
ratings at the end of its loop, before that reset.  The candidate list and the
index are arbitrary, so this holds in every order of the candidates. -/
theorem SelectBestFunction_unique_minimum (ctx : ExpressionContext)
    (functions : List FunctionValue) (generics : TypeList) (arguments : List ArgumentData)
    (stored : Nat → Nat) (best : Option FunctionValue) (ratings : List Nat) (i : Nat)
    (candidate : FunctionValue)
    (hrun : SelectBestFunction ctx functions generics arguments stored = .ok (best, ratings))
    (hcandidate : functions[i]? = some candidate) :
    (∀ rating : Nat, ratings[i]? = some rating → rating ≠ incompatible →
      (∀ (k r : Nat), k ≠ i → ratings[k]? = some r → rating < r) →
      SelectBestFunction ctx functions generics arguments stored =
        .ok (some candidate, ratings)) ∧
    (∀ (state : SelectState) (rating : Nat),
      SelectBestFunction.loop ctx generics arguments functions 0
        { ratings := (List.range functions.length).map stored, bestRating := incompatible,
          bestFunction := none, bestGenericRating := incompatible,
          bestGenericFunction := none } = .ok state →
      state.ratings[i]? = some rating → rating ≠ incompatible →
      (∀ (k r : Nat), k ≠ i → state.ratings[k]? = some r → rating < r) →
      SelectBestFunction ctx functions generics arguments stored =
        .ok (some candidate, ratings)) := by
  obtain ⟨state, hloop, hinv, hcase⟩ :=
    SelectBestFunction.post ctx functions generics arguments stored best ratings hrun
  have hilt : i < functions.length := (List.getElem?_eq_some_iff.mp hcandidate).1
  have hreturned : best = (if state.bestGenericRating < state.bestRating then
      state.bestGenericFunction else state.bestFunction) := by
    rcases hcase with ⟨hlt, hbest, _⟩ | ⟨hnlt, hbest, _⟩
    · rw [if_pos hlt, hbest]
    · rw [if_neg hnlt, hbest]
  refine ⟨?_, ?_⟩
  · intro rating hrating hcompatible hunique
    rw [hrun]
    refine congrArg (fun selected => Outcome.ok (selected, ratings)) ?_
    rcases hcase with ⟨hlt, _, hratings⟩ | ⟨hnlt, hbest, hratings⟩
    · subst hratings
      rw [hreturned]
      exact SelectBestFunction.least_before_hiding functions state i candidate rating hinv
        hcandidate hrating hcompatible hunique
    · -- the generic candidates were reset: the candidate is concrete
      obtain ⟨r0, hr0⟩ : ∃ r0, state.ratings[i]? = some r0 :=
        ⟨_, List.getElem?_eq_getElem (by rw [hinv.length_eq]; exact hilt)⟩
      have hhide := SelectBestFunction.hideGenerics_getElem functions state.ratings i candidate
        r0 hcandidate hr0
      rw [← hratings, hrating] at hhide
      have hconcrete : IsGenericFunction candidate.function = false := by
        by_contra hgen
        rw [if_pos (by simpa using hgen)] at hhide
        exact hcompatible (Option.some.inj hhide)
      rw [if_neg (by simp [hconcrete])] at hhide
      have hr : r0 = rating := (Option.some.inj hhide).symm
      subst hr
      have hle := hinv.concrete_ge i candidate r0 hilt hcandidate hconcrete hr0 hcompatible
      have hne : state.bestRating ≠ incompatible := by
        have := hinv.rated_le i r0 hilt hr0
        omega
      rcases hb : state.bestFunction with _ | b
      · exact absurd (hinv.best_none hb) hne
      · obtain ⟨k, _, hk, hkr, hkc, _⟩ := hinv.best_some b hb
        rw [hbest, hb]
        by_cases hki : k = i
        · subst hki
          rw [hcandidate] at hk
          rw [← Option.some.inj hk]
        · exfalso
          have hhide' := SelectBestFunction.hideGenerics_getElem functions state.ratings k b
            state.bestRating hk hkr
          rw [if_neg (by simp [hkc]), ← hratings] at hhide'
          have := hunique k _ hki hhide'
          omega
  · intro state' rating hloop' hrating hcompatible hunique
    rw [hloop] at hloop'
    cases hloop'
    rw [hrun]
    refine congrArg (fun selected => Outcome.ok (selected, ratings)) ?_
    rw [hreturned]
    exact SelectBestFunction.least_before_hiding functions state i candidate rating hinv
      hcandidate hrating hcompatible hunique

/-- Witness of C37: of the concrete `f(int)` and the concrete `f(double)`,
called with an `int`, the function `f(int)`, whose rating 0 is the only least
rating, is selected when it is the first candidate and when it is the
second. -/
theorem SelectBestFunction_unique_minimum_witness :
    SelectBestFunction exampleContext
        [{ function := functionOf 1 "f" .tInt [formalOf "x" .tInt], context := noContext },
         { function := functionOf 2 "f" .tInt [formalOf "x" .tDouble], context := noContext }]
        .nil [actualOf "" .tInt 7] (fun _ => 0) =
      .ok (some { function := functionOf 1 "f" .tInt [formalOf "x" .tInt],
                  context := noContext }, [0, 1]) ∧
    SelectBestFunction exampleContext
        [{ function := functionOf 2 "f" .tInt [formalOf "x" .tDouble], context := noContext },
         { function := functionOf 1 "f" .tInt [formalOf "x" .tInt], context := noContext }]
        .nil [actualOf "" .tInt 7] (fun _ => 0) =
      .ok (some { function := functionOf 1 "f" .tInt [formalOf "x" .tInt],
                  context := noContext }, [1, 0]) :=
  ⟨(SelectBestFunction_unique_minimum exampleContext
      [{ function := functionOf 1 "f" .tInt [formalOf "x" .tInt], context := noContext },
       { function := functionOf 2 "f" .tInt [formalOf "x" .tDouble], context := noContext }]
      .nil [actualOf "" .tInt 7] (fun _ => 0)
      (some { function := functionOf 1 "f" .tInt [formalOf "x" .tInt], context := noContext })
      [0, 1] 0 { function := functionOf 1 "f" .tInt [formalOf "x" .tInt], context := noContext }
      (by decide) rfl).1 0 rfl (by decide) (by
        intro k r hk hr
        match k, hk, hr with
        | 1, _, hr => simp at hr; omega
        | k + 2, _, hr => simp at hr),
    (SelectBestFunction_unique_minimum exampleContext
      [{ function := functionOf 2 "f" .tInt [formalOf "x" .tDouble], context := noContext },
       { function := functionOf 1 "f" .tInt [formalOf "x" .tInt], context := noContext }]
      .nil [actualOf "" .tInt 7] (fun _ => 0)
      (some { function := functionOf 1 "f" .tInt [formalOf "x" .tInt], context := noContext })
      [1, 0] 1 { function := functionOf 1 "f" .tInt [formalOf "x" .tInt], context := noContext }
      (by decide) rfl).1 0 rfl (by decide) (by
        intro k r hk hr
        match k, hk, hr with
        | 0, _, hr => simp at hr; omega
        | k + 2, _, hr => simp at hr)⟩

/-! ## Termination of the unification of generic types -/

/-- Every type has at least one descriptor. -/
theorem TypeBase.nodes_pos (type : TypeBase) : 1 ≤ type.nodes := by
  cases type <;> simp [TypeBase.nodes]

/-- A wrapped result is a result. -/
theorem MatchGenericType.wrap_some (wrap : TypeBase → TypeBase) (result : MatchResult) :
    ∃ wrapped, MatchGenericType.wrap wrap (some result) = some wrapped := by
  rcases result with ⟨⟨_ | _, _⟩⟩ | _ | _ <;> exact ⟨_, rfl⟩

/-- The loop over the argument types of two function types returns when the
calls on the pairs of argument types return. -/
theorem MatchGenericType.arguments_some
    (recurse : TypeBase → TypeBase → MatchList → Bool → Option MatchResult) (bound : Nat)
    (hrecurse : ∀ (lhs rhs : TypeBase) (aliases : MatchList) (strict : Bool),
      lhs.nodes + rhs.nodes ≤ bound → ∃ result, recurse lhs rhs aliases strict = some result) :
    ∀ (lhs rhs : TypeList) (aliases : MatchList) (arguments : TypeList),
      lhs.nodes + rhs.nodes ≤ bound →
      ∃ result, MatchGenericType.arguments recurse lhs rhs aliases arguments = some result := by
  have main : ∀ (n : Nat) (lhs rhs : TypeList) (aliases : MatchList) (arguments : TypeList),
      lhs.size = n → lhs.nodes + rhs.nodes ≤ bound →
      ∃ result, MatchGenericType.arguments recurse lhs rhs aliases arguments = some result := by
    intro n
    induction n with
    | zero =>
      intro lhs rhs aliases arguments hsize _
      cases lhs with
      | nil => cases rhs <;> exact ⟨_, rfl⟩
      | cons lhsArg lhsNext => simp [TypeList.size] at hsize
    | succ n ih =>
      intro lhs rhs aliases arguments hsize hbound
      cases lhs with
      | nil => cases rhs <;> exact ⟨_, rfl⟩
      | cons lhsArg lhsNext =>
        cases rhs with
        | nil => exact ⟨_, rfl⟩
        | cons rhsArg rhsNext =>
          simp only [TypeList.nodes] at hbound
          simp only [TypeList.size, Nat.add_right_cancel_iff] at hsize
          obtain ⟨result, hresult⟩ := hrecurse lhsArg rhsArg aliases true (by omega)
          simp only [MatchGenericType.arguments, hresult]
          rcases result with ⟨⟨_ | matched, aliases1⟩⟩ | _ | _
          · exact ⟨_, rfl⟩
          · exact ih lhsNext rhsNext aliases1 _ hsize (by omega)
          · exact ⟨_, rfl⟩
          · exact ⟨_, rfl⟩
  exact fun lhs rhs aliases arguments h => main lhs.size lhs rhs aliases arguments rfl h

/-- The loop over the generic arguments of a generic class and of a class
returns when the calls on the pairs of types return. -/
theorem MatchGenericType.generics_some
    (recurse : TypeBase → TypeBase → MatchList → Bool → Option MatchResult) (bound : Nat)
    (hrecurse : ∀ (lhs rhs : TypeBase) (aliases : MatchList) (strict : Bool),
      lhs.nodes + rhs.nodes ≤ bound → ∃ result, recurse lhs rhs aliases strict = some result) :
    ∀ (lhs : TypeList) (rhs : MatchList) (aliases : MatchList),
      lhs.nodes + rhs.nodes ≤ bound →
      ∃ result, MatchGenericType.generics recurse lhs rhs aliases = some result := by
  have main : ∀ (n : Nat) (lhs : TypeList) (rhs : MatchList) (aliases : MatchList),
      lhs.size = n → lhs.nodes + rhs.nodes ≤ bound →
      ∃ result, MatchGenericType.generics recurse lhs rhs aliases = some result := by
    intro n
    induction n with
    | zero =>
      intro lhs rhs aliases hsize _
      cases lhs with
      | nil => cases rhs <;> exact ⟨_, rfl⟩
      | cons lhsArg lhsNext => simp [TypeList.size] at hsize
    | succ n ih =>
      intro lhs rhs aliases hsize hbound
      cases lhs with
      | nil => cases rhs <;> exact ⟨_, rfl⟩
      | cons lhsArg lhsNext =>
        cases rhs with
        | nil => exact ⟨_, rfl⟩
        | cons name rhsArg rhsNext =>
          simp only [TypeList.nodes, MatchList.nodes] at hbound
          simp only [TypeList.size, Nat.add_right_cancel_iff] at hsize
          obtain ⟨result, hresult⟩ := hrecurse lhsArg rhsArg aliases true (by omega)
          simp only [MatchGenericType.generics, hresult]
          rcases result with ⟨⟨_ | matched, aliases1⟩⟩ | _ | _
          · exact ⟨_, rfl⟩
          · exact ih lhsNext rhsNext aliases1 hsize (by omega)
          · exact ⟨_, rfl⟩
          · exact ⟨_, rfl⟩
  exact fun lhs rhs aliases h => main lhs.size lhs rhs aliases rfl h

/-- A call of `MatchGenericType` returns within `2 * (nodes + nodes)` nested
calls when the pattern is generic, and within one call more when it is not:
the call that swaps the pattern and the argument is followed by calls on
parts of the types only. -/
theorem MatchGenericType.returns (ctx : ExpressionContext) :
    ∀ (fuel : Nat) (matchType argType : TypeBase) (aliases : MatchList) (strict : Bool),
      2 * (matchType.nodes + argType.nodes) + (if matchType.isGeneric then 0 else 1) ≤ fuel →
      ∃ result, MatchGenericType ctx fuel matchType argType aliases strict = some result := by
  intro fuel
  induction fuel with
  | zero =>
    intro matchType argType aliases strict hfuel
    have := TypeBase.nodes_pos matchType
    omega
  | succ fuel ih =>
    intro matchType argType aliases strict hfuel
    have hsub : ∀ (lhs rhs : TypeBase) (aliases : MatchList) (strict : Bool),
        lhs.nodes + rhs.nodes ≤ matchType.nodes + argType.nodes - 1 →
        matchType.isGeneric = true →
        ∃ result, MatchGenericType ctx fuel lhs rhs aliases strict = some result := by
      intro lhs rhs aliases strict hle hgeneric
      apply ih
      rw [hgeneric] at hfuel
      have := TypeBase.nodes_pos matchType
      split <;> omega
    show ∃ result, MatchGenericType.body ctx (MatchGenericType ctx fuel) matchType argType
      aliases strict = some result
    by_cases hgeneric : matchType.isGeneric = true
    · have hrec := fun lhs rhs aliases strict h => hsub lhs rhs aliases strict h hgeneric
      unfold MatchGenericType.body
      rw [hgeneric]
      simp only [Bool.not_true, Bool.false_eq_true, if_false]
      cases matchType with
      | generic name =>
        simp only []
        split
        · exact ⟨_, rfl⟩
        · split <;> exact ⟨_, rfl⟩
      | ref lhsSub =>
        obtain ⟨whole, hwhole⟩ := hrec lhsSub argType aliases true
          (by simp only [TypeBase.nodes]; omega)
        cases argType with
        | ref rhsSub =>
          obtain ⟨result, hresult⟩ := hrec lhsSub rhsSub aliases true
            (by simp only [TypeBase.nodes]; omega)
          simp only [hresult]
          exact MatchGenericType.wrap_some _ _
        | _ =>
          simp only []
          split
          · exact ⟨_, rfl⟩
          · rw [hwhole]
            exact MatchGenericType.wrap_some _ _
      | array lhsSub lhsLength =>
        cases argType with
        | array rhsSub rhsLength =>
          simp only []
          split
          · obtain ⟨result, hresult⟩ := hrec lhsSub rhsSub aliases true
              (by simp only [TypeBase.nodes]; omega)
            rw [hresult]
            exact MatchGenericType.wrap_some _ _
          · exact ⟨_, rfl⟩
        | _ => exact ⟨_, rfl⟩
      | unsizedArray lhsSub =>
        cases argType with
        | unsizedArray rhsSub =>
          obtain ⟨result, hresult⟩ := hrec lhsSub rhsSub aliases true
            (by simp only [TypeBase.nodes]; omega)
          simp only [hresult]
          exact MatchGenericType.wrap_some _ _
        | array rhsSub rhsLength =>
          simp only []
          split
          · exact ⟨_, rfl⟩
          · obtain ⟨result, hresult⟩ := hrec lhsSub rhsSub aliases true
              (by simp only [TypeBase.nodes]; omega)
            rw [hresult]
            exact MatchGenericType.wrap_some _ _
        | _ => exact ⟨_, rfl⟩
      | function lhsReturn lhsArguments =>
        cases argType with
        | function rhsReturn rhsArguments =>
          obtain ⟨result, hresult⟩ := hrec lhsReturn rhsReturn aliases true
            (by simp only [TypeBase.nodes]; omega)
          simp only [hresult]
          rcases result with ⟨⟨_ | returnType, aliases1⟩⟩ | _ | _
          · exact ⟨_, rfl⟩
          · obtain ⟨matched, hmatched⟩ := MatchGenericType.arguments_some
              (MatchGenericType ctx fuel)
              (lhsArguments.nodes + rhsArguments.nodes)
              (fun lhs rhs aliases strict h => hrec lhs rhs aliases strict
                (by simp only [TypeBase.nodes]; omega))
              lhsArguments rhsArguments aliases1 .nil (le_refl _)
            simp only [hmatched]
            rcases matched with ⟨⟨_ | arguments, aliases2⟩⟩ | _ | _ <;> exact ⟨_, rfl⟩
          · exact ⟨_, rfl⟩
          · exact ⟨_, rfl⟩
        | _ => exact ⟨_, rfl⟩
      | genericClass lhsProto lhsGenerics =>
        cases argType with
        | cls rhsName rhsProto rhsGenerics rhsBase =>
          simp only []
          split
          · exact ⟨_, rfl⟩
          · obtain ⟨matched, hmatched⟩ := MatchGenericType.generics_some
              (MatchGenericType ctx fuel)
              (lhsGenerics.nodes + rhsGenerics.nodes)
              (fun lhs rhs aliases strict h => hrec lhs rhs aliases strict
                (by simp only [TypeBase.nodes]; omega))
              lhsGenerics rhsGenerics aliases (le_refl _)
            simp only [hmatched]
            rcases matched with ⟨⟨_ | _, aliases1⟩⟩ | _ | _ <;> exact ⟨_, rfl⟩
        | _ => exact ⟨_, rfl⟩
      | _ => exact ⟨_, rfl⟩
    · have hnot : matchType.isGeneric = false := by simpa using hgeneric
      unfold MatchGenericType.body
      rw [hnot]
      simp only [Bool.not_false, if_true]
      by_cases harg : argType.isGeneric = true
      · obtain ⟨result, hresult⟩ := ih argType matchType .nil true (by
          rw [harg]
          rw [hnot] at hfuel
          simp only [Bool.false_eq_true, if_false, if_true] at hfuel ⊢
          omega)
        simp only [harg, if_true, hresult]
        rcases result with ⟨⟨_ | improved, aliases1⟩⟩ | _ | _
        · simp only []
          split
          · exact ⟨_, rfl⟩
          · split <;> exact ⟨_, rfl⟩
        · simp only []
          split
          · exact ⟨_, rfl⟩
          · split <;> exact ⟨_, rfl⟩
        · exact ⟨_, rfl⟩
        · exact ⟨_, rfl⟩
      · rw [if_neg harg]
        simp only []
        split
        · exact ⟨_, rfl⟩
        · split <;> exact ⟨_, rfl⟩

/-- Claim C40: `MatchGenericType` returns on every pattern and argument type,
in strict and in non-strict mode: a number of nested calls that is linear in
the number of descriptors of the two types is enough, also when the call
swaps the pattern and the argument. -/
theorem MatchGenericType_terminates (ctx : ExpressionContext) (fuel : Nat)
    (matchType argType : TypeBase) (aliases : MatchList) (strict : Bool)
    (hfuel : 2 * (matchType.nodes + argType.nodes) + 1 ≤ fuel) :
    ∃ result, MatchGenericType ctx fuel matchType argType aliases strict = some result :=
  MatchGenericType.returns ctx fuel matchType argType aliases strict (by split <;> omega)

/-- Witness of C40: the pattern `int ref` is not generic and the argument
`@T ref` is: the call swaps them, and returns within 9 nested calls. -/
theorem MatchGenericType_terminates_witness :
    ∃ result, MatchGenericType exampleContext 9 (.ref .tInt) (.ref (.generic "T")) .nil false
      = some result :=
  MatchGenericType_terminates exampleContext 9 (.ref .tInt) (.ref (.generic "T")) .nil false
    (by decide)

/-! ## The type of a cast -/

/-- A step of a chain of tests: when the first test that decides gives a value
of the target type, so does the chain. -/
theorem CreateCast.typed_orElse (first : Option (Analysis ExprBase))
    (rest : Unit → Option (Analysis ExprBase)) (last : Analysis ExprBase) (type : TypeBase)
    (result : ExprBase)
    (hfirst : ∀ r, first = some (some (.ok r)) → r.type = type)
    (hrest : (rest ()).getD last = some (.ok result) → result.type = type)
    (hrun : (first.orElse rest).getD last = some (.ok result)) : result.type = type := by
  cases first with
  | none => exact hrest hrun
  | some x =>
    simp only [Option.orElse, Option.getD] at hrun
    exact hfirst result (by rw [hrun])

/-- The casts to `bool` give a node of the target type. -/
theorem CreateCast.toBool_type (source : Option Nat) (value : ExprBase) (type : TypeBase)
    (r : ExprBase) (h : CreateCast.toBool source value type = some (some (.ok r))) :
    r.type = type := by
  unfold CreateCast.toBool at h
  split at h
  · split at h
    · cases h; rfl
    · split at h
      · cases h; rfl
      · split at h
        · cases h; rfl
        · cases h
  · cases h

/-- The casts from the type of `nullptr` give a node of the target type. -/
theorem CreateCast.fromNull_type (source : Option Nat) (value : ExprBase) (type : TypeBase)
    (r : ExprBase) (h : CreateCast.fromNull source value type = some (some (.ok r))) :
    r.type = type := by
  unfold CreateCast.fromNull at h
  split at h
  · split at h
    · cases h; rfl
    · split at h
      · cases h; rfl
      · split at h
        · cases h; rfl
        · split at h
          · cases h; rfl
          · split at h
            · cases h; rfl
            · cases h
  · cases h

/-- The cast of a sized array to an unsized array gives a cast node of the
target type. -/
theorem CreateCast.toUnsized_type (source : Option Nat) (value : ExprBase) (type : TypeBase)
    (r : ExprBase) (h : CreateCast.toUnsized source value type = some (some (.ok r))) :
    r.type = type ∧ r.isFunctionDefinition = false := by
  unfold CreateCast.toUnsized at h
  split at h
  · split at h
    · split at h <;> (cases h; exact ⟨rfl, rfl⟩)
    · cases h
  · cases h

/-- The cast of a reference to a sized array gives a node of the target type. -/
theorem CreateCast.arrayRef_type (source : Option Nat) (value : ExprBase)
    (type targetSubType valueSubType : TypeBase) (r : ExprBase)
    (h : CreateCast.arrayRef source value type targetSubType valueSubType =
      some (some (.ok r))) : r.type = type := by
  unfold CreateCast.arrayRef at h
  split at h
  · split at h
    · cases h; rfl
    · cases h
  · cases h

/-- The casts between references to classes give a node of the target type. -/
theorem CreateCast.classRef_type (ctx : ExpressionContext) (source : Option Nat)
    (value : ExprBase) (type targetSubType valueSubType : TypeBase) (r : ExprBase)
    (h : CreateCast.classRef ctx source value type targetSubType valueSubType =
      some (some (.ok r))) : r.type = type := by
  unfold CreateCast.classRef at h
  split at h
  · split at h
    · cases h; rfl
    · split at h
      · simp only [Option.some.injEq] at h
        obtain ⟨checked, _, hchecked⟩ := Outcome.bind_eq_ok h
        cases hchecked
        rfl
      · cases h
  · cases h

/-- The cast to a function type gives a node of the target type. -/
theorem CreateCast.toFunction_type (ctx : ExpressionContext) (source : Option Nat)
    (value : ExprBase) (type : TypeBase) (r : ExprBase)
    (h : CreateCast.toFunction ctx source value type = some (some (.ok r))) :
    r.type = type := by
  unfold CreateCast.toFunction at h
  split at h
  · split at h
    · cases h; rfl
    · cases h
  · cases h

/-- A bound analysis that ends with a value went through a value. -/
theorem Analysis.of_bind_eq_ok {α β : Type} {x : Analysis α} {f : α → Analysis β} {b : β}
    (h : Analysis.bind x f = some (.ok b)) : ∃ a, x = some (.ok a) ∧ f a = some (.ok b) := by
  rcases x with _ | _ | _ | _
  · simp [Analysis.bind] at h
  · exact ⟨_, rfl, h⟩
  · simp [Analysis.bind] at h
  · simp [Analysis.bind] at h

/-- The casts to a reference type give a node of the target type, when a
value whose address is passed as a function argument has the element type of
the target. -/
theorem CreateCast.toRef_type (ctx : ExpressionContext) (source : Option Nat)
    (value : ExprBase) (type : TypeBase) (isFunctionArgument : Bool) (r : ExprBase)
    (haddress : isFunctionArgument = true → type.isRef = true → value.type.isRef = false →
      value.type ≠ .tAutoRef →
      (∀ s t v, value = .variableAccess s t v → type = .ref t) ∧
      (∀ s t p, value = .dereference s t p → p.type = type))
    (h : CreateCast.toRef ctx source value type isFunctionArgument = some (some (.ok r))) :
    r.type = type := by
  unfold CreateCast.toRef at h
  split at h
  · rename_i targetSubType
    split at h
    · rename_i valueSubType hvalue
      cases harr : CreateCast.arrayRef source value (.ref targetSubType) targetSubType
          valueSubType with
      | some x =>
        rw [harr] at h
        simp only [Option.orElse] at h
        rw [h] at harr
        exact CreateCast.arrayRef_type _ _ _ _ _ _ harr
      | none =>
        rw [harr] at h
        simp only [Option.orElse] at h
        exact CreateCast.classRef_type _ _ _ _ _ _ _ h
    · rename_i hnotref
      split at h
      · cases h; rfl
      · rename_i hauto
        split at h
        · rename_i hflag
          have hvr : value.type.isRef = false := by
            cases hvt : value.type <;> simp [TypeBase.isRef]
            exact hnotref _ hvt
          obtain ⟨hvar, hder⟩ := haddress hflag rfl hvr hauto
          split at h
          · rename_i s t v
            cases h
            exact (hvar s t v rfl).symm
          · rename_i s t p
            cases h
            exact hder s t _ rfl
          · cases h; rfl
        · cases h
  · cases h

/-- The casts to `auto ref` give a node of the target type, when the function
`duplicate` that boxes a value returns `auto ref`. -/
theorem CreateCast.toAutoRef_type (ctx : ExpressionContext)
    (recurse : Option Nat → ExprBase → TypeBase → Bool → Analysis ExprBase)
    (source : Option Nat) (value : ExprBase) (type : TypeBase) (isFunctionArgument : Bool)
    (r : ExprBase)
    (hduplicate : isFunctionArgument = false → type = .tAutoRef → value.type.isRef = false →
      ∀ boxed, CreateFunctionCall.required ctx source "duplicate" [callArgument value] =
        .ok boxed → boxed.type = .tAutoRef)
    (h : CreateCast.toAutoRef ctx recurse source value type isFunctionArgument =
      some (some (.ok r))) : r.type = type := by
  unfold CreateCast.toAutoRef at h
  split at h
  · rename_i htype
    split at h
    · cases h; rfl
    · rename_i hnotref
      split at h
      · split at h
        · cases h; rfl
        · cases h; rfl
        · simp only [Option.some.injEq] at h
          obtain ⟨pointer, _, hpointer⟩ := Analysis.of_bind_eq_ok h
          cases hpointer
          rfl
      · rename_i hflag
        simp only [Option.some.injEq] at h
        rw [htype]
        exact hduplicate (by simpa using hflag) htype (by simpa using hnotref) r h
  · cases h

/-- The cast from `auto ref` to a type that is not a reference gives a node of
the target type. -/
theorem CreateCast.unboxing_type
    (recurse : Option Nat → ExprBase → TypeBase → Bool → Analysis ExprBase)
    (source : Option Nat) (value : ExprBase) (type : TypeBase) (r : ExprBase)
    (h : CreateCast.unboxing recurse source value type = some (some (.ok r))) :
    r.type = type := by
  unfold CreateCast.unboxing at h
  split at h
  · simp only [Option.some.injEq] at h
    obtain ⟨ptr, _, hptr⟩ := Analysis.of_bind_eq_ok h
    cases hptr
    rfl
  · cases h

/-- The casts to `auto[]` give a node of the target type, when the nested
casts do. -/
theorem CreateCast.toAutoArray_type
    (recurse : Option Nat → ExprBase → TypeBase → Bool → Analysis ExprBase)
    (source : Option Nat) (value : ExprBase) (type : TypeBase) (r : ExprBase)
    (hunsized : ∀ (subType : TypeBase) (length : Nat) (unsized : ExprBase),
      value.type = .array subType length →
      recurse source value (.unsizedArray subType) false = some (.ok unsized) →
      unsized.isFunctionDefinition = false)
    (hrecurse : ∀ (unsized result : ExprBase), unsized.isFunctionDefinition = false →
      recurse source unsized .tAutoArray false = some (.ok result) →
      result.type = .tAutoArray)
    (h : CreateCast.toAutoArray recurse source value type = some (some (.ok r))) :
    r.type = type := by
  unfold CreateCast.toAutoArray at h
  split at h
  · rename_i htype
    split at h
    · cases h; rfl
    · rename_i subType length hvalue
      simp only [Option.some.injEq] at h
      obtain ⟨unsized, hfirst, hsecond⟩ := Analysis.of_bind_eq_ok h
      rw [htype] at hsecond ⊢
      exact hrecurse unsized r (hunsized subType length unsized hvalue hfirst) hsecond
    · cases h
  · cases h

/-- The cast of a value of a sized array type, which is not a function
definition, to the unsized array of the element type is not a function
definition. -/
theorem CreateCast.unsized_not_definition (ctx : ExpressionContext) (fuel : Nat)
    (source : Option Nat) (value : ExprBase) (subType : TypeBase) (length : Nat)
    (isFunctionArgument : Bool) (r : ExprBase)
    (hdefinition : value.isFunctionDefinition = false)
    (hvalue : value.type = .array subType length)
    (h : CreateCast ctx fuel source value (.unsizedArray subType) isFunctionArgument =
      some (.ok r)) : r.isFunctionDefinition = false := by
  cases fuel with
  | zero => simp [CreateCast] at h
  | succ fuel =>
    have hne : ¬ (value.type = .unsizedArray subType) := by rw [hvalue]; simp
    have hnum : IsNumericType value.type = false := by rw [hvalue]; rfl
    have hnull : ¬ (value.type = .tNullPtr) := by rw [hvalue]; simp
    simp only [CreateCast, CreateCast.body, CreateCast.definition, hdefinition,
      Bool.false_eq_true, if_false, Option.orElse, hne, hnum, false_and, CreateCast.toBool,
      reduceCtorEq, CreateCast.fromNull, hnull] at h
    cases htu : CreateCast.toUnsized source value (.unsizedArray subType) with
    | none =>
      exfalso
      unfold CreateCast.toUnsized at htu
      rw [hvalue] at htu
      simp only [if_true] at htu
      split at htu <;> cases htu
    | some x =>
      rw [htu] at h
      simp only [Option.getD] at h
      rw [h] at htu
      exact (CreateCast.toUnsized_type _ _ _ _ htu).2

/-- The body of `CreateCast` gives a node of the target type when its nested
casts do. -/
theorem CreateCast.body_type (ctx : ExpressionContext)
    (recurse : Option Nat → ExprBase → TypeBase → Bool → Analysis ExprBase)
    (source : Option Nat) (value : ExprBase) (type : TypeBase) (isFunctionArgument : Bool)
    (result : ExprBase)
    (hdefinition : value.isFunctionDefinition = false)
    (haddress : isFunctionArgument = true → type.isRef = true → value.type.isRef = false →
      value.type ≠ .tAutoRef →
      (∀ s t v, value = .variableAccess s t v → type = .ref t) ∧
      (∀ s t p, value = .dereference s t p → p.type = type))
    (hduplicate : isFunctionArgument = false → type = .tAutoRef → value.type.isRef = false →
      ∀ boxed, CreateFunctionCall.required ctx source "duplicate" [callArgument value] =
        .ok boxed → boxed.type = .tAutoRef)
    (hunsized : ∀ (subType : TypeBase) (length : Nat) (unsized : ExprBase),
      value.type = .array subType length →
      recurse source value (.unsizedArray subType) false = some (.ok unsized) →
      unsized.isFunctionDefinition = false)
    (hrecurse : ∀ (unsized result : ExprBase), unsized.isFunctionDefinition = false →
      recurse source unsized .tAutoArray false = some (.ok result) →
      result.type = .tAutoArray)
    (hrun : CreateCast.body ctx recurse source value type isFunctionArgument =
      some (.ok result)) : result.type = type := by
  unfold CreateCast.body at hrun
  refine CreateCast.typed_orElse _ _ _ type result ?_ ?_ hrun
  · intro r h
    simp [CreateCast.definition, hdefinition] at h
  intro hrun
  refine CreateCast.typed_orElse _ _ _ type result ?_ ?_ hrun
  · intro r h
    split at h
    · rename_i heq
      cases h
      exact heq
    · cases h
  intro hrun
  refine CreateCast.typed_orElse _ _ _ type result ?_ ?_ hrun
  · intro r h
    split at h
    · cases h; rfl
    · cases h
  intro hrun
  refine CreateCast.typed_orElse _ _ _ type result
    (fun r h => CreateCast.toBool_type _ _ _ _ h) ?_ hrun
  intro hrun
  refine CreateCast.typed_orElse _ _ _ type result
    (fun r h => CreateCast.fromNull_type _ _ _ _ h) ?_ hrun
  intro hrun
  refine CreateCast.typed_orElse _ _ _ type result
    (fun r h => (CreateCast.toUnsized_type _ _ _ _ h).1) ?_ hrun
  intro hrun
  refine CreateCast.typed_orElse _ _ _ type result
    (fun r h => CreateCast.toRef_type _ _ _ _ _ _ haddress h) ?_ hrun
  intro hrun
  refine CreateCast.typed_orElse _ _ _ type result
    (fun r h => CreateCast.toAutoRef_type _ _ _ _ _ _ _ hduplicate h) ?_ hrun
  intro hrun
  refine CreateCast.typed_orElse _ _ _ type result
    (fun r h => CreateCast.toAutoArray_type _ _ _ _ _ hunsized hrecurse h) ?_ hrun
  intro hrun
  refine CreateCast.typed_orElse _ _ _ type result
    (fun r h => CreateCast.toFunction_type _ _ _ _ _ h) ?_ hrun
  intro hrun
  cases hun : CreateCast.unboxing recurse source value type with
  | none =>
    rw [hun] at hrun
    simp [Option.getD] at hrun
  | some x =>
    rw [hun] at hrun
    simp only [Option.getD] at hrun
    rw [hrun] at hun
    exact CreateCast.unboxing_type _ _ _ _ _ hun

/-- A cast that returns for a value that is not a function definition gives
an expression of the target type, when a value whose address is passed has
the element type of the target and the function `duplicate` returns
`auto ref`. -/
theorem CreateCast.type_of_value (ctx : ExpressionContext) (fuel : Nat)
    (source : Option Nat) (value : ExprBase) (type : TypeBase) (isFunctionArgument : Bool)
    (result : ExprBase)
    (hdefinition : value.isFunctionDefinition = false)
    (haddress : isFunctionArgument = true → type.isRef = true → value.type.isRef = false →
      value.type ≠ .tAutoRef →
      (∀ s t v, value = .variableAccess s t v → type = .ref t) ∧
      (∀ s t p, value = .dereference s t p → p.type = type))
    (hduplicate : isFunctionArgument = false → type = .tAutoRef → value.type.isRef = false →
      ∀ boxed, CreateFunctionCall.required ctx source "duplicate" [callArgument value] =
        .ok boxed → boxed.type = .tAutoRef)
    (hrun : CreateCast ctx fuel source value type isFunctionArgument = some (.ok result)) :
    result.type = type := by
  induction fuel generalizing source value type isFunctionArgument result with
  | zero => simp [CreateCast] at hrun
  | succ fuel ih =>
    exact CreateCast.body_type ctx (CreateCast ctx fuel) source value type isFunctionArgument
      result hdefinition haddress hduplicate
      (fun subType length unsized hvalue h =>
        CreateCast.unsized_not_definition ctx fuel source value subType length false unsized
          hdefinition hvalue h)
      (fun unsized result hunsized h =>
        ih source unsized .tAutoArray false result hunsized
          (fun hflag => by cases hflag) (fun _ htype => by cases htype) h)
      hrun

/-- A cast that returns for a function definition gives an expression of the
type of the function. -/
theorem CreateCast.type_of_definition (ctx : ExpressionContext) (fuel : Nat)
    (source : Option Nat) (value : ExprBase) (type : TypeBase) (isFunctionArgument : Bool)
    (result : ExprBase)
    (hdefinition : value.isFunctionDefinition = true)
    (hrun : CreateCast ctx fuel source value type isFunctionArgument = some (.ok result)) :
    result.type = value.type := by
  cases fuel with
  | zero => simp [CreateCast] at hrun
  | succ fuel =>
    simp only [CreateCast, CreateCast.body, CreateCast.definition, hdefinition, if_true,
      Option.orElse, Option.getD, Option.some.injEq] at hrun
    cases value <;> simp [ExprBase.isFunctionDefinition] at hdefinition
    simp only [CreateFunctionPointer] at hrun
    obtain ⟨context, _, hresult⟩ := Outcome.bind_eq_ok hrun
    cases hresult
    rfl

/-- A step of a chain of tests: the chain gives an outcome when the first test
that decides does. -/
theorem CreateCast.returns_orElse (first : Option (Analysis ExprBase))
    (rest : Unit → Option (Analysis ExprBase)) (last : Analysis ExprBase)
    (hfirst : first ≠ some none)
    (hrest : (rest ()).getD last ≠ none) : (first.orElse rest).getD last ≠ none := by
  cases first with
  | none => exact hrest
  | some x =>
    simp only [Option.orElse, Option.getD]
    intro h
    exact hfirst (by rw [h])

/-- A bound analysis gives an outcome when its parts do. -/
theorem Analysis.bind_ne_none {α β : Type} (x : Analysis α) (f : α → Analysis β)
    (hx : x ≠ none) (hf : ∀ a, x = some (.ok a) → f a ≠ none) : Analysis.bind x f ≠ none := by
  rcases x with _ | _ | _ | _
  · exact absurd rfl hx
  · exact hf _ rfl
  · simp [Analysis.bind]
  · simp [Analysis.bind]

/-- The body of `CreateCast` gives an outcome when its nested casts do. -/
theorem CreateCast.body_returns (ctx : ExpressionContext)
    (recurse : Option Nat → ExprBase → TypeBase → Bool → Analysis ExprBase)
    (source : Option Nat) (value : ExprBase) (type : TypeBase) (isFunctionArgument : Bool)
    (haddress : type = .tAutoRef → recurse source value (.ref value.type) true ≠ none)
    (hunsized : value.isFunctionDefinition = false → type = .tAutoArray →
      ∀ (subType : TypeBase) (length : Nat), value.type = .array subType length →
      recurse source value (.unsizedArray subType) false ≠ none ∧
      ∀ unsized, recurse source value (.unsizedArray subType) false = some (.ok unsized) →
        recurse source unsized .tAutoArray false ≠ none)
    (hunboxing : value.type = .tAutoRef → type.isRef = false →
      recurse source value (.ref type) false ≠ none) :
    CreateCast.body ctx recurse source value type isFunctionArgument ≠ none := by
  unfold CreateCast.body
  by_cases hdefinition : value.isFunctionDefinition = true
  · simp [CreateCast.definition, hdefinition, Option.orElse]
  have hdefinition : value.isFunctionDefinition = false := by simpa using hdefinition
  refine CreateCast.returns_orElse _ _ _ ?_ ?_
  · unfold CreateCast.definition
    split <;> simp
  refine CreateCast.returns_orElse _ _ _ (by split <;> simp) ?_
  refine CreateCast.returns_orElse _ _ _ (by split <;> simp) ?_
  refine CreateCast.returns_orElse _ _ _ ?_ ?_
  · unfold CreateCast.toBool
    repeat' split
    all_goals simp
  refine CreateCast.returns_orElse _ _ _ ?_ ?_
  · unfold CreateCast.fromNull
    repeat' split
    all_goals simp
  refine CreateCast.returns_orElse _ _ _ ?_ ?_
  · unfold CreateCast.toUnsized
    repeat' split
    all_goals simp
  refine CreateCast.returns_orElse _ _ _ ?_ ?_
  · unfold CreateCast.toRef
    split
    · split
      · rename_i targetSubType _ valueSubType _
        cases harr : CreateCast.arrayRef source value (.ref targetSubType) targetSubType
            valueSubType with
        | some x =>
          simp only [Option.orElse]
          unfold CreateCast.arrayRef at harr
          repeat' split at harr
          all_goals first | (cases harr; simp) | cases harr
        | none =>
          simp only [Option.orElse]
          unfold CreateCast.classRef
          repeat' split
          all_goals simp
      · repeat' split
        all_goals simp
    · simp
  refine CreateCast.returns_orElse _ _ _ ?_ ?_
  · unfold CreateCast.toAutoRef
    split
    · rename_i htype
      split
      · simp
      · split
        · split
          · simp
          · simp
          · simp only [ne_eq, Option.some.injEq]
            exact Analysis.bind_ne_none _ _ (haddress htype) (fun _ _ => by simp)
        · simp
    · simp
  refine CreateCast.returns_orElse _ _ _ ?_ ?_
  · unfold CreateCast.toAutoArray
    split
    · rename_i htype
      split
      · simp
      · rename_i subType length hvalue
        simp only [ne_eq, Option.some.injEq]
        obtain ⟨h1, h2⟩ := hunsized hdefinition htype subType length hvalue
        rw [htype]
        exact Analysis.bind_ne_none _ _ h1 h2
      · simp
    · simp
  refine CreateCast.returns_orElse _ _ _ ?_ ?_
  · unfold CreateCast.toFunction
    repeat' split
    all_goals simp
  unfold CreateCast.unboxing
  split
  · rename_i h
    simp only [Option.getD]
    exact Analysis.bind_ne_none _ _ (hunboxing h.1 (by simpa using h.2)) (fun _ _ => by simp)
  · simp

/-- A cast to a reference or to an unsized array, of a value that is not an
`auto ref` cast to a type that is not a reference, gives an outcome at any
positive depth bound. -/
theorem CreateCast.returns_leaf (ctx : ExpressionContext) (fuel : Nat)
    (source : Option Nat) (value : ExprBase) (type : TypeBase) (isFunctionArgument : Bool)
    (hautoRef : type ≠ .tAutoRef)
    (hautoArray : type = .tAutoArray → ∀ subType length, value.type ≠ .array subType length)
    (hunboxing : value.type = .tAutoRef → type.isRef = true) :
    CreateCast ctx (fuel + 1) source value type isFunctionArgument ≠ none := by
  simp only [CreateCast]
  refine CreateCast.body_returns ctx _ source value type isFunctionArgument ?_ ?_ ?_
  · intro h
    exact absurd h hautoRef
  · intro _ h subType length hvalue
    exact absurd hvalue (hautoArray h subType length)
  · intro h hnot
    rw [hunboxing h] at hnot
    cases hnot

/-- The routine `CreateCast` gives an outcome, a result or an error, for every
value and target once the bound on the depth of its recursion is at least 2. -/
theorem CreateCast.gives_outcome (ctx : ExpressionContext) (fuel : Nat)
    (source : Option Nat) (value : ExprBase) (type : TypeBase) (isFunctionArgument : Bool) :
    CreateCast ctx (fuel + 2) source value type isFunctionArgument ≠ none := by
  simp only [CreateCast]
  refine CreateCast.body_returns ctx _ source value type isFunctionArgument ?_ ?_ ?_
  · intro _
    exact CreateCast.returns_leaf ctx fuel source value _ true (by simp) (by simp)
      (fun _ => rfl)
  · intro hdefinition _ subType length hvalue
    refine ⟨?_, ?_⟩
    · exact CreateCast.returns_leaf ctx fuel source value _ false (by simp) (by simp)
        (fun h => by rw [hvalue] at h; cases h)
    · intro unsized hrun
      have htype : unsized.type = .unsizedArray subType :=
        CreateCast.type_of_value ctx (fuel + 1) source value _ false unsized hdefinition
          (fun h => by cases h) (fun _ h => by cases h) hrun
      exact CreateCast.returns_leaf ctx fuel source unsized _ false (by simp)
        (fun _ s l h => by rw [htype] at h; cases h)
        (fun h => by rw [htype] at h; cases h)
  · intro _ _
    exact CreateCast.returns_leaf ctx fuel source value _ false (by simp) (by simp)
      (fun _ => rfl)

/-- Claim C36, amended: whenever `CreateCast(value, type, isFunctionArgument)`
returns without error, the type of the returned expression is the type of
the function when the value is a function definition, whatever the target;
for a value that is not a function definition it is the target type, provided
that a value whose address is passed (`isFunctionArgument` set, the target a
reference, the type of the value neither a reference nor `auto ref`) is a
variable of the element type of the target or the dereference of a pointer of
the target type, and that the function `duplicate`, which boxes a value into
`auto ref` outside a function argument, returns `auto ref`. -/
theorem CreateCast_returns_target_type (ctx : ExpressionContext) (fuel : Nat)
    (source : Option Nat) (value : ExprBase) (type : TypeBase) (isFunctionArgument : Bool)
    (result : ExprBase)
    (hrun : CreateCast ctx fuel source value type isFunctionArgument = some (.ok result)) :
    (value.isFunctionDefinition = true → result.type = value.type) ∧
    (value.isFunctionDefinition = false →
      (isFunctionArgument = true → type.isRef = true → value.type.isRef = false →
        value.type ≠ .tAutoRef →
        (∀ s t v, value = .variableAccess s t v → type = .ref t) ∧
        (∀ s t p, value = .dereference s t p → p.type = type)) →
      (isFunctionArgument = false → type = .tAutoRef → value.type.isRef = false →
        ∀ boxed, CreateFunctionCall.required ctx source "duplicate" [callArgument value] =
          .ok boxed → boxed.type = .tAutoRef) →
      result.type = type) :=
  ⟨fun hdefinition =>
      CreateCast.type_of_definition ctx fuel source value type isFunctionArgument result
        hdefinition hrun,
    fun hdefinition haddress hduplicate =>
      CreateCast.type_of_value ctx fuel source value type isFunctionArgument result
        hdefinition haddress hduplicate hrun⟩

/-- Counterexample to C36: three casts that return without error an expression
of another type than the target.  A function definition cast to `double`
gives the function pointer, of the type of the function.  The variable 3 of
type `int`, passed as a function argument to a parameter of type
`double ref`, gives the address of the variable, of type `int ref`.  And where
the name `duplicate` stands for a function that returns `int`, the boxing of
an `int` into `auto ref` gives the call of that function, of type `int`. -/
theorem CreateCast_returns_other_type :
    CreateCast exampleContext 1 none
        (.functionDefinition none { returnType := .tInt, arguments := .nil } 1 .none)
        .tDouble false =
      some (.ok (.sequence none (.function .tInt .nil)
        (.cons (.functionDefinition none { returnType := .tInt, arguments := .nil } 1 .none)
          (.cons (.functionAccess none (.function .tInt .nil) 1
            (.nullptrLiteral none (.ref .tVoid))) .nil)))) ∧
    CreateCast exampleContext 1 none (.variableAccess none .tInt 3) (.ref .tDouble) true =
      some (.ok (.getAddress none (.ref .tInt) 3)) ∧
    (ExprBase.getAddress none (.ref .tInt) 3).type ≠ .ref .tDouble ∧
    CreateCast
        { exampleContext with
          CreateVariableAccess := fun source _ => .ok (some (.node source (.functionSet .nil) 0))
          CreateFunctionCall := fun source _ _ _ => .ok (some (.node source .tInt 0)) }
        1 none (.node none .tInt 7) .tAutoRef false =
      some (.ok (.node none .tInt 0)) := by
  refine ⟨by decide, by decide, by decide, by decide⟩

/-- Witness of C36: the variable 3 of type `int`, passed as a function
argument to a parameter of type `int ref`, gives the address of the variable,
of type `int ref`. -/
theorem CreateCast_returns_target_type_witness :
    CreateCast exampleContext 1 none (.variableAccess none .tInt 3) (.ref .tInt) true =
      some (.ok (.getAddress none (.ref .tInt) 3)) ∧
    (ExprBase.getAddress none (.ref .tInt) 3).type = .ref .tInt :=
  ⟨by decide,
    (CreateCast_returns_target_type exampleContext 1 none (.variableAccess none .tInt 3)
      (.ref .tInt) true (.getAddress none (.ref .tInt) 3) (by decide)).2 rfl
      (fun _ _ _ _ => ⟨fun s t v h => by cases h; rfl, fun s t p h => by cases h⟩)
      (fun h => by cases h)⟩

end NULLC
